import Mathlib

/-!
# A five-stage pipeline simulator (`sim_pipe`)

Shallow embedding of `sim_pipe.h` / `sim_pipe.cc`.

Conventions of the embedding.

* `unsigned` is a natural number below `2^32`; every arithmetic result that is stored in an
  `unsigned` is reduced with `u32`.  `unsigned long` (the members `clkIn`, `inst_count`,
  `totalInstCount`) is taken to be 64 bits wide (LP64) and reduced with `u64`.
* The arrays `specialP_Reg[NUM_STAGES][NUM_SP_REGISTERS]` and `pipe_reg[NUM_STAGES-1]` are
  records with one field per slot, read and written through `get` and `set` by index; the
  source only ever indexes them with enumeration constants or behind a bounds check.  The
  register file is a total map from indices, only used behind the bounds check of
  `get_gp_register` and `set_gp_register`.
* The data memory is a map from byte addresses together with `data_memory_size`; an access
  outside `[0, data_memory_size)` is undefined behaviour in the source and makes the embedded
  function return `none`.  The same holds for reading `instr_memory` at an index of
  `PROGRAM_SIZE` or more and for dereferencing `labelPCMap.find` of an unknown label.
* `std::memcpy` between latches is a copy of the value.
* Output to `cout` is not modelled.
-/

namespace SimPipe

/-! ## Constants and machine arithmetic -/

/-- The value `UNDEFINED` (0xFFFFFFFF) used to initialise registers. -/
def UNDEFINED : Nat := 0xFFFFFFFF

/-- Capacity of the instruction memory. -/
def PROGRAM_SIZE : Nat := 50

/-- Number of special purpose registers per stage. -/
def NUM_SP_REGISTERS : Nat := 9

/-- Number of general purpose registers. -/
def NUM_GP_REGISTERS : Nat := 32

/-- Number of pipeline stages. -/
def NUM_STAGES : Nat := 5

/-- Truncation to a 32-bit `unsigned`. -/
def u32 (n : Nat) : Nat := n % 2 ^ 32

/-- Truncation to a 64-bit `unsigned long`. -/
def u64 (n : Nat) : Nat := n % 2 ^ 64

/-- Subtraction of `unsigned` values, `a - b` modulo `2^32`. -/
def sub32 (a b : Nat) : Nat := (a % 2 ^ 32 + (2 ^ 32 - b % 2 ^ 32)) % 2 ^ 32

/-- Conversion `unsigned -> int`: the two's complement reading of a 32-bit pattern. -/
def toInt32 (n : Nat) : Int :=
  if n % 2 ^ 32 < 2 ^ 31 then ((n % 2 ^ 32 : Nat) : Int) else ((n % 2 ^ 32 : Nat) : Int) - 2 ^ 32

/-- Conversion `int -> unsigned`: reduction modulo `2^32`. -/
def ofInt32 (i : Int) : Nat := (i % 2 ^ 32).toNat

/-- Update of a map at one index. -/
def upd {α : Type} (f : Nat → α) (i : Nat) (v : α) : Nat → α :=
  fun j => if j = i then v else f j

/-! ## Enumerations -/

namespace sp_register_t

/-- Register name `PC`. -/
abbrev PC : Nat := 0
/-- Register name `NPC`. -/
abbrev NPC : Nat := 1
/-- Register name `IR`. -/
abbrev IR : Nat := 2
/-- Register name `A`. -/
abbrev A : Nat := 3
/-- Register name `B`. -/
abbrev B : Nat := 4
/-- Register name `IMM`. -/
abbrev IMM : Nat := 5
/-- Register name `COND`. -/
abbrev COND : Nat := 6
/-- Register name `ALU_OUTPUT`. -/
abbrev ALU_OUTPUT : Nat := 7
/-- Register name `LMD`. -/
abbrev LMD : Nat := 8

end sp_register_t

namespace stage_t

/-- Stage `IF`. -/
abbrev IF : Nat := 0
/-- Stage `ID`. -/
abbrev ID : Nat := 1
/-- Stage `EXE`. -/
abbrev EXE : Nat := 2
/-- Stage `MEM`. -/
abbrev MEM : Nat := 3
/-- Stage `WB`. -/
abbrev WB : Nat := 4

end stage_t

namespace pipelineRegNum

/-- Latch IF/ID. -/
abbrev FIRST : Nat := 0
/-- Latch ID/EX. -/
abbrev SECOND : Nat := 1
/-- Latch EX/MEM. -/
abbrev THIRD : Nat := 2
/-- Latch MEM/WB. -/
abbrev FORTH : Nat := 3

end pipelineRegNum

/-- The opcodes, in the order of the enumeration `opcode_t`. -/
inductive opcode_t where
  | LW | SW | ADD | ADDI | SUB | SUBI | XOR
  | BEQZ | BNEZ | BLTZ | BGTZ | BLEZ | BGEZ | JUMP | EOP | NOP
  deriving DecidableEq, Repr

/-- The integer value of an opcode. -/
def opcode_t.toNat : opcode_t → Nat
  | .LW => 0 | .SW => 1 | .ADD => 2 | .ADDI => 3 | .SUB => 4 | .SUBI => 5 | .XOR => 6
  | .BEQZ => 7 | .BNEZ => 8 | .BLTZ => 9 | .BGTZ => 10 | .BLEZ => 11 | .BGEZ => 12
  | .JUMP => 13 | .EOP => 14 | .NOP => 15

open sp_register_t stage_t pipelineRegNum opcode_t

/-! ## Data model -/

/-- The record `instruction_t`. -/
structure instruction_t where
  opcode : opcode_t
  src1 : Nat
  src2 : Nat
  dest : Nat
  immediate : Nat
  label : String
  deriving DecidableEq, Repr

/-- The method `instruction_t::reset`. -/
def instruction_t.reset (_ : instruction_t) : instruction_t :=
  { opcode := NOP, src1 := 0, src2 := 0, dest := 0, immediate := 0, label := "" }

/-- The record `pipeline_Registers`. -/
structure pipeline_Registers where
  pipe_PC : Nat
  pipe_NPC : Nat
  pipe_IR : instruction_t
  pipe_COND : Nat
  pipe_ALU_OUTPUT : Nat
  pipe_LMD : Nat
  deriving DecidableEq, Repr

/-- The method `pipeline_Registers::reset`. -/
def pipeline_Registers.reset (r : pipeline_Registers) : pipeline_Registers :=
  { pipe_PC := 0, pipe_NPC := 0, pipe_IR := r.pipe_IR.reset, pipe_COND := 0,
    pipe_ALU_OUTPUT := 0, pipe_LMD := 0 }

/-- One row `specialP_Reg[stage]`: the special purpose registers of one stage. -/
structure sp_row where
  PC : Nat
  NPC : Nat
  IR : Nat
  A : Nat
  B : Nat
  IMM : Nat
  COND : Nat
  ALU_OUTPUT : Nat
  LMD : Nat
  deriving DecidableEq, Repr

/-- Read of `row[reg]`. -/
def sp_row.get (r : sp_row) (reg : Nat) : Nat :=
  match reg with
  | 0 => r.PC | 1 => r.NPC | 2 => r.IR | 3 => r.A | 4 => r.B | 5 => r.IMM | 6 => r.COND
  | 7 => r.ALU_OUTPUT | 8 => r.LMD | _ => 0

/-- Assignment `row[reg] = v`. -/
def sp_row.set (r : sp_row) (reg v : Nat) : sp_row :=
  match reg with
  | 0 => { r with PC := v } | 1 => { r with NPC := v } | 2 => { r with IR := v }
  | 3 => { r with A := v } | 4 => { r with B := v } | 5 => { r with IMM := v }
  | 6 => { r with COND := v } | 7 => { r with ALU_OUTPUT := v } | 8 => { r with LMD := v }
  | _ => r

/-- The array `specialP_Reg[NUM_STAGES][NUM_SP_REGISTERS]`. -/
structure sp_table where
  IF : sp_row
  ID : sp_row
  EXE : sp_row
  MEM : sp_row
  WB : sp_row
  deriving DecidableEq, Repr

/-- A row with every register equal to `v`. -/
def sp_row.fill (v : Nat) : sp_row :=
  { PC := v, NPC := v, IR := v, A := v, B := v, IMM := v, COND := v, ALU_OUTPUT := v, LMD := v }

/-- A table with every register of every stage equal to `v`. -/
def sp_table.fill (v : Nat) : sp_table :=
  { IF := sp_row.fill v, ID := sp_row.fill v, EXE := sp_row.fill v, MEM := sp_row.fill v,
    WB := sp_row.fill v }

/-- Read of `specialP_Reg[stage][reg]`. -/
def sp_table.get (t : sp_table) (stage reg : Nat) : Nat :=
  match stage with
  | 0 => t.IF.get reg | 1 => t.ID.get reg | 2 => t.EXE.get reg | 3 => t.MEM.get reg
  | 4 => t.WB.get reg | _ => 0

/-- Assignment `specialP_Reg[stage][reg] = v`. -/
def sp_table.set (t : sp_table) (stage reg v : Nat) : sp_table :=
  match stage with
  | 0 => { t with IF := t.IF.set reg v } | 1 => { t with ID := t.ID.set reg v }
  | 2 => { t with EXE := t.EXE.set reg v } | 3 => { t with MEM := t.MEM.set reg v }
  | 4 => { t with WB := t.WB.set reg v } | _ => t

/-- The array `pipe_reg[NUM_STAGES-1]` of the four latches. -/
structure pipe_table where
  FIRST : pipeline_Registers
  SECOND : pipeline_Registers
  THIRD : pipeline_Registers
  FORTH : pipeline_Registers
  deriving DecidableEq, Repr

/-- Read of `pipe_reg[k]`. -/
def pipe_table.get (t : pipe_table) (k : Nat) : pipeline_Registers :=
  match k with
  | 0 => t.FIRST | 1 => t.SECOND | 2 => t.THIRD | _ => t.FORTH

/-- Assignment `pipe_reg[k] = r`. -/
def pipe_table.set (t : pipe_table) (k : Nat) (r : pipeline_Registers) : pipe_table :=
  match k with
  | 0 => { t with FIRST := r } | 1 => { t with SECOND := r } | 2 => { t with THIRD := r }
  | 3 => { t with FORTH := r } | _ => t

/-- The data members of the class `sim_pipe` (the member `branchingCount`, which no function
reads or writes, is left out). -/
structure sim_pipe where
  instr_memory : List instruction_t
  instr_base_address : Nat
  data_memory : Nat → Nat
  data_memory_size : Nat
  data_memory_latency : Nat
  generalP_Reg : Nat → Nat
  specialP_Reg : sp_table
  pipe_reg : pipe_table
  clkIn : Nat
  runAlways : Bool
  inst_count : Nat
  totalInstCount : Nat
  stalls : Nat
  totalStalls : Nat
  currentClk : Nat
  branchToLabel : String
  noBranches : Bool
  branchStall : Bool
  memoryStall : Bool
  memStallCompleted : Bool
  stallMem : Nat
  labelPCMap : List (String × Nat)

/-! ## Helper functions -/

/-- The function `char2int`: the little-endian word stored in the four bytes at `a`. -/
def char2int (mem : Nat → Nat) (a : Nat) : Nat :=
  mem a + 2 ^ 8 * mem (a + 1) + 2 ^ 16 * mem (a + 2) + 2 ^ 24 * mem (a + 3)

/-- The function `int2char`: stores `value` in the four bytes at `a`, least significant first. -/
def int2char (value : Nat) (mem : Nat → Nat) (a : Nat) : Nat → Nat :=
  fun j =>
    if j = a then value % 2 ^ 8
    else if j = a + 1 then value / 2 ^ 8 % 2 ^ 8
    else if j = a + 2 then value / 2 ^ 16 % 2 ^ 8
    else if j = a + 3 then value / 2 ^ 24 % 2 ^ 8
    else mem j

/-- The function `alu`. -/
def alu (opcode a b imm npc : Nat) : Nat :=
  if opcode = ADD.toNat then u32 (a + b)
  else if opcode = ADDI.toNat then u32 (a + imm)
  else if opcode = SUB.toNat then sub32 a b
  else if opcode = SUBI.toNat then sub32 a imm
  else if opcode = XOR.toNat then u32 (a ^^^ b)
  else if opcode = LW.toNat ∨ opcode = SW.toNat then u32 (a + imm)
  else if opcode = BEQZ.toNat ∨ opcode = BNEZ.toNat ∨ opcode = BGTZ.toNat ∨ opcode = BGEZ.toNat
      ∨ opcode = BLTZ.toNat ∨ opcode = BLEZ.toNat ∨ opcode = JUMP.toNat then u32 (npc + imm)
  else 0xFFFFFFFF

/-! ## Construction and program loading -/

/-- Content of an instruction-memory slot that `load_program` has not written: the source
leaves `instr_memory` uninitialised; the embedding takes zero-filled storage (opcode value 0,
which is `LW`, zero operands, empty label). -/
def instruction_t.zero : instruction_t :=
  { opcode := LW, src1 := 0, src2 := 0, dest := 0, immediate := 0, label := "" }

/-- A latch before its first `reset` (zero-filled storage). -/
def pipeline_Registers.zero : pipeline_Registers :=
  { pipe_PC := 0, pipe_NPC := 0, pipe_IR := instruction_t.zero, pipe_COND := 0,
    pipe_ALU_OUTPUT := 0, pipe_LMD := 0 }

/-- One line of an assembly file after tokenisation: the optional leading `label:`, the opcode,
the numeric operands in the order in which they are written (`ADD Rd Rs Rt`, `ADDI Rd Rs imm`,
`LW Rd imm(Rs)`, `SW Rs imm(Rt)`, `BEQZ Rs label`), and the label operand of a branch or
`JUMP`.  Reading and tokenising the text is not modelled. -/
structure asm_line where
  label : Option String
  opcode : opcode_t
  par1 : Nat
  par2 : Nat
  par3 : Nat
  target : String
  deriving DecidableEq, Repr

/-- The assignments that the `switch` of the parsing loop of `load_program` makes to the slot
`instr_memory[instruction_nr]`. -/
def asm_line.store (l : asm_line) (i : instruction_t) : instruction_t :=
  let i := { i with opcode := l.opcode }
  match l.opcode with
  | ADD | SUB | XOR => { i with dest := u32 l.par1, src1 := u32 l.par2, src2 := u32 l.par3 }
  | ADDI | SUBI => { i with dest := u32 l.par1, src1 := u32 l.par2, immediate := u32 l.par3 }
  | LW => { i with dest := u32 l.par1, immediate := u32 l.par2, src1 := u32 l.par3 }
  | SW => { i with src1 := u32 l.par1, immediate := u32 l.par2, src2 := u32 l.par3 }
  | BEQZ | BNEZ | BLTZ | BGTZ | BLEZ | BGEZ => { i with src1 := u32 l.par1, label := l.target }
  | JUMP => { i with label := l.target }
  | _ => i

/-- The parsing loop of `load_program`: line number `nr` onwards is stored into the
instruction memory and the labels are collected (a later definition of a label replaces an
earlier one, as `labels[label] = instruction_nr` does). -/
def loadLines : List asm_line → Nat → List instruction_t → List (String × Nat) →
    Option (List instruction_t × List (String × Nat))
  | [], _, imem, labels => some (imem, labels)
  | l :: ls, nr, imem, labels =>
    if nr < PROGRAM_SIZE then
      match imem[nr]? with
      | none => none
      | some slot =>
        let labels := match l.label with
          | some name => (name, nr) :: labels
          | none => labels
        loadLines ls (nr + 1) (imem.set nr (l.store slot)) labels
    else none

/-- The loop of `load_program` that reconstructs the immediate of the branch operations, from
index `i`; the recursion is on the number of slots that are left. -/
def resolveLabels : Nat → Nat → List instruction_t → List (String × Nat) →
    Option (List instruction_t × List (String × Nat))
  | 0, _, _, _ => none
  | fuel + 1, i, imem, labels =>
    if i < PROGRAM_SIZE then
      match imem[i]? with
      | none => none
      | some instr =>
        if instr.opcode = EOP then some (imem, labels)
        else if instr.opcode = BLTZ ∨ instr.opcode = BNEZ ∨ instr.opcode = BGTZ ∨
            instr.opcode = BEQZ ∨ instr.opcode = BGEZ ∨ instr.opcode = BLEZ ∨
            instr.opcode = JUMP then
          let target := (labels.lookup instr.label).getD 0
          let labels := if labels.lookup instr.label = none then labels ++ [(instr.label, 0)]
            else labels
          let imm := u32 (sub32 (sub32 target i) 1 * 2 ^ 2)
          resolveLabels fuel (i + 1) (imem.set i { instr with immediate := imm }) labels
        else resolveLabels fuel (i + 1) imem labels
    else none

namespace sim_pipe

/-- Assignment to `specialP_Reg[stage][reg]`. -/
def setSP (s : sim_pipe) (stage reg v : Nat) : sim_pipe :=
  { s with specialP_Reg := s.specialP_Reg.set stage reg v }

/-- Assignment to `pipe_reg[k]`. -/
def setPipe (s : sim_pipe) (k : Nat) (r : pipeline_Registers) : sim_pipe :=
  { s with pipe_reg := s.pipe_reg.set k r }

/-- The opcode held in latch `k`. -/
def op (s : sim_pipe) (k : Nat) : opcode_t := (s.pipe_reg.get k).pipe_IR.opcode

/-! ## Accessors -/

/-- The method `write_memory`. -/
def write_memory (s : sim_pipe) (address value : Nat) : Option sim_pipe :=
  if address + 4 ≤ s.data_memory_size then
    some { s with data_memory := int2char value s.data_memory address }
  else none

/-- The method `reset`. -/
def reset (s : sim_pipe) : sim_pipe :=
  { s with
    data_memory := fun _ => 0xFF
    generalP_Reg := fun _ => UNDEFINED
    specialP_Reg := sp_table.fill UNDEFINED
    pipe_reg :=
      { FIRST := s.pipe_reg.FIRST.reset, SECOND := s.pipe_reg.SECOND.reset,
        THIRD := s.pipe_reg.THIRD.reset, FORTH := s.pipe_reg.FORTH.reset }
    clkIn := 1
    runAlways := false
    inst_count := 0
    totalInstCount := 0
    stalls := 0
    totalStalls := 0
    stallMem := 0
    currentClk := 0
    branchToLabel := ""
    noBranches := true
    branchStall := false
    memoryStall := false
    memStallCompleted := false }

/-- The constructor `sim_pipe(mem_size, mem_latency)`: the members that the constructor and
`reset` leave unset are an instruction memory of `PROGRAM_SIZE` zero-filled slots, base
address 0 and an empty label map.  The source leaves the integer members of `instr_memory`
uninitialised and no method clears them: zero is the content of fresh storage, and a
simulator whose slots hold the members of an earlier program is reached by `load_program`
before `reset` (`boot_after`). -/
def new (mem_size mem_latency : Nat) : sim_pipe :=
  reset
    { instr_memory := List.replicate PROGRAM_SIZE instruction_t.zero
      instr_base_address := 0
      data_memory := fun _ => 0
      data_memory_size := mem_size
      data_memory_latency := mem_latency
      generalP_Reg := fun _ => 0
      specialP_Reg := sp_table.fill 0
      pipe_reg :=
        { FIRST := pipeline_Registers.zero, SECOND := pipeline_Registers.zero,
          THIRD := pipeline_Registers.zero, FORTH := pipeline_Registers.zero }
      clkIn := 0
      runAlways := false
      inst_count := 0
      totalInstCount := 0
      stalls := 0
      totalStalls := 0
      currentClk := 0
      branchToLabel := ""
      noBranches := false
      branchStall := false
      memoryStall := false
      memStallCompleted := false
      stallMem := 0
      labelPCMap := [] }

/-- The method `load_program`, on the tokenised lines of the assembly file. -/
def load_program (s : sim_pipe) (lines : List asm_line) (base_address : Nat) :
    Option sim_pipe :=
  let s := { s with instr_base_address := u32 base_address }
  let s := s.setSP IF PC s.instr_base_address
  (loadLines lines 0 s.instr_memory []).bind fun (imem, labels) =>
  (resolveLabels (PROGRAM_SIZE + 1) 0 imem labels).map fun (imem, labels) =>
  { s with instr_memory := imem, labelPCMap := s.labelPCMap ++ labels }

/-- The method `get_sp_register`. -/
def get_sp_register (s : sim_pipe) (reg stage : Nat) : Nat :=
  if reg < NUM_SP_REGISTERS ∧ stage < 5 then s.specialP_Reg.get stage reg else 0

/-- The method `get_gp_register`. -/
def get_gp_register (s : sim_pipe) (reg : Nat) : Int :=
  if reg < NUM_GP_REGISTERS then toInt32 (s.generalP_Reg reg) else 0

/-- The method `set_gp_register`. -/
def set_gp_register (s : sim_pipe) (reg : Nat) (value : Int) : sim_pipe :=
  if reg < NUM_GP_REGISTERS then
    { s with generalP_Reg := upd s.generalP_Reg reg (ofInt32 value) }
  else s

/-- The method `get_instructions_executed`. -/
def get_instructions_executed (s : sim_pipe) : Nat := u32 s.totalInstCount

/-- The method `get_stalls`. -/
def get_stalls (s : sim_pipe) : Nat := s.totalStalls

/-- The method `get_clock_cycles`. -/
def get_clock_cycles (s : sim_pipe) : Nat := u32 s.clkIn

/-! ## The stages -/

/-- The method `fetch`.  The `memcpy` of `instr_memory[inst_count]` into IF/ID is taken as a
copy by value of the members; the label buffer that the copied `std::string` member `label`
shares with the slot is modelled in `aliased.fetch`. -/
def fetch (s : sim_pipe) : Option sim_pipe :=
  if s.memoryStall then some s
  else if s.stalls ≠ 0 then
    some (if s.branchStall then s.setPipe FIRST (s.pipe_reg.get FIRST).reset else s)
  else
    (if s.branchToLabel ≠ "" then
        (s.labelPCMap.lookup s.branchToLabel).map
          (fun jumpToInst => { s with inst_count := jumpToInst, branchToLabel := "" })
      else some s).bind fun s =>
    (if s.inst_count < PROGRAM_SIZE then s.instr_memory[s.inst_count]? else none).bind fun instr =>
    let s := s.setPipe FIRST { s.pipe_reg.get FIRST with pipe_IR := instr }
    let s := s.setSP IF IR (s.op FIRST).toNat
    let s := s.setSP ID IR (s.specialP_Reg.get IF IR)
    let s :=
      if s.specialP_Reg.get IF IR ≠ EOP.toNat then
        let s :=
          if s.clkIn = 1 then
            let s := s.setSP IF PC (u32 (s.instr_base_address + 4 * s.inst_count + 4))
            s.setSP ID NPC (s.specialP_Reg.get IF PC)
          else if s.clkIn > 1 then
            let s := s.setSP ID NPC (u32 (s.instr_base_address + 4 * s.inst_count + 4))
            s.setSP IF PC (s.specialP_Reg.get ID NPC)
          else s
        { s with inst_count := u64 (s.inst_count + 1), totalInstCount := u64 (s.totalInstCount + 1) }
      else s
    some (if s.clkIn = IF + 1 then { s with clkIn := u64 (s.clkIn + 1) } else s)

/-- The test for a conditional branch opcode used twice in `hazardHandler`. -/
def isCondBranch (o : opcode_t) : Bool :=
  o = BNEZ || o = BEQZ || o = BLTZ || o = BGTZ || o = BLEZ || o = BGEZ

/-- The body of `if((!stalls) && (!nopInst))` in `hazardHandler`: hazard detection. -/
def hazardDetect (s : sim_pipe) : sim_pipe :=
  let s :=
    if s.specialP_Reg.get ID IR = SW.toNat then
      let s := s.setSP ID B (s.pipe_reg.get FIRST).pipe_IR.src1
      s.setSP ID A (s.pipe_reg.get FIRST).pipe_IR.src2
    else
      let s := s.setSP ID A (s.pipe_reg.get FIRST).pipe_IR.src1
      s.setSP ID B (s.pipe_reg.get FIRST).pipe_IR.src2
  let a := s.specialP_Reg.get ID A
  let b := s.specialP_Reg.get ID B
  let s :=
    if s.op FIRST = SW then
      if a = (s.pipe_reg.get SECOND).pipe_IR.dest ∨ b = (s.pipe_reg.get SECOND).pipe_IR.dest then
        { s with stalls := 2, currentClk := u32 s.clkIn }
      else if (s.op FORTH ≠ NOP ∧ s.op FORTH ≠ SW ∧ s.op FORTH ≠ BNEZ ∧ s.op FORTH ≠ BLTZ) ∧
          (a = (s.pipe_reg.get FORTH).pipe_IR.dest ∨ b = (s.pipe_reg.get FORTH).pipe_IR.dest) then
        { s with stalls := 1, currentClk := u32 s.clkIn }
      else s
    else if a = (s.pipe_reg.get SECOND).pipe_IR.dest ∨ b = (s.pipe_reg.get SECOND).pipe_IR.dest then
      if s.op SECOND = ADD ∨ s.op SECOND = ADDI ∨ s.op SECOND = SUB ∨ s.op SECOND = SUBI ∨
          s.op SECOND = XOR ∨ s.op SECOND = LW then
        { s with stalls := 2, currentClk := u32 s.clkIn }
      else s
    else if (s.op THIRD ≠ SW ∧ s.op FIRST ≠ BNEZ ∧ s.op THIRD ≠ NOP ∧ s.op THIRD ≠ BNEZ) ∧
        (a = (s.pipe_reg.get THIRD).pipe_IR.dest ∨ b = (s.pipe_reg.get THIRD).pipe_IR.dest) then
      { s with stalls := 1, currentClk := u32 s.clkIn }
    else if (s.op FORTH ≠ SW ∧ s.op FORTH ≠ BNEZ ∧ s.op FIRST ≠ BNEZ ∧ s.op FORTH ≠ NOP ∧
        s.op FORTH ≠ BLTZ) ∧
        (a = (s.pipe_reg.get FORTH).pipe_IR.dest ∨ b = (s.pipe_reg.get FORTH).pipe_IR.dest) then
      { s with stalls := 1, currentClk := u32 s.clkIn }
    else if isCondBranch (s.op FIRST) then
      { s with stalls := 2, currentClk := u32 s.clkIn, branchStall := true }
    else s
  if s.stalls ≠ 0 then s else { s with memStallCompleted := false }

/-- The method `hazardHandler`. -/
def hazardHandler (s : sim_pipe) : sim_pipe :=
  if s.memoryStall then s
  else
    let nopInst : Bool := s.op FIRST = NOP || s.op SECOND = NOP || s.op THIRD = NOP
    let s := if s.stalls = 0 ∧ nopInst = false then hazardDetect s else s
    let memS : Nat := if s.memStallCompleted = true ∧ s.branchStall = false then 4 else 0
    if s.stalls ≠ 0 ∧ s.clkIn = u32 (s.currentClk + s.stalls + memS) then
      let s := { s with totalStalls := u32 (s.totalStalls + s.stalls), stalls := 0 }
      let s := if s.branchStall then { s with branchStall := false } else s
      if isCondBranch (s.op FIRST) then
        { s with stalls := 2, currentClk := u32 s.clkIn, branchStall := true }
      else s
    else s

/-- The method `decode`.  The `memcpy` of IF/ID into ID/EX is taken as a copy by value of the
members; the label buffer that the two latches share afterwards is modelled in
`aliased.decode`. -/
def decode (s : sim_pipe) : Option sim_pipe :=
  let s := hazardHandler s
  if s.memoryStall then some s
  else if s.stalls ≠ 0 ∧ s.branchStall = false then
    some (s.setPipe SECOND (s.pipe_reg.get SECOND).reset)
  else
    let s :=
      if s.op FIRST ≠ NOP then
        let r := s.pipe_reg.get FIRST
        let s := s.setPipe FIRST
          { r with pipe_IR := { r.pipe_IR with src1 := ofInt32 (s.get_gp_register r.pipe_IR.src1) } }
        let r := s.pipe_reg.get FIRST
        s.setPipe FIRST
          { r with pipe_IR := { r.pipe_IR with src2 := ofInt32 (s.get_gp_register r.pipe_IR.src2) } }
      else s
    let s := s.setSP EXE NPC (s.specialP_Reg.get ID NPC)
    let s := s.setSP EXE IMM (s.pipe_reg.get FIRST).pipe_IR.immediate
    let s :=
      if s.specialP_Reg.get ID IR ≠ SW.toNat ∧ (s.op FIRST ≠ NOP ∨ s.op FIRST ≠ EOP) then
        let s := s.setSP EXE A (s.pipe_reg.get FIRST).pipe_IR.src1
        if s.specialP_Reg.get ID IR ≠ LW.toNat then
          s.setSP EXE B (s.pipe_reg.get FIRST).pipe_IR.src2
        else s
      else if s.specialP_Reg.get ID IR = SW.toNat then
        let s := s.setSP EXE B (s.pipe_reg.get FIRST).pipe_IR.src1
        let s := s.setSP EXE A (s.pipe_reg.get FIRST).pipe_IR.src2
        let r := s.pipe_reg.get FIRST
        let ir := { r.pipe_IR with src1 := s.specialP_Reg.get EXE A, src2 := s.specialP_Reg.get EXE B }
        s.setPipe FIRST { r with pipe_IR := ir }
      else s
    let s := s.setSP EXE IR (s.specialP_Reg.get ID IR)
    let s := s.setPipe SECOND (s.pipe_reg.get FIRST)
    if s.clkIn = ID + 1 then
      (fetch s).map fun s => { s with clkIn := u64 (s.clkIn + 1) }
    else some s

/-- The `switch` on the opcode in `execute`: the comparisons are made on the `unsigned`
member `src1`. -/
def executeBranch (s : sim_pipe) : sim_pipe :=
  let ir := (s.pipe_reg.get SECOND).pipe_IR
  let taken : sim_pipe := { s with branchToLabel := ir.label, noBranches := false }
  match ir.opcode with
  | BNEZ => if ir.src1 ≠ 0 then taken else s
  | BEQZ => if ir.src1 = 0 then taken else s
  | BLTZ => if ir.src1 < 0 then taken else s
  | BGTZ => if ir.src1 > 0 then taken else s
  | BLEZ => if ir.src1 ≤ 0 then taken else s
  | BGEZ => if ir.src1 ≥ 0 then taken else s
  | _ => { s with noBranches := true }

/-- The call of `alu` in `execute`: the result is stored in the ID/EX latch.  The operands are
the members `src1`, `src2`, `immediate` of the latched instruction and the member `pipe_NPC`
of the latch. -/
def executeAlu (s : sim_pipe) : sim_pipe :=
  let r := s.pipe_reg.get SECOND
  let out := alu r.pipe_IR.opcode.toNat r.pipe_IR.src1 r.pipe_IR.src2 r.pipe_IR.immediate r.pipe_NPC
  s.setPipe SECOND { r with pipe_ALU_OUTPUT := out }

/-- The end of `execute`: the special purpose registers of the MEM stage and the copy of the
ID/EX latch into the EX/MEM latch. -/
def executeLatch (s : sim_pipe) : sim_pipe :=
  let s :=
    if s.op SECOND = NOP then
      let s := s.setSP MEM IR NOP.toNat
      let s := s.setSP MEM ALU_OUTPUT 0
      s.setSP MEM B UNDEFINED
    else
      let s := s.setSP MEM ALU_OUTPUT (s.pipe_reg.get SECOND).pipe_ALU_OUTPUT
      let s := s.setSP MEM B (s.specialP_Reg.get EXE B)
      s.setSP MEM IR (s.specialP_Reg.get EXE IR)
  s.setPipe THIRD (s.pipe_reg.get SECOND)

/-- The method `execute`. -/
def execute (s : sim_pipe) : Option sim_pipe :=
  if s.memoryStall then some s
  else
    let s := executeLatch (executeBranch (executeAlu s))
    if s.clkIn = EXE + 1 then
      ((decode s).bind fetch).map fun s => { s with clkIn := u64 (s.clkIn + 1) }
    else some s

/-- The latency bookkeeping at the head of `memory` (up to `if(memoryStall) return;`). -/
def memoryWait (s : sim_pipe) : sim_pipe :=
  let s := if s.data_memory_latency = 0 then { s with memoryStall := false } else s
  if s.stallMem < s.data_memory_latency then
    if s.op THIRD = LW ∨ s.op THIRD = SW then
      { s with
        memoryStall := true
        totalStalls := u32 (s.totalStalls + 1)
        stallMem := u32 (s.stallMem + 1)
        memStallCompleted := false }
    else s
  else if s.data_memory_latency ≠ 0 ∧ s.stallMem = s.data_memory_latency then
    { s with memoryStall := false, stallMem := 0, memStallCompleted := true }
  else s

/-- The data-memory access of `memory` (from `if(pipe_reg[THIRD].pipe_IR.opcode == NOP)` to the
copy of the latch). -/
def memoryAccess (s : sim_pipe) : Option sim_pipe :=
  let s := if s.op THIRD = NOP then s.setSP MEM IR NOP.toNat else s
  (if s.specialP_Reg.get MEM IR = LW.toNat then
      let a := s.specialP_Reg.get MEM ALU_OUTPUT
      if a + 4 ≤ s.data_memory_size then
        let s := s.setPipe FORTH { s.pipe_reg.get FORTH with pipe_LMD := s.data_memory a }
        some (s.setSP WB LMD (char2int s.data_memory a))
      else none
    else if s.specialP_Reg.get MEM IR = SW.toNat then
      s.write_memory (s.specialP_Reg.get MEM ALU_OUTPUT) (s.specialP_Reg.get MEM B)
    else some (s.setSP WB ALU_OUTPUT (s.specialP_Reg.get MEM ALU_OUTPUT))).map fun s =>
  let s := s.setSP WB IR (s.specialP_Reg.get MEM IR)
  s.setPipe FORTH (s.pipe_reg.get THIRD)

/-- The method `memory`. -/
def memory (s : sim_pipe) : Option sim_pipe :=
  let s := memoryWait s
  if s.memoryStall then some s
  else
    (memoryAccess s).bind fun s =>
    if s.clkIn = MEM + 1 then
      (((execute s).bind decode).bind fetch).map fun s => { s with clkIn := u64 (s.clkIn + 1) }
    else some s

/-- The register update at the head of `writeBack`. -/
def writeBackCommit (s : sim_pipe) : sim_pipe :=
  let s := if s.op FORTH = NOP then s.setSP WB IR NOP.toNat else s
  let ir := s.specialP_Reg.get WB IR
  if ir = ADD.toNat ∨ ir = ADDI.toNat ∨ ir = SUB.toNat ∨ ir = SUBI.toNat ∨ ir = XOR.toNat then
    s.set_gp_register (s.pipe_reg.get FORTH).pipe_IR.dest (toInt32 (s.specialP_Reg.get WB ALU_OUTPUT))
  else if ir = LW.toNat then
    s.set_gp_register (s.pipe_reg.get FORTH).pipe_IR.dest (toInt32 (s.specialP_Reg.get WB LMD))
  else s

/-- The method `writeBack`. -/
def writeBack (s : sim_pipe) : Option sim_pipe :=
  let s := writeBackCommit s
  if s.clkIn ≥ WB + 1 then
    ((((memory s).bind execute).bind decode).bind fetch).map fun s =>
      if s.specialP_Reg.get WB IR = EOP.toNat ∧ s.noBranches = true then
        { s with runAlways := false }
      else { s with clkIn := u64 (s.clkIn + 1) }
  else some s

/-! ## The cycle driver -/

/-- One pass through the `switch(clkIn)` of `run`. -/
def dispatch (s : sim_pipe) : Option sim_pipe :=
  if s.clkIn = IF + 1 then fetch s
  else if s.clkIn = ID + 1 then decode s
  else if s.clkIn = EXE + 1 then execute s
  else if s.clkIn = MEM + 1 then memory s
  else if s.clkIn = WB + 1 then writeBack s
  else if s.clkIn > WB + 1 then writeBack s
  else some s

/-- Result of calling `run`: it returned, it performed an access that is undefined behaviour,
or it was still looping when the fuel of the model ran out. -/
inductive run_result where
  | returned (s : sim_pipe)
  | undefined
  | looping (s : sim_pipe)

/-- The `do ... while(runAlways)` loop of `run`, for at most `fuel` passes. -/
def run_loop : Nat → sim_pipe → run_result
  | 0, s => run_result.looping s
  | fuel + 1, s =>
    match dispatch s with
    | none => run_result.undefined
    | some s' => if s'.runAlways then run_loop fuel s' else run_result.returned s'

/-- The method `run`, for at most `fuel` passes of its loop. -/
def run (fuel : Nat) (s : sim_pipe) (cycles : Nat) : run_result :=
  run_loop fuel (if cycles = 0 then { s with runAlways := true } else s)

end sim_pipe

/-! ## Reference semantics

The execution of a program one instruction at a time in program order, written from the
specification (section 4.4 to 4.6 and the ALU table of section 6.3): the model against which
the pipeline is compared. -/

/-- Architectural state of the reference machine: index of the next instruction, register file
and data memory. -/
structure seq_state where
  pc : Nat
  regs : Nat → Nat
  mem : Nat → Nat

/-- The branch predicates of the specification, on operand A read as a signed integer. -/
def seq_taken (o : opcode_t) (a : Int) : Bool :=
  match o with
  | BEQZ => a = 0
  | BNEZ => a ≠ 0
  | BLTZ => a < 0
  | BGTZ => a > 0
  | BLEZ => a ≤ 0
  | BGEZ => a ≥ 0
  | JUMP => true
  | _ => false

/-- Sequential execution of the loaded program for at most `fuel` instructions: the result is
the state in which `EOP` is reached, or `none` when `EOP` is not reached within `fuel`
instructions or an access is out of range. -/
def seq_run (imem : List instruction_t) (labels : List (String × Nat)) (mem_size : Nat) :
    Nat → seq_state → Option seq_state
  | 0, _ => none
  | fuel + 1, st =>
    match imem[st.pc]? with
    | none => none
    | some i =>
      match i.opcode with
      | EOP => some st
      | NOP => seq_run imem labels mem_size fuel { st with pc := st.pc + 1 }
      | ADD | ADDI | SUB | SUBI | XOR =>
        let v := alu i.opcode.toNat (st.regs i.src1) (st.regs i.src2) i.immediate 0
        seq_run imem labels mem_size fuel { st with pc := st.pc + 1, regs := upd st.regs i.dest v }
      | LW =>
        let a := u32 (st.regs i.src1 + i.immediate)
        if a + 4 ≤ mem_size then
          seq_run imem labels mem_size fuel
            { st with pc := st.pc + 1, regs := upd st.regs i.dest (char2int st.mem a) }
        else none
      | SW =>
        let a := u32 (st.regs i.src2 + i.immediate)
        if a + 4 ≤ mem_size then
          seq_run imem labels mem_size fuel
            { st with pc := st.pc + 1, mem := int2char (st.regs i.src1) st.mem a }
        else none
      | o =>
        if seq_taken o (toInt32 (st.regs i.src1)) then
          match labels.lookup i.label with
          | none => none
          | some target => seq_run imem labels mem_size fuel { st with pc := target }
        else seq_run imem labels mem_size fuel { st with pc := st.pc + 1 }

/-- The reference execution started from the architectural state of a simulator in which a
program has been loaded. -/
def sim_pipe.seq (s : sim_pipe) (fuel : Nat) : Option seq_state :=
  seq_run s.instr_memory s.labelPCMap s.data_memory_size fuel
    { pc := 0, regs := s.generalP_Reg, mem := s.data_memory }

/-! ## Programs of the scenarios -/

/-- An assembly line without label: opcode and numeric operands as written. -/
def asm (o : opcode_t) (p1 p2 p3 : Nat) : asm_line :=
  { label := none, opcode := o, par1 := p1, par2 := p2, par3 := p3, target := "" }

/-- A branch line `o Rs target` (for `JUMP` the register operand is absent). -/
def asmBranch (o : opcode_t) (rs : Nat) (target : String) : asm_line :=
  { label := none, opcode := o, par1 := rs, par2 := 0, par3 := 0, target := target }

/-- The line `l` preceded by `name:`. -/
def labelled (name : String) (l : asm_line) : asm_line :=
  { l with label := some name }

/-- Scenario S1: `ADDI R1 R0 5; ADDI R2 R0 7; ADD R3 R1 R2; EOP`. -/
def program_S1 : List asm_line :=
  [asm ADDI 1 0 5, asm ADDI 2 0 7, asm ADD 3 1 2, asm EOP 0 0 0]

/-- Scenario S2 and S3: `ADDI R1 R0 0x42; SW R1 0(R0); LW R2 0(R0); EOP`. -/
def program_S2 : List asm_line :=
  [asm ADDI 1 0 0x42, asm SW 1 0 0, asm LW 2 0 0, asm EOP 0 0 0]

/-- Scenarios S4 (`v = 1`) and S5 (`v = 0`):
`ADDI R1 R0 v; BNEZ R1 END; ADDI R2 R0 99; END: ADDI R3 R0 7; EOP`. -/
def program_S4 (v : Nat) : List asm_line :=
  [asm ADDI 1 0 v, asmBranch BNEZ 1 "END", asm ADDI 2 0 99, labelled "END" (asm ADDI 3 0 7),
    asm EOP 0 0 0]

/-- The program `JUMP END; ADDI R1 R0 5; END: EOP`. -/
def program_jump : List asm_line :=
  [asmBranch JUMP 0 "END", asm ADDI 1 0 5, labelled "END" (asm EOP 0 0 0)]

/-- The program `BNEZ R1 END; ADDI R2 R0 99; END: EOP`: a branch as first instruction. -/
def program_first_branch : List asm_line :=
  [asmBranch BNEZ 1 "END", asm ADDI 2 0 99, labelled "END" (asm EOP 0 0 0)]

/-- The program `JUMP END; L: BNEZ R0 L; END: EOP`. -/
def program_jump_loop : List asm_line :=
  [asmBranch JUMP 0 "END", labelled "L" (asmBranch BNEZ 0 "L"), labelled "END" (asm EOP 0 0 0)]

/-- The program `LW R1 0(R0); EOP`. -/
def program_load : List asm_line :=
  [asm LW 1 0 0, asm EOP 0 0 0]

/-- The program `BLTZ R1 END; ADDI R2 R0 99; END: EOP`. -/
def program_bltz : List asm_line :=
  [asmBranch BLTZ 1 "END", asm ADDI 2 0 99, labelled "END" (asm EOP 0 0 0)]

/-- The program `ADDI R1 R0 0x42; SW R1 0(R0); LW R2 0(R0); ADD R3 R2 R2; EOP`: the program of
scenario S2 followed by a use of the loaded value. -/
def program_store_load_use : List asm_line :=
  [asm ADDI 1 0 0x42, asm SW 1 0 0, asm LW 2 0 0, asm ADD 3 2 2, asm EOP 0 0 0]

/-- The program `ADDI R1 R0 1; SW R1 0(R0); BNEZ R1 END; ADDI R2 R0 99; END: EOP`: a taken
branch behind a store. -/
def program_branch_after_store : List asm_line :=
  [asm ADDI 1 0 1, asm SW 1 0 0, asmBranch BNEZ 1 "END", asm ADDI 2 0 99,
    labelled "END" (asm EOP 0 0 0)]

/-- The set-up of the scenarios: a simulator with the given data memory, `reset`,
`set_gp_register(0, 0)`, then `load_program` at base address 0. -/
def boot (mem_size mem_latency : Nat) (program : List asm_line) : Option sim_pipe :=
  (((sim_pipe.new mem_size mem_latency).reset).set_gp_register 0 0).load_program program 0

/-- The program `ADD R0 R0 R0; ADD R0 R0 R0; ADD R0 R0 R0; ADD R2 R2 R2; EOP`: a program
loaded before scenario S2, whose fourth instruction leaves 2 in the members `dest`, `src1`
and `src2` of slot 3. -/
def program_before_S2 : List asm_line :=
  [asm ADD 0 0 0, asm ADD 0 0 0, asm ADD 0 0 0, asm ADD 2 2 2, asm EOP 0 0 0]

/-- The set-up of a scenario in a simulator that has held another program: `load_program` of
`previous`, then `reset`, `set_gp_register(0, 0)` and `load_program` of `program`, all at base
address 0.  The method `reset` leaves `instr_memory` as it is, and `load_program` assigns only
the members of a slot that the opcode of the line names. -/
def boot_after (mem_size mem_latency : Nat) (previous program : List asm_line) :
    Option sim_pipe :=
  ((sim_pipe.new mem_size mem_latency).load_program previous 0).bind fun s =>
    ((s.reset).set_gp_register 0 0).load_program program 0

/-! ## States of the run of `program_jump_loop` -/

/-- A latch holding the given instruction and ALU output, its other members zero. -/
def latch (o : opcode_t) (src1 src2 dest immediate : Nat) (label : String) (alu_output : Nat) :
    pipeline_Registers :=
  { pipe_PC := 0, pipe_NPC := 0,
    pipe_IR := { opcode := o, src1 := src1, src2 := src2, dest := dest, immediate := immediate,
                 label := label },
    pipe_COND := 0, pipe_ALU_OUTPUT := alu_output, pipe_LMD := 0 }

/-- The simulator after construction with a 16-byte data memory of latency 0 and
`load_program` of `program_jump_loop`; all registers still hold `UNDEFINED`. -/
def jump_loop_boot : sim_pipe :=
  ((sim_pipe.new 16 0).load_program program_jump_loop 0).getD (sim_pipe.new 16 0)

/-- The state of the run of `program_jump_loop` in which the branch is in IF/ID and EX/MEM and
`EOP` in ID/EX and MEM/WB, with cycle counter `k + 7` and `n` fetched instructions. -/
def jump_loop_A (k n : Nat) : sim_pipe :=
  { jump_loop_boot with
    runAlways := true
    clkIn := k + 7
    inst_count := 2
    totalInstCount := n
    noBranches := false
    pipe_reg :=
      { FIRST := latch BNEZ 0 0 0 4294967292 "L" 0
        SECOND := latch EOP 4294967295 4294967295 0 0 "" 0
        THIRD := latch BNEZ 4294967295 4294967295 0 4294967292 "L" 4294967292
        FORTH := latch EOP 4294967295 4294967295 0 0 "" 4294967295 }
    specialP_Reg :=
      { IF := ⟨8, 4294967295, 8, 4294967295, 4294967295, 4294967295, 4294967295, 4294967295, 4294967295⟩
        ID := ⟨4294967295, 8, 8, 0, 0, 4294967295, 4294967295, 4294967295, 4294967295⟩
        EXE := ⟨4294967295, 8, 14, 4294967295, 4294967295, 0, 4294967295, 4294967295, 4294967295⟩
        MEM := ⟨4294967295, 4294967295, 8, 4294967295, 4294967295, 4294967295, 4294967295, 4294967292, 4294967295⟩
        WB := ⟨4294967295, 4294967295, 14, 4294967295, 4294967295, 4294967295, 4294967295, 4294967295, 4294967295⟩ } }

/-- The state of the run of `program_jump_loop` in which `EOP` is in IF/ID and EX/MEM and the
branch in ID/EX and MEM/WB, with cycle counter `k + 7` and `n` fetched instructions. -/
def jump_loop_B (k n : Nat) : sim_pipe :=
  { jump_loop_boot with
    runAlways := true
    clkIn := k + 7
    inst_count := 2
    totalInstCount := n
    noBranches := true
    pipe_reg :=
      { FIRST := latch EOP 0 0 0 0 "" 0
        SECOND := latch BNEZ 4294967295 4294967295 0 4294967292 "L" 0
        THIRD := latch EOP 4294967295 4294967295 0 0 "" 4294967295
        FORTH := latch BNEZ 4294967295 4294967295 0 4294967292 "L" 4294967292 }
    specialP_Reg :=
      { IF := ⟨8, 4294967295, 14, 4294967295, 4294967295, 4294967295, 4294967295, 4294967295, 4294967295⟩
        ID := ⟨4294967295, 8, 14, 0, 0, 4294967295, 4294967295, 4294967295, 4294967295⟩
        EXE := ⟨4294967295, 8, 8, 4294967295, 4294967295, 4294967292, 4294967295, 4294967295, 4294967295⟩
        MEM := ⟨4294967295, 4294967295, 14, 4294967295, 4294967295, 4294967295, 4294967295, 4294967295, 4294967295⟩
        WB := ⟨4294967295, 4294967295, 8, 4294967295, 4294967295, 4294967295, 4294967295, 4294967292, 4294967295⟩ } }

/-- The states through which the run of `program_jump_loop` cycles. -/
def jump_loop_inv (s : sim_pipe) : Prop :=
  (∃ k n, k + 7 < 2 ^ 64 ∧ (s = jump_loop_A k n ∨ s = jump_loop_B k n)) ∨
    (s.clkIn = 0 ∧ s.runAlways = true)

/-! ## States of the run of `program_store_load_use` -/
/-- The simulator after the set-up with a 16-byte data memory of latency 6 and
`program_store_load_use`. -/
def store_load_use_boot : sim_pipe :=
  (boot 16 6 program_store_load_use).getD (sim_pipe.new 16 6)

/-- The state in which the run of `program_store_load_use` with latency 6 is from the 21st
pass on, with cycle counter `k + 22`: the `ADD` waits in IF/ID behind a stall of 2 recorded at
cycle 13, after a completed memory stall; the other latches hold bubbles. -/
def store_load_use_stuck (k : Nat) : sim_pipe :=
  { store_load_use_boot with
    runAlways := true
    clkIn := k + 22
    inst_count := 4
    totalInstCount := 4
    stalls := 2
    totalStalls := 14
    currentClk := 13
    memStallCompleted := true
    generalP_Reg := upd (upd (upd (fun _ => UNDEFINED) 0 0) 1 0x42) 2 0x42
    data_memory := int2char 0x42 (fun _ => 0xFF) 0
    pipe_reg :=
      { FIRST := latch ADD 2 2 3 0 "" 0
        SECOND := latch NOP 0 0 0 0 "" 0
        THIRD := latch NOP 0 0 0 0 "" 4294967295
        FORTH := latch NOP 0 0 0 0 "" 4294967295 }
    specialP_Reg :=
      { IF := ⟨16, 4294967295, 2, 4294967295, 4294967295, 4294967295, 4294967295, 4294967295, 4294967295⟩
        ID := ⟨4294967295, 16, 2, 2, 2, 4294967295, 4294967295, 4294967295, 4294967295⟩
        EXE := ⟨4294967295, 12, 0, 0, 66, 0, 4294967295, 4294967295, 4294967295⟩
        MEM := ⟨4294967295, 4294967295, 15, 4294967295, 4294967295, 4294967295, 4294967295, 0, 4294967295⟩
        WB := ⟨4294967295, 4294967295, 15, 4294967295, 4294967295, 4294967295, 4294967295, 0, 66⟩ } }

/-- The states of the run of `program_store_load_use` with latency 6 from the 21st pass on. -/
def store_load_use_inv (s : sim_pipe) : Prop :=
  (∃ k, k + 22 < 2 ^ 64 ∧ s = store_load_use_stuck k) ∨ (s.clkIn = 0 ∧ s.runAlways = true)

/-! ## Blocks of `fetch` and `decode`

The bodies of `fetch` and `decode` cut into the pieces about which the contracts of the stages
speak; `fetch_eq` and `decode_eq` below state that the methods are made of them. -/

namespace sim_pipe

/-- The redirection at the head of an unstalled `fetch`: a pending branch target replaces the
fetch index and is cleared. -/
def fetchJump (s : sim_pipe) : Option sim_pipe :=
  if s.branchToLabel ≠ "" then
    (s.labelPCMap.lookup s.branchToLabel).map
      (fun jumpToInst => { s with inst_count := jumpToInst, branchToLabel := "" })
  else some s

/-- The body of an unstalled `fetch` from the copy of the instruction into IF/ID to the
increment of the instruction counters. -/
def fetchLoad (s : sim_pipe) (instr : instruction_t) : sim_pipe :=
  let s := s.setPipe FIRST { s.pipe_reg.get FIRST with pipe_IR := instr }
  let s := s.setSP IF IR (s.op FIRST).toNat
  let s := s.setSP ID IR (s.specialP_Reg.get IF IR)
  if s.specialP_Reg.get IF IR ≠ EOP.toNat then
    let s :=
      if s.clkIn = 1 then
        let s := s.setSP IF PC (u32 (s.instr_base_address + 4 * s.inst_count + 4))
        s.setSP ID NPC (s.specialP_Reg.get IF PC)
      else if s.clkIn > 1 then
        let s := s.setSP ID NPC (u32 (s.instr_base_address + 4 * s.inst_count + 4))
        s.setSP IF PC (s.specialP_Reg.get ID NPC)
      else s
    { s with inst_count := u64 (s.inst_count + 1), totalInstCount := u64 (s.totalInstCount + 1) }
  else s

/-- The register read of `decode`: the source register indices held in IF/ID are replaced by
the values of the registers. -/
def decodeRead (s : sim_pipe) : sim_pipe :=
  if s.op FIRST ≠ NOP then
    let r := s.pipe_reg.get FIRST
    let s := s.setPipe FIRST
      { r with pipe_IR := { r.pipe_IR with src1 := ofInt32 (s.get_gp_register r.pipe_IR.src1) } }
    let r := s.pipe_reg.get FIRST
    s.setPipe FIRST
      { r with pipe_IR := { r.pipe_IR with src2 := ofInt32 (s.get_gp_register r.pipe_IR.src2) } }
  else s

/-- The end of the body of `decode`: the special purpose registers of the EXE stage and the
copy of IF/ID into ID/EX. -/
def decodeLatch (s : sim_pipe) : sim_pipe :=
  let s := s.setSP EXE NPC (s.specialP_Reg.get ID NPC)
  let s := s.setSP EXE IMM (s.pipe_reg.get FIRST).pipe_IR.immediate
  let s :=
    if s.specialP_Reg.get ID IR ≠ SW.toNat ∧ (s.op FIRST ≠ NOP ∨ s.op FIRST ≠ EOP) then
      let s := s.setSP EXE A (s.pipe_reg.get FIRST).pipe_IR.src1
      if s.specialP_Reg.get ID IR ≠ LW.toNat then
        s.setSP EXE B (s.pipe_reg.get FIRST).pipe_IR.src2
      else s
    else if s.specialP_Reg.get ID IR = SW.toNat then
      let s := s.setSP EXE B (s.pipe_reg.get FIRST).pipe_IR.src1
      let s := s.setSP EXE A (s.pipe_reg.get FIRST).pipe_IR.src2
      let r := s.pipe_reg.get FIRST
      let ir := { r.pipe_IR with src1 := s.specialP_Reg.get EXE A, src2 := s.specialP_Reg.get EXE B }
      s.setPipe FIRST { r with pipe_IR := ir }
    else s
  let s := s.setSP EXE IR (s.specialP_Reg.get ID IR)
  s.setPipe SECOND (s.pipe_reg.get FIRST)

end sim_pipe

/-! ## Programs and states for the contracts of the stages -/

/-- The program `ADDI R2 R0 1; ADDI R1 R0 0; ADDI R3 R0 1; <consumer>; ADDI R4 R0 99; END: EOP`.
In the fifth pass of `run`, when the consumer is in IF/ID and the hazard handler runs, ID/EX and
EX/MEM hold the `ADDI` that writes R3 and MEM/WB holds the `ADDI` that writes R1. -/
def program_hazard (consumer : asm_line) : List asm_line :=
  [asm ADDI 2 0 1, asm ADDI 1 0 0, asm ADDI 3 0 1, consumer, asm ADDI 4 0 99,
    labelled "END" (asm EOP 0 0 0)]

/-- The state after `k` passes of the loop of `run(0)` on `program`, loaded after the set-up
into a simulator with a 16-byte data memory of latency `mem_latency`. -/
def state_after (mem_latency : Nat) (program : List asm_line) (k : Nat) : sim_pipe :=
  match boot 16 mem_latency program with
  | some s0 =>
    match s0.run k 0 with
    | sim_pipe.run_result.looping s => s
    | sim_pipe.run_result.returned s => s
    | sim_pipe.run_result.undefined => s0
  | none => sim_pipe.new 16 mem_latency

/-- The state in which `decode`, and with it the hazard handler, is entered in a pass made by
`writeBack` from state `s`: the head of `writeBack`, `memory` and `execute` have run. -/
def beforeDecode (s : sim_pipe) : Option sim_pipe :=
  (s.writeBackCommit.memory).bind sim_pipe.execute

/-- The state in which the hazard handler runs in the fifth pass of `run(0)` on
`program_hazard consumer`, with a 16-byte data memory of latency 0. -/
def hazard_state (consumer : asm_line) : sim_pipe :=
  (beforeDecode (state_after 0 (program_hazard consumer) 4)).getD (sim_pipe.new 16 0)

/-- The result of `k` successive calls of `memory`. -/
def memoryCalls : Nat → sim_pipe → Option sim_pipe
  | 0, s => some s
  | k + 1, s => (memoryCalls k s).bind sim_pipe.memory

/-- The part of the state upstream of the memory stage: the IF/ID, ID/EX and EX/MEM latches,
the PC, the fetch index, the instruction counter and the pending hazard stall (its length, the
cycle at which it was recorded and the branch-stall flag). -/
def upstream (s : sim_pipe) :
    pipeline_Registers × pipeline_Registers × pipeline_Registers × Nat × Nat × Nat × Nat × Nat ×
      Bool :=
  (s.pipe_reg.FIRST, s.pipe_reg.SECOND, s.pipe_reg.THIRD, s.specialP_Reg.get IF PC,
    s.inst_count, s.totalInstCount, s.stalls, s.currentClk, s.branchStall)

/-- The instruction that a call of `fetch` in state `s` copies into IF/ID when it is not
stalled: the one at the fetch index, after the redirection to a pending branch target. -/
def fetched (s : sim_pipe) : Option instruction_t :=
  (sim_pipe.fetchJump s).bind fun j =>
    if j.inst_count < PROGRAM_SIZE then j.instr_memory[j.inst_count]? else none

/-- The specification of the instruction counter for one call of `fetch` in state `s`, after
the words of the specification and not after the code: the call is to count 1 when neither a
memory stall nor a hazard stall is in effect and the instruction fetched is not `EOP`, and 0
in every other case. -/
def fetch_counts (s : sim_pipe) : Nat :=
  if s.memoryStall = false ∧ s.stalls = 0 then
    match fetched s with
    | some instr => if instr.opcode ≠ EOP then 1 else 0
    | none => 0
  else 0

/-- The state in which the pass of the loop of `run` from state `s` calls `fetch`, and `none`
when the pass makes no call of `fetch` (or does not reach it): with the cycle counter at 1 the
pass is the call; at 2 `decode` calls `fetch` after its body, unless it returns before; at 3
`execute` calls `decode` and then `fetch`; at 4 `memory` calls `execute`, `decode` and then
`fetch`, unless it returns for a memory stall; at 5 or more `writeBack` calls `memory`,
`execute`, `decode` and then `fetch`. -/
def fetchEntry (s : sim_pipe) : Option sim_pipe :=
  if s.clkIn = IF + 1 then some s
  else if s.clkIn = ID + 1 then
    if (sim_pipe.hazardHandler s).memoryStall then none
    else if (sim_pipe.hazardHandler s).stalls ≠ 0 ∧
        (sim_pipe.hazardHandler s).branchStall = false then none
    else some (sim_pipe.decodeLatch (sim_pipe.decodeRead (sim_pipe.hazardHandler s)))
  else if s.clkIn = EXE + 1 then
    if s.memoryStall then none
    else
      sim_pipe.decode
        (sim_pipe.executeLatch (sim_pipe.executeBranch (sim_pipe.executeAlu s)))
  else if s.clkIn = MEM + 1 then
    if (sim_pipe.memoryWait s).memoryStall then none
    else
      ((sim_pipe.memoryAccess (sim_pipe.memoryWait s)).bind sim_pipe.execute).bind
        sim_pipe.decode
  else if s.clkIn ≥ WB + 1 then
    ((sim_pipe.memory (sim_pipe.writeBackCommit s)).bind sim_pipe.execute).bind sim_pipe.decode
  else none

/-- The specification of the instruction counter for the pass of the loop of `run` from state
`s`: the pass is to count what its call of `fetch` is to count, and nothing when it makes no
call of `fetch`. -/
def pass_counts (s : sim_pipe) : Nat :=
  match fetchEntry s with
  | some e => fetch_counts e
  | none => 0

/-- The specification of the instruction counter for the loop of `run`, for at most `fuel`
passes from state `s`: the sum of what its passes are to count. -/
def run_counts : Nat → sim_pipe → Nat
  | 0, _ => 0
  | fuel + 1, s =>
    match sim_pipe.dispatch s with
    | none => 0
    | some s' => pass_counts s + if s'.runAlways then run_counts fuel s' else 0

/-- The opcode held in each latch paired with the IR register of the stage that the latch
feeds: IF/ID with ID, ID/EX with EXE, EX/MEM with MEM, MEM/WB with WB. -/
def ir_view (s : sim_pipe) :
    (opcode_t × Nat) × (opcode_t × Nat) × (opcode_t × Nat) × (opcode_t × Nat) :=
  ((s.op FIRST, s.specialP_Reg.get ID IR), (s.op SECOND, s.specialP_Reg.get EXE IR),
    (s.op THIRD, s.specialP_Reg.get MEM IR), (s.op FORTH, s.specialP_Reg.get WB IR))

/-- An IR register agrees with a latched opcode: it holds the value of the opcode unless the
opcode is `NOP`. -/
def ir_agrees (p : opcode_t × Nat) : Prop := p.1 ≠ NOP → p.2 = p.1.toNat

/-- In each stage the IR register agrees with the opcode held in the latch that feeds it. -/
def ir_consistent (s : sim_pipe) : Prop :=
  ir_agrees (ir_view s).1 ∧ ir_agrees (ir_view s).2.1 ∧ ir_agrees (ir_view s).2.2.1 ∧
    ir_agrees (ir_view s).2.2.2

/-- The stage registers to which the methods of the integer simulator assign: PC and IR of IF
(`load_program`, `fetch`); NPC and IR of ID (`fetch`) and A and B of ID (`hazardHandler`);
NPC, IMM, A, B and IR of EXE (`decode`); IR, ALU_OUTPUT and B of MEM (`execute`, `memory`);
LMD, ALU_OUTPUT and IR of WB (`memory`, `writeBack`). -/
def sp_written (stage reg : Nat) : Bool :=
  decide ((stage = IF ∧ (reg = PC ∨ reg = IR)) ∨
    (stage = ID ∧ (reg = NPC ∨ reg = IR ∨ reg = A ∨ reg = B)) ∨
    (stage = EXE ∧ (reg = NPC ∨ reg = IMM ∨ reg = A ∨ reg = B ∨ reg = IR)) ∨
    (stage = MEM ∧ (reg = IR ∨ reg = ALU_OUTPUT ∨ reg = B)) ∨
    (stage = WB ∧ (reg = LMD ∨ reg = ALU_OUTPUT ∨ reg = IR)))

/-- The stage registers outside `sp_written` read in table `t` what they read in table `s`. -/
def sp_kept (t s : sp_table) : Prop :=
  ∀ stage reg, sp_written stage reg = false → t.get stage reg = s.get stage reg

/-- The states of the integer simulator reachable from `reset` (and so from the constructor,
which ends with `reset`) by `load_program`, `set_gp_register`, `write_memory` and `run`; the
states in which `run` is after some passes of its loop are included. -/
inductive reachable : sim_pipe → Prop
  | reset (s : sim_pipe) : reachable s.reset
  | load_program {s s' : sim_pipe} (lines : List asm_line) (base : Nat) :
      reachable s → s.load_program lines base = some s' → reachable s'
  | set_gp_register {s : sim_pipe} (reg : Nat) (value : Int) :
      reachable s → reachable (s.set_gp_register reg value)
  | write_memory {s s' : sim_pipe} (address value : Nat) :
      reachable s → s.write_memory address value = some s' → reachable s'
  | run {s s' : sim_pipe} (fuel cycles : Nat) :
      reachable s →
      (s.run fuel cycles = sim_pipe.run_result.returned s' ∨
        s.run fuel cycles = sim_pipe.run_result.looping s') → reachable s'

/-! ## The floating-point variant `sim_pipe_fp`

The embedding of `sim_pipe_fp.h` and `sim_pipe_fp.cc`.  The enumerations `sp_register_t`,
`stage_t` and `pipelineRegNum` and the constants `PROGRAM_SIZE`, `UNDEFINED`,
`NUM_SP_REGISTERS`, `NUM_GP_REGISTERS` and `NUM_STAGES` are the same in both headers and are
shared with the integer variant; the types that differ live in the namespace `fp`. -/

namespace fp

/-- The constant `NUM_SP_INT_REGISTERS`: the number of slots of `generalP_IntReg`. -/
def NUM_SP_INT_REGISTERS : Nat := 15

/-- The constant `MAX_UNITS`: the number of slots of `exec_units`. -/
def MAX_UNITS : Nat := 10

/-- The enumeration `opcode_t` of `sim_pipe_fp.h`. -/
inductive opcode_t where
  | LW | SW | ADD | ADDI | SUB | SUBI | XOR
  | BEQZ | BNEZ | BLTZ | BGTZ | BLEZ | BGEZ | JUMP | EOP | NOP
  | LWS | SWS | ADDS | SUBS | MULTS | DIVS
  deriving DecidableEq, Repr

/-- The integer value of an opcode. -/
def opcode_t.toNat : opcode_t → Nat
  | .LW => 0 | .SW => 1 | .ADD => 2 | .ADDI => 3 | .SUB => 4 | .SUBI => 5 | .XOR => 6
  | .BEQZ => 7 | .BNEZ => 8 | .BLTZ => 9 | .BGTZ => 10 | .BLEZ => 11 | .BGEZ => 12
  | .JUMP => 13 | .EOP => 14 | .NOP => 15 | .LWS => 16 | .SWS => 17 | .ADDS => 18
  | .SUBS => 19 | .MULTS => 20 | .DIVS => 21

/-- The enumeration `exe_unit_t`. -/
inductive exe_unit_t where
  | INTEGER | ADDER | MULTIPLIER | DIVIDER
  deriving DecidableEq, Repr

/-- The record `instruction_t`. -/
structure instruction_t where
  opcode : opcode_t
  src1 : Nat
  src2 : Nat
  dest : Nat
  immediate : Nat
  label : String
  deriving DecidableEq, Repr

/-- The method `instruction_t::reset`. -/
def instruction_t.reset (_ : instruction_t) : instruction_t :=
  { opcode := .NOP, src1 := 0, src2 := 0, dest := 0, immediate := 0, label := "" }

/-- The record `unit_t`: an execution unit. -/
structure unit_t where
  type : exe_unit_t
  latency : Nat
  busy : Nat
  instruction : instruction_t
  deriving DecidableEq, Repr

/-- The record `pipeline_Registers`. -/
structure pipeline_Registers where
  pipe_PC : Nat
  pipe_NPC : Nat
  pipe_IR : instruction_t
  pipe_COND : Nat
  pipe_ALU_OUTPUT : Nat
  pipe_LMD : Nat
  deriving DecidableEq, Repr

/-- The method `pipeline_Registers::reset`. -/
def pipeline_Registers.reset (r : pipeline_Registers) : pipeline_Registers :=
  { pipe_PC := 0, pipe_NPC := 0, pipe_IR := r.pipe_IR.reset, pipe_COND := 0,
    pipe_ALU_OUTPUT := 0, pipe_LMD := 0 }

/-- The array `fp_pipe_reg[NUM_STAGES-1]` of the four latches. -/
structure pipe_table where
  FIRST : pipeline_Registers
  SECOND : pipeline_Registers
  THIRD : pipeline_Registers
  FORTH : pipeline_Registers
  deriving DecidableEq, Repr

/-- Read of `fp_pipe_reg[k]`. -/
def pipe_table.get (t : pipe_table) (k : Nat) : pipeline_Registers :=
  match k with
  | 0 => t.FIRST | 1 => t.SECOND | 2 => t.THIRD | _ => t.FORTH

/-- Assignment `fp_pipe_reg[k] = r`. -/
def pipe_table.set (t : pipe_table) (k : Nat) (r : pipeline_Registers) : pipe_table :=
  match k with
  | 0 => { t with FIRST := r } | 1 => { t with SECOND := r } | 2 => { t with THIRD := r }
  | 3 => { t with FORTH := r } | _ => t

/-- The single-precision arithmetic of the host, on bit patterns: `adds a b` stands for
`float2unsigned(unsigned2float(a) + unsigned2float(b))`, and likewise for the other three
operations.  The arithmetic is a parameter of the embedding. -/
structure float_ops where
  adds : Nat → Nat → Nat
  subs : Nat → Nat → Nat
  mults : Nat → Nat → Nat
  divs : Nat → Nat → Nat
  deriving Inhabited


/-- The function `unsigned2char`: stores `value` in the four bytes at `a`, least significant
first. -/
def unsigned2char (value : Nat) (mem : Nat → Nat) (a : Nat) : Nat → Nat :=
  fun j =>
    if j = a then value % 2 ^ 8
    else if j = a + 1 then value / 2 ^ 8 % 2 ^ 8
    else if j = a + 2 then value / 2 ^ 16 % 2 ^ 8
    else if j = a + 3 then value / 2 ^ 24 % 2 ^ 8
    else mem j

/-- The function `char2unsigned`: the sum of the four bytes at `a` shifted by 0, 8, 16 and 24
bits, as an `unsigned`. -/
def char2unsigned (mem : Nat → Nat) (a : Nat) : Nat :=
  u32 (mem a + mem (a + 1) * 2 ^ 8 + mem (a + 2) * 2 ^ 16 + mem (a + 3) * 2 ^ 24)

/-- The function `alu` of `sim_pipe_fp.cc`. -/
def alu (fo : float_ops) (opcode a b imm npc : Nat) : Nat :=
  if opcode = opcode_t.ADD.toNat then u32 (a + b)
  else if opcode = opcode_t.ADDI.toNat then u32 (a + imm)
  else if opcode = opcode_t.SUB.toNat then sub32 a b
  else if opcode = opcode_t.SUBI.toNat then sub32 a imm
  else if opcode = opcode_t.XOR.toNat then u32 (a ^^^ b)
  else if opcode = opcode_t.LW.toNat ∨ opcode = opcode_t.SW.toNat ∨
      opcode = opcode_t.LWS.toNat ∨ opcode = opcode_t.SWS.toNat then u32 (a + imm)
  else if opcode = opcode_t.BEQZ.toNat ∨ opcode = opcode_t.BNEZ.toNat ∨
      opcode = opcode_t.BGTZ.toNat ∨ opcode = opcode_t.BGEZ.toNat ∨
      opcode = opcode_t.BLTZ.toNat ∨ opcode = opcode_t.BLEZ.toNat ∨
      opcode = opcode_t.JUMP.toNat then u32 (npc + imm)
  else if opcode = opcode_t.ADDS.toNat then u32 (fo.adds a b)
  else if opcode = opcode_t.SUBS.toNat then u32 (fo.subs a b)
  else if opcode = opcode_t.MULTS.toNat then u32 (fo.mults a b)
  else if opcode = opcode_t.DIVS.toNat then u32 (fo.divs a b)
  else 0xFFFFFFFF

/-- Content of an instruction-memory slot before the constructor has run `reset`: the members
of the default-constructed record other than the label are indeterminate; the embedding takes
zero-filled storage (`reset` overwrites them all). -/
def instruction_t.zero : instruction_t :=
  { opcode := .LW, src1 := 0, src2 := 0, dest := 0, immediate := 0, label := "" }

/-- A latch before its first `reset` (zero-filled static storage). -/
def pipeline_Registers.zero : pipeline_Registers :=
  { pipe_PC := 0, pipe_NPC := 0, pipe_IR := instruction_t.zero, pipe_COND := 0,
    pipe_ALU_OUTPUT := 0, pipe_LMD := 0 }

/-- A slot of `exec_units` that `init_exec_unit` has not written (the source leaves it
uninitialised; the embedding takes zero-filled storage). -/
def unit_t.zero : unit_t :=
  { type := .INTEGER, latency := 0, busy := 0, instruction := instruction_t.zero }

/-- One line of an assembly file after tokenisation (see `asm_line` of the integer
variant): optional leading `label:`, opcode, numeric operands in the order in which they are
written, label operand of a branch or `JUMP`. -/
structure asm_line where
  label : Option String
  opcode : opcode_t
  par1 : Nat
  par2 : Nat
  par3 : Nat
  target : String
  deriving DecidableEq, Repr

/-- The assignments that the `switch` of the parsing loop of `load_program` makes to the slot
`instr_memory[instruction_nr]`. -/
def asm_line.store (l : asm_line) (i : instruction_t) : instruction_t :=
  let i := { i with opcode := l.opcode }
  match l.opcode with
  | .ADD | .SUB | .XOR | .ADDS | .SUBS | .MULTS | .DIVS =>
    { i with dest := u32 l.par1, src1 := u32 l.par2, src2 := u32 l.par3 }
  | .ADDI | .SUBI => { i with dest := u32 l.par1, src1 := u32 l.par2, immediate := u32 l.par3 }
  | .LW | .LWS => { i with dest := u32 l.par1, immediate := u32 l.par2, src1 := u32 l.par3 }
  | .SW | .SWS => { i with src1 := u32 l.par1, immediate := u32 l.par2, src2 := u32 l.par3 }
  | .BEQZ | .BNEZ | .BLTZ | .BGTZ | .BLEZ | .BGEZ =>
    { i with src1 := u32 l.par1, label := l.target }
  | .JUMP => { i with label := l.target }
  | _ => i

/-- The parsing loop of `load_program`: line number `nr` onwards is stored into the
instruction memory and the labels are collected in the local map `labels`. -/
def loadLines : List asm_line → Nat → List instruction_t → List (String × Nat) →
    Option (List instruction_t × List (String × Nat))
  | [], _, imem, labels => some (imem, labels)
  | l :: ls, nr, imem, labels =>
    if nr < PROGRAM_SIZE then
      match imem[nr]? with
      | none => none
      | some slot =>
        let labels := match l.label with
          | some name => (name, nr) :: labels
          | none => labels
        loadLines ls (nr + 1) (imem.set nr (l.store slot)) labels
    else none

/-- The loop of `load_program` that reconstructs the immediate of the branch operations, from
index `i`; the recursion is on the number of slots that are left. -/
def resolveLabels : Nat → Nat → List instruction_t → List (String × Nat) →
    Option (List instruction_t)
  | 0, _, _, _ => none
  | fuel + 1, i, imem, labels =>
    if i < PROGRAM_SIZE then
      match imem[i]? with
      | none => none
      | some instr =>
        if instr.opcode = .EOP then some imem
        else if instr.opcode = .BLTZ ∨ instr.opcode = .BNEZ ∨ instr.opcode = .BGTZ ∨
            instr.opcode = .BEQZ ∨ instr.opcode = .BGEZ ∨ instr.opcode = .BLEZ ∨
            instr.opcode = .JUMP then
          let target := (labels.lookup instr.label).getD 0
          let labels := if labels.lookup instr.label = none then labels ++ [(instr.label, 0)]
            else labels
          let imm := u32 (sub32 (sub32 target i) 1 * 2 ^ 2)
          resolveLabels fuel (i + 1) (imem.set i { instr with immediate := imm }) labels
        else resolveLabels fuel (i + 1) imem labels
    else none

/-- The data members of the class `sim_pipe_fp` together with the variables with static
storage duration that `sim_pipe_fp.h` defines and the methods use.  Left out: the member
`fp_labelPCMap` and the variables `fp_branchingCount` and `fp_totalMemStalls`, which no
function reads or writes, and `fp_found` and `fp_resolved`, which only `fp_hazardHandler`
writes and nothing reads. -/
structure sim_pipe_fp where
  instr_memory : List instruction_t
  instr_base_address : Nat
  data_memory : Nat → Nat
  data_memory_size : Nat
  data_memory_latency : Nat
  exec_units : List unit_t
  num_units : Nat
  generalP_IntReg : Nat → Nat
  generalP_FPReg : Nat → Nat
  specialP_Reg : sp_table
  fp_clkIn : Nat
  fp_pipe_reg : pipe_table
  fp_inst_count : Nat
  fp_totalInstCount : Nat
  fp_runAlways : Bool
  fp_stalls : Nat
  fp_totalStalls : Nat
  fp_currentClk : Nat
  fp_branchToLabel : String
  fp_noBranches : Bool
  fp_branchStall : Bool
  fp_memoryStall : Bool
  fp_stallMem : Nat
  fp_memStallCompleted : Bool

namespace sim_pipe_fp

/-- Assignment to `specialP_Reg[stage][reg]`. -/
def setSP (s : sim_pipe_fp) (stage reg v : Nat) : sim_pipe_fp :=
  { s with specialP_Reg := s.specialP_Reg.set stage reg v }

/-- Assignment to `fp_pipe_reg[k]`. -/
def setPipe (s : sim_pipe_fp) (k : Nat) (r : pipeline_Registers) : sim_pipe_fp :=
  { s with fp_pipe_reg := s.fp_pipe_reg.set k r }

/-- The opcode held in latch `k`. -/
def op (s : sim_pipe_fp) (k : Nat) : opcode_t := (s.fp_pipe_reg.get k).pipe_IR.opcode

/-! ### Primitives -/

/-- The method `write_memory`: `unsigned2char(value, data_memory + address)`.  The source makes
no bounds check; a write that leaves the array is undefined behaviour (no result). -/
def write_memory (s : sim_pipe_fp) (address value : Nat) : Option sim_pipe_fp :=
  if address + 4 ≤ s.data_memory_size then
    some { s with data_memory := unsigned2char value s.data_memory address }
  else none

/-- The method `reset`. -/
def reset (s : sim_pipe_fp) : sim_pipe_fp :=
  { s with
    data_memory := fun _ => 0xFF
    instr_memory := s.instr_memory.map fun i =>
      { i with opcode := .NOP, src1 := UNDEFINED, src2 := UNDEFINED, dest := UNDEFINED,
               immediate := UNDEFINED }
    generalP_IntReg := fun _ => UNDEFINED
    generalP_FPReg := fun _ => UNDEFINED
    specialP_Reg := sp_table.fill UNDEFINED
    fp_pipe_reg :=
      { FIRST := s.fp_pipe_reg.FIRST.reset, SECOND := s.fp_pipe_reg.SECOND.reset,
        THIRD := s.fp_pipe_reg.THIRD.reset, FORTH := s.fp_pipe_reg.FORTH.reset }
    fp_clkIn := 1
    fp_inst_count := 0
    fp_runAlways := false
    fp_totalInstCount := 0
    fp_stalls := 0
    fp_totalStalls := 0
    fp_stallMem := 0
    fp_currentClk := 0
    fp_branchToLabel := ""
    fp_noBranches := true
    fp_branchStall := false
    fp_memoryStall := false
    fp_memStallCompleted := false }

/-- The constructor `sim_pipe_fp(mem_size, mem_latency)`, in a program in which no simulator
has run before: the static variables have their initialisers, the members that the
constructor and `reset` leave unset are taken zero-filled (instruction memory of
`PROGRAM_SIZE` slots, `MAX_UNITS` unit slots, base address 0). -/
def new (mem_size mem_latency : Nat) : sim_pipe_fp :=
  reset
    { instr_memory := List.replicate PROGRAM_SIZE instruction_t.zero
      instr_base_address := 0
      data_memory := fun _ => 0
      data_memory_size := mem_size
      data_memory_latency := mem_latency
      exec_units := List.replicate MAX_UNITS unit_t.zero
      num_units := 0
      generalP_IntReg := fun _ => 0
      generalP_FPReg := fun _ => 0
      specialP_Reg := sp_table.fill 0
      fp_clkIn := 0
      fp_pipe_reg :=
        { FIRST := pipeline_Registers.zero, SECOND := pipeline_Registers.zero,
          THIRD := pipeline_Registers.zero, FORTH := pipeline_Registers.zero }
      fp_inst_count := 0
      fp_totalInstCount := 0
      fp_runAlways := false
      fp_stalls := 0
      fp_totalStalls := 0
      fp_currentClk := 0
      fp_branchToLabel := ""
      fp_noBranches := true
      fp_branchStall := false
      fp_memoryStall := false
      fp_stallMem := 0
      fp_memStallCompleted := false }

/-- The method `init_exec_unit`: `instances` units of the given type and latency are appended.
Writing slot `MAX_UNITS` or beyond is undefined behaviour (no result). -/
def init_exec_unit (s : sim_pipe_fp) (exec_unit : exe_unit_t) (latency : Nat) :
    Nat → Option sim_pipe_fp
  | 0 => some s
  | instances + 1 =>
    (init_exec_unit s exec_unit latency instances).bind fun s =>
    if s.num_units < MAX_UNITS then
      (s.exec_units[s.num_units]?).map fun u =>
      { s with
        exec_units := s.exec_units.set s.num_units
          { u with type := exec_unit, latency := latency, busy := 0,
                   instruction := { u.instruction with opcode := .NOP } }
        num_units := s.num_units + 1 }
    else none

/-- The loop of `get_free_unit` from unit `u`, with `n` iterations left.  The result is the
value returned; there is none where the source calls `exit(-1)` (an opcode that needs no unit)
or reads beyond the array. -/
def get_free_unit_from (s : sim_pipe_fp) (opcode : opcode_t) : Nat → Nat → Option Nat
  | 0, _ => some UNDEFINED
  | n + 1, u =>
    match opcode with
    | .LW | .SW | .ADD | .ADDI | .SUB | .SUBI | .XOR | .BEQZ | .BNEZ | .BLTZ | .BGTZ | .BLEZ
    | .BGEZ | .JUMP | .LWS | .SWS =>
      (s.exec_units[u]?).bind fun x =>
      if x.type = .INTEGER ∧ x.busy = 0 then some u else get_free_unit_from s opcode n (u + 1)
    | .ADDS | .SUBS =>
      (s.exec_units[u]?).bind fun x =>
      if x.type = .ADDER ∧ x.busy = 0 then some u else get_free_unit_from s opcode n (u + 1)
    | .MULTS =>
      (s.exec_units[u]?).bind fun x =>
      if x.type = .MULTIPLIER ∧ x.busy = 0 then some u
      else get_free_unit_from s opcode n (u + 1)
    | .DIVS =>
      (s.exec_units[u]?).bind fun x =>
      if x.type = .DIVIDER ∧ x.busy = 0 then some u else get_free_unit_from s opcode n (u + 1)
    | _ => none

/-- The method `get_free_unit`: with no unit configured the source calls `exit(-1)`. -/
def get_free_unit (s : sim_pipe_fp) (opcode : opcode_t) : Option Nat :=
  if s.num_units = 0 then none else get_free_unit_from s opcode s.num_units 0

/-- The loop of `decrement_units_busy_time` from unit `u`, with `n` iterations left. -/
def decrement_units_from : Nat → Nat → List unit_t → Option (List unit_t)
  | 0, _, units => some units
  | n + 1, u, units =>
    (units[u]?).bind fun x =>
    decrement_units_from n (u + 1)
      (if x.busy > 0 then units.set u { x with busy := x.busy - 1 } else units)

/-- The method `decrement_units_busy_time`. -/
def decrement_units_busy_time (s : sim_pipe_fp) : Option sim_pipe_fp :=
  (decrement_units_from s.num_units 0 s.exec_units).map fun us => { s with exec_units := us }

/-- The method `load_program`, on the tokenised lines of the assembly file. -/
def load_program (s : sim_pipe_fp) (lines : List asm_line) (base_address : Nat) :
    Option sim_pipe_fp :=
  let s := { s with instr_base_address := u32 base_address }
  let s := s.setSP IF PC s.instr_base_address
  (loadLines lines 0 s.instr_memory []).bind fun (imem, labels) =>
  (resolveLabels (PROGRAM_SIZE + 1) 0 imem labels).map fun imem =>
  { s with instr_memory := imem }

/-- The method `get_sp_register`. -/
def get_sp_register (s : sim_pipe_fp) (reg stage : Nat) : Nat :=
  if reg < NUM_SP_REGISTERS ∧ stage < 5 then s.specialP_Reg.get stage reg else 0

/-- The method `get_int_register`.  The guard admits `reg < NUM_GP_REGISTERS` (32) while
`generalP_IntReg` has `NUM_SP_INT_REGISTERS` (15) slots: a read of slot 15 to 31 leaves the
array, which is undefined behaviour (no result). -/
def get_int_register (s : sim_pipe_fp) (reg : Nat) : Option Int :=
  if reg < NUM_GP_REGISTERS then
    if reg < NUM_SP_INT_REGISTERS then some (toInt32 (s.generalP_IntReg reg)) else none
  else some 0

/-- The method `set_int_register`; a write of slot 15 to 31 leaves the array (no result). -/
def set_int_register (s : sim_pipe_fp) (reg : Nat) (value : Int) : Option sim_pipe_fp :=
  if reg < NUM_GP_REGISTERS then
    if reg < NUM_SP_INT_REGISTERS then
      some { s with generalP_IntReg := upd s.generalP_IntReg reg (ofInt32 value) }
    else none
  else some s

/-- The method `get_instructions_executed`. -/
def get_instructions_executed (s : sim_pipe_fp) : Nat := u32 s.fp_totalInstCount

/-- The method `get_clock_cycles`: `return fp_totalStalls;`. -/
def get_clock_cycles (s : sim_pipe_fp) : Nat := s.fp_totalStalls

/-- The method `get_stalls`: `return fp_clkIn;`. -/
def get_stalls (s : sim_pipe_fp) : Nat := s.fp_clkIn

/-! ### The stages -/

/-- The method `fp_fetch`.  A pending branch target redirects the fetch to instruction 0 (the
look-up in the label map is commented out in the source). -/
def fp_fetch (s : sim_pipe_fp) : Option sim_pipe_fp :=
  if s.fp_memoryStall then some s
  else if s.fp_stalls ≠ 0 then
    some (if s.fp_branchStall then s.setPipe FIRST (s.fp_pipe_reg.get FIRST).reset else s)
  else
    let s := if s.fp_branchToLabel ≠ "" then { s with fp_inst_count := 0, fp_branchToLabel := "" }
      else s
    (if s.fp_inst_count < PROGRAM_SIZE then s.instr_memory[s.fp_inst_count]? else none).bind
      fun instr =>
    let s := s.setPipe FIRST { s.fp_pipe_reg.get FIRST with pipe_IR := instr }
    let s := s.setSP IF IR (s.op FIRST).toNat
    let s := s.setSP ID IR (s.specialP_Reg.get IF IR)
    let s :=
      if s.specialP_Reg.get IF IR ≠ opcode_t.EOP.toNat then
        let s :=
          if s.fp_clkIn = 1 then
            let s := s.setSP IF PC (u32 (s.instr_base_address + 4 * s.fp_inst_count + 4))
            s.setSP ID NPC (s.specialP_Reg.get IF PC)
          else if s.fp_clkIn > 1 then
            let s := s.setSP ID NPC (u32 (s.instr_base_address + 4 * s.fp_inst_count + 4))
            s.setSP IF PC (s.specialP_Reg.get ID NPC)
          else s
        { s with fp_inst_count := u64 (s.fp_inst_count + 1),
                 fp_totalInstCount := u64 (s.fp_totalInstCount + 1) }
      else s
    some (if s.fp_clkIn = IF + 1 then { s with fp_clkIn := u32 (s.fp_clkIn + 1) } else s)

/-- The method `fp_decode`.  The call of `fp_hazardHandler` is commented out in the source:
nothing in `sim_pipe_fp.cc` calls the hazard handler, and nothing else assigns a non-zero
value to `fp_stalls`. -/
def fp_decode (s : sim_pipe_fp) : Option sim_pipe_fp :=
  if s.fp_memoryStall then some s
  else if s.fp_stalls ≠ 0 ∧ s.fp_branchStall = false then
    some (s.setPipe SECOND (s.fp_pipe_reg.get SECOND).reset)
  else
    (if s.op FIRST ≠ .NOP then
        let r := s.fp_pipe_reg.get FIRST
        (s.get_int_register r.pipe_IR.src1).bind fun v1 =>
        let s := s.setPipe FIRST { r with pipe_IR := { r.pipe_IR with src1 := ofInt32 v1 } }
        let r := s.fp_pipe_reg.get FIRST
        (s.get_int_register r.pipe_IR.src2).map fun v2 =>
        s.setPipe FIRST { r with pipe_IR := { r.pipe_IR with src2 := ofInt32 v2 } }
      else some s).bind fun s =>
    let s := s.setSP EXE NPC (s.specialP_Reg.get ID NPC)
    let s := s.setSP EXE IMM (s.fp_pipe_reg.get FIRST).pipe_IR.immediate
    let s :=
      if s.specialP_Reg.get ID IR ≠ opcode_t.SW.toNat ∧
          (s.op FIRST ≠ .NOP ∨ s.op FIRST ≠ .EOP) then
        let s := s.setSP EXE A (s.fp_pipe_reg.get FIRST).pipe_IR.src1
        if s.specialP_Reg.get ID IR ≠ opcode_t.LW.toNat then
          s.setSP EXE B (s.fp_pipe_reg.get FIRST).pipe_IR.src2
        else s
      else if s.specialP_Reg.get ID IR = opcode_t.SW.toNat then
        let s := s.setSP EXE B (s.fp_pipe_reg.get FIRST).pipe_IR.src1
        let s := s.setSP EXE A (s.fp_pipe_reg.get FIRST).pipe_IR.src2
        let r := s.fp_pipe_reg.get FIRST
        let ir := { r.pipe_IR with src1 := s.specialP_Reg.get EXE A,
                                   src2 := s.specialP_Reg.get EXE B }
        s.setPipe FIRST { r with pipe_IR := ir }
      else s
    let s := s.setSP EXE IR (s.specialP_Reg.get ID IR)
    let s := s.setPipe SECOND (s.fp_pipe_reg.get FIRST)
    if s.fp_clkIn = ID + 1 then
      (fp_fetch s).map fun s => { s with fp_clkIn := u32 (s.fp_clkIn + 1) }
    else some s

/-- The `switch` on the opcode in `fp_execute`: the comparisons are made on the `unsigned`
member `src1`. -/
def executeBranch (s : sim_pipe_fp) : sim_pipe_fp :=
  let ir := (s.fp_pipe_reg.get SECOND).pipe_IR
  let taken : sim_pipe_fp := { s with fp_branchToLabel := ir.label, fp_noBranches := false }
  match ir.opcode with
  | .BNEZ => if ir.src1 ≠ 0 then taken else s
  | .BEQZ => if ir.src1 = 0 then taken else s
  | .BLTZ => if ir.src1 < 0 then taken else s
  | .BGTZ => if ir.src1 > 0 then taken else s
  | .BLEZ => if ir.src1 ≤ 0 then taken else s
  | .BGEZ => if ir.src1 ≥ 0 then taken else s
  | _ => { s with fp_noBranches := true }

/-- The method `fp_execute`.  It neither requests a unit with `get_free_unit` nor marks one
busy: the ALU result is latched in the same call for every opcode. -/
def fp_execute (fo : float_ops) (s : sim_pipe_fp) : Option sim_pipe_fp :=
  if s.fp_memoryStall then some s
  else
    let r := s.fp_pipe_reg.get SECOND
    let out := alu fo r.pipe_IR.opcode.toNat r.pipe_IR.src1 r.pipe_IR.src2 r.pipe_IR.immediate
      r.pipe_NPC
    let s := s.setPipe SECOND { r with pipe_ALU_OUTPUT := out }
    let s := executeBranch s
    let s :=
      if s.op SECOND = .NOP then
        let s := s.setSP MEM IR opcode_t.NOP.toNat
        let s := s.setSP MEM ALU_OUTPUT 0
        s.setSP MEM B UNDEFINED
      else
        let s := s.setSP MEM ALU_OUTPUT (s.fp_pipe_reg.get SECOND).pipe_ALU_OUTPUT
        let s := s.setSP MEM B (s.specialP_Reg.get EXE B)
        s.setSP MEM IR (s.specialP_Reg.get EXE IR)
    let s := s.setPipe THIRD (s.fp_pipe_reg.get SECOND)
    if s.fp_clkIn = EXE + 1 then
      ((fp_decode s).bind fp_fetch).map fun s => { s with fp_clkIn := u32 (s.fp_clkIn + 1) }
    else some s

/-- The latency bookkeeping at the head of `fp_memory` (up to `if(fp_memoryStall) return;`). -/
def memoryWait (s : sim_pipe_fp) : sim_pipe_fp :=
  let s := if s.data_memory_latency = 0 then { s with fp_memoryStall := false } else s
  if s.fp_stallMem < s.data_memory_latency then
    if s.op THIRD = .LW ∨ s.op THIRD = .SW then
      { s with
        fp_memoryStall := true
        fp_totalStalls := u32 (s.fp_totalStalls + 1)
        fp_stallMem := u32 (s.fp_stallMem + 1)
        fp_memStallCompleted := false }
    else s
  else if s.data_memory_latency ≠ 0 ∧ s.fp_stallMem = s.data_memory_latency then
    { s with fp_memoryStall := false, fp_stallMem := 0, fp_memStallCompleted := true }
  else s

/-- The method `fp_memory`.  For `LW` the source reads the single byte
`data_memory[ALU_OUTPUT]`; `LWS` and `SWS` make no access. -/
def fp_memory (fo : float_ops) (s : sim_pipe_fp) : Option sim_pipe_fp :=
  let s := memoryWait s
  if s.fp_memoryStall then some s
  else
    let s := if s.op THIRD = .NOP then s.setSP MEM IR opcode_t.NOP.toNat else s
    (if s.specialP_Reg.get MEM IR = opcode_t.LW.toNat then
        let a := s.specialP_Reg.get MEM ALU_OUTPUT
        if a < s.data_memory_size then
          let s := s.setPipe FORTH { s.fp_pipe_reg.get FORTH with pipe_LMD := s.data_memory a }
          some (s.setSP WB LMD (s.data_memory a))
        else none
      else if s.specialP_Reg.get MEM IR = opcode_t.SW.toNat then
        s.write_memory (s.specialP_Reg.get MEM ALU_OUTPUT) (s.specialP_Reg.get MEM B)
      else some (s.setSP WB ALU_OUTPUT (s.specialP_Reg.get MEM ALU_OUTPUT))).bind fun s =>
    let s := s.setSP WB IR (s.specialP_Reg.get MEM IR)
    let s := s.setPipe FORTH (s.fp_pipe_reg.get THIRD)
    if s.fp_clkIn = MEM + 1 then
      (((fp_execute fo s).bind fp_decode).bind fp_fetch).map
        fun s => { s with fp_clkIn := u32 (s.fp_clkIn + 1) }
    else some s

/-- The method `fp_writeBack`. -/
def fp_writeBack (fo : float_ops) (s : sim_pipe_fp) : Option sim_pipe_fp :=
  let s := if s.op FORTH = .NOP then s.setSP WB IR opcode_t.NOP.toNat else s
  let ir := s.specialP_Reg.get WB IR
  (if ir = opcode_t.ADD.toNat ∨ ir = opcode_t.ADDI.toNat ∨ ir = opcode_t.SUB.toNat ∨
      ir = opcode_t.SUBI.toNat ∨ ir = opcode_t.XOR.toNat then
      s.set_int_register (s.fp_pipe_reg.get FORTH).pipe_IR.dest
        (toInt32 (s.specialP_Reg.get WB ALU_OUTPUT))
    else if ir = opcode_t.LW.toNat then
      s.set_int_register (s.fp_pipe_reg.get FORTH).pipe_IR.dest
        (toInt32 (s.specialP_Reg.get WB LMD))
    else some s).bind fun s =>
  if s.fp_clkIn ≥ WB + 1 then
    ((((fp_memory fo s).bind (fp_execute fo)).bind fp_decode).bind fp_fetch).map fun s =>
      if s.specialP_Reg.get WB IR = opcode_t.EOP.toNat ∧ s.fp_noBranches = true then
        { s with fp_runAlways := false }
      else { s with fp_clkIn := u32 (s.fp_clkIn + 1) }
  else some s

/-! ### The cycle driver -/

/-- One pass through the `switch(fp_clkIn)` of `run`. -/
def dispatch (fo : float_ops) (s : sim_pipe_fp) : Option sim_pipe_fp :=
  if s.fp_clkIn = IF + 1 then fp_fetch s
  else if s.fp_clkIn = ID + 1 then fp_decode s
  else if s.fp_clkIn = EXE + 1 then fp_execute fo s
  else if s.fp_clkIn = MEM + 1 then fp_memory fo s
  else if s.fp_clkIn = WB + 1 then fp_writeBack fo s
  else if s.fp_clkIn > WB + 1 then fp_writeBack fo s
  else some s

/-- Result of calling `run`: it returned, it performed an access that is undefined behaviour,
or it was still looping when the fuel of the model ran out. -/
inductive run_result where
  | returned (s : sim_pipe_fp)
  | undefined
  | looping (s : sim_pipe_fp)

/-- The `do ... while(fp_runAlways)` loop of `run`, for at most `fuel` passes. -/
def run_loop (fo : float_ops) : Nat → sim_pipe_fp → run_result
  | 0, s => run_result.looping s
  | fuel + 1, s =>
    match dispatch fo s with
    | none => run_result.undefined
    | some s' => if s'.fp_runAlways then run_loop fo fuel s' else run_result.returned s'

/-- The method `run`, for at most `fuel` passes of its loop. -/
def run (fo : float_ops) (fuel : Nat) (s : sim_pipe_fp) (cycles : Nat) : run_result :=
  run_loop fo fuel (if cycles = 0 then { s with fp_runAlways := true } else s)

end sim_pipe_fp

/-- An assembly line without label: opcode and numeric operands as written. -/
def asm (o : opcode_t) (p1 p2 p3 : Nat) : asm_line :=
  { label := none, opcode := o, par1 := p1, par2 := p2, par3 := p3, target := "" }

/-- Scenario S1 for the FP variant: `ADDI R1 R0 5; ADDI R2 R0 7; ADD R3 R1 R2; EOP`. -/
def program_S1 : List asm_line :=
  [asm .ADDI 1 0 5, asm .ADDI 2 0 7, asm .ADD 3 1 2, asm .EOP 0 0 0]

/-- The program `LWS F1 0(R0); LWS F2 4(R0); MULTS F3 F1 F2; EOP`. -/
def program_mults : List asm_line :=
  [asm .LWS 1 0 0, asm .LWS 2 4 0, asm .MULTS 3 1 2, asm .EOP 0 0 0]

/-- The set-up of scenario S1 on the FP variant: a simulator with the given data memory,
`set_int_register(0, 0)`, then `load_program` at base address 0. -/
def boot (mem_size mem_latency : Nat) (program : List asm_line) : Option sim_pipe_fp :=
  ((sim_pipe_fp.new mem_size mem_latency).set_int_register 0 0).bind fun s =>
  s.load_program program 0

/-- The set-up of the multiplier scenario: a simulator with a 16-byte data memory of latency
0, one INTEGER unit of latency 1 and one MULTIPLIER unit of the given latency,
`set_int_register(0, 0)`, then `load_program` of `program_mults` at base address 0. -/
def boot_mults (latency : Nat) : Option sim_pipe_fp :=
  ((sim_pipe_fp.new 16 0).init_exec_unit .INTEGER 1 1).bind fun s =>
  (s.init_exec_unit .MULTIPLIER latency 1).bind fun s =>
  (s.set_int_register 0 0).bind fun s =>
  s.load_program program_mults 0

end fp

namespace fp

/-- The type of unit that the specification requires for an opcode: INTEGER for the integer
ALU operations, the branches, `JUMP` and the loads and stores (`LW`, `SW`, `LWS`, `SWS`), ADDER
for `ADDS` and `SUBS`, MULTIPLIER for `MULTS`, DIVIDER for `DIVS`; `EOP` and `NOP` need no
unit.  Written from the words of the specification, to be compared with the `switch` of
`get_free_unit`. -/
def required_unit (opcode : opcode_t) : Option exe_unit_t :=
  if opcode = .EOP ∨ opcode = .NOP then none
  else if opcode = .ADDS ∨ opcode = .SUBS then some .ADDER
  else if opcode = .MULTS then some .MULTIPLIER
  else if opcode = .DIVS then some .DIVIDER
  else some .INTEGER

/-- Unit `u` is idle and of the type required by `opcode`. -/
def free_unit (s : sim_pipe_fp) (opcode : opcode_t) (u : Nat) : Prop :=
  ∃ x, s.exec_units[u]? = some x ∧ some x.type = required_unit opcode ∧ x.busy = 0

end fp

namespace fp

/-- The program `LW R4 0(R0); LWS F2 0(R0); ADDS F3 F1 F1; EOP`. -/
def program_fp_commit : List asm_line :=
  [asm .LW 4 0 0, asm .LWS 2 0 0, asm .ADDS 3 1 1, asm .EOP 0 0 0]

/-- The set-up for `program_fp_commit`: a simulator with a 16-byte data memory of latency 0,
`set_int_register(0, 0)`, `set_int_register(1, 0x40000000)` (the bit pattern of 2.0), then
`load_program` at base address 0. -/
def boot_fp_commit : Option sim_pipe_fp :=
  ((sim_pipe_fp.new 16 0).set_int_register 0 0).bind fun s =>
  (s.set_int_register 1 0x40000000).bind fun s =>
  s.load_program program_fp_commit 0

end fp

/-- The program `ADD R9 R8 R7; ADD R9 R8 R7; EOP`, loaded first to leave `dest` 9 and `src2` 7
in the first two slots of the instruction memory. -/
def program_fill : List asm_line :=
  [asm ADD 9 8 7, asm ADD 9 8 7, asm EOP 0 0 0]

/-- The program `BEQZ R0 A; BNEZ R0 B; A: ADDI R1 R0 5; B: EOP`: with R0 = 0 the first branch
is taken and the second is not. -/
def program_two_branches : List asm_line :=
  [asmBranch BEQZ 0 "A", asmBranch BNEZ 0 "B", labelled "A" (asm ADDI 1 0 5),
    labelled "B" (asm EOP 0 0 0)]

/-- The set-up for `program_two_branches`: a simulator with a 16-byte data memory of latency 0,
`set_gp_register(0, 0)`, `load_program` of `program_fill` and then `load_program` of
`program_two_branches`, both at base address 0 (`load_program` assigns only the members of a
slot that the opcode uses, so the branches keep the `dest` and `src2` of `program_fill`). -/
def boot_two_branches : Option sim_pipe :=
  (((sim_pipe.new 16 0).set_gp_register 0 0).load_program program_fill 0).bind fun s =>
  s.load_program program_two_branches 0

/-- The state after `k` passes of the loop of `run(0)` from the set-up `boot_two_branches`. -/
def two_branches_after (k : Nat) : sim_pipe :=
  match boot_two_branches with
  | some s0 =>
    match s0.run k 0 with
    | sim_pipe.run_result.looping s => s
    | sim_pipe.run_result.returned s => s
    | sim_pipe.run_result.undefined => s0
  | none => sim_pipe.new 16 0

/-- The state in which the hazard handler runs in pass `k + 1` of `run(0)` on scenario S1 with a
16-byte data memory of latency 0, for `k` of 4 or more (the pass is made by `writeBack`). -/
def S1_handler_state (k : Nat) : sim_pipe :=
  (beforeDecode (state_after 0 program_S1 k)).getD (sim_pipe.new 16 0)

/-- A property of the state that every block of the stages preserves: the assignments to the
cycle counter and to `runAlways`, the bubbles written by a stalled `fetch` and a stalled
`decode`, and the blocks of the five stages. -/
structure stage_invariant (P : sim_pipe → Prop) : Prop where
  clock : ∀ (s : sim_pipe) (v : Nat), P s → P { s with clkIn := v }
  running : ∀ (s : sim_pipe) (b : Bool), P s → P { s with runAlways := b }
  squash : ∀ s : sim_pipe, P s → P (s.setPipe FIRST (s.pipe_reg.get FIRST).reset)
  redirect : ∀ s s' : sim_pipe, P s → s.fetchJump = some s' → P s'
  load : ∀ (s : sim_pipe) (instr : instruction_t), P s → P (s.fetchLoad instr)
  hazard : ∀ s : sim_pipe, P s → P s.hazardHandler
  bubble : ∀ s : sim_pipe, P s → P (s.setPipe SECOND (s.pipe_reg.get SECOND).reset)
  read : ∀ s : sim_pipe, P s → P s.decodeRead
  latch : ∀ s : sim_pipe, P s → P s.decodeLatch
  alu : ∀ s : sim_pipe, P s → P s.executeAlu
  branch : ∀ s : sim_pipe, P s → P s.executeBranch
  forward : ∀ s : sim_pipe, P s → P s.executeLatch
  wait : ∀ s : sim_pipe, P s → P s.memoryWait
  access : ∀ s s' : sim_pipe, P s → s.memoryAccess = some s' → P s'
  commit : ∀ s : sim_pipe, P s → P s.writeBackCommit

/-! ## Blocks of `hazardHandler`

The body of `hazardHandler` cut into the assignment of the operand registers, the chain of
tests that records a stall, and the release of a pending stall; `hazardDetect_eq` and
`hazardHandler_eq` below state that the handler is made of them. -/

namespace sim_pipe

/-- The head of hazard detection: the source register indices of the IF/ID instruction are
copied into A and B of the ID stage, exchanged if the IR register of ID holds `SW`. -/
def hazardOperands (s : sim_pipe) : sim_pipe :=
  if s.specialP_Reg.get ID IR = SW.toNat then
    let s := s.setSP ID B (s.pipe_reg.get FIRST).pipe_IR.src1
    s.setSP ID A (s.pipe_reg.get FIRST).pipe_IR.src2
  else
    let s := s.setSP ID A (s.pipe_reg.get FIRST).pipe_IR.src1
    s.setSP ID B (s.pipe_reg.get FIRST).pipe_IR.src2

/-- The chain of tests of hazard detection, on A and B of the ID stage: the first test that
succeeds records a stall at the current cycle. -/
def hazardRules (s : sim_pipe) : sim_pipe :=
  let a := s.specialP_Reg.get ID A
  let b := s.specialP_Reg.get ID B
  if s.op FIRST = SW then
    if a = (s.pipe_reg.get SECOND).pipe_IR.dest ∨ b = (s.pipe_reg.get SECOND).pipe_IR.dest then
      { s with stalls := 2, currentClk := u32 s.clkIn }
    else if (s.op FORTH ≠ NOP ∧ s.op FORTH ≠ SW ∧ s.op FORTH ≠ BNEZ ∧ s.op FORTH ≠ BLTZ) ∧
        (a = (s.pipe_reg.get FORTH).pipe_IR.dest ∨ b = (s.pipe_reg.get FORTH).pipe_IR.dest) then
      { s with stalls := 1, currentClk := u32 s.clkIn }
    else s
  else if a = (s.pipe_reg.get SECOND).pipe_IR.dest ∨ b = (s.pipe_reg.get SECOND).pipe_IR.dest then
    if s.op SECOND = ADD ∨ s.op SECOND = ADDI ∨ s.op SECOND = SUB ∨ s.op SECOND = SUBI ∨
        s.op SECOND = XOR ∨ s.op SECOND = LW then
      { s with stalls := 2, currentClk := u32 s.clkIn }
    else s
  else if (s.op THIRD ≠ SW ∧ s.op FIRST ≠ BNEZ ∧ s.op THIRD ≠ NOP ∧ s.op THIRD ≠ BNEZ) ∧
      (a = (s.pipe_reg.get THIRD).pipe_IR.dest ∨ b = (s.pipe_reg.get THIRD).pipe_IR.dest) then
    { s with stalls := 1, currentClk := u32 s.clkIn }
  else if (s.op FORTH ≠ SW ∧ s.op FORTH ≠ BNEZ ∧ s.op FIRST ≠ BNEZ ∧ s.op FORTH ≠ NOP ∧
      s.op FORTH ≠ BLTZ) ∧
      (a = (s.pipe_reg.get FORTH).pipe_IR.dest ∨ b = (s.pipe_reg.get FORTH).pipe_IR.dest) then
    { s with stalls := 1, currentClk := u32 s.clkIn }
  else if isCondBranch (s.op FIRST) then
    { s with stalls := 2, currentClk := u32 s.clkIn, branchStall := true }
  else s

/-- The end of `hazardHandler`: the release of a pending stall at its release cycle. -/
def hazardRelease (s : sim_pipe) : sim_pipe :=
  let memS : Nat := if s.memStallCompleted = true ∧ s.branchStall = false then 4 else 0
  if s.stalls ≠ 0 ∧ s.clkIn = u32 (s.currentClk + s.stalls + memS) then
    let s := { s with totalStalls := u32 (s.totalStalls + s.stalls), stalls := 0 }
    let s := if s.branchStall then { s with branchStall := false } else s
    if isCondBranch (s.op FIRST) then
      { s with stalls := 2, currentClk := u32 s.clkIn, branchStall := true }
    else s
  else s

end sim_pipe

/-- The bookkeeping of the stalls: the pending hazard stall (its length, the cycle at which it
was recorded and the branch-stall flag), the memory stall (countdown, flag and completion
flag), the total stall count and the configured memory latency. -/
def stall_view (s : sim_pipe) : Nat × Nat × Bool × Nat × Bool × Bool × Nat × Nat :=
  (s.stalls, s.currentClk, s.branchStall, s.stallMem, s.memoryStall, s.memStallCompleted,
    s.totalStalls, s.data_memory_latency)

/-- The pending stall count is 0, 1 or 2, and the branch-stall flag is set only with a pending
stall count of 2. -/
def stalls_bounded (s : sim_pipe) : Prop :=
  (s.stalls = 0 ∨ s.stalls = 1 ∨ s.stalls = 2) ∧ (s.branchStall = true → s.stalls = 2)

/-- The memory-latency countdown is at most the configured latency, and the memory-stall flag
is set if and only if the countdown is non-zero. -/
def stallMem_bounded (s : sim_pipe) : Prop :=
  s.stallMem ≤ s.data_memory_latency ∧ (s.memoryStall = true ↔ s.stallMem ≠ 0)

/-- The member `pipe_NPC` of each latch of the table is zero. -/
def npc_zero (t : pipe_table) : Prop := ∀ k, (t.get k).pipe_NPC = 0

/-- The member `pipe_NPC` of each of the four latches is zero. -/
def latch_npc_zero (s : sim_pipe) : Prop := npc_zero s.pipe_reg

/-- The state in which the pass of the dispatch from `s` calls `decode`, and `decode` the
hazard handler: `s` itself when the cycle counter is 2; the state after the body of `execute`
when it is 3; after the data-memory access and `execute` when it is 4; after the register
update, `memory` and `execute` when it is 5 or more.  The result is `none` when the pass does
not reach `decode`: the cycle counter is 0 or 1, a memory stall makes `execute` or `memory`
return as the stage called by the dispatch, or an access is out of range. -/
def decodeEntry (s : sim_pipe) : Option sim_pipe :=
  if s.clkIn = ID + 1 then some s
  else if s.clkIn = EXE + 1 then
    if s.memoryStall then none else some s.executeAlu.executeBranch.executeLatch
  else if s.clkIn = MEM + 1 then
    if s.memoryWait.memoryStall then none else s.memoryWait.memoryAccess.bind sim_pipe.execute
  else if s.clkIn ≥ WB + 1 then beforeDecode s
  else none

/-- The third test of the chain of hazard detection for an IF/ID instruction other than `SW`,
the 1-cycle rule on the EX/MEM latch, is the test that records the stall: the test on the
ID/EX latch fails and the test on the EX/MEM latch succeeds. -/
def exmemRule (s : sim_pipe) : Prop :=
  s.op FIRST ≠ SW ∧
  ¬ (s.specialP_Reg.get ID A = (s.pipe_reg.get SECOND).pipe_IR.dest ∨
      s.specialP_Reg.get ID B = (s.pipe_reg.get SECOND).pipe_IR.dest) ∧
  (s.op THIRD ≠ SW ∧ s.op FIRST ≠ BNEZ ∧ s.op THIRD ≠ NOP ∧ s.op THIRD ≠ BNEZ) ∧
  (s.specialP_Reg.get ID A = (s.pipe_reg.get THIRD).pipe_IR.dest ∨
    s.specialP_Reg.get ID B = (s.pipe_reg.get THIRD).pipe_IR.dest)

/-- The cycle counter is a 64-bit value, and while it is 1 or 2 the ID/EX and EX/MEM latches
are as `reset` left them. -/
def fresh_latches (s : sim_pipe) : Prop :=
  s.clkIn < 2 ^ 64 ∧
  (s.clkIn = 1 ∨ s.clkIn = 2 →
    s.pipe_reg.SECOND = pipeline_Registers.zero.reset ∧
    s.pipe_reg.THIRD = pipeline_Registers.zero.reset)

/-! ## The members read and written by programs of arithmetic instructions

The proof that the pipeline executes a program of `ADD`, `ADDI`, `SUB`, `SUBI` and `XOR` in
program order follows the members of the class that such a run reads: they are collected in
the record `core`, and each block of a stage is described by its effect on that record. -/

/-- The members of `sim_pipe` on which a pass of the dispatch depends while the latches hold
arithmetic instructions, `EOP` or bubbles: the four latches, the IR registers of the ID, EXE,
MEM and WB stages, the ALU_OUTPUT registers of MEM and WB, the register file, the cycle
counter, the fetch index, the instruction memory, the pending label, and the stall
bookkeeping. -/
structure core where
  pipe : pipe_table
  idIR : Nat
  exeIR : Nat
  memIR : Nat
  wbIR : Nat
  memOut : Nat
  wbOut : Nat
  regs : Nat → Nat
  clkIn : Nat
  inst_count : Nat
  imem : List instruction_t
  label : String
  noBranches : Bool
  runAlways : Bool
  stalls : Nat
  currentClk : Nat
  branchStall : Bool
  memoryStall : Bool
  memStallCompleted : Bool
  stallMem : Nat
  latency : Nat

/-- The record `core` of a state. -/
def sim_pipe.core (s : sim_pipe) : core :=
  { pipe := s.pipe_reg
    idIR := s.specialP_Reg.get ID IR
    exeIR := s.specialP_Reg.get EXE IR
    memIR := s.specialP_Reg.get MEM IR
    wbIR := s.specialP_Reg.get WB IR
    memOut := s.specialP_Reg.get MEM ALU_OUTPUT
    wbOut := s.specialP_Reg.get WB ALU_OUTPUT
    regs := s.generalP_Reg
    clkIn := s.clkIn
    inst_count := s.inst_count
    imem := s.instr_memory
    label := s.branchToLabel
    noBranches := s.noBranches
    runAlways := s.runAlways
    stalls := s.stalls
    currentClk := s.currentClk
    branchStall := s.branchStall
    memoryStall := s.memoryStall
    memStallCompleted := s.memStallCompleted
    stallMem := s.stallMem
    latency := s.data_memory_latency }

/-- The value that `decode` reads for a source register index: `get_gp_register` converted
back to `unsigned`. -/
def readReg (regs : Nat → Nat) (x : Nat) : Nat :=
  ofInt32 (if x < NUM_GP_REGISTERS then toInt32 (regs x) else 0)

namespace core

/-- The opcode held in latch `k`. -/
def op (v : core) (k : Nat) : opcode_t := (v.pipe.get k).pipe_IR.opcode

/-- The effect of the register update of `writeBack` when the IR register of WB does not hold
`LW`. -/
def commit (v : core) : core :=
  { v with
    wbIR := if v.op FORTH = NOP then NOP.toNat else v.wbIR
    regs :=
      if ((if v.op FORTH = NOP then NOP.toNat else v.wbIR) = ADD.toNat ∨
          (if v.op FORTH = NOP then NOP.toNat else v.wbIR) = ADDI.toNat ∨
          (if v.op FORTH = NOP then NOP.toNat else v.wbIR) = SUB.toNat ∨
          (if v.op FORTH = NOP then NOP.toNat else v.wbIR) = SUBI.toNat ∨
          (if v.op FORTH = NOP then NOP.toNat else v.wbIR) = XOR.toNat) ∧
          (v.pipe.get FORTH).pipe_IR.dest < NUM_GP_REGISTERS then
        upd v.regs (v.pipe.get FORTH).pipe_IR.dest (ofInt32 (toInt32 v.wbOut))
      else v.regs }

/-- The effect of the data-memory access of `memory` when the IR register of MEM holds neither
`LW` nor `SW`. -/
def access (v : core) : core :=
  { v with
    memIR := if v.op THIRD = NOP then NOP.toNat else v.memIR
    wbOut := v.memOut
    wbIR := if v.op THIRD = NOP then NOP.toNat else v.memIR
    pipe := v.pipe.set FORTH (v.pipe.get THIRD) }

/-- The ALU result for the instruction in ID/EX. -/
def aluOut (v : core) : Nat :=
  alu (v.pipe.get SECOND).pipe_IR.opcode.toNat (v.pipe.get SECOND).pipe_IR.src1
    (v.pipe.get SECOND).pipe_IR.src2 (v.pipe.get SECOND).pipe_IR.immediate
    (v.pipe.get SECOND).pipe_NPC

/-- The effect of the body of `execute` when ID/EX holds no conditional branch. -/
def exec (v : core) : core :=
  { v with
    noBranches := true
    memIR := if v.op SECOND = NOP then NOP.toNat else v.exeIR
    memOut := if v.op SECOND = NOP then 0 else v.aluOut
    pipe :=
      (v.pipe.set SECOND { v.pipe.get SECOND with pipe_ALU_OUTPUT := v.aluOut }).set THIRD
        { v.pipe.get SECOND with pipe_ALU_OUTPUT := v.aluOut } }

/-- The chain of tests of hazard detection when IF/ID holds neither `SW` nor a conditional
branch and the test on EX/MEM cannot succeed. -/
def rules (v : core) : core :=
  if (v.pipe.get FIRST).pipe_IR.src1 = (v.pipe.get SECOND).pipe_IR.dest ∨
      (v.pipe.get FIRST).pipe_IR.src2 = (v.pipe.get SECOND).pipe_IR.dest then
    if v.op SECOND = ADD ∨ v.op SECOND = ADDI ∨ v.op SECOND = SUB ∨ v.op SECOND = SUBI ∨
        v.op SECOND = XOR ∨ v.op SECOND = LW then
      { v with stalls := 2, currentClk := u32 v.clkIn }
    else v
  else if (v.op FORTH ≠ SW ∧ v.op FORTH ≠ BNEZ ∧ v.op FIRST ≠ BNEZ ∧ v.op FORTH ≠ NOP ∧
      v.op FORTH ≠ BLTZ) ∧
      ((v.pipe.get FIRST).pipe_IR.src1 = (v.pipe.get FORTH).pipe_IR.dest ∨
        (v.pipe.get FIRST).pipe_IR.src2 = (v.pipe.get FORTH).pipe_IR.dest) then
    { v with stalls := 1, currentClk := u32 v.clkIn }
  else v

/-- The effect of the release block of the hazard handler when no memory stall has completed
and IF/ID holds no conditional branch. -/
def release (v : core) : core :=
  if v.stalls ≠ 0 ∧ v.clkIn = u32 (v.currentClk + v.stalls + 0) then { v with stalls := 0 }
  else v

/-- The effect of the hazard handler when it is entered with no memory stall, IF/ID holds
neither a bubble, `SW` nor a conditional branch, and EX/MEM holds what ID/EX holds. -/
def handler (v : core) : core :=
  release (if v.stalls = 0 ∧ v.op SECOND ≠ NOP then v.rules else v)

/-- The effect of `decode` after the hazard handler when IF/ID holds neither a bubble nor
`SW`: a bubble in ID/EX while a stall is pending, else the register read and the copy of IF/ID
into ID/EX. -/
def decodeTail (v : core) : core :=
  if v.stalls ≠ 0 then { v with pipe := v.pipe.set SECOND (v.pipe.get SECOND).reset }
  else
    { v with
      exeIR := v.idIR
      pipe :=
        (v.pipe.set FIRST
          { v.pipe.get FIRST with
            pipe_IR :=
              { (v.pipe.get FIRST).pipe_IR with
                src1 := readReg v.regs (v.pipe.get FIRST).pipe_IR.src1
                src2 := readReg v.regs (v.pipe.get FIRST).pipe_IR.src2 } }).set SECOND
          { v.pipe.get FIRST with
            pipe_IR :=
              { (v.pipe.get FIRST).pipe_IR with
                src1 := readReg v.regs (v.pipe.get FIRST).pipe_IR.src1
                src2 := readReg v.regs (v.pipe.get FIRST).pipe_IR.src2 } } }

/-- The effect of loading `instr` into IF/ID in `fetch`. -/
def load (v : core) (instr : instruction_t) : core :=
  { v with
    pipe := v.pipe.set FIRST { v.pipe.get FIRST with pipe_IR := instr }
    idIR := instr.opcode.toNat
    inst_count :=
      if instr.opcode.toNat ≠ EOP.toNat then u64 (v.inst_count + 1) else v.inst_count }

/-- The increment of the cycle counter at the end of a pass. -/
def tick (v : core) : core := { v with clkIn := u64 (v.clkIn + 1) }

/-- The end of `writeBack`: `run` stops when `EOP` has reached the WB stage. -/
def finish (v : core) : core :=
  if v.wbIR = EOP.toNat ∧ v.noBranches = true then { v with runAlways := false } else v.tick

end core

/-! ## Programs of arithmetic instructions and their execution in program order -/

/-- The opcodes `ADD`, `ADDI`, `SUB`, `SUBI` and `XOR`. -/
def is_alu (o : opcode_t) : Bool :=
  o = ADD || o = ADDI || o = SUB || o = SUBI || o = XOR

/-- An instruction memory that holds `n` arithmetic instructions with register indices below
32, followed by `EOP` in a slot whose register members are equal (as they are in a slot that
`load_program` found zero-filled). -/
structure alu_program (imem : List instruction_t) (n : Nat) : Prop where
  size : n < PROGRAM_SIZE
  body : ∀ k, k < n → ∃ i, imem[k]? = some i ∧ is_alu i.opcode = true ∧ i.dest < 32 ∧
    i.src1 < 32 ∧ i.src2 < 32
  last : ∃ e, imem[n]? = some e ∧ e.opcode = EOP ∧ e.src1 = e.dest

/-- The `k`-th instruction that `fetch` delivers: the fetch index stays on `EOP`, so from
`n` on it is `EOP` again. -/
def ins (imem : List instruction_t) (n k : Nat) : instruction_t :=
  imem.getD (min k n) instruction_t.zero

/-- The effect of one arithmetic instruction on the register file in program order: the
destination receives the result of `alu` on the values of the source registers. -/
def seqStep (i : instruction_t) (R : Nat → Nat) : Nat → Nat :=
  upd R i.dest (alu i.opcode.toNat (R i.src1) (R i.src2) i.immediate 0)

/-- The register file after the first `k` instructions have been executed in program order,
starting from `R0`. -/
def seqRegs (imem : List instruction_t) (n : Nat) (R0 : Nat → Nat) : Nat → Nat → Nat
  | 0 => R0
  | k + 1 => if k < n then seqStep (ins imem n k) (seqRegs imem n R0 k) else seqRegs imem n R0 k

/-- The result of instruction `k` in program order. -/
def res (imem : List instruction_t) (n : Nat) (R0 : Nat → Nat) (k : Nat) : Nat :=
  alu (ins imem n k).opcode.toNat (seqRegs imem n R0 k (ins imem n k).src1)
    (seqRegs imem n R0 k (ins imem n k).src2) (ins imem n k).immediate 0

/-- A latch, with the IR and ALU_OUTPUT values that accompany it, holds a bubble (`none`) or
instruction `j` with its result in program order (`some j`). -/
def holds (imem : List instruction_t) (n : Nat) (R0 : Nat → Nat) (k : Option Nat)
    (l : pipeline_Registers) (ir out : Nat) : Prop :=
  match k with
  | none => l.pipe_IR.opcode = NOP
  | some j =>
    l.pipe_IR.opcode = (ins imem n j).opcode ∧ l.pipe_IR.dest = (ins imem n j).dest ∧
      ir = (ins imem n j).opcode.toNat ∧ (j < n → out = res imem n R0 j)

/-- The index `c'` of the oldest instruction behind a latch that holds `k`, when `c` is the
index of the oldest instruction not older than the latch. -/
def nxt (c : Nat) (k : Option Nat) (c' : Nat) : Prop :=
  match k with
  | none => c' = c
  | some j => j = c ∧ c' = c + 1

/-- Reading the source registers of instruction `f` in the register file `R` gives the result
of the instruction in program order. -/
def reads_ok (imem : List instruction_t) (n : Nat) (R0 : Nat → Nat) (f : Nat) (R : Nat → Nat) :
    Prop :=
  f < n →
    alu (ins imem n f).opcode.toNat (readReg R (ins imem n f).src1)
      (readReg R (ins imem n f).src2) (ins imem n f).immediate 0 = res imem n R0 f

/-- The pipeline at the start of a pass of the loop of `run` on a program of arithmetic
instructions: IF/ID holds instruction `f` as fetched, ID/EX, EX/MEM and MEM/WB hold `S`, `T`
and `W` (bubbles or consecutive instructions, with their results in program order), the
register file is the one after `c` instructions in program order, and a pending hazard stall
ends when the registers that instruction `f` reads are committed. -/
structure pinv (imem : List instruction_t) (n : Nat) (R0 : Nat → Nat) (f c : Nat)
    (S T W : Option Nat) (v : core) : Prop where
  prog : v.imem = imem
  regs : v.regs = seqRegs imem n R0 c
  first_ir : (v.pipe.get FIRST).pipe_IR = ins imem n f
  first_id : v.idIR = (ins imem n f).opcode.toNat
  first_ix : v.inst_count = min (f + 1) n
  second : holds imem n R0 S (v.pipe.get SECOND) v.exeIR v.aluOut
  third : holds imem n R0 T (v.pipe.get THIRD) v.memIR v.memOut
  forth : holds imem n R0 W (v.pipe.get FORTH) v.wbIR v.wbOut
  chain : ∃ c1 c2, nxt c W c1 ∧ nxt c1 T c2 ∧ nxt c2 S f
  quiet : v.memoryStall = false ∧ v.stallMem = 0 ∧ v.memStallCompleted = false ∧
    v.branchStall = false ∧ v.label = "" ∧ v.noBranches = true ∧ v.runAlways = true
  phase :
    (v.stalls = 0 ∧ v.clkIn ≤ 3 * f + 2 ∧ (S = none → T = none ∧ W = none)) ∨
    (S = none ∧ f ≤ n ∧ v.stalls = 2 ∧ v.clkIn + 1 = v.currentClk + 2 ∧ v.clkIn ≤ 3 * f + 3) ∨
    (S = none ∧ f ≤ n ∧ (v.stalls = 1 ∨ v.stalls = 2) ∧ v.clkIn = v.currentClk + v.stalls ∧
      v.clkIn ≤ 3 * f + 4 ∧ ∀ c1, nxt c W c1 → reads_ok imem n R0 f (seqRegs imem n R0 c1))

/-- The pipeline in the first passes and at the end of the program: at most `n` instructions
are committed; with the cycle counter at 2, 3 and 4 the latches behind the stages that the
pass does not run hold bubbles, and at 2 no stall is pending; and `EOP` is in MEM/WB at the
start of a pass only at cycle 5, with a successor in EX/MEM. -/
structure pstart (n c : Nat) (S T W : Option Nat) (v : core) : Prop where
  committed : c ≤ n
  low : 2 ≤ v.clkIn
  two : v.clkIn = 2 → S = none ∧ T = none ∧ W = none ∧ v.stalls = 0
  three : v.clkIn = 3 → T = none ∧ W = none
  four : v.clkIn = 4 → W = none
  eop : ∀ k, W = some k → n ≤ k → v.clkIn = 5 ∧ T ≠ none

/-- The pipeline when `decode` is entered: as at the start of the pass, with EX/MEM holding
what ID/EX holds and MEM/WB holding `Wn`, the next instruction to be committed being
`c1`. -/
structure mid (imem : List instruction_t) (n : Nat) (R0 : Nat → Nat) (f c1 : Nat)
    (S Wn : Option Nat) (v : core) : Prop where
  prog : v.imem = imem
  regs : v.regs = seqRegs imem n R0 c1
  first_ir : (v.pipe.get FIRST).pipe_IR = ins imem n f
  first_id : v.idIR = (ins imem n f).opcode.toNat
  first_ix : v.inst_count = min (f + 1) n
  second : holds imem n R0 S (v.pipe.get SECOND) v.exeIR v.aluOut
  third : holds imem n R0 S (v.pipe.get THIRD) v.memIR v.memOut
  forth : holds imem n R0 Wn (v.pipe.get FORTH) v.wbIR v.wbOut
  mirror : v.op SECOND ≠ NOP → v.pipe.get SECOND = v.pipe.get THIRD
  chain : ∃ c2, nxt c1 Wn c2 ∧ nxt c2 S f
  quiet : v.memoryStall = false ∧ v.stallMem = 0 ∧ v.memStallCompleted = false ∧
    v.branchStall = false ∧ v.label = "" ∧ v.noBranches = true ∧ v.runAlways = true
  phase :
    (v.stalls = 0 ∧ v.clkIn ≤ 3 * f + 2 ∧ (S = none → Wn = none)) ∨
    (S = none ∧ f ≤ n ∧ v.stalls = 2 ∧ v.clkIn + 1 = v.currentClk + 2 ∧ v.clkIn ≤ 3 * f + 3) ∨
    (S = none ∧ f ≤ n ∧ (v.stalls = 1 ∨ v.stalls = 2) ∧ v.clkIn = v.currentClk + v.stalls ∧
      v.clkIn ≤ 3 * f + 4 ∧ reads_ok imem n R0 f (seqRegs imem n R0 c1))
  bound : c1 ≤ n + 1

namespace core

/-- The effect of `fetch` on `core` when no memory stall and no branch stall is pending and
no label is pending: nothing while a hazard stall is pending, else the load of `instr`. -/
def refill (v : core) (instr : instruction_t) : core :=
  if v.stalls ≠ 0 then v else v.load instr

/-- The effect on `core` of `decode` and the `fetch` that follows it, when `instr` is the
instruction at the fetch index. -/
def front (v : core) (instr : instruction_t) : core :=
  (v.handler.decodeTail).refill instr

end core

namespace core

/-- The members that `fetch` reads besides the pending stall. -/
def fetch_view (v : core) : Nat × List instruction_t × String × Nat × Bool × Bool :=
  (v.inst_count, v.imem, v.label, v.clkIn, v.memoryStall, v.branchStall)

end core

namespace core

/-- The members that the end of `writeBack` reads and that `decode` and `fetch` do not
write. -/
def back_view (v : core) : Nat × (Nat → Nat) × Nat × Bool × Bool :=
  (v.wbIR, v.regs, v.clkIn, v.noBranches, v.runAlways)

end core

/-- The invariant of the loop of `run` on a program of arithmetic instructions: the latch
contents are those of some position in the program. -/
def good (imem : List instruction_t) (n : Nat) (R0 : Nat → Nat) (v : core) : Prop :=
  ∃ (f c : Nat) (S T W : Option Nat), pinv imem n R0 f c S T W v ∧ pstart n c S T W v

/-- The state in which `run` is called after `load_program`: the instruction memory holds the
program, the latches hold bubbles, the cycle counter is 1, the fetch index is 0 and no stall
is pending. -/
structure pinit (imem : List instruction_t) (R0 : Nat → Nat) (v : core) : Prop where
  prog : v.imem = imem
  regs : v.regs = R0
  second : (v.pipe.get SECOND).pipe_IR.opcode = NOP
  third : (v.pipe.get THIRD).pipe_IR.opcode = NOP
  forth : (v.pipe.get FORTH).pipe_IR.opcode = NOP
  count : v.inst_count = 0
  clock : v.clkIn = 1
  stalls : v.stalls = 0
  quiet : v.memoryStall = false ∧ v.stallMem = 0 ∧ v.memStallCompleted = false ∧
    v.branchStall = false ∧ v.label = "" ∧ v.noBranches = true ∧ v.runAlways = true

/-! ## The label buffers that the latches share with the instruction memory

The methods `fetch`, `decode`, `execute` and `memory` copy into a latch with `std::memcpy`, and
`instruction_t` has a member `label` of type `std::string`.  A `std::string` that holds a
pointer to its characters (libstdc++) is copied by `memcpy` with the pointer: the label of the
latch then reads the characters of the string it was copied from, the label of a slot of
`instr_memory`, with the length it had when it was copied.  `instruction_t::reset` assigns
`""` to the label of a latch, which writes the NUL character at the first position of the
buffer that the label points to and sets the length of that label to 0: the labels of the slot
and of the other latches that point to the same buffer keep their length and read NUL as
first character.  The definitions above copy labels by value; the definitions below add the shared
buffers to them, for the passes of `run` from a state in which no latch has been copied
into. -/

/-- The string that a reader of unchanged length reads from a character buffer after the NUL
character has been written at its first position. -/
def nul_first (l : String) : String :=
  if l = "" then "" else String.mk (Char.ofNat 0 :: l.data.tail)

/-- The simulator with the buffers of the latch labels: `label_in k` is the slot of
`instr_memory` to whose label the label of latch `k` points, and `none` while it points to
the buffer of a latch, which holds the empty string.  The member `label` of a latch in `sim` is
the string read through the pointer. -/
structure aliased where
  sim : sim_pipe
  label_in : Nat → Option Nat

namespace aliased

/-- The write of the NUL character at the first position of the label buffer of slot `j`, as
read by `instr_memory[j]` and by the latches whose label points to that buffer. -/
def scrub (a : aliased) (j : Nat) : aliased :=
  let through (k : Nat) (r : pipeline_Registers) : pipeline_Registers :=
    if a.label_in k = some j then
      { r with pipe_IR := { r.pipe_IR with label := nul_first r.pipe_IR.label } }
    else r
  { a with
    sim :=
      { a.sim with
        instr_memory :=
          match a.sim.instr_memory[j]? with
          | some i => a.sim.instr_memory.set j { i with label := nul_first i.label }
          | none => a.sim.instr_memory
        pipe_reg :=
          { FIRST := through FIRST a.sim.pipe_reg.FIRST
            SECOND := through SECOND a.sim.pipe_reg.SECOND
            THIRD := through THIRD a.sim.pipe_reg.THIRD
            FORTH := through FORTH a.sim.pipe_reg.FORTH } } }

/-- The call `pipe_reg[k].reset()`: the members of the latch are reset, and the assignment
`label = ""` writes through the pointer of the label. -/
def reset_latch (a : aliased) (k : Nat) : aliased :=
  let b : aliased := { a with sim := a.sim.setPipe k (a.sim.pipe_reg.get k).reset }
  match a.label_in k with
  | some j => b.scrub j
  | none => b

/-- The method `fetch`: as `sim_pipe.fetch`, with the reset of IF/ID written through its
label pointer and the `memcpy` from `instr_memory[inst_count]` leaving the label of IF/ID
pointing into that slot. -/
def fetch (a : aliased) : Option aliased :=
  if a.sim.memoryStall then some a
  else if a.sim.stalls ≠ 0 then
    some (if a.sim.branchStall then a.reset_latch FIRST else a)
  else
    (sim_pipe.fetchJump a.sim).bind fun s =>
    (if s.inst_count < PROGRAM_SIZE then s.instr_memory[s.inst_count]? else none).bind
      fun instr =>
    some
      { sim :=
          if (sim_pipe.fetchLoad s instr).clkIn = IF + 1 then
            { sim_pipe.fetchLoad s instr with
              clkIn := u64 ((sim_pipe.fetchLoad s instr).clkIn + 1) }
          else sim_pipe.fetchLoad s instr
        label_in := upd a.label_in FIRST (some s.inst_count) }

/-- The method `decode`: as `sim_pipe.decode`, with the reset of ID/EX written through its
label pointer and the `memcpy` of IF/ID into ID/EX copying the pointer. -/
def decode (a : aliased) : Option aliased :=
  let h := sim_pipe.hazardHandler a.sim
  if h.memoryStall then some { a with sim := h }
  else if h.stalls ≠ 0 ∧ h.branchStall = false then
    some (({ a with sim := h } : aliased).reset_latch SECOND)
  else
    let b : aliased :=
      { sim := sim_pipe.decodeLatch (sim_pipe.decodeRead h)
        label_in := upd a.label_in SECOND (a.label_in FIRST) }
    if b.sim.clkIn = ID + 1 then
      (fetch b).map fun c => { c with sim := { c.sim with clkIn := u64 (c.sim.clkIn + 1) } }
    else some b

/-- The method `execute`: as `sim_pipe.execute`, with the `memcpy` of ID/EX into EX/MEM
copying the label pointer. -/
def execute (a : aliased) : Option aliased :=
  if a.sim.memoryStall then some a
  else
    let b : aliased :=
      { sim := sim_pipe.executeLatch (sim_pipe.executeBranch (sim_pipe.executeAlu a.sim))
        label_in := upd a.label_in THIRD (a.label_in SECOND) }
    if b.sim.clkIn = EXE + 1 then
      ((decode b).bind fetch).map fun c =>
        { c with sim := { c.sim with clkIn := u64 (c.sim.clkIn + 1) } }
    else some b

/-- The method `memory`: as `sim_pipe.memory`, with the `memcpy` of EX/MEM into MEM/WB
copying the label pointer. -/
def memory (a : aliased) : Option aliased :=
  let m := sim_pipe.memoryWait a.sim
  if m.memoryStall then some { a with sim := m }
  else
    (sim_pipe.memoryAccess m).bind fun s =>
    let b : aliased := { sim := s, label_in := upd a.label_in FORTH (a.label_in THIRD) }
    if s.clkIn = MEM + 1 then
      (((execute b).bind decode).bind fetch).map fun c =>
        { c with sim := { c.sim with clkIn := u64 (c.sim.clkIn + 1) } }
    else some b

/-- The method `writeBack`: as `sim_pipe.writeBack`. -/
def writeBack (a : aliased) : Option aliased :=
  let b : aliased := { a with sim := sim_pipe.writeBackCommit a.sim }
  if b.sim.clkIn ≥ WB + 1 then
    ((((memory b).bind execute).bind decode).bind fetch).map fun c =>
      if c.sim.specialP_Reg.get WB IR = EOP.toNat ∧ c.sim.noBranches = true then
        { c with sim := { c.sim with runAlways := false } }
      else { c with sim := { c.sim with clkIn := u64 (c.sim.clkIn + 1) } }
  else some b

/-- One pass through the `switch(clkIn)` of `run`. -/
def dispatch (a : aliased) : Option aliased :=
  if a.sim.clkIn = IF + 1 then fetch a
  else if a.sim.clkIn = ID + 1 then decode a
  else if a.sim.clkIn = EXE + 1 then execute a
  else if a.sim.clkIn = MEM + 1 then memory a
  else if a.sim.clkIn = WB + 1 then writeBack a
  else if a.sim.clkIn > WB + 1 then writeBack a
  else some a

/-- Result of calling `run`, as `sim_pipe.run_result`. -/
inductive run_result where
  | returned (a : aliased)
  | undefined
  | looping (a : aliased)

/-- The `do ... while(runAlways)` loop of `run`, for at most `fuel` passes. -/
def run_loop : Nat → aliased → run_result
  | 0, a => run_result.looping a
  | fuel + 1, a =>
    match dispatch a with
    | none => run_result.undefined
    | some b => if b.sim.runAlways then run_loop fuel b else run_result.returned b

/-- The method `run`, for at most `fuel` passes of its loop. -/
def run (fuel : Nat) (a : aliased) (cycles : Nat) : run_result :=
  run_loop fuel (if cycles = 0 then { a with sim := { a.sim with runAlways := true } } else a)

end aliased

/-- The simulator in state `s`, reached without a call of `run`: the label of each latch
points to the buffer of the latch. -/
def sim_pipe.unshared (s : sim_pipe) : aliased := { sim := s, label_in := fun _ => none }

/-! # Theorems -/

open sim_pipe

/-! ## General lemmas -/

/-- A property of all values of a parameter follows from the property at one generic value,
a value about which nothing is known (a counterexample if there is one).  Evaluating the
simulator at the generic value shows that a run does not depend on the parameter. -/
theorem forall_of_generic {α : Type} [Nonempty α] (P : α → Prop)
    (h : P (Classical.epsilon fun a => ¬ P a)) : ∀ a, P a := by
  by_contra hne
  push_neg at hne
  exact Classical.epsilon_spec hne h

/-- Unfolding of one pass of the loop of `run`. -/
theorem run_loop_succ (fuel : Nat) (s : sim_pipe) :
    run_loop (fuel + 1) s =
      match dispatch s with
      | none => run_result.undefined
      | some s' => if s'.runAlways then run_loop fuel s' else run_result.returned s' :=
  rfl

/-- If the loop is still running in state `s'` after `k` passes, then `k + f` passes are `f`
passes from `s'`. -/
theorem run_loop_add (f : Nat) : ∀ (k : Nat) (s s' : sim_pipe),
    run_loop k s = run_result.looping s' → run_loop (k + f) s = run_loop f s' := by
  intro k
  induction k with
  | zero =>
    intro s s' h
    simp only [run_loop, run_result.looping.injEq] at h
    subst h
    simp
  | succ k ih =>
    intro s s' h
    rw [Nat.add_right_comm, run_loop_succ]
    rw [run_loop_succ] at h
    cases hd : dispatch s with
    | none => simp [hd] at h
    | some s1 =>
      simp only [hd] at h ⊢
      by_cases hr : s1.runAlways = true
      · simp only [hr, if_true] at h ⊢
        exact ih s1 s' h
      · simp [hr] at h

/-- If the loop is still running after `j + k` passes, it is still running after `j`. -/
theorem run_loop_initial : ∀ (j k : Nat) (s s' : sim_pipe),
    run_loop (j + k) s = run_result.looping s' →
      ∃ s'', run_loop j s = run_result.looping s'' := by
  intro j
  induction j with
  | zero => intro k s s' _; exact ⟨s, rfl⟩
  | succ j ih =>
    intro k s s' h
    rw [Nat.add_right_comm, run_loop_succ] at h
    rw [run_loop_succ]
    cases hd : dispatch s with
    | none => simp [hd] at h
    | some s1 =>
      simp only [hd] at h ⊢
      by_cases hr : s1.runAlways = true
      · simp only [hr, if_true] at h ⊢
        exact ih k s1 s' h
      · simp [hr] at h

/-- With the cycle counter at 0 a pass of the dispatch does nothing. -/
theorem dispatch_clk_zero (s : sim_pipe) (h : s.clkIn = 0) : dispatch s = some s := by
  simp [dispatch, h]

/-- With a non-zero argument and `runAlways` clear, `run` makes one pass of the dispatch,
whatever the argument is. -/
theorem run_nonzero_one_pass (fuel cycles : Nat) (s s' : sim_pipe) (hc : cycles ≠ 0)
    (hd : dispatch s = some s') (hr : s'.runAlways = false) :
    s.run (fuel + 1) cycles = run_result.returned s' := by
  simp [run, hc, run_loop_succ, hd, hr]

/-- The unsigned comparison `src1 < 0` of the `BLTZ` case never holds: the switch of
`execute` leaves the state as it is. -/
theorem executeBranch_BLTZ (s : sim_pipe) (h : (s.pipe_reg.get SECOND).pipe_IR.opcode = BLTZ) :
    executeBranch s = s := by
  simp [executeBranch, h]

/-- The unsigned comparison `src1 >= 0` of the `BGEZ` case always holds: the branch is taken
whatever the operand is. -/
theorem executeBranch_BGEZ (s : sim_pipe) (h : (s.pipe_reg.get SECOND).pipe_IR.opcode = BGEZ) :
    executeBranch s =
      { s with branchToLabel := (s.pipe_reg.get SECOND).pipe_IR.label, noBranches := false } := by
  simp [executeBranch, h]

/-! ## The run of `program_jump_loop` -/

/-- Loading `program_jump_loop` succeeds. -/
theorem jump_loop_load :
    (sim_pipe.new 16 0).load_program program_jump_loop 0 = some jump_loop_boot :=
  rfl

/-- After six passes of `run(0)` the simulator is in the first state of the cycle. -/
theorem jump_loop_enter :
    run_loop 6 { jump_loop_boot with runAlways := true } = run_result.looping (jump_loop_A 0 4) :=
  rfl

/-- One pass from a state `jump_loop_A`: the `EOP` in ID/EX sets `noBranches`, but MEM/WB
receives the branch, so `run` goes on. -/
theorem jump_loop_stepA : ∀ p : Nat × Nat,
    dispatch (jump_loop_A p.1 p.2) =
      some { jump_loop_B p.1 p.2 with clkIn := u64 (p.1 + 7 + 1) } := by
  apply forall_of_generic
  rfl

/-- One pass from a state `jump_loop_B`: MEM/WB receives `EOP`, but the branch in ID/EX is
taken and clears `noBranches`, so `run` goes on; fetch goes back to the branch. -/
theorem jump_loop_stepB : ∀ p : Nat × Nat,
    dispatch (jump_loop_B p.1 p.2) =
      some { jump_loop_A p.1 (u64 (p.2 + 1)) with clkIn := u64 (p.1 + 7 + 1) } := by
  apply forall_of_generic
  rfl

/-- The incremented cycle counter is the successor, or 0 on overflow of `unsigned long`. -/
theorem jump_loop_clk (k : Nat) (h : k + 7 < 2 ^ 64) :
    u64 (k + 7 + 1) = k + 1 + 7 ∧ k + 1 + 7 < 2 ^ 64 ∨ u64 (k + 7 + 1) = 0 := by
  unfold u64
  by_cases h2 : k + 8 < 2 ^ 64
  · left
    exact ⟨by rw [Nat.mod_eq_of_lt (by omega)], by omega⟩
  · right
    have h3 : k + 7 + 1 = 2 ^ 64 := by omega
    rw [h3]
    exact Nat.mod_self _

/-- A pass from a state of the cycle succeeds, leaves `runAlways` set and leads to a state of
the cycle. -/
theorem jump_loop_step (s : sim_pipe) (h : jump_loop_inv s) :
    ∃ s', dispatch s = some s' ∧ s'.runAlways = true ∧ jump_loop_inv s' := by
  rcases h with ⟨k, n, hk, rfl | rfl⟩ | ⟨h0, hr⟩
  · refine ⟨_, jump_loop_stepA (k, n), rfl, ?_⟩
    rcases jump_loop_clk k hk with ⟨h1, h2⟩ | h1
    · left
      refine ⟨k + 1, n, h2, Or.inr ?_⟩
      show ({ jump_loop_B k n with clkIn := u64 (k + 7 + 1) } : sim_pipe) = _
      rw [h1]
      rfl
    · right
      exact ⟨h1, rfl⟩
  · refine ⟨_, jump_loop_stepB (k, n), rfl, ?_⟩
    rcases jump_loop_clk k hk with ⟨h1, h2⟩ | h1
    · left
      refine ⟨k + 1, u64 (n + 1), h2, Or.inl ?_⟩
      show ({ jump_loop_A k (u64 (n + 1)) with clkIn := u64 (k + 7 + 1) } : sim_pipe) = _
      rw [h1]
      rfl
    · right
      exact ⟨h1, rfl⟩
  · exact ⟨s, dispatch_clk_zero s h0, hr, Or.inr ⟨h0, hr⟩⟩

/-- From a state of the cycle the loop of `run` is still running after any number of passes. -/
theorem jump_loop_forever : ∀ (fuel : Nat) (s : sim_pipe), jump_loop_inv s →
    ∃ s', run_loop fuel s = run_result.looping s' := by
  intro fuel
  induction fuel with
  | zero => intro s _; exact ⟨s, rfl⟩
  | succ fuel ih =>
    intro s h
    obtain ⟨s1, hd, hr, hinv⟩ := jump_loop_step s h
    rw [run_loop_succ, hd]
    simp only [hr, if_true]
    exact ih s1 hinv

/-- The jump is not performed.  On `JUMP END; ADDI R1 R0 5; END: EOP` with R0 = 0 the
reference execution reaches `EOP` after two instructions and leaves R1 undefined, while
`run(0)` returns with R1 = 5: `execute` has no case for `JUMP` and the `ADDI` behind it
commits. -/
theorem jump_falls_through :
    ∃ s0 s r, boot 16 0 program_jump = some s0 ∧
      s0.run 7 0 = run_result.returned s ∧ s0.seq 2 = some r ∧
      r.regs 1 = UNDEFINED ∧ s.generalP_Reg 1 = 5 :=
  ⟨_, _, _, rfl, rfl, rfl, rfl, rfl⟩

/-- With data-memory latency 0 and the registers at their reset value, the loop of `run(0)`
on `JUMP END; L: BNEZ R0 L; END: EOP` is still running after any number of passes, although
the reference execution reaches `EOP` after two instructions: the jump is not performed, the
branch on the non-zero R0 is taken again and again, and whenever `EOP` arrives in MEM/WB the
branch in ID/EX has just cleared `noBranches`. -/
theorem jump_loop_never_halts :
    ∃ s0 r, (sim_pipe.new 16 0).load_program program_jump_loop 0 = some s0 ∧
      s0.seq 2 = some r ∧ ∀ fuel, ∃ s, s0.run fuel 0 = run_result.looping s := by
  refine ⟨jump_loop_boot, _, jump_loop_load, rfl, ?_⟩
  intro fuel
  show ∃ s, run_loop fuel { jump_loop_boot with runAlways := true } = run_result.looping s
  by_cases hf : fuel ≤ 6
  · obtain ⟨k, hk⟩ : ∃ k, 6 = fuel + k := ⟨6 - fuel, by omega⟩
    have h6 := jump_loop_enter
    rw [hk] at h6
    exact run_loop_initial fuel k _ _ h6
  · obtain ⟨f, rfl⟩ : ∃ f, fuel = 6 + f := ⟨fuel - 6, by omega⟩
    rw [run_loop_add f 6 _ _ jump_loop_enter]
    exact jump_loop_forever f _ (Or.inl ⟨0, 4, by norm_num, Or.inl rfl⟩)

/-! ## The run of `program_store_load_use` with latency 6 -/

/-- The set-up with latency 6 and `program_store_load_use` succeeds. -/
theorem store_load_use_load :
    boot 16 6 program_store_load_use = some store_load_use_boot :=
  rfl

/-- After 21 passes of `run(0)` the simulator is in the state `store_load_use_stuck 0`. -/
theorem store_load_use_enter :
    run_loop 21 { store_load_use_boot with runAlways := true } =
      run_result.looping (store_load_use_stuck 0) :=
  rfl

/-- A pass from the state `store_load_use_stuck k` changes the cycle counter only: the stall
is released at cycle `currentClk + stalls + 4 = 19` only, and that cycle has passed. -/
theorem store_load_use_pass : ∀ k : Nat,
    dispatch (store_load_use_stuck k) =
      some { store_load_use_stuck k with clkIn := u64 (k + 22 + 1) } := by
  apply forall_of_generic
  rfl

/-- The incremented cycle counter is the successor, or 0 on overflow of `unsigned long`. -/
theorem store_load_use_clk (k : Nat) (h : k + 22 < 2 ^ 64) :
    u64 (k + 22 + 1) = k + 1 + 22 ∧ k + 1 + 22 < 2 ^ 64 ∨ u64 (k + 22 + 1) = 0 := by
  unfold u64
  by_cases h2 : k + 23 < 2 ^ 64
  · left
    exact ⟨by rw [Nat.mod_eq_of_lt (by omega)], by omega⟩
  · right
    have h3 : k + 22 + 1 = 2 ^ 64 := by omega
    rw [h3]
    exact Nat.mod_self _

/-- A pass from a state of `store_load_use_inv` succeeds, leaves `runAlways` set and leads to
a state of `store_load_use_inv`. -/
theorem store_load_use_step (s : sim_pipe) (h : store_load_use_inv s) :
    ∃ s', dispatch s = some s' ∧ s'.runAlways = true ∧ store_load_use_inv s' := by
  rcases h with ⟨k, hk, rfl⟩ | ⟨h0, hr⟩
  · refine ⟨_, store_load_use_pass k, rfl, ?_⟩
    rcases store_load_use_clk k hk with ⟨h1, h2⟩ | h1
    · left
      refine ⟨k + 1, h2, ?_⟩
      show ({ store_load_use_stuck k with clkIn := u64 (k + 22 + 1) } : sim_pipe) = _
      rw [h1]
      rfl
    · right
      exact ⟨h1, rfl⟩
  · exact ⟨s, dispatch_clk_zero s h0, hr, Or.inr ⟨h0, hr⟩⟩

/-- From a state of `store_load_use_inv` the loop of `run` is still running after any number
of passes. -/
theorem store_load_use_forever : ∀ (fuel : Nat) (s : sim_pipe), store_load_use_inv s →
    ∃ s', run_loop fuel s = run_result.looping s' := by
  intro fuel
  induction fuel with
  | zero => intro s _; exact ⟨s, rfl⟩
  | succ fuel ih =>
    intro s h
    obtain ⟨s1, hd, hr, hinv⟩ := store_load_use_step s h
    rw [run_loop_succ, hd]
    simp only [hr, if_true]
    exact ih s1 hinv

/-- With latency 2, the latency of scenario S3, the run of `program_store_load_use` is right:
`run(0)` returns with R3 = 0x84, as the reference execution does. -/
theorem store_load_use_latency_two :
    ∃ s0 s r, boot 16 2 program_store_load_use = some s0 ∧
      s0.run 18 0 = run_result.returned s ∧ s0.seq 5 = some r ∧
      r.regs 3 = 0x84 ∧ s.generalP_Reg 3 = 0x84 :=
  ⟨_, _, _, rfl, rfl, rfl, rfl, rfl⟩

/-- A taken branch behind a store gets no bubble either.  On
`ADDI R1 R0 1; SW R1 0(R0); BNEZ R1 END; ADDI R2 R0 99; END: EOP` the branch is decoded in the
sixth pass with the store in ID/EX and EX/MEM (no bubble in the first three latches); its
unset `src2` (0) equals the unset `dest` (0) of the store, the arm of the operand match is
entered and the arms behind it, the branch stall among them, are skipped.  The fall-through
`ADDI` is decoded and commits R2 = 99. -/
theorem branch_behind_store_no_bubble :
    ∃ s0 s5 s6 s7 s, boot 16 0 program_branch_after_store = some s0 ∧
      s0.run 5 0 = run_result.looping s5 ∧ s5.op FIRST = BNEZ ∧ s5.op SECOND = SW ∧
      s0.run 6 0 = run_result.looping s6 ∧ s6.op SECOND = BNEZ ∧ s6.op FIRST = ADDI ∧
      s6.stalls = 0 ∧ (executeBranch (executeAlu s6)).branchToLabel = "END" ∧
      s0.run 7 0 = run_result.looping s7 ∧ s7.op SECOND = ADDI ∧ s7.op FIRST = EOP ∧
      s0.run 10 0 = run_result.returned s ∧ s.get_gp_register 2 = 99 :=
  ⟨_, _, _, _, _, rfl, rfl, rfl, rfl, rfl, rfl, rfl, rfl, rfl, rfl, rfl, rfl, rfl, rfl⟩

/-! ## The runs of scenarios S2 and S3 in closed form -/

/-- Scenario S2 (latency 0) with any data memory of at least 4 bytes: `run(0)` returns after
9 passes with cycle counter 9, registers R0, R1, R2 written and the word 0x42 stored at
address 0. -/
theorem scenario_S2_run (mem_size : Nat) (h : 4 ≤ mem_size) :
    ∃ s0 s, boot mem_size 0 program_S2 = some s0 ∧
      s0.run 9 0 = run_result.returned s ∧ s.clkIn = 9 ∧
      s.generalP_Reg = upd (upd (upd (fun _ => UNDEFINED) 0 0) 1 0x42) 2 0x42 ∧
      s.data_memory = int2char 0x42 (fun _ => 0xFF) 0 := by
  obtain ⟨m, rfl⟩ : ∃ m, mem_size = m + 4 := ⟨mem_size - 4, by omega⟩
  clear h
  rcases m with _ | m
  · exact ⟨_, _, rfl, rfl, rfl, rfl, rfl⟩
  · revert m
    apply forall_of_generic
    exact ⟨_, _, rfl, rfl, rfl, rfl, rfl⟩

/-- Scenario S3 (latency 2) with any data memory of at least 4 bytes: `run(0)` returns after
13 passes with cycle counter 13 and the same registers and memory as scenario S2. -/
theorem scenario_S3_run (mem_size : Nat) (h : 4 ≤ mem_size) :
    ∃ s0 s, boot mem_size 2 program_S2 = some s0 ∧
      s0.run 13 0 = run_result.returned s ∧ s.clkIn = 13 ∧
      s.generalP_Reg = upd (upd (upd (fun _ => UNDEFINED) 0 0) 1 0x42) 2 0x42 ∧
      s.data_memory = int2char 0x42 (fun _ => 0xFF) 0 := by
  obtain ⟨m, rfl⟩ : ∃ m, mem_size = m + 4 := ⟨mem_size - 4, by omega⟩
  clear h
  rcases m with _ | m
  · exact ⟨_, _, rfl, rfl, rfl, rfl, rfl⟩
  · revert m
    apply forall_of_generic
    exact ⟨_, _, rfl, rfl, rfl, rfl, rfl⟩

/-! ## The claims C1 to C10 -/

/-- C1, refuted on the code.  The claim: after `run(0)` the registers and the data memory
equal those of the execution of the program one instruction at a time.  On
`ADDI R1 R0 0x42; SW R1 0(R0); LW R2 0(R0); ADD R3 R2 R2; EOP` with R0 = 0 and data-memory
latency 5 the reference execution ends with R3 = 0x84, while `run(0)` returns with
R3 = 0xFFFFFFFE: the stall of the `ADD`, recorded at cycle 12, is released at cycle
12 + 2 + 4 = 18, the pass in which the load leaves the memory stage, one pass before its
write-back, and the `ADD` is decoded with the old R2. -/
theorem c01_stale_load_use :
    ∃ s0 s r, boot 16 5 program_store_load_use = some s0 ∧
      s0.run 21 0 = run_result.returned s ∧ s0.seq 5 = some r ∧
      r.regs 3 = 0x84 ∧ s.get_gp_register 3 = -2 ∧ s.generalP_Reg 3 = 0xFFFFFFFE ∧
      s.generalP_Reg ≠ r.regs := by
  have key : ∃ s0 s r, boot 16 5 program_store_load_use = some s0 ∧
      s0.run 21 0 = run_result.returned s ∧ s0.seq 5 = some r ∧
      r.regs 3 = 0x84 ∧ s.get_gp_register 3 = -2 ∧ s.generalP_Reg 3 = 0xFFFFFFFE :=
    ⟨_, _, _, rfl, rfl, rfl, rfl, rfl, rfl⟩
  obtain ⟨s0, s, r, h0, h1, h2, h3, h4, h5⟩ := key
  refine ⟨s0, s, r, h0, h1, h2, h3, h4, h5, ?_⟩
  intro h
  have h6 := congrFun h 3
  rw [h3, h5] at h6
  exact absurd h6 (by decide)

/-- C2, scenario S1.  For every data memory size and latency: after reset,
`set_gp_register(0,0)` and loading `ADDI R1 R0 5; ADDI R2 R0 7; ADD R3 R1 R2; EOP`, `run(0)`
returns (after 9 passes) with R1 = 5, R2 = 7, R3 = 12, `get_instructions_executed() = 3` and
`get_stalls() = 2`. -/
theorem c02_scenario_S1 (mem_size mem_latency : Nat) :
    ∃ s0 s, boot mem_size mem_latency program_S1 = some s0 ∧
      s0.run 9 0 = run_result.returned s ∧
      s.get_gp_register 1 = 5 ∧ s.get_gp_register 2 = 7 ∧ s.get_gp_register 3 = 12 ∧
      s.get_instructions_executed = 3 ∧ s.get_stalls = 2 := by
  revert mem_size
  rcases mem_latency with _ | _ | l
  · apply forall_of_generic
    exact ⟨_, _, rfl, rfl, rfl, rfl, rfl, rfl, rfl⟩
  · apply forall_of_generic
    exact ⟨_, _, rfl, rfl, rfl, rfl, rfl, rfl, rfl⟩
  · revert l
    apply forall_of_generic
    apply forall_of_generic
    exact ⟨_, _, rfl, rfl, rfl, rfl, rfl, rfl, rfl⟩

/-- Scenarios S4 and S5 with the labels of the latches copied by value.  For every data memory
size and latency, with R0 = 0 and the other registers at their reset value, `run(0)` on
`ADDI R1 R0 v; BNEZ R1 END; ADDI R2 R0 99; END: ADDI R3 R0 7; EOP` returns with R3 = 7; for
`v = 1` (branch taken) R2 still holds the undefined value 0xFFFFFFFF, for `v = 0` (branch not
taken) R2 = 99. -/
theorem scenarios_S4_S5_by_value (mem_size mem_latency : Nat) :
    (∃ s0 s, boot mem_size mem_latency (program_S4 1) = some s0 ∧
      s0.run 11 0 = run_result.returned s ∧
      s.get_gp_register 3 = 7 ∧ s.generalP_Reg 2 = UNDEFINED ∧ s.get_gp_register 2 = -1) ∧
    (∃ s0 s, boot mem_size mem_latency (program_S4 0) = some s0 ∧
      s0.run 12 0 = run_result.returned s ∧
      s.get_gp_register 3 = 7 ∧ s.get_gp_register 2 = 99) := by
  revert mem_size
  rcases mem_latency with _ | _ | l
  · apply forall_of_generic
    exact ⟨⟨_, _, rfl, rfl, rfl, rfl, rfl⟩, ⟨_, _, rfl, rfl, rfl, rfl⟩⟩
  · apply forall_of_generic
    exact ⟨⟨_, _, rfl, rfl, rfl, rfl, rfl⟩, ⟨_, _, rfl, rfl, rfl, rfl⟩⟩
  · revert l
    apply forall_of_generic
    apply forall_of_generic
    exact ⟨⟨_, _, rfl, rfl, rfl, rfl, rfl⟩, ⟨_, _, rfl, rfl, rfl, rfl⟩⟩

/-- C4, scenario S2.  With data-memory latency 0 and a data memory of at least 4 bytes,
`run(0)` on `ADDI R1 R0 0x42; SW R1 0(R0); LW R2 0(R0); EOP` with R0 = 0 returns with
R2 = 0x42, byte 0 of the data memory equal to 0x42, bytes 1, 2, 3 equal to 0 and every other
byte of the data memory still 0xFF. -/
theorem c04_scenario_S2 (mem_size : Nat) (h : 4 ≤ mem_size) :
    ∃ s0 s, boot mem_size 0 program_S2 = some s0 ∧
      s0.run 9 0 = run_result.returned s ∧ s.get_gp_register 2 = 0x42 ∧
      s.data_memory 0 = 0x42 ∧ s.data_memory 1 = 0 ∧ s.data_memory 2 = 0 ∧
      s.data_memory 3 = 0 ∧ ∀ a, 4 ≤ a → a < mem_size → s.data_memory a = 0xFF := by
  obtain ⟨s0, s, h0, hr, _, hg, hm⟩ := scenario_S2_run mem_size h
  refine ⟨s0, s, h0, hr, ?_, ?_, ?_, ?_, ?_, ?_⟩
  · rw [get_gp_register, hg]; rfl
  · rw [hm]; rfl
  · rw [hm]; rfl
  · rw [hm]; rfl
  · rw [hm]; rfl
  · intro a ha _
    rw [hm]
    unfold int2char
    rw [if_neg (by omega), if_neg (by omega), if_neg (by omega), if_neg (by omega)]

/-- Witness of C4: the scenario with a data memory of 16 bytes. -/
theorem c04_scenario_S2_witness :
    4 ≤ 16 ∧ ∃ s0 s, boot 16 0 program_S2 = some s0 ∧
      s0.run 9 0 = run_result.returned s ∧ s.get_gp_register 2 = 0x42 ∧
      s.data_memory 0 = 0x42 ∧ s.data_memory 1 = 0 ∧ s.data_memory 2 = 0 ∧
      s.data_memory 3 = 0 ∧ ∀ a, 4 ≤ a → a < 16 → s.data_memory a = 0xFF :=
  ⟨by decide, c04_scenario_S2 16 (by decide)⟩

/-- Scenario S2 (latency 0) in a simulator that has held `program_before_S2`: slot 3 holds
`EOP` with the operands of the earlier `ADD R2 R2 R2`, and `run(0)` returns after 11 passes
with cycle counter 11. -/
theorem leftover_S2_run :
    ∃ s0 s, boot_after 16 0 program_before_S2 program_S2 = some s0 ∧
      s0.instr_memory[3]? =
        some { opcode := EOP, src1 := 2, src2 := 2, dest := 2, immediate := 0, label := "" } ∧
      s0.run 11 0 = run_result.returned s ∧ s.clkIn = 11 ∧ s.totalStalls = 4 ∧
      s.generalP_Reg = upd (upd (upd (fun _ => UNDEFINED) 0 0) 1 0x42) 2 0x42 ∧
      s.data_memory = int2char 0x42 (fun _ => 0xFF) 0 :=
  ⟨_, _, rfl, rfl, rfl, rfl, rfl, rfl, rfl⟩

set_option maxRecDepth 4000 in
/-- Scenario S3 (latency 2) in a simulator that has held `program_before_S2`: `run(0)` returns
after 17 passes with cycle counter 17. -/
theorem leftover_S3_run :
    ∃ s0 s, boot_after 16 2 program_before_S2 program_S2 = some s0 ∧
      s0.instr_memory[3]? =
        some { opcode := EOP, src1 := 2, src2 := 2, dest := 2, immediate := 0, label := "" } ∧
      s0.run 17 0 = run_result.returned s ∧ s.clkIn = 17 ∧ s.totalStalls = 8 ∧
      s.generalP_Reg = upd (upd (upd (fun _ => UNDEFINED) 0 0) 1 0x42) 2 0x42 ∧
      s.data_memory = int2char 0x42 (fun _ => 0xFF) 0 :=
  ⟨_, _, rfl, rfl, rfl, rfl, rfl, rfl, rfl⟩

/-- C5, refuted on the code.  The claim: the run of the S2 program with data-memory latency 2
ends with `get_clock_cycles()` exactly 4 greater than the run with latency 0.  That holds when
the members of the slot of `EOP` that `load_program` does not assign are 0 (the runs end at
cycle counter 9 and 13, for every data memory of at least 4 bytes).  The slot keeps what it
held: after `load_program` of `ADD R0 R0 R0; ADD R0 R0 R0; ADD R0 R0 R0; ADD R2 R2 R2; EOP`,
`reset`, `set_gp_register(0, 0)` and `load_program` of the S2 program, slot 3 holds `EOP` with
`dest`, `src1` and `src2` equal to 2, the hazard handler stalls the `EOP` behind the `LW` that
writes R2, and the runs end at cycle counter 11 and 17: the difference is 6, with the final
registers and memory of the runs on zero-filled slots. -/
theorem c05_scenario_S3_leftover_fields :
    (∀ mem_size, 4 ≤ mem_size →
      ∃ s0 s t0 t, boot mem_size 0 program_S2 = some s0 ∧
        s0.run 9 0 = run_result.returned s ∧
        boot mem_size 2 program_S2 = some t0 ∧ t0.run 13 0 = run_result.returned t ∧
        t.get_clock_cycles = s.get_clock_cycles + 4 ∧
        t.generalP_Reg = s.generalP_Reg ∧ t.data_memory = s.data_memory) ∧
    (∃ s0 s t0 t, boot_after 16 0 program_before_S2 program_S2 = some s0 ∧
      boot_after 16 2 program_before_S2 program_S2 = some t0 ∧
      s0.instr_memory[3]? =
        some { opcode := EOP, src1 := 2, src2 := 2, dest := 2, immediate := 0, label := "" } ∧
      t0.instr_memory[3]? =
        some { opcode := EOP, src1 := 2, src2 := 2, dest := 2, immediate := 0, label := "" } ∧
      s0.run 11 0 = run_result.returned s ∧ t0.run 17 0 = run_result.returned t ∧
      s.get_clock_cycles = 11 ∧ t.get_clock_cycles = 17 ∧
      t.get_clock_cycles = s.get_clock_cycles + 6 ∧
      s.get_stalls = 4 ∧ t.get_stalls = 8 ∧
      s.get_gp_register 1 = 0x42 ∧ s.get_gp_register 2 = 0x42 ∧
      t.generalP_Reg = s.generalP_Reg ∧ t.data_memory = s.data_memory) := by
  refine ⟨?_, ?_⟩
  · intro mem_size h
    obtain ⟨s0, s, h0, hr, hc, hg, hm⟩ := scenario_S2_run mem_size h
    obtain ⟨t0, t, k0, kr, kc, kg, km⟩ := scenario_S3_run mem_size h
    refine ⟨s0, s, t0, t, h0, hr, k0, kr, ?_, ?_, ?_⟩
    · rw [get_clock_cycles, get_clock_cycles, hc, kc]; rfl
    · rw [hg, kg]
    · rw [hm, km]
  · obtain ⟨s0, s, h0, hi, hr, hc, hs, hg, hm⟩ := leftover_S2_run
    obtain ⟨t0, t, k0, ki, kr, kc, ks, kg, km⟩ := leftover_S3_run
    refine ⟨s0, s, t0, t, h0, k0, hi, ki, hr, kr, ?_, ?_, ?_, hs, ks, ?_, ?_, ?_, ?_⟩
    · rw [get_clock_cycles, hc]; rfl
    · rw [get_clock_cycles, kc]; rfl
    · rw [get_clock_cycles, get_clock_cycles, hc, kc]; rfl
    · rw [get_gp_register, hg]; decide
    · rw [get_gp_register, hg]; decide
    · rw [hg, kg]
    · rw [hm, km]

/-- C6, refuted on the code.  The claim: behind every taken conditional branch, also one that
is the first instruction, two bubbles follow and no instruction of the fall-through path is
decoded or commits.  On `BNEZ R1 END; ADDI R2 R0 99; END: EOP` with R0 = 0 and R1 at its reset
value (non-zero): after two passes the branch is in ID/EX and `execute` takes it (pending
target `END`); after the third pass the fall-through `ADDI` has been decoded into ID/EX, no
stall is pending, and fetch has loaded the `EOP` at `END`; `run(0)` returns with R2 = 99 and
no stall counted. -/
theorem c06_first_branch_no_bubble :
    ∃ s0 s2 s3 s, boot 16 0 program_first_branch = some s0 ∧
      s0.run 2 0 = run_result.looping s2 ∧ s2.op SECOND = BNEZ ∧
      (executeBranch (executeAlu s2)).branchToLabel = "END" ∧
      s0.run 3 0 = run_result.looping s3 ∧ s3.op SECOND = ADDI ∧ s3.op FIRST = EOP ∧
      s3.stalls = 0 ∧
      s0.run 6 0 = run_result.returned s ∧ s.get_gp_register 2 = 99 ∧ s.get_stalls = 0 :=
  ⟨_, _, _, _, rfl, rfl, rfl, rfl, rfl, rfl, rfl, rfl, rfl, rfl, rfl⟩

/-- C7, refuted on the code.  The claim: `run(N)` with `N >= 1` advances the simulation by
exactly `N` cycles.  With scenario S1 loaded, `run(2)` returns after one pass of the dispatch:
`get_clock_cycles()` goes from 1 to 2 only, and nothing has reached MEM/WB. -/
theorem c07_run_two_is_one_pass :
    ∃ s0 s, boot 16 0 program_S1 = some s0 ∧ s0.run 100 2 = run_result.returned s ∧
      s0.get_clock_cycles = 1 ∧ s.get_clock_cycles = 2 ∧ s.op FORTH = NOP :=
  ⟨_, _, rfl, rfl, rfl, rfl, rfl⟩

/-- C8, refuted on the code.  The claim: `run(0)` halts on every program whose sequential
execution reaches `EOP`, for every data-memory latency.  The reference execution of
`ADDI R1 R0 0x42; SW R1 0(R0); LW R2 0(R0); ADD R3 R2 R2; EOP` reaches `EOP`, but with
data-memory latency 6 the loop of `run(0)` is still running after any number of passes: the
stall of the `ADD`, recorded at cycle 13, is released only in a pass made at cycle
13 + 2 + 4 = 19; during the memory stall of the load (cycles 14 to 19) the hazard handler
returns at once, and from cycle 20 on the cycle counter is never 19 again. -/
theorem c08_store_load_use_never_halts :
    ∃ s0 r, boot 16 6 program_store_load_use = some s0 ∧ s0.seq 5 = some r ∧
      ∀ fuel, ∃ s, s0.run fuel 0 = run_result.looping s := by
  refine ⟨store_load_use_boot, _, store_load_use_load, rfl, ?_⟩
  intro fuel
  show ∃ s, run_loop fuel { store_load_use_boot with runAlways := true } = run_result.looping s
  by_cases hf : fuel ≤ 21
  · obtain ⟨k, hk⟩ : ∃ k, 21 = fuel + k := ⟨21 - fuel, by omega⟩
    have h21 := store_load_use_enter
    rw [hk] at h21
    exact run_loop_initial fuel k _ _ h21
  · obtain ⟨f, rfl⟩ : ∃ f, fuel = 21 + f := ⟨fuel - 21, by omega⟩
    rw [run_loop_add f 21 _ _ store_load_use_enter]
    exact store_load_use_forever f _ (Or.inl ⟨0, by norm_num, rfl⟩)

/-- C9, refuted on the code.  The claim: every pass of the dispatch before the halt increases
`get_clock_cycles()` by exactly 1, also when the memory stage waits.  On `LW R1 0(R0); EOP`
with data-memory latency 1 the fourth pass is made with the cycle counter at 4: `memory` is
called directly, asserts the memory stall and returns before the increment, so the counter is
still 4 after the pass. -/
theorem c09_memory_wait_keeps_clock :
    ∃ s0 s3 s4, boot 16 1 program_load = some s0 ∧
      s0.run 3 0 = run_result.looping s3 ∧ dispatch s3 = some s4 ∧
      s0.run 4 0 = run_result.looping s4 ∧
      s3.get_clock_cycles = 4 ∧ s4.get_clock_cycles = 4 ∧ s4.memoryStall = true :=
  ⟨_, _, _, rfl, rfl, rfl, rfl, rfl, rfl, rfl⟩

/-- C10, refuted on the code.  The claim: `BLTZ` is taken if and only if operand A, read as
a signed integer, is negative.  On `BLTZ R1 END; ADDI R2 R0 99; END: EOP` with R1 at its reset
value (-1 as a signed integer) the branch reaches ID/EX after two passes with operand -1, and
the switch of `execute` leaves the pending branch target empty and `noBranches` set: the
comparison is made on the `unsigned` member `src1`. -/
theorem c10_bltz_negative_not_taken :
    ∃ s0 s2, boot 16 0 program_bltz = some s0 ∧ s0.run 2 0 = run_result.looping s2 ∧
      s2.clkIn = 3 ∧ s2.memoryStall = false ∧
      (s2.pipe_reg.get SECOND).pipe_IR.opcode = BLTZ ∧
      (s2.pipe_reg.get SECOND).pipe_IR.label = "END" ∧
      toInt32 (s2.pipe_reg.get SECOND).pipe_IR.src1 = -1 ∧
      (executeBranch (executeAlu s2)).branchToLabel = "" ∧
      (executeBranch (executeAlu s2)).noBranches = true :=
  ⟨_, _, rfl, rfl, rfl, rfl, rfl, rfl, rfl, rfl, rfl⟩

/-! # Contracts of the stages -/

/-! ## Projections of the elementary updates -/

/-- Writing a special purpose register leaves the register file as it is. -/
theorem setSP_generalP_Reg (s : sim_pipe) (a b c : Nat) :
    (s.setSP a b c).generalP_Reg = s.generalP_Reg := rfl

/-- Writing a special purpose register leaves the instruction counter as it is. -/
theorem setSP_totalInstCount (s : sim_pipe) (a b c : Nat) :
    (s.setSP a b c).totalInstCount = s.totalInstCount := rfl

/-- Writing a special purpose register leaves the memory-stall flag as it is. -/
theorem setSP_memoryStall (s : sim_pipe) (a b c : Nat) :
    (s.setSP a b c).memoryStall = s.memoryStall := rfl

/-- Writing a special purpose register leaves the cycle counter as it is. -/
theorem setSP_clkIn (s : sim_pipe) (a b c : Nat) : (s.setSP a b c).clkIn = s.clkIn := rfl

/-- Writing a special purpose register leaves the latches as they are. -/
theorem setSP_pipe_reg (s : sim_pipe) (a b c : Nat) : (s.setSP a b c).pipe_reg = s.pipe_reg :=
  rfl

/-- Writing a special purpose register leaves the latched opcodes as they are. -/
theorem setSP_op (s : sim_pipe) (a b c k : Nat) : (s.setSP a b c).op k = s.op k := rfl

/-- Writing a latch leaves the register file as it is. -/
theorem setPipe_generalP_Reg (s : sim_pipe) (k : Nat) (r : pipeline_Registers) :
    (s.setPipe k r).generalP_Reg = s.generalP_Reg := rfl

/-- Writing a latch leaves the instruction counter as it is. -/
theorem setPipe_totalInstCount (s : sim_pipe) (k : Nat) (r : pipeline_Registers) :
    (s.setPipe k r).totalInstCount = s.totalInstCount := rfl

/-- Writing a latch leaves the memory-stall flag as it is. -/
theorem setPipe_memoryStall (s : sim_pipe) (k : Nat) (r : pipeline_Registers) :
    (s.setPipe k r).memoryStall = s.memoryStall := rfl

/-- The operand registers of the ID stage after the assignments made for `SW`. -/
theorem get_ID_A_swapped (s : sim_pipe) (v w : Nat) :
    ((s.setSP ID B v).setSP ID A w).specialP_Reg.get ID A = w := rfl

/-- The operand registers of the ID stage after the assignments made for `SW`. -/
theorem get_ID_B_swapped (s : sim_pipe) (v w : Nat) :
    ((s.setSP ID B v).setSP ID A w).specialP_Reg.get ID B = v := rfl

/-- The operand registers of the ID stage after the assignments made for the other opcodes. -/
theorem get_ID_A_plain (s : sim_pipe) (v w : Nat) :
    ((s.setSP ID A v).setSP ID B w).specialP_Reg.get ID A = v := rfl

/-- The operand registers of the ID stage after the assignments made for the other opcodes. -/
theorem get_ID_B_plain (s : sim_pipe) (v w : Nat) :
    ((s.setSP ID A v).setSP ID B w).specialP_Reg.get ID B = w := rfl

/-! ## The methods as compositions of their blocks -/

/-- The method `fetch` in terms of `fetchJump` and `fetchLoad`. -/
theorem fetch_eq (s : sim_pipe) :
    fetch s =
      if s.memoryStall then some s
      else if s.stalls ≠ 0 then
        some (if s.branchStall then s.setPipe FIRST (s.pipe_reg.get FIRST).reset else s)
      else
        (fetchJump s).bind fun s =>
        (if s.inst_count < PROGRAM_SIZE then s.instr_memory[s.inst_count]? else none).bind
          fun instr =>
        some (if (fetchLoad s instr).clkIn = IF + 1 then
          { fetchLoad s instr with clkIn := u64 ((fetchLoad s instr).clkIn + 1) }
        else fetchLoad s instr) :=
  rfl

/-- The method `decode` in terms of `hazardHandler`, `decodeRead` and `decodeLatch`. -/
theorem decode_eq (s : sim_pipe) :
    decode s =
      if (hazardHandler s).memoryStall then some (hazardHandler s)
      else if (hazardHandler s).stalls ≠ 0 ∧ (hazardHandler s).branchStall = false then
        some ((hazardHandler s).setPipe SECOND ((hazardHandler s).pipe_reg.get SECOND).reset)
      else if (decodeLatch (decodeRead (hazardHandler s))).clkIn = ID + 1 then
        (fetch (decodeLatch (decodeRead (hazardHandler s)))).map
          fun s => { s with clkIn := u64 (s.clkIn + 1) }
      else some (decodeLatch (decodeRead (hazardHandler s))) :=
  rfl

/-! ## Frame lemmas: what the blocks of the stages leave unchanged -/

/-- Hazard detection writes neither the register file, the instruction counter nor the
memory-stall flag. -/
theorem hazardDetect_frame (s : sim_pipe) :
    (hazardDetect s).generalP_Reg = s.generalP_Reg ∧
    (hazardDetect s).totalInstCount = s.totalInstCount ∧
    (hazardDetect s).memoryStall = s.memoryStall := by
  refine ⟨?_, ?_, ?_⟩
  · simp only [hazardDetect, apply_ite sim_pipe.generalP_Reg, setSP_generalP_Reg,
      @ite_self (Nat → Nat)]
  · simp only [hazardDetect, apply_ite sim_pipe.totalInstCount, setSP_totalInstCount,
      @ite_self Nat]
  · simp only [hazardDetect, apply_ite sim_pipe.memoryStall, setSP_memoryStall, @ite_self Bool]

/-- The hazard handler writes neither the register file, the instruction counter nor the
memory-stall flag. -/
theorem hazardHandler_frame (s : sim_pipe) :
    (hazardHandler s).generalP_Reg = s.generalP_Reg ∧
    (hazardHandler s).totalInstCount = s.totalInstCount ∧
    (hazardHandler s).memoryStall = s.memoryStall := by
  obtain ⟨h1, h2, h3⟩ := hazardDetect_frame s
  refine ⟨?_, ?_, ?_⟩
  · simp only [hazardHandler, apply_ite sim_pipe.generalP_Reg, h1, @ite_self (Nat → Nat)]
  · simp only [hazardHandler, apply_ite sim_pipe.totalInstCount, h2, @ite_self Nat]
  · simp only [hazardHandler, apply_ite sim_pipe.memoryStall, h3, @ite_self Bool]

/-- The register read of `decode` changes IF/ID only. -/
theorem decodeRead_frame (s : sim_pipe) :
    (decodeRead s).generalP_Reg = s.generalP_Reg ∧
    (decodeRead s).totalInstCount = s.totalInstCount ∧
    (decodeRead s).memoryStall = s.memoryStall := by
  refine ⟨?_, ?_, ?_⟩
  · simp only [decodeRead, apply_ite sim_pipe.generalP_Reg, setPipe_generalP_Reg,
      @ite_self (Nat → Nat)]
  · simp only [decodeRead, apply_ite sim_pipe.totalInstCount, setPipe_totalInstCount,
      @ite_self Nat]
  · simp only [decodeRead, apply_ite sim_pipe.memoryStall, setPipe_memoryStall, @ite_self Bool]

/-- The end of `decode` changes latches and special purpose registers only. -/
theorem decodeLatch_frame (s : sim_pipe) :
    (decodeLatch s).generalP_Reg = s.generalP_Reg ∧
    (decodeLatch s).totalInstCount = s.totalInstCount ∧
    (decodeLatch s).memoryStall = s.memoryStall := by
  refine ⟨?_, ?_, ?_⟩ <;> unfold decodeLatch <;> dsimp only <;> split_ifs <;>
    (repeat first
      | rw [setPipe_generalP_Reg] | rw [setSP_generalP_Reg]
      | rw [setPipe_totalInstCount] | rw [setSP_totalInstCount]
      | rw [setPipe_memoryStall] | rw [setSP_memoryStall])

/-- The call of `alu` in `execute` changes ID/EX only. -/
theorem executeAlu_frame (s : sim_pipe) :
    (executeAlu s).generalP_Reg = s.generalP_Reg ∧
    (executeAlu s).totalInstCount = s.totalInstCount ∧
    (executeAlu s).memoryStall = s.memoryStall := by
  refine ⟨?_, ?_, ?_⟩ <;> rfl

/-- The switch of `execute` changes the pending branch target and `noBranches` only. -/
theorem executeBranch_frame (s : sim_pipe) :
    (executeBranch s).generalP_Reg = s.generalP_Reg ∧
    (executeBranch s).totalInstCount = s.totalInstCount ∧
    (executeBranch s).memoryStall = s.memoryStall ∧ (executeBranch s).clkIn = s.clkIn := by
  unfold executeBranch
  generalize (s.pipe_reg.get SECOND).pipe_IR = ir
  rcases ir with ⟨o, s1, s2, d, im, l⟩
  cases o <;> dsimp only <;> (try split_ifs) <;> refine ⟨?_, ?_, ?_, ?_⟩ <;> rfl

/-- The end of `execute` changes latches and special purpose registers only. -/
theorem executeLatch_frame (s : sim_pipe) :
    (executeLatch s).generalP_Reg = s.generalP_Reg ∧
    (executeLatch s).totalInstCount = s.totalInstCount ∧
    (executeLatch s).memoryStall = s.memoryStall := by
  refine ⟨?_, ?_, ?_⟩
  · simp only [executeLatch, apply_ite sim_pipe.generalP_Reg, setPipe_generalP_Reg,
      setSP_generalP_Reg, @ite_self (Nat → Nat)]
  · simp only [executeLatch, apply_ite sim_pipe.totalInstCount, setPipe_totalInstCount,
      setSP_totalInstCount, @ite_self Nat]
  · simp only [executeLatch, apply_ite sim_pipe.memoryStall, setPipe_memoryStall,
      setSP_memoryStall, @ite_self Bool]

/-- The latency bookkeeping of `memory` writes neither the register file nor the instruction
counter. -/
theorem memoryWait_frame (s : sim_pipe) :
    (memoryWait s).generalP_Reg = s.generalP_Reg ∧
    (memoryWait s).totalInstCount = s.totalInstCount := by
  refine ⟨?_, ?_⟩
  · simp only [memoryWait, apply_ite sim_pipe.generalP_Reg, @ite_self (Nat → Nat)]
  · simp only [memoryWait, apply_ite sim_pipe.totalInstCount, @ite_self Nat]

/-- The method `write_memory` changes the data memory only. -/
theorem write_memory_frame (s s' : sim_pipe) (a v : Nat) (h : s.write_memory a v = some s') :
    s'.generalP_Reg = s.generalP_Reg ∧ s'.totalInstCount = s.totalInstCount ∧
    s'.memoryStall = s.memoryStall := by
  unfold write_memory at h
  split_ifs at h
  simp only [Option.some.injEq] at h
  subst h
  refine ⟨?_, ?_, ?_⟩ <;> rfl

/-- The data-memory access of `memory` writes neither the register file, the instruction
counter nor the memory-stall flag. -/
theorem memoryAccess_frame (s s' : sim_pipe) (h : memoryAccess s = some s') :
    s'.generalP_Reg = s.generalP_Reg ∧ s'.totalInstCount = s.totalInstCount ∧
    s'.memoryStall = s.memoryStall := by
  simp only [memoryAccess, Option.map_eq_some'] at h
  obtain ⟨t, ht, rfl⟩ := h
  simp only [setPipe_generalP_Reg, setSP_generalP_Reg, setPipe_totalInstCount,
    setSP_totalInstCount, setPipe_memoryStall, setSP_memoryStall]
  split_ifs at ht
  all_goals first
    | contradiction
    | exact write_memory_frame _ _ _ _ ht
    | exact write_memory_frame (s.setSP MEM IR NOP.toNat) _ _ _ ht
    | (simp only [Option.some.injEq] at ht
       subst ht
       refine ⟨?_, ?_, ?_⟩ <;> rfl)

/-- The method `set_gp_register` changes the register file only. -/
theorem set_gp_register_frame (s : sim_pipe) (r : Nat) (v : Int) :
    (s.set_gp_register r v).totalInstCount = s.totalInstCount ∧
    (s.set_gp_register r v).memoryStall = s.memoryStall := by
  unfold set_gp_register
  split_ifs <;> refine ⟨?_, ?_⟩ <;> rfl

/-- The head of `writeBack` writes neither the instruction counter nor the memory-stall
flag. -/
theorem writeBackCommit_frame (s : sim_pipe) :
    (writeBackCommit s).totalInstCount = s.totalInstCount ∧
    (writeBackCommit s).memoryStall = s.memoryStall := by
  refine ⟨?_, ?_⟩
  · simp only [writeBackCommit, apply_ite sim_pipe.totalInstCount,
      (set_gp_register_frame _ _ _).1, setSP_totalInstCount, @ite_self Nat]
  · simp only [writeBackCommit, apply_ite sim_pipe.memoryStall,
      (set_gp_register_frame _ _ _).2, setSP_memoryStall, @ite_self Bool]

/-! ## Frame lemmas for the methods -/

/-- The redirection of `fetch` changes the fetch index and the pending branch target only. -/
theorem fetchJump_frame (s s' : sim_pipe) (h : fetchJump s = some s') :
    s'.generalP_Reg = s.generalP_Reg ∧ s'.totalInstCount = s.totalInstCount ∧
    s'.memoryStall = s.memoryStall := by
  unfold fetchJump at h
  split_ifs at h
  · obtain ⟨j, _, rfl⟩ := Option.map_eq_some'.mp h
    refine ⟨?_, ?_, ?_⟩ <;> rfl
  · simp only [Option.some.injEq] at h
    subst h
    refine ⟨?_, ?_, ?_⟩ <;> rfl

/-- The body of an unstalled `fetch` writes neither the register file nor the
memory-stall flag. -/
theorem fetchLoad_frame (s : sim_pipe) (instr : instruction_t) :
    (fetchLoad s instr).generalP_Reg = s.generalP_Reg ∧
    (fetchLoad s instr).memoryStall = s.memoryStall := by
  refine ⟨?_, ?_⟩ <;> unfold fetchLoad <;> dsimp only <;> split_ifs <;>
    (repeat first
      | rw [setPipe_generalP_Reg] | rw [setSP_generalP_Reg]
      | rw [setPipe_memoryStall] | rw [setSP_memoryStall])

/-- The method `fetch` writes neither the register file nor the memory-stall flag. -/
theorem fetch_frame (s s' : sim_pipe) (h : fetch s = some s') :
    s'.generalP_Reg = s.generalP_Reg ∧ s'.memoryStall = s.memoryStall := by
  rw [fetch_eq] at h
  by_cases h1 : s.memoryStall = true
  · rw [if_pos h1] at h
    simp only [Option.some.injEq] at h
    subst h
    exact ⟨rfl, rfl⟩
  · rw [if_neg h1] at h
    by_cases h2 : s.stalls ≠ 0
    · rw [if_pos h2] at h
      simp only [Option.some.injEq] at h
      subst h
      refine ⟨?_, ?_⟩ <;> split_ifs <;> rfl
    · rw [if_neg h2] at h
      obtain ⟨j, hj, h⟩ := Option.bind_eq_some.mp h
      obtain ⟨instr, _, h⟩ := Option.bind_eq_some.mp h
      simp only [Option.some.injEq] at h
      subst h
      obtain ⟨j1, _, j3⟩ := fetchJump_frame s j hj
      obtain ⟨l1, l2⟩ := fetchLoad_frame j instr
      refine ⟨?_, ?_⟩ <;> split_ifs
      · exact l1.trans j1
      · exact l1.trans j1
      · exact l2.trans j3
      · exact l2.trans j3

/-- The method `decode`, with the call of `fetch` it makes, writes neither the register file
nor the memory-stall flag. -/
theorem decode_frame (s s' : sim_pipe) (h : decode s = some s') :
    s'.generalP_Reg = s.generalP_Reg ∧ s'.memoryStall = s.memoryStall := by
  rw [decode_eq] at h
  obtain ⟨a1, _, a3⟩ := hazardHandler_frame s
  obtain ⟨b1, _, b3⟩ := decodeRead_frame (hazardHandler s)
  obtain ⟨c1, _, c3⟩ := decodeLatch_frame (decodeRead (hazardHandler s))
  by_cases h1 : (hazardHandler s).memoryStall = true
  · rw [if_pos h1] at h
    simp only [Option.some.injEq] at h
    subst h
    exact ⟨a1, a3⟩
  · rw [if_neg h1] at h
    by_cases h2 : (hazardHandler s).stalls ≠ 0 ∧ (hazardHandler s).branchStall = false
    · rw [if_pos h2] at h
      simp only [Option.some.injEq] at h
      subst h
      exact ⟨a1, a3⟩
    · rw [if_neg h2] at h
      by_cases h3 : (decodeLatch (decodeRead (hazardHandler s))).clkIn = ID + 1
      · rw [if_pos h3] at h
        obtain ⟨t, ht, rfl⟩ := Option.map_eq_some'.mp h
        obtain ⟨f1, f2⟩ := fetch_frame _ _ ht
        exact ⟨f1.trans (c1.trans (b1.trans a1)), f2.trans (c3.trans (b3.trans a3))⟩
      · rw [if_neg h3] at h
        simp only [Option.some.injEq] at h
        subst h
        exact ⟨c1.trans (b1.trans a1), c3.trans (b3.trans a3)⟩

/-- The method `execute`, with the calls it makes, writes neither the register file nor the
memory-stall flag. -/
theorem execute_frame (s s' : sim_pipe) (h : execute s = some s') :
    s'.generalP_Reg = s.generalP_Reg ∧ s'.memoryStall = s.memoryStall := by
  unfold execute at h
  obtain ⟨a1, _, a3⟩ := executeAlu_frame s
  obtain ⟨b1, _, b3, _⟩ := executeBranch_frame (executeAlu s)
  obtain ⟨c1, _, c3⟩ := executeLatch_frame (executeBranch (executeAlu s))
  by_cases h1 : s.memoryStall = true
  · rw [if_pos h1] at h
    simp only [Option.some.injEq] at h
    subst h
    exact ⟨rfl, rfl⟩
  · rw [if_neg h1] at h
    by_cases h2 : (executeLatch (executeBranch (executeAlu s))).clkIn = EXE + 1
    · simp only [h2, if_true] at h
      obtain ⟨t, ht, rfl⟩ := Option.map_eq_some'.mp h
      obtain ⟨d, hd, hf⟩ := Option.bind_eq_some.mp ht
      obtain ⟨d1, d2⟩ := decode_frame _ _ hd
      obtain ⟨f1, f2⟩ := fetch_frame _ _ hf
      exact ⟨f1.trans (d1.trans (c1.trans (b1.trans a1))),
        f2.trans (d2.trans (c3.trans (b3.trans a3)))⟩
    · simp only [h2, if_false] at h
      simp only [Option.some.injEq] at h
      subst h
      exact ⟨c1.trans (b1.trans a1), c3.trans (b3.trans a3)⟩

/-- The method `memory`, with the calls it makes, does not write the register file, and the
memory-stall flag it returns with is the one that its latency bookkeeping has set. -/
theorem memory_frame (s s' : sim_pipe) (h : memory s = some s') :
    s'.generalP_Reg = s.generalP_Reg ∧
    (s'.memoryStall = (memoryWait s).memoryStall) := by
  unfold memory at h
  obtain ⟨a1, _⟩ := memoryWait_frame s
  by_cases h1 : (memoryWait s).memoryStall = true
  · simp only [h1, if_true] at h
    simp only [Option.some.injEq] at h
    subst h
    exact ⟨a1, rfl⟩
  · simp only [h1, if_false] at h
    obtain ⟨m, hm, h⟩ := Option.bind_eq_some.mp h
    obtain ⟨m1, _, m3⟩ := memoryAccess_frame _ _ hm
    by_cases h3 : m.clkIn = MEM + 1
    · rw [if_pos h3] at h
      obtain ⟨t, ht, rfl⟩ := Option.map_eq_some'.mp h
      obtain ⟨d, hd, hf⟩ := Option.bind_eq_some.mp ht
      obtain ⟨e, he, hd⟩ := Option.bind_eq_some.mp hd
      obtain ⟨e1, e2⟩ := execute_frame _ _ he
      obtain ⟨d1, d2⟩ := decode_frame _ _ hd
      obtain ⟨f1, f2⟩ := fetch_frame _ _ hf
      exact ⟨f1.trans (d1.trans (e1.trans (m1.trans a1))), f2.trans (d2.trans (e2.trans m3))⟩
    · rw [if_neg h3] at h
      simp only [Option.some.injEq] at h
      subst h
      exact ⟨m1.trans a1, m3⟩

/-! ## The hazard handler -/

/-- The release test of the hazard handler fails in the pass in which a stall of 1 or 2 cycles
has been recorded: `clkIn` differs from `currentClk + stalls + memS`. -/
theorem release_never (c k m : Nat) (hk : k = 1 ∨ k = 2) (hm : m = 0 ∨ m = 4) :
    c ≠ u32 (u32 c + k + m) := by
  unfold u32
  have h32 : (2 : Nat) ^ 32 = 4294967296 := by norm_num
  rw [h32]
  omega

/-- When hazard detection runs and records a stall of 1 or 2 cycles at the current cycle, the
hazard handler returns the state that detection produced. -/
theorem hazardHandler_detect (s d : sim_pipe) (hm : s.memoryStall = false) (hs : s.stalls = 0)
    (h1 : s.op FIRST ≠ NOP) (h2 : s.op SECOND ≠ NOP) (h3 : s.op THIRD ≠ NOP)
    (hd : hazardDetect s = d) (hk : d.stalls = 1 ∨ d.stalls = 2)
    (hc : d.currentClk = u32 d.clkIn) : hazardHandler s = d := by
  have hn : (decide (s.op FIRST = NOP) || decide (s.op SECOND = NOP) ||
      decide (s.op THIRD = NOP)) = false := by
    simp [h1, h2, h3]
  unfold hazardHandler
  rw [if_neg (by rw [hm]; decide)]
  simp only [hn, hs, and_self, if_true, hd]
  rw [if_neg]
  rintro ⟨-, hcl⟩
  rw [hc] at hcl
  refine release_never d.clkIn d.stalls _ hk ?_ hcl
  split_ifs
  · exact Or.inr rfl
  · exact Or.inl rfl

/-- Hazard detection with a producer in ID/EX whose `dest` is a source register of the IF/ID
instruction, the latter not being `SW`: a stall of 2 is recorded at the current cycle. -/
theorem hazardDetect_second (s : sim_pipe) (hsw : s.op FIRST ≠ SW)
    (hmatch : (s.pipe_reg.get FIRST).pipe_IR.src1 = (s.pipe_reg.get SECOND).pipe_IR.dest ∨
      (s.pipe_reg.get FIRST).pipe_IR.src2 = (s.pipe_reg.get SECOND).pipe_IR.dest)
    (hprod : s.op SECOND = ADD ∨ s.op SECOND = ADDI ∨ s.op SECOND = SUB ∨ s.op SECOND = SUBI ∨
      s.op SECOND = XOR ∨ s.op SECOND = LW) :
    (hazardDetect s).stalls = 2 ∧ (hazardDetect s).currentClk = u32 s.clkIn ∧
    (hazardDetect s).branchStall = s.branchStall ∧
    (hazardDetect s).totalStalls = s.totalStalls ∧ (hazardDetect s).clkIn = s.clkIn := by
  have h2 : (2 : Nat) ≠ 0 := by decide
  unfold hazardDetect
  by_cases h : s.specialP_Reg.get ID IR = SW.toNat
  · simp only [h, if_true, setSP_op, setSP_pipe_reg, get_ID_A_swapped, get_ID_B_swapped,
      setSP_clkIn, if_neg hsw, if_pos hmatch.symm, if_pos hprod, if_pos h2]
    refine ⟨?_, ?_, ?_, ?_, ?_⟩ <;> first | rfl | trivial
  · simp only [h, if_false, setSP_op, setSP_pipe_reg, get_ID_A_plain, get_ID_B_plain,
      setSP_clkIn, if_neg hsw, if_pos hmatch, if_pos hprod, if_pos h2]
    refine ⟨?_, ?_, ?_, ?_, ?_⟩ <;> first | rfl | trivial

/-- The `BEQZ` case of the switch of `execute`. -/
theorem executeBranch_BEQZ (s : sim_pipe) (h : (s.pipe_reg.get SECOND).pipe_IR.opcode = BEQZ) :
    executeBranch s =
      if (s.pipe_reg.get SECOND).pipe_IR.src1 = 0 then
        { s with branchToLabel := (s.pipe_reg.get SECOND).pipe_IR.label, noBranches := false }
      else s := by
  simp [executeBranch, h]

/-- The `BNEZ` case of the switch of `execute`. -/
theorem executeBranch_BNEZ (s : sim_pipe) (h : (s.pipe_reg.get SECOND).pipe_IR.opcode = BNEZ) :
    executeBranch s =
      if (s.pipe_reg.get SECOND).pipe_IR.src1 ≠ 0 then
        { s with branchToLabel := (s.pipe_reg.get SECOND).pipe_IR.label, noBranches := false }
      else s := by
  simp [executeBranch, h]

/-- The end of `execute` leaves the pending branch target, `noBranches` and the cycle counter
as they are. -/
theorem executeLatch_branch (s : sim_pipe) :
    (executeLatch s).branchToLabel = s.branchToLabel ∧
    (executeLatch s).noBranches = s.noBranches ∧ (executeLatch s).clkIn = s.clkIn := by
  refine ⟨?_, ?_, ?_⟩ <;> unfold executeLatch <;> dsimp only <;> split_ifs <;> rfl

/-- C11.  When `execute` processes `BEQZ` (resp. `BNEZ`) with no memory stall, it assigns the
label of the instruction to the pending branch target and `false` to `noBranches` if operand
A (the member `src1` of the instruction in ID/EX, into which `decode` has put the value of the
register) is zero (resp. non-zero), and leaves both as they are otherwise.  Hence, unless
both already had these values before, the pending target is the label and `noBranches` is
false afterwards if and only if the operand is zero (resp. non-zero).  The state spoken of is
the one `execute` has reached when it returns or, with the cycle counter at 3, when it calls
`decode` and `fetch`. -/
theorem c11_execute_beqz_bnez (s : sim_pipe) (hm : s.memoryStall = false)
    (hop : s.op SECOND = BEQZ ∨ s.op SECOND = BNEZ) :
    (s.clkIn ≠ EXE + 1 → execute s = some (executeLatch (executeBranch (executeAlu s)))) ∧
    ((s.op SECOND = BEQZ ∧ (s.pipe_reg.get SECOND).pipe_IR.src1 = 0 ∨
        s.op SECOND = BNEZ ∧ (s.pipe_reg.get SECOND).pipe_IR.src1 ≠ 0) →
      (executeLatch (executeBranch (executeAlu s))).branchToLabel =
          (s.pipe_reg.get SECOND).pipe_IR.label ∧
        (executeLatch (executeBranch (executeAlu s))).noBranches = false) ∧
    (¬ (s.op SECOND = BEQZ ∧ (s.pipe_reg.get SECOND).pipe_IR.src1 = 0 ∨
        s.op SECOND = BNEZ ∧ (s.pipe_reg.get SECOND).pipe_IR.src1 ≠ 0) →
      (executeLatch (executeBranch (executeAlu s))).branchToLabel = s.branchToLabel ∧
        (executeLatch (executeBranch (executeAlu s))).noBranches = s.noBranches) ∧
    (s.branchToLabel ≠ (s.pipe_reg.get SECOND).pipe_IR.label ∨ s.noBranches = true →
      (((executeLatch (executeBranch (executeAlu s))).branchToLabel =
            (s.pipe_reg.get SECOND).pipe_IR.label ∧
          (executeLatch (executeBranch (executeAlu s))).noBranches = false) ↔
        (s.op SECOND = BEQZ ∧ (s.pipe_reg.get SECOND).pipe_IR.src1 = 0 ∨
          s.op SECOND = BNEZ ∧ (s.pipe_reg.get SECOND).pipe_IR.src1 ≠ 0))) := by
  have hb := executeLatch_branch (executeBranch (executeAlu s))
  have hir : ((executeAlu s).pipe_reg.get SECOND).pipe_IR = (s.pipe_reg.get SECOND).pipe_IR :=
    rfl
  have hT : (s.op SECOND = BEQZ ∧ (s.pipe_reg.get SECOND).pipe_IR.src1 = 0 ∨
        s.op SECOND = BNEZ ∧ (s.pipe_reg.get SECOND).pipe_IR.src1 ≠ 0) →
      (executeLatch (executeBranch (executeAlu s))).branchToLabel =
          (s.pipe_reg.get SECOND).pipe_IR.label ∧
        (executeLatch (executeBranch (executeAlu s))).noBranches = false := by
    intro ht
    rw [hb.1, hb.2.1]
    rcases ht with ⟨h1, h2⟩ | ⟨h1, h2⟩
    · rw [executeBranch_BEQZ _ (hir ▸ h1), hir, if_pos h2]
      exact ⟨rfl, rfl⟩
    · rw [executeBranch_BNEZ _ (hir ▸ h1), hir, if_pos h2]
      exact ⟨rfl, rfl⟩
  have hN : ¬ (s.op SECOND = BEQZ ∧ (s.pipe_reg.get SECOND).pipe_IR.src1 = 0 ∨
        s.op SECOND = BNEZ ∧ (s.pipe_reg.get SECOND).pipe_IR.src1 ≠ 0) →
      (executeLatch (executeBranch (executeAlu s))).branchToLabel = s.branchToLabel ∧
        (executeLatch (executeBranch (executeAlu s))).noBranches = s.noBranches := by
    intro ht
    rw [hb.1, hb.2.1]
    rcases hop with h1 | h1
    · have h2 : ¬ (s.pipe_reg.get SECOND).pipe_IR.src1 = 0 := fun h => ht (Or.inl ⟨h1, h⟩)
      rw [executeBranch_BEQZ _ (hir ▸ h1), hir, if_neg h2]
      exact ⟨rfl, rfl⟩
    · have h2 : ¬ (s.pipe_reg.get SECOND).pipe_IR.src1 ≠ 0 := fun h => ht (Or.inr ⟨h1, h⟩)
      rw [executeBranch_BNEZ _ (hir ▸ h1), hir, if_neg h2]
      exact ⟨rfl, rfl⟩
  refine ⟨?_, hT, hN, ?_⟩
  · intro hc
    have hc' : (executeLatch (executeBranch (executeAlu s))).clkIn ≠ EXE + 1 := by
      rw [hb.2.2, (executeBranch_frame _).2.2.2]
      exact hc
    rw [execute, if_neg (by rw [hm]; decide)]
    exact if_neg hc'
  · intro hpre
    constructor
    · intro hpost
      by_contra ht
      have hn := hN ht
      rw [hn.1, hn.2] at hpost
      rcases hpre with h | h
      · exact h hpost.1
      · rw [h] at hpost
        exact absurd hpost.2 (by decide)
    · exact hT

/-- Witness of C11: the `BNEZ R1 END` of `program_first_branch` in ID/EX after two passes, with
R1 at its reset value; operand A is non-zero and the branch is taken. -/
theorem c11_execute_beqz_bnez_witness :
    (state_after 0 program_first_branch 2).memoryStall = false ∧
    (state_after 0 program_first_branch 2).op SECOND = BNEZ ∧
    ((state_after 0 program_first_branch 2).pipe_reg.get SECOND).pipe_IR.src1 = 0xFFFFFFFF ∧
    (state_after 0 program_first_branch 2).specialP_Reg.get EXE A = 0xFFFFFFFF ∧
    (state_after 0 program_first_branch 2).branchToLabel = "" ∧
    (executeLatch (executeBranch (executeAlu
      (state_after 0 program_first_branch 2)))).branchToLabel = "END" ∧
    (executeLatch (executeBranch (executeAlu
      (state_after 0 program_first_branch 2)))).noBranches = false := by
  have h1 : ((state_after 0 program_first_branch 2).pipe_reg.get SECOND).pipe_IR.src1 =
      0xFFFFFFFF := rfl
  have h := (c11_execute_beqz_bnez (state_after 0 program_first_branch 2) rfl (Or.inr rfl)).2.1
    (Or.inr ⟨rfl, by rw [h1]; decide⟩)
  exact ⟨rfl, rfl, h1, rfl, rfl, h.1, h.2⟩

/-! ## The ALU -/

/-- C12.  For all 32-bit `a`, `b`, `imm` and every `npc`, the function `alu` returns, modulo
2^32: `a + b` for `ADD`, `a + imm` for `ADDI`, `a - b` for `SUB`, `a - imm` for `SUBI`,
`a xor b` for `XOR`, `a + imm` for `LW` and `SW`, `npc + imm` for the six conditional branches
and `JUMP`, and 0xFFFFFFFF for every other opcode value (`EOP`, `NOP` and the values that are
no opcode); the result is always below 2^32. -/
theorem c12_alu (a b imm npc : Nat) (ha : a < 2 ^ 32) (hb : b < 2 ^ 32) (hi : imm < 2 ^ 32) :
    alu ADD.toNat a b imm npc = (a + b) % 2 ^ 32 ∧
    alu ADDI.toNat a b imm npc = (a + imm) % 2 ^ 32 ∧
    ((alu SUB.toNat a b imm npc : Nat) : Int) = ((a : Int) - b) % 2 ^ 32 ∧
    ((alu SUBI.toNat a b imm npc : Nat) : Int) = ((a : Int) - imm) % 2 ^ 32 ∧
    alu XOR.toNat a b imm npc = a ^^^ b ∧
    alu LW.toNat a b imm npc = (a + imm) % 2 ^ 32 ∧
    alu SW.toNat a b imm npc = (a + imm) % 2 ^ 32 ∧
    (∀ o : opcode_t, o = BEQZ ∨ o = BNEZ ∨ o = BLTZ ∨ o = BGTZ ∨ o = BLEZ ∨ o = BGEZ ∨ o = JUMP →
      alu o.toNat a b imm npc = (npc + imm) % 2 ^ 32) ∧
    (∀ opcode : Nat, 14 ≤ opcode → alu opcode a b imm npc = 0xFFFFFFFF) ∧
    alu EOP.toNat a b imm npc = 0xFFFFFFFF ∧ alu NOP.toNat a b imm npc = 0xFFFFFFFF ∧
    (∀ opcode : Nat, alu opcode a b imm npc < 2 ^ 32) := by
  have hx : a ^^^ b < 2 ^ 32 := Nat.xor_lt_two_pow ha hb
  refine ⟨rfl, rfl, ?_, ?_, ?_, rfl, rfl, ?_, ?_, rfl, rfl, ?_⟩
  · show (((a % 2 ^ 32 + (2 ^ 32 - b % 2 ^ 32)) % 2 ^ 32 : Nat) : Int) = _
    rw [Nat.mod_eq_of_lt ha, Nat.mod_eq_of_lt hb]
    omega
  · show (((a % 2 ^ 32 + (2 ^ 32 - imm % 2 ^ 32)) % 2 ^ 32 : Nat) : Int) = _
    rw [Nat.mod_eq_of_lt ha, Nat.mod_eq_of_lt hi]
    omega
  · show (a ^^^ b) % 2 ^ 32 = _
    exact Nat.mod_eq_of_lt hx
  · intro o ho
    rcases ho with h | h | h | h | h | h | h <;> subst h <;> rfl
  · intro opcode h
    unfold alu
    simp only [opcode_t.toNat]
    rw [if_neg (by omega), if_neg (by omega), if_neg (by omega), if_neg (by omega),
      if_neg (by omega), if_neg (by omega), if_neg (by omega)]
  · intro opcode
    unfold alu u32 sub32
    have h32 : (0 : Nat) < 2 ^ 32 := by norm_num
    split_ifs <;> first | exact Nat.mod_lt _ h32 | norm_num

/-- Witness of C12: the operations on `a = 5`, `b = 7`, `imm = 0xFFFFFFFF`, `npc = 16`; the
subtraction and the additions with the immediate wrap around. -/
theorem c12_alu_witness :
    5 < 2 ^ 32 ∧ 7 < 2 ^ 32 ∧ 0xFFFFFFFF < 2 ^ 32 ∧
    alu ADD.toNat 5 7 0xFFFFFFFF 16 = 12 ∧ alu ADDI.toNat 5 7 0xFFFFFFFF 16 = 4 ∧
    alu SUB.toNat 5 7 0xFFFFFFFF 16 = 0xFFFFFFFE ∧ alu XOR.toNat 5 7 0xFFFFFFFF 16 = 2 ∧
    alu BEQZ.toNat 5 7 0xFFFFFFFF 16 = 15 ∧ alu 99 5 7 0xFFFFFFFF 16 = 0xFFFFFFFF := by
  have h := c12_alu 5 7 0xFFFFFFFF 16 (by norm_num) (by norm_num) (by norm_num)
  refine ⟨by norm_num, by norm_num, by norm_num, h.1, h.2.1, rfl, h.2.2.2.2.1,
    h.2.2.2.2.2.2.2.1 BEQZ (Or.inl rfl), h.2.2.2.2.2.2.2.2.1 99 (by norm_num)⟩

/-! ## The stalls requested by the hazard handler -/

/-- C13.  Whenever hazard detection runs (no memory stall, no stall pending, none of the
instructions in IF/ID, ID/EX and EX/MEM is `NOP`), the IF/ID instruction is not `SW` and one
of its two source register indices equals the `dest` of an `ADD`, `ADDI`, `SUB`, `SUBI`,
`XOR` or `LW` held in ID/EX, the hazard handler returns with a pending stall of exactly 2,
recorded at the current cycle (`currentClk` is the cycle counter, truncated to 32 bits), the
branch-stall flag and the total stall count being as before. -/
theorem c13_producer_in_id_ex (s : sim_pipe) (hm : s.memoryStall = false) (hs : s.stalls = 0)
    (hn : s.op FIRST ≠ NOP ∧ s.op SECOND ≠ NOP ∧ s.op THIRD ≠ NOP) (hsw : s.op FIRST ≠ SW)
    (hmatch : (s.pipe_reg.get FIRST).pipe_IR.src1 = (s.pipe_reg.get SECOND).pipe_IR.dest ∨
      (s.pipe_reg.get FIRST).pipe_IR.src2 = (s.pipe_reg.get SECOND).pipe_IR.dest)
    (hprod : s.op SECOND = ADD ∨ s.op SECOND = ADDI ∨ s.op SECOND = SUB ∨ s.op SECOND = SUBI ∨
      s.op SECOND = XOR ∨ s.op SECOND = LW) :
    (hazardHandler s).stalls = 2 ∧ (hazardHandler s).currentClk = u32 s.clkIn ∧
    (s.clkIn < 2 ^ 32 → (hazardHandler s).currentClk = s.clkIn) ∧
    (hazardHandler s).branchStall = s.branchStall ∧
    (hazardHandler s).totalStalls = s.totalStalls := by
  obtain ⟨d1, d2, d3, d4, d5⟩ := hazardDetect_second s hsw hmatch hprod
  have hh : hazardHandler s = hazardDetect s :=
    hazardHandler_detect s _ hm hs hn.1 hn.2.1 hn.2.2 rfl (Or.inr d1) (by rw [d2, d5])
  rw [hh]
  refine ⟨d1, d2, ?_, d3, d4⟩
  intro hlt
  rw [d2]
  exact Nat.mod_eq_of_lt hlt

/-- Witness of C13: the hazard handler in the fifth pass of `run(0)` on `program_hazard` with
the consumer `ADD R5 R3 R0`, whose source R3 is the `dest` of the `ADDI` in ID/EX. -/
theorem c13_producer_in_id_ex_witness :
    (hazard_state (asm ADD 5 3 0)).memoryStall = false ∧
    (hazard_state (asm ADD 5 3 0)).stalls = 0 ∧
    (hazard_state (asm ADD 5 3 0)).clkIn = 5 ∧
    (hazard_state (asm ADD 5 3 0)).op FIRST = ADD ∧
    ((hazard_state (asm ADD 5 3 0)).pipe_reg.get FIRST).pipe_IR.src1 = 3 ∧
    (hazard_state (asm ADD 5 3 0)).op SECOND = ADDI ∧
    ((hazard_state (asm ADD 5 3 0)).pipe_reg.get SECOND).pipe_IR.dest = 3 ∧
    (hazard_state (asm ADD 5 3 0)).op THIRD = ADDI ∧
    (hazardHandler (hazard_state (asm ADD 5 3 0))).stalls = 2 ∧
    (hazardHandler (hazard_state (asm ADD 5 3 0))).currentClk = 5 ∧
    (hazardHandler (hazard_state (asm ADD 5 3 0))).branchStall = false ∧
    (hazardHandler (hazard_state (asm ADD 5 3 0))).totalStalls = 0 := by
  have h := c13_producer_in_id_ex (hazard_state (asm ADD 5 3 0)) rfl rfl
    ⟨by rw [show (hazard_state (asm ADD 5 3 0)).op FIRST = ADD from rfl]; decide,
     by rw [show (hazard_state (asm ADD 5 3 0)).op SECOND = ADDI from rfl]; decide,
     by rw [show (hazard_state (asm ADD 5 3 0)).op THIRD = ADDI from rfl]; decide⟩
    (by rw [show (hazard_state (asm ADD 5 3 0)).op FIRST = ADD from rfl]; decide)
    (Or.inl rfl) (Or.inr (Or.inl rfl))
  exact ⟨rfl, rfl, rfl, rfl, rfl, rfl, rfl, rfl, h.1, h.2.1, h.2.2.2.1, h.2.2.2.2⟩

/-- With the branch stall in place of the operand stall, `decode` reads R1 in the fifth pass,
one pass before the `ADDI R1 R0 0` in MEM/WB commits: the branch is taken on the old value of
R1 and `run(0)` returns with R4 unwritten, while in program order R1 is 0, the branch falls
through and R4 becomes 99. -/
theorem bnez_consumer_stale_read :
    ∃ s0 s r, boot 16 0 (program_hazard (asmBranch BNEZ 1 "END")) = some s0 ∧
      s0.run 10 0 = run_result.returned s ∧ s.generalP_Reg 4 = UNDEFINED ∧
      s0.seq 10 = some r ∧ r.regs 4 = 99 :=
  ⟨_, _, _, rfl, rfl, rfl, rfl, rfl⟩

/-- The latency bookkeeping with a `LW` or `SW` in EX/MEM and the countdown below the latency:
the memory stall is asserted and counted. -/
theorem memoryWait_stalling (s : sim_pipe) (hop : s.op THIRD = LW ∨ s.op THIRD = SW)
    (hlt : s.stallMem < s.data_memory_latency) :
    memoryWait s =
      { s with
        memoryStall := true
        totalStalls := u32 (s.totalStalls + 1)
        stallMem := u32 (s.stallMem + 1)
        memStallCompleted := false } := by
  have hL : ¬ s.data_memory_latency = 0 := by omega
  unfold memoryWait
  simp only [hL, if_false, hlt, if_true, hop]

/-- The latency bookkeeping with the countdown at the (non-zero) latency: the memory stall is
cleared and the countdown reset. -/
theorem memoryWait_done (s : sim_pipe) (hL : s.data_memory_latency ≠ 0)
    (heq : s.stallMem = s.data_memory_latency) :
    memoryWait s = { s with memoryStall := false, stallMem := 0, memStallCompleted := true } := by
  have hlt : ¬ s.stallMem < s.data_memory_latency := by omega
  unfold memoryWait
  simp only [hL, if_false, heq, lt_self_iff_false, ne_eq, not_false_eq_true, and_self, if_true]

/-- With latency 0 the latency bookkeeping leaves the memory stall clear. -/
theorem memoryWait_zero (s : sim_pipe) (hL : s.data_memory_latency = 0) :
    (memoryWait s).memoryStall = false := by
  unfold memoryWait
  simp only [hL, if_true, Nat.not_lt_zero, if_false, ne_eq, not_true_eq_false, false_and]

/-- A call of `memory` that waits returns after the latency bookkeeping. -/
theorem memory_stalling (s : sim_pipe) (hop : s.op THIRD = LW ∨ s.op THIRD = SW)
    (hlt : s.stallMem < s.data_memory_latency) :
    memory s = some
      { s with
        memoryStall := true
        totalStalls := u32 (s.totalStalls + 1)
        stallMem := u32 (s.stallMem + 1)
        memStallCompleted := false } := by
  unfold memory
  rw [memoryWait_stalling s hop hlt]
  exact if_pos rfl

/-- Counting one more stall, modulo 2^32. -/
theorem u32_succ (a k : Nat) : u32 (u32 (a + k) + 1) = u32 (a + (k + 1)) := by
  unfold u32
  have h32 : (2 : Nat) ^ 32 = 4294967296 := by norm_num
  rw [h32]
  omega

/-- The state reached by `k` waiting calls of `memory`. -/
theorem memoryCalls_waiting (s : sim_pipe) (hb : s.data_memory_latency < 2 ^ 32)
    (hts : s.totalStalls < 2 ^ 32) (hop : s.op THIRD = LW ∨ s.op THIRD = SW) (h0 : s.stallMem = 0) :
    ∀ k, k ≤ s.data_memory_latency → ∃ t, memoryCalls k s = some t ∧
      t.stallMem = k ∧ t.totalStalls = u32 (s.totalStalls + k) ∧
      (0 < k → t.memoryStall = true) ∧ t.pipe_reg = s.pipe_reg ∧
      t.specialP_Reg = s.specialP_Reg ∧ t.data_memory = s.data_memory ∧
      t.data_memory_latency = s.data_memory_latency ∧ t.clkIn = s.clkIn := by
  intro k
  induction k with
  | zero =>
    intro _
    refine ⟨s, rfl, h0, ?_, ?_, rfl, rfl, rfl, rfl, rfl⟩
    · exact (Nat.mod_eq_of_lt hts).symm
    · intro h
      exact absurd h (by decide)
  | succ k ih =>
    intro hk
    obtain ⟨t, ht, t1, t2, _, t4, t5, t6, t7, t8⟩ := ih (by omega)
    have hopt : t.op THIRD = LW ∨ t.op THIRD = SW := by
      have : t.op THIRD = s.op THIRD := by unfold op; rw [t4]
      rw [this]
      exact hop
    have hlt : t.stallMem < t.data_memory_latency := by omega
    have hm := memory_stalling t hopt hlt
    refine ⟨{ t with
        memoryStall := true
        totalStalls := u32 (t.totalStalls + 1)
        stallMem := u32 (t.stallMem + 1)
        memStallCompleted := false }, ?_, ?_, ?_, ?_, ?_, ?_, ?_, ?_, ?_⟩
    · show (memoryCalls k s).bind memory = _
      rw [ht]
      exact hm
    · show u32 (t.stallMem + 1) = k + 1
      rw [t1]
      exact Nat.mod_eq_of_lt (by omega)
    · show u32 (t.totalStalls + 1) = _
      rw [t2]
      exact u32_succ _ _
    · intro _
      rfl
    · exact t4
    · exact t5
    · exact t6
    · exact t7
    · exact t8

/-- C15.  With data-memory latency `L > 0`, a `LW` or `SW` in EX/MEM and the latency
countdown at 0: each of the next `L` calls of `memory` returns with the memory stall asserted,
1 added to the total stall count (modulo 2^32), the countdown advanced by 1 and nothing else
changed, in particular not MEM/WB and not the data memory; in the call after these the latency
bookkeeping clears the memory stall and resets the countdown to 0, and the call goes on with
the data-memory access.  With latency 0 `memory` never returns with the memory stall
asserted. -/
theorem c15_memory_latency (s : sim_pipe) (hL : 0 < s.data_memory_latency)
    (hb : s.data_memory_latency < 2 ^ 32) (hts : s.totalStalls < 2 ^ 32)
    (hop : s.op THIRD = LW ∨ s.op THIRD = SW) (h0 : s.stallMem = 0) :
    (∀ k, k < s.data_memory_latency → ∃ t, memoryCalls k s = some t ∧ t.stallMem = k ∧
      t.totalStalls = u32 (s.totalStalls + k) ∧
      memory t = some
        { t with
          memoryStall := true
          totalStalls := u32 (t.totalStalls + 1)
          stallMem := k + 1
          memStallCompleted := false }) ∧
    (∃ t, memoryCalls s.data_memory_latency s = some t ∧ t.memoryStall = true ∧
      t.totalStalls = u32 (s.totalStalls + s.data_memory_latency) ∧
      t.pipe_reg = s.pipe_reg ∧ t.specialP_Reg = s.specialP_Reg ∧
      t.data_memory = s.data_memory ∧
      memoryWait t = { t with memoryStall := false, stallMem := 0, memStallCompleted := true } ∧
      memory t =
        (memoryAccess { t with memoryStall := false, stallMem := 0, memStallCompleted := true }).bind
          fun a =>
            if a.clkIn = MEM + 1 then
              (((execute a).bind decode).bind fetch).map
                fun a => { a with clkIn := u64 (a.clkIn + 1) }
            else some a) ∧
    (∀ z : sim_pipe, z.data_memory_latency = 0 →
      (memoryWait z).memoryStall = false ∧ ∀ z', memory z = some z' → z'.memoryStall = false) := by
  refine ⟨?_, ?_, ?_⟩
  · intro k hk
    obtain ⟨t, ht, t1, t2, _, t4, _, _, t7, _⟩ :=
      memoryCalls_waiting s hb hts hop h0 k (by omega)
    have hopt : t.op THIRD = LW ∨ t.op THIRD = SW := by
      have : t.op THIRD = s.op THIRD := by unfold op; rw [t4]
      rw [this]
      exact hop
    have hm := memory_stalling t hopt (by omega)
    have h1 : u32 (t.stallMem + 1) = k + 1 := by
      rw [t1]
      exact Nat.mod_eq_of_lt (by omega)
    rw [h1] at hm
    exact ⟨t, ht, t1, t2, hm⟩
  · obtain ⟨t, ht, t1, t2, t3, t4, t5, t6, t7, _⟩ :=
      memoryCalls_waiting s hb hts hop h0 s.data_memory_latency (Nat.le_refl _)
    have hw := memoryWait_done t (by omega) (by omega)
    refine ⟨t, ht, t3 hL, t2, t4, t5, t6, hw, ?_⟩
    unfold memory
    rw [hw]
    rfl
  · intro z hz
    have hw := memoryWait_zero z hz
    refine ⟨hw, ?_⟩
    intro z' hz'
    rw [(memory_frame z z' hz').2]
    exact hw

/-- Witness of C15: `LW R1 0(R0); EOP` with data-memory latency 2, after three passes: the
load is in EX/MEM and the countdown at 0; two calls of `memory` wait and count two stalls. -/
theorem c15_memory_latency_witness :
    0 < (state_after 2 program_load 3).data_memory_latency ∧
    (state_after 2 program_load 3).data_memory_latency = 2 ∧
    (state_after 2 program_load 3).totalStalls = 0 ∧
    (state_after 2 program_load 3).op THIRD = LW ∧
    (state_after 2 program_load 3).stallMem = 0 ∧
    ∃ t, memoryCalls 2 (state_after 2 program_load 3) = some t ∧ t.memoryStall = true ∧
      t.totalStalls = 2 ∧ t.pipe_reg = (state_after 2 program_load 3).pipe_reg ∧
      t.data_memory = (state_after 2 program_load 3).data_memory := by
  have hL : (state_after 2 program_load 3).data_memory_latency = 2 := rfl
  obtain ⟨t, h1, h2, h3, h4, _, h6, _⟩ :=
    (c15_memory_latency (state_after 2 program_load 3) (by rw [hL]; decide)
      (by rw [hL]; norm_num)
      (by rw [show (state_after 2 program_load 3).totalStalls = 0 from rfl]; norm_num)
      (Or.inl rfl) rfl).2.1
  rw [hL] at h1 h3
  exact ⟨by rw [hL]; decide, hL, rfl, rfl, rfl, t, h1, h2, h3, h4, h6⟩

/-! ## Passes made while the memory stage waits -/

/-- With the cycle counter at 4 a pass of the dispatch is a call of `memory`. -/
theorem dispatch_memory (s : sim_pipe) (h : s.clkIn = MEM + 1) : dispatch s = memory s := by
  unfold dispatch
  rw [if_neg (by rw [h]; decide), if_neg (by rw [h]; decide), if_neg (by rw [h]; decide),
    if_pos h]

/-- With the cycle counter at 5 or more a pass of the dispatch is a call of `writeBack`. -/
theorem dispatch_writeBack (s : sim_pipe) (h : WB + 1 ≤ s.clkIn) : dispatch s = writeBack s := by
  have h5 : 5 ≤ s.clkIn := h
  unfold dispatch
  rw [if_neg (show ¬ s.clkIn = 0 + 1 by omega), if_neg (show ¬ s.clkIn = 1 + 1 by omega),
    if_neg (show ¬ s.clkIn = 2 + 1 by omega), if_neg (show ¬ s.clkIn = 3 + 1 by omega)]
  by_cases h1 : s.clkIn = 4 + 1
  · rw [if_pos h1]
  · rw [if_neg h1, if_pos (show s.clkIn > 4 + 1 by omega)]

/-- The method `set_gp_register` changes nothing upstream of the memory stage. -/
theorem set_gp_register_upstream (s : sim_pipe) (r : Nat) (v : Int) :
    upstream (s.set_gp_register r v) = upstream s := by
  unfold set_gp_register
  split_ifs <;> rfl

/-- The head of `writeBack` changes nothing upstream of the memory stage. -/
theorem writeBackCommit_upstream (s : sim_pipe) :
    upstream (writeBackCommit s) = upstream s := by
  unfold writeBackCommit
  dsimp only
  split_ifs <;> (repeat rw [set_gp_register_upstream]) <;> rfl

/-- The latency bookkeeping of `memory` changes nothing upstream of the memory stage. -/
theorem memoryWait_upstream (s : sim_pipe) : upstream (memoryWait s) = upstream s := by
  unfold memoryWait
  dsimp only
  split_ifs <;> rfl

/-- With the memory stall asserted the hazard handler returns at once. -/
theorem hazardHandler_memoryStall (s : sim_pipe) (h : s.memoryStall = true) :
    hazardHandler s = s := by
  rw [hazardHandler, if_pos h]

/-- With the memory stall asserted `fetch` returns at once. -/
theorem fetch_memoryStall (s : sim_pipe) (h : s.memoryStall = true) : fetch s = some s := by
  rw [fetch, if_pos h]

/-- With the memory stall asserted `execute` returns at once. -/
theorem execute_memoryStall (s : sim_pipe) (h : s.memoryStall = true) :
    execute s = some s := by
  rw [execute, if_pos h]

/-- With the memory stall asserted `decode` returns at once. -/
theorem decode_memoryStall (s : sim_pipe) (h : s.memoryStall = true) : decode s = some s := by
  unfold decode
  rw [hazardHandler_memoryStall s h]
  exact if_pos h

/-- C16.  In a state in which the memory stall is asserted, `fetch`, the hazard handler,
`decode` and `execute` return the state unchanged.  Hence in every pass of the dispatch in
which `memory` asserts the stall (`s` is the state its latency bookkeeping produces: from the
state at the start of the pass when the cycle counter is 4, after the head of `writeBack`
when it is 5 or more), the IF/ID, ID/EX and EX/MEM latches, the PC, the fetch index, the
instruction counter and the pending hazard stall are after the pass what they were before
it. -/
theorem c16_memory_stall_freezes_upstream (s : sim_pipe) (h : s.memoryStall = true) :
    fetch s = some s ∧ hazardHandler s = s ∧ decode s = some s ∧ execute s = some s ∧
    (∀ s0, s0.clkIn = MEM + 1 → memoryWait s0 = s →
      dispatch s0 = some s ∧ upstream s = upstream s0) ∧
    (∀ s0, WB + 1 ≤ s0.clkIn → memoryWait (writeBackCommit s0) = s →
      ∃ s1, dispatch s0 = some s1 ∧ upstream s1 = upstream s0) := by
  refine ⟨fetch_memoryStall s h, hazardHandler_memoryStall s h, decode_memoryStall s h,
    execute_memoryStall s h, ?_, ?_⟩
  · intro s0 hc hw
    refine ⟨?_, ?_⟩
    · rw [dispatch_memory s0 hc]
      unfold memory
      rw [hw]
      exact if_pos h
    · rw [← hw]
      exact memoryWait_upstream s0
  · intro s0 hc hw
    have hu : upstream s = upstream s0 := by
      rw [← hw, memoryWait_upstream, writeBackCommit_upstream]
    have hm : memory (writeBackCommit s0) = some s := by
      unfold memory
      rw [hw]
      exact if_pos h
    have hck : (writeBackCommit s0).clkIn ≥ WB + 1 := by
      have : (writeBackCommit s0).clkIn = s0.clkIn := by
        unfold writeBackCommit set_gp_register
        dsimp only
        split_ifs <;> rfl
      rw [this]
      exact hc
    rw [dispatch_writeBack s0 hc]
    unfold writeBack
    simp only [hck, if_true, hm, Option.some_bind, execute_memoryStall s h,
      decode_memoryStall s h, fetch_memoryStall s h, Option.map_some']
    split_ifs
    · exact ⟨_, rfl, hu⟩
    · exact ⟨_, rfl, hu⟩

/-- Witness of C16: `LW R1 0(R0); EOP` with data-memory latency 1; the fourth pass, made with
the cycle counter at 4, asserts the memory stall and leaves everything upstream of the memory
stage as it was. -/
theorem c16_memory_stall_freezes_upstream_witness :
    (state_after 1 program_load 4).memoryStall = true ∧
    (state_after 1 program_load 3).clkIn = 4 ∧
    memoryWait (state_after 1 program_load 3) = state_after 1 program_load 4 ∧
    fetch (state_after 1 program_load 4) = some (state_after 1 program_load 4) ∧
    decode (state_after 1 program_load 4) = some (state_after 1 program_load 4) ∧
    execute (state_after 1 program_load 4) = some (state_after 1 program_load 4) ∧
    dispatch (state_after 1 program_load 3) = some (state_after 1 program_load 4) ∧
    upstream (state_after 1 program_load 4) = upstream (state_after 1 program_load 3) := by
  have h := c16_memory_stall_freezes_upstream (state_after 1 program_load 4) rfl
  have h5 := h.2.2.2.2.1 (state_after 1 program_load 3) rfl rfl
  exact ⟨rfl, rfl, rfl, h.1, h.2.2.1, h.2.2.2.1, h5.1, h5.2⟩

/-! ## The IR registers follow the latched opcodes -/

/-- Writing a special purpose register is an assignment to the table of the registers. -/
theorem setSP_specialP_Reg (s : sim_pipe) (a b c : Nat) :
    (s.setSP a b c).specialP_Reg = s.specialP_Reg.set a b c := rfl

/-- Writing a latch leaves the special purpose registers as they are. -/
theorem setPipe_specialP_Reg (s : sim_pipe) (k : Nat) (r : pipeline_Registers) :
    (s.setPipe k r).specialP_Reg = s.specialP_Reg := rfl

/-- Writing a latch is an assignment to the table of the latches. -/
theorem setPipe_pipe_reg (s : sim_pipe) (k : Nat) (r : pipeline_Registers) :
    (s.setPipe k r).pipe_reg = s.pipe_reg.set k r := rfl

/-- The latches after an assignment to IF/ID. -/
theorem pipe_get_set_FIRST (t : pipe_table) (r : pipeline_Registers) :
    ((t.set FIRST r).get FIRST = r ∧ (t.set FIRST r).get SECOND = t.get SECOND) ∧
    ((t.set FIRST r).get THIRD = t.get THIRD ∧ (t.set FIRST r).get FORTH = t.get FORTH) :=
  ⟨⟨rfl, rfl⟩, rfl, rfl⟩

/-- The latches after an assignment to ID/EX. -/
theorem pipe_get_set_SECOND (t : pipe_table) (r : pipeline_Registers) :
    ((t.set SECOND r).get FIRST = t.get FIRST ∧ (t.set SECOND r).get SECOND = r) ∧
    ((t.set SECOND r).get THIRD = t.get THIRD ∧ (t.set SECOND r).get FORTH = t.get FORTH) :=
  ⟨⟨rfl, rfl⟩, rfl, rfl⟩

/-- The latches after an assignment to EX/MEM. -/
theorem pipe_get_set_THIRD (t : pipe_table) (r : pipeline_Registers) :
    ((t.set THIRD r).get FIRST = t.get FIRST ∧ (t.set THIRD r).get SECOND = t.get SECOND) ∧
    ((t.set THIRD r).get THIRD = r ∧ (t.set THIRD r).get FORTH = t.get FORTH) :=
  ⟨⟨rfl, rfl⟩, rfl, rfl⟩

/-- The latches after an assignment to MEM/WB. -/
theorem pipe_get_set_FORTH (t : pipe_table) (r : pipeline_Registers) :
    ((t.set FORTH r).get FIRST = t.get FIRST ∧ (t.set FORTH r).get SECOND = t.get SECOND) ∧
    ((t.set FORTH r).get THIRD = t.get THIRD ∧ (t.set FORTH r).get FORTH = r) :=
  ⟨⟨rfl, rfl⟩, rfl, rfl⟩

/-- An assignment to a special purpose register other than IR leaves every IR register as it
is. -/
theorem sp_get_IR_set (t : sp_table) (a b v st : Nat) (hb : b ≠ IR) :
    (t.set a b v).get st IR = t.get st IR := by
  have hb2 : b ≠ 2 := hb
  rcases a with _ | _ | _ | _ | _ | a <;> rcases st with _ | _ | _ | _ | _ | st <;>
    rcases b with _ | _ | _ | _ | _ | _ | _ | _ | _ | b <;> first | rfl | exact absurd rfl hb2

/-- Assignments to PC, NPC, A, B, IMM, COND, ALU_OUTPUT and LMD leave every IR register as it
is. -/
theorem sp_get_IR_set_other (t : sp_table) (a v st : Nat) :
    ((t.set a PC v).get st IR = t.get st IR ∧ (t.set a NPC v).get st IR = t.get st IR ∧
      (t.set a A v).get st IR = t.get st IR ∧ (t.set a B v).get st IR = t.get st IR) ∧
    ((t.set a IMM v).get st IR = t.get st IR ∧ (t.set a COND v).get st IR = t.get st IR ∧
      (t.set a ALU_OUTPUT v).get st IR = t.get st IR ∧
      (t.set a LMD v).get st IR = t.get st IR) :=
  ⟨⟨sp_get_IR_set t a PC v st (by decide), sp_get_IR_set t a NPC v st (by decide),
      sp_get_IR_set t a A v st (by decide), sp_get_IR_set t a B v st (by decide)⟩,
    sp_get_IR_set t a IMM v st (by decide), sp_get_IR_set t a COND v st (by decide),
    sp_get_IR_set t a ALU_OUTPUT v st (by decide), sp_get_IR_set t a LMD v st (by decide)⟩

/-- The IR registers of the later stages after an assignment to the IR register of IF. -/
theorem sp_get_IR_set_IF (t : sp_table) (v : Nat) :
    ((t.set IF IR v).get ID IR = t.get ID IR ∧ (t.set IF IR v).get EXE IR = t.get EXE IR) ∧
    ((t.set IF IR v).get MEM IR = t.get MEM IR ∧ (t.set IF IR v).get WB IR = t.get WB IR) :=
  ⟨⟨rfl, rfl⟩, rfl, rfl⟩

/-- The IR registers after an assignment to the IR register of ID. -/
theorem sp_get_IR_set_ID (t : sp_table) (v : Nat) :
    ((t.set ID IR v).get ID IR = v ∧ (t.set ID IR v).get EXE IR = t.get EXE IR) ∧
    ((t.set ID IR v).get MEM IR = t.get MEM IR ∧ (t.set ID IR v).get WB IR = t.get WB IR) :=
  ⟨⟨rfl, rfl⟩, rfl, rfl⟩

/-- The IR registers after an assignment to the IR register of EXE. -/
theorem sp_get_IR_set_EXE (t : sp_table) (v : Nat) :
    ((t.set EXE IR v).get ID IR = t.get ID IR ∧ (t.set EXE IR v).get EXE IR = v) ∧
    ((t.set EXE IR v).get MEM IR = t.get MEM IR ∧ (t.set EXE IR v).get WB IR = t.get WB IR) :=
  ⟨⟨rfl, rfl⟩, rfl, rfl⟩

/-- The IR registers after an assignment to the IR register of MEM. -/
theorem sp_get_IR_set_MEM (t : sp_table) (v : Nat) :
    ((t.set MEM IR v).get ID IR = t.get ID IR ∧ (t.set MEM IR v).get EXE IR = t.get EXE IR) ∧
    ((t.set MEM IR v).get MEM IR = v ∧ (t.set MEM IR v).get WB IR = t.get WB IR) :=
  ⟨⟨rfl, rfl⟩, rfl, rfl⟩

/-- The IR registers after an assignment to the IR register of WB. -/
theorem sp_get_IR_set_WB (t : sp_table) (v : Nat) :
    ((t.set WB IR v).get ID IR = t.get ID IR ∧ (t.set WB IR v).get EXE IR = t.get EXE IR) ∧
    ((t.set WB IR v).get MEM IR = t.get MEM IR ∧ (t.set WB IR v).get WB IR = v) :=
  ⟨⟨rfl, rfl⟩, rfl, rfl⟩


/-- The IR register of IF after an assignment to it. -/
theorem sp_get_IR_set_IF_same (t : sp_table) (v : Nat) : (t.set IF IR v).get IF IR = v := rfl

/-- Two states with the same latches and the same IR registers have the same view. -/
theorem ir_view_congr {s t : sim_pipe} (h1 : t.pipe_reg = s.pipe_reg)
    (h2 : ∀ st, t.specialP_Reg.get st IR = s.specialP_Reg.get st IR) : ir_view t = ir_view s := by
  unfold ir_view op
  rw [h1, h2, h2, h2, h2]

/-- Hazard detection writes the operand registers of the ID stage only. -/
theorem hazardDetect_ir_view (s : sim_pipe) : ir_view (hazardDetect s) = ir_view s := by
  refine ir_view_congr ?_ ?_
  · simp only [hazardDetect, apply_ite sim_pipe.pipe_reg, setSP_pipe_reg, @ite_self pipe_table]
  · intro st
    have key : (hazardDetect s).specialP_Reg =
        if s.specialP_Reg.get ID IR = SW.toNat then
          (s.specialP_Reg.set ID B (s.pipe_reg.get FIRST).pipe_IR.src1).set ID A
            (s.pipe_reg.get FIRST).pipe_IR.src2
        else
          (s.specialP_Reg.set ID A (s.pipe_reg.get FIRST).pipe_IR.src1).set ID B
            (s.pipe_reg.get FIRST).pipe_IR.src2 := by
      simp only [hazardDetect, apply_ite sim_pipe.specialP_Reg, setSP_specialP_Reg,
        setSP_pipe_reg, @ite_self sp_table]
    rw [key]
    split_ifs <;> simp only [sp_get_IR_set_other]

/-- The hazard handler writes neither a latch nor an IR register. -/
theorem hazardHandler_ir_view (s : sim_pipe) : ir_view (hazardHandler s) = ir_view s := by
  have hd := hazardDetect_ir_view s
  unfold ir_view op at hd ⊢
  simp only [Prod.mk.injEq] at hd
  obtain ⟨⟨a1, a2⟩, ⟨b1, b2⟩, ⟨c1, c2⟩, d1, d2⟩ := hd
  have hp : ∀ k, ((hazardHandler s).pipe_reg.get k).pipe_IR.opcode =
      (s.pipe_reg.get k).pipe_IR.opcode ∨
      ((hazardHandler s).pipe_reg.get k).pipe_IR.opcode =
        ((hazardDetect s).pipe_reg.get k).pipe_IR.opcode := by
    intro k
    simp only [hazardHandler, apply_ite sim_pipe.pipe_reg, @ite_self pipe_table]
    split_ifs
    · exact Or.inl rfl
    · exact Or.inr rfl
    · exact Or.inl rfl
  have hq : ∀ st, (hazardHandler s).specialP_Reg.get st IR = s.specialP_Reg.get st IR ∨
      (hazardHandler s).specialP_Reg.get st IR = (hazardDetect s).specialP_Reg.get st IR := by
    intro st
    simp only [hazardHandler, apply_ite sim_pipe.specialP_Reg, @ite_self sp_table]
    split_ifs
    · exact Or.inl rfl
    · exact Or.inr rfl
    · exact Or.inl rfl
  have e1 := (hp FIRST).elim id (fun h => h.trans a1)
  have e2 := (hq ID).elim id (fun h => h.trans a2)
  have e3 := (hp SECOND).elim id (fun h => h.trans b1)
  have e4 := (hq EXE).elim id (fun h => h.trans b2)
  have e5 := (hp THIRD).elim id (fun h => h.trans c1)
  have e6 := (hq MEM).elim id (fun h => h.trans c2)
  have e7 := (hp FORTH).elim id (fun h => h.trans d1)
  have e8 := (hq WB).elim id (fun h => h.trans d2)
  rw [e1, e2, e3, e4, e5, e6, e7, e8]

/-- The register read of `decode` replaces the operands held in IF/ID, not the opcode. -/
theorem decodeRead_ir_view (s : sim_pipe) : ir_view (decodeRead s) = ir_view s := by
  unfold decodeRead
  dsimp only
  split_ifs
  · simp only [ir_view, op, setPipe_pipe_reg, setPipe_specialP_Reg, pipe_get_set_FIRST]
  · rfl

/-- The end of `decode` copies the opcode of IF/ID into ID/EX and the IR register of the ID
stage into the IR register of the EXE stage. -/
theorem decodeLatch_ir_view (s : sim_pipe) :
    ir_view (decodeLatch s) =
      ((ir_view s).1, (ir_view s).1, (ir_view s).2.2.1, (ir_view s).2.2.2) := by
  unfold decodeLatch
  dsimp only
  split_ifs <;>
    simp only [ir_view, op, setSP_pipe_reg, setPipe_pipe_reg, setSP_specialP_Reg,
      setPipe_specialP_Reg, pipe_get_set_FIRST, pipe_get_set_SECOND, sp_get_IR_set_other,
      sp_get_IR_set_EXE]

/-- The call of `alu` in `execute` writes the result member of ID/EX only. -/
theorem executeAlu_ir_view (s : sim_pipe) : ir_view (executeAlu s) = ir_view s := rfl

/-- The switch of `execute` writes neither a latch nor an IR register. -/
theorem executeBranch_ir_view (s : sim_pipe) : ir_view (executeBranch s) = ir_view s := by
  unfold executeBranch
  generalize (s.pipe_reg.get SECOND).pipe_IR = ir
  rcases ir with ⟨o, s1, s2, d, im, l⟩
  cases o <;> dsimp only <;> (try split_ifs) <;> rfl

/-- The end of `execute` copies the opcode of ID/EX into EX/MEM, and into the IR register of
the MEM stage the IR register of the EXE stage, or `NOP` when ID/EX holds `NOP`. -/
theorem executeLatch_ir_view (s : sim_pipe) :
    ir_view (executeLatch s) =
      ((ir_view s).1, (ir_view s).2.1,
        ((ir_view s).2.1.1, if (ir_view s).2.1.1 = NOP then NOP.toNat else (ir_view s).2.1.2),
        (ir_view s).2.2.2) := by
  unfold executeLatch
  dsimp only
  by_cases h : s.op SECOND = NOP
  · have h' : (s.pipe_reg.get SECOND).pipe_IR.opcode = NOP := h
    rw [if_pos h]
    simp only [ir_view, op, setSP_pipe_reg, setPipe_pipe_reg, setSP_specialP_Reg,
      setPipe_specialP_Reg, pipe_get_set_THIRD, sp_get_IR_set_other, sp_get_IR_set_MEM, h',
      if_true]
  · have h' : ¬ (s.pipe_reg.get SECOND).pipe_IR.opcode = NOP := h
    rw [if_neg h]
    simp only [ir_view, op, setSP_pipe_reg, setPipe_pipe_reg, setSP_specialP_Reg,
      setPipe_specialP_Reg, pipe_get_set_THIRD, sp_get_IR_set_other, sp_get_IR_set_MEM, h',
      if_false]

/-- The latency bookkeeping of `memory` writes neither a latch nor an IR register. -/
theorem memoryWait_ir_view (s : sim_pipe) : ir_view (memoryWait s) = ir_view s := by
  unfold memoryWait
  dsimp only
  split_ifs <;> rfl

/-- The method `write_memory` writes neither a latch nor an IR register. -/
theorem write_memory_ir_view (s s' : sim_pipe) (a v : Nat) (h : s.write_memory a v = some s') :
    ir_view s' = ir_view s := by
  unfold write_memory at h
  split_ifs at h
  simp only [Option.some.injEq] at h
  subst h
  rfl

/-- The method `set_gp_register` writes neither a latch nor an IR register. -/
theorem set_gp_register_ir_view (s : sim_pipe) (r : Nat) (v : Int) :
    ir_view (s.set_gp_register r v) = ir_view s := by
  unfold set_gp_register
  split_ifs <;> rfl

/-- The redirection of `fetch` writes neither a latch nor an IR register. -/
theorem fetchJump_ir_view (s s' : sim_pipe) (h : fetchJump s = some s') :
    ir_view s' = ir_view s := by
  unfold fetchJump at h
  split_ifs at h
  · obtain ⟨j, _, rfl⟩ := Option.map_eq_some'.mp h
    rfl
  · simp only [Option.some.injEq] at h
    subst h
    rfl

/-- The body of an unstalled `fetch` puts the opcode of the fetched instruction into IF/ID and
its value into the IR register of the ID stage. -/
theorem fetchLoad_ir_view (s : sim_pipe) (instr : instruction_t) :
    ir_view (fetchLoad s instr) =
      ((instr.opcode, instr.opcode.toNat), (ir_view s).2.1, (ir_view s).2.2.1,
        (ir_view s).2.2.2) := by
  unfold fetchLoad
  dsimp only
  split_ifs <;>
    simp only [ir_view, op, setSP_pipe_reg, setPipe_pipe_reg, setSP_specialP_Reg,
      setPipe_specialP_Reg, pipe_get_set_FIRST, sp_get_IR_set_other, sp_get_IR_set_IF,
      sp_get_IR_set_IF_same, sp_get_IR_set_ID]

/-- The copy at the end of the data-memory access of `memory`: the opcode of EX/MEM goes
into MEM/WB and the IR register of the MEM stage into the IR register of the WB stage. -/
theorem memoryLatch_ir_view (t : sim_pipe) :
    ir_view ((t.setSP WB IR (t.specialP_Reg.get MEM IR)).setPipe FORTH (t.pipe_reg.get THIRD)) =
      ((ir_view t).1, (ir_view t).2.1, (ir_view t).2.2.1, (ir_view t).2.2.1) := by
  simp only [ir_view, op, setSP_pipe_reg, setPipe_pipe_reg, setSP_specialP_Reg,
    setPipe_specialP_Reg, pipe_get_set_FORTH, sp_get_IR_set_WB]

/-- The data-memory access of `memory` overrides the IR register of the MEM stage with `NOP`
when EX/MEM holds `NOP`, and copies the opcode of EX/MEM into MEM/WB and that IR register into
the IR register of the WB stage. -/
theorem memoryAccess_ir_view (s s' : sim_pipe) (h : memoryAccess s = some s') :
    ir_view s' =
      ((ir_view s).1, (ir_view s).2.1,
        ((ir_view s).2.2.1.1,
          if (ir_view s).2.2.1.1 = NOP then NOP.toNat else (ir_view s).2.2.1.2),
        ((ir_view s).2.2.1.1,
          if (ir_view s).2.2.1.1 = NOP then NOP.toNat else (ir_view s).2.2.1.2)) := by
  have h0 : ∀ s0 : sim_pipe, s0 = (if s.op THIRD = NOP then s.setSP MEM IR NOP.toNat else s) →
      ir_view s0 = ((ir_view s).1, (ir_view s).2.1,
        ((ir_view s).2.2.1.1,
          if (ir_view s).2.2.1.1 = NOP then NOP.toNat else (ir_view s).2.2.1.2),
        (ir_view s).2.2.2) := by
    intro s0 hs0
    by_cases hn : s.op THIRD = NOP
    · have hn' : (s.pipe_reg.get THIRD).pipe_IR.opcode = NOP := hn
      rw [hs0, if_pos hn]
      simp only [ir_view, op, setSP_pipe_reg, setSP_specialP_Reg, sp_get_IR_set_MEM, hn',
        if_true]
    · have hn' : ¬ (s.pipe_reg.get THIRD).pipe_IR.opcode = NOP := hn
      rw [hs0, if_neg hn]
      simp only [ir_view, op, hn', if_false]
  unfold memoryAccess at h
  dsimp only at h
  generalize hs0 : (if s.op THIRD = NOP then s.setSP MEM IR NOP.toNat else s) = s0 at h
  have v0 := h0 s0 hs0.symm
  obtain ⟨t, ht, rfl⟩ := Option.map_eq_some'.mp h
  have vt : ir_view t = ir_view s0 := by
    by_cases c1 : s0.specialP_Reg.get MEM IR = LW.toNat
    · rw [if_pos c1] at ht
      by_cases c2 : s0.specialP_Reg.get MEM ALU_OUTPUT + 4 ≤ s0.data_memory_size
      · rw [if_pos c2] at ht
        simp only [Option.some.injEq] at ht
        subst ht
        simp only [ir_view, op, setSP_pipe_reg, setPipe_pipe_reg, setSP_specialP_Reg,
          setPipe_specialP_Reg, pipe_get_set_FORTH, sp_get_IR_set_other]
      · rw [if_neg c2] at ht
        contradiction
    · rw [if_neg c1] at ht
      by_cases c3 : s0.specialP_Reg.get MEM IR = SW.toNat
      · rw [if_pos c3] at ht
        exact write_memory_ir_view _ _ _ _ ht
      · rw [if_neg c3] at ht
        simp only [Option.some.injEq] at ht
        subst ht
        simp only [ir_view, op, setSP_pipe_reg, setSP_specialP_Reg, sp_get_IR_set_other]
  refine (memoryLatch_ir_view t).trans ?_
  rw [vt, v0]

/-- The head of `writeBack` overrides the IR register of the WB stage with `NOP` when MEM/WB
holds `NOP`; it writes no latch and no other IR register. -/
theorem writeBackCommit_ir_view (s : sim_pipe) :
    ir_view (writeBackCommit s) =
      ((ir_view s).1, (ir_view s).2.1, (ir_view s).2.2.1,
        ((ir_view s).2.2.2.1,
          if (ir_view s).2.2.2.1 = NOP then NOP.toNat else (ir_view s).2.2.2.2)) := by
  have h0 : ir_view (if s.op FORTH = NOP then s.setSP WB IR NOP.toNat else s) =
      ((ir_view s).1, (ir_view s).2.1, (ir_view s).2.2.1,
        ((ir_view s).2.2.2.1,
          if (ir_view s).2.2.2.1 = NOP then NOP.toNat else (ir_view s).2.2.2.2)) := by
    by_cases hn : s.op FORTH = NOP
    · have hn' : (s.pipe_reg.get FORTH).pipe_IR.opcode = NOP := hn
      rw [if_pos hn]
      simp only [ir_view, op, setSP_pipe_reg, setSP_specialP_Reg, sp_get_IR_set_WB, hn',
        if_true]
    · have hn' : ¬ (s.pipe_reg.get FORTH).pipe_IR.opcode = NOP := hn
      rw [if_neg hn]
      simp only [ir_view, op, hn', if_false]
  have key : ∀ (s0 : sim_pipe) (c1 c2 : Prop) [Decidable c1] [Decidable c2] (d : Nat)
      (v w : Int), ir_view (if c1 then s0.set_gp_register d v
        else if c2 then s0.set_gp_register d w else s0) = ir_view s0 := by
    intro s0 c1 c2 _ _ d v w
    split_ifs
    · exact set_gp_register_ir_view _ _ _
    · exact set_gp_register_ir_view _ _ _
    · rfl
  exact (key _ _ _ _ _ _).trans h0

/-- Consistency depends on the view only. -/
theorem ir_consistent_of_view {s t : sim_pipe} (h : ir_view t = ir_view s)
    (hi : ir_consistent s) : ir_consistent t := by
  unfold ir_consistent at hi ⊢
  rw [h]
  exact hi

/-- An IR register that has been overridden with `NOP` where the latch holds `NOP` agrees with
the latched opcode if it did before. -/
theorem ir_agrees_override (p : opcode_t × Nat) (h : ir_agrees p) :
    ir_agrees (p.1, if p.1 = NOP then NOP.toNat else p.2) := by
  intro hn
  have hn' : ¬ p.1 = NOP := hn
  show (if p.1 = NOP then NOP.toNat else p.2) = p.1.toNat
  rw [if_neg hn']
  exact h hn

/-- The stalled `fetch` of a branch stall: IF/ID is reset and holds `NOP`. -/
theorem squash_consistent (s : sim_pipe) (hi : ir_consistent s) :
    ir_consistent (s.setPipe FIRST (s.pipe_reg.get FIRST).reset) := by
  have hv : ir_view (s.setPipe FIRST (s.pipe_reg.get FIRST).reset) =
      ((NOP, (ir_view s).1.2), (ir_view s).2.1, (ir_view s).2.2.1, (ir_view s).2.2.2) := rfl
  unfold ir_consistent
  rw [hv]
  exact ⟨fun h => absurd rfl h, hi.2.1, hi.2.2.1, hi.2.2.2⟩

/-- The stalled `decode` of a hazard stall: ID/EX is reset and holds `NOP`. -/
theorem bubble_consistent (s : sim_pipe) (hi : ir_consistent s) :
    ir_consistent (s.setPipe SECOND (s.pipe_reg.get SECOND).reset) := by
  have hv : ir_view (s.setPipe SECOND (s.pipe_reg.get SECOND).reset) =
      ((ir_view s).1, (NOP, (ir_view s).2.1.2), (ir_view s).2.2.1, (ir_view s).2.2.2) := rfl
  unfold ir_consistent
  rw [hv]
  exact ⟨hi.1, fun h => absurd rfl h, hi.2.2.1, hi.2.2.2⟩

/-- The body of an unstalled `fetch` keeps the IR registers consistent. -/
theorem fetchLoad_consistent (s : sim_pipe) (instr : instruction_t) (hi : ir_consistent s) :
    ir_consistent (fetchLoad s instr) := by
  unfold ir_consistent
  rw [fetchLoad_ir_view]
  exact ⟨fun _ => rfl, hi.2.1, hi.2.2.1, hi.2.2.2⟩

/-- The end of `decode` keeps the IR registers consistent. -/
theorem decodeLatch_consistent (s : sim_pipe) (hi : ir_consistent s) :
    ir_consistent (decodeLatch s) := by
  unfold ir_consistent
  rw [decodeLatch_ir_view]
  exact ⟨hi.1, hi.1, hi.2.2.1, hi.2.2.2⟩

/-- The end of `execute` keeps the IR registers consistent. -/
theorem executeLatch_consistent (s : sim_pipe) (hi : ir_consistent s) :
    ir_consistent (executeLatch s) := by
  unfold ir_consistent
  rw [executeLatch_ir_view]
  exact ⟨hi.1, hi.2.1, ir_agrees_override _ hi.2.1, hi.2.2.2⟩

/-- The data-memory access of `memory` keeps the IR registers consistent. -/
theorem memoryAccess_consistent (s s' : sim_pipe) (h : memoryAccess s = some s')
    (hi : ir_consistent s) : ir_consistent s' := by
  unfold ir_consistent
  rw [memoryAccess_ir_view s s' h]
  exact ⟨hi.1, hi.2.1, ir_agrees_override _ hi.2.2.1, ir_agrees_override _ hi.2.2.1⟩

/-- The head of `writeBack` keeps the IR registers consistent. -/
theorem writeBackCommit_consistent (s : sim_pipe) (hi : ir_consistent s) :
    ir_consistent (writeBackCommit s) := by
  unfold ir_consistent
  rw [writeBackCommit_ir_view]
  exact ⟨hi.1, hi.2.1, hi.2.2.1, ir_agrees_override _ hi.2.2.2⟩

/-- The method `fetch` keeps the IR registers consistent. -/
theorem fetch_consistent (s s' : sim_pipe) (h : fetch s = some s') (hi : ir_consistent s) :
    ir_consistent s' := by
  rw [fetch_eq] at h
  by_cases h1 : s.memoryStall = true
  · rw [if_pos h1] at h
    simp only [Option.some.injEq] at h
    subst h
    exact hi
  · rw [if_neg h1] at h
    by_cases h2 : s.stalls ≠ 0
    · rw [if_pos h2] at h
      simp only [Option.some.injEq] at h
      subst h
      split_ifs
      · exact squash_consistent s hi
      · exact hi
    · rw [if_neg h2] at h
      obtain ⟨j, hj, h⟩ := Option.bind_eq_some.mp h
      obtain ⟨instr, _, h⟩ := Option.bind_eq_some.mp h
      simp only [Option.some.injEq] at h
      subst h
      have hl := fetchLoad_consistent j instr
        (ir_consistent_of_view (fetchJump_ir_view s j hj) hi)
      split_ifs
      · exact ir_consistent_of_view rfl hl
      · exact hl

/-- The method `decode`, with the call of `fetch` it makes, keeps the IR registers
consistent. -/
theorem decode_consistent (s s' : sim_pipe) (h : decode s = some s') (hi : ir_consistent s) :
    ir_consistent s' := by
  rw [decode_eq] at h
  have a := ir_consistent_of_view (hazardHandler_ir_view s) hi
  have c := decodeLatch_consistent _ (ir_consistent_of_view (decodeRead_ir_view _) a)
  by_cases h1 : (hazardHandler s).memoryStall = true
  · rw [if_pos h1] at h
    simp only [Option.some.injEq] at h
    subst h
    exact a
  · rw [if_neg h1] at h
    by_cases h2 : (hazardHandler s).stalls ≠ 0 ∧ (hazardHandler s).branchStall = false
    · rw [if_pos h2] at h
      simp only [Option.some.injEq] at h
      subst h
      exact bubble_consistent _ a
    · rw [if_neg h2] at h
      by_cases h3 : (decodeLatch (decodeRead (hazardHandler s))).clkIn = ID + 1
      · rw [if_pos h3] at h
        obtain ⟨t, ht, rfl⟩ := Option.map_eq_some'.mp h
        have k := fetch_consistent _ _ ht c
        exact ir_consistent_of_view rfl k
      · rw [if_neg h3] at h
        simp only [Option.some.injEq] at h
        subst h
        exact c

/-- The method `execute`, with the calls it makes, keeps the IR registers consistent. -/
theorem execute_consistent (s s' : sim_pipe) (h : execute s = some s') (hi : ir_consistent s) :
    ir_consistent s' := by
  unfold execute at h
  have c := executeLatch_consistent _
    (ir_consistent_of_view ((executeBranch_ir_view _).trans (executeAlu_ir_view s)) hi)
  by_cases h1 : s.memoryStall = true
  · rw [if_pos h1] at h
    simp only [Option.some.injEq] at h
    subst h
    exact hi
  · rw [if_neg h1] at h
    by_cases h2 : (executeLatch (executeBranch (executeAlu s))).clkIn = EXE + 1
    · simp only [h2, if_true] at h
      obtain ⟨t, ht, rfl⟩ := Option.map_eq_some'.mp h
      obtain ⟨d, hd, hf⟩ := Option.bind_eq_some.mp ht
      have k := fetch_consistent _ _ hf (decode_consistent _ _ hd c)
      exact ir_consistent_of_view rfl k
    · simp only [h2, if_false] at h
      simp only [Option.some.injEq] at h
      subst h
      exact c

/-- The method `memory`, with the calls it makes, keeps the IR registers consistent. -/
theorem memory_consistent (s s' : sim_pipe) (h : memory s = some s') (hi : ir_consistent s) :
    ir_consistent s' := by
  unfold memory at h
  have a := ir_consistent_of_view (memoryWait_ir_view s) hi
  by_cases h1 : (memoryWait s).memoryStall = true
  · simp only [h1, if_true] at h
    simp only [Option.some.injEq] at h
    subst h
    exact a
  · simp only [h1, if_false] at h
    obtain ⟨m, hm, h⟩ := Option.bind_eq_some.mp h
    have m2 := memoryAccess_consistent _ _ hm a
    by_cases h3 : m.clkIn = MEM + 1
    · rw [if_pos h3] at h
      obtain ⟨t, ht, rfl⟩ := Option.map_eq_some'.mp h
      obtain ⟨d, hd, hf⟩ := Option.bind_eq_some.mp ht
      obtain ⟨e, he, hd⟩ := Option.bind_eq_some.mp hd
      have k := fetch_consistent _ _ hf
        (decode_consistent _ _ hd (execute_consistent _ _ he m2))
      exact ir_consistent_of_view rfl k
    · rw [if_neg h3] at h
      simp only [Option.some.injEq] at h
      subst h
      exact m2

/-- The method `writeBack`, with the calls it makes, keeps the IR registers consistent. -/
theorem writeBack_consistent (s s' : sim_pipe) (h : writeBack s = some s')
    (hi : ir_consistent s) : ir_consistent s' := by
  unfold writeBack at h
  have a := writeBackCommit_consistent s hi
  by_cases hc : (writeBackCommit s).clkIn ≥ WB + 1
  · simp only [hc, if_true] at h
    obtain ⟨t, ht, rfl⟩ := Option.map_eq_some'.mp h
    obtain ⟨d, hd, hf⟩ := Option.bind_eq_some.mp ht
    obtain ⟨e, he, hd⟩ := Option.bind_eq_some.mp hd
    obtain ⟨m, hm, he⟩ := Option.bind_eq_some.mp he
    have key := fetch_consistent _ _ hf
      (decode_consistent _ _ hd (execute_consistent _ _ he (memory_consistent _ _ hm a)))
    split_ifs
    · exact ir_consistent_of_view rfl key
    · exact ir_consistent_of_view rfl key
  · simp only [hc, if_false, Option.some.injEq] at h
    subst h
    exact a

/-- A pass of the dispatch keeps the IR registers consistent. -/
theorem dispatch_consistent (s s' : sim_pipe) (h : dispatch s = some s')
    (hi : ir_consistent s) : ir_consistent s' := by
  unfold dispatch at h
  split_ifs at h
  · exact fetch_consistent _ _ h hi
  · exact decode_consistent _ _ h hi
  · exact execute_consistent _ _ h hi
  · exact memory_consistent _ _ h hi
  · exact writeBack_consistent _ _ h hi
  · exact writeBack_consistent _ _ h hi
  · simp only [Option.some.injEq] at h
    subst h
    exact hi

/-- The loop of `run` keeps the IR registers consistent. -/
theorem run_loop_consistent : ∀ (fuel : Nat) (s s' : sim_pipe),
    (run_loop fuel s = run_result.returned s' ∨ run_loop fuel s = run_result.looping s') →
      ir_consistent s → ir_consistent s' := by
  intro fuel
  induction fuel with
  | zero =>
    intro s s' h hi
    rcases h with h | h
    · simp [run_loop] at h
    · simp only [run_loop, run_result.looping.injEq] at h
      subst h
      exact hi
  | succ fuel ih =>
    intro s s' h hi
    rw [run_loop_succ] at h
    cases hd : dispatch s with
    | none => simp [hd] at h
    | some s1 =>
      simp only [hd] at h
      have h1 := dispatch_consistent s s1 hd hi
      by_cases hr : s1.runAlways = true
      · simp only [hr, if_true] at h
        exact ih s1 s' h h1
      · simp only [hr] at h
        rcases h with h | h
        · simp only [Bool.false_eq_true, if_false, run_result.returned.injEq] at h
          subst h
          exact h1
        · simp at h

/-- After `reset` every latch holds `NOP`: the IR registers are consistent. -/
theorem reset_consistent (s : sim_pipe) : ir_consistent s.reset :=
  ⟨fun h => absurd rfl h, fun h => absurd rfl h, fun h => absurd rfl h, fun h => absurd rfl h⟩

/-- The method `load_program` writes neither a latch nor an IR register. -/
theorem load_program_ir_view (s s' : sim_pipe) (lines : List asm_line) (base : Nat)
    (h : s.load_program lines base = some s') : ir_view s' = ir_view s := by
  unfold load_program at h
  obtain ⟨a, _, h⟩ := Option.bind_eq_some.mp h
  obtain ⟨b, _, rfl⟩ := Option.map_eq_some'.mp h
  rfl

/-- In every state that a call of `run` produces from a simulator that has been constructed
or reset, had registers set and a program loaded, the IR register of each stage agrees with the
opcode held in the latch that feeds the stage; in particular the IR register of the WB stage,
on which `writeBack` decides, holds the opcode of the instruction in MEM/WB unless that is
`NOP`. -/
theorem run_ir_consistent (s0 s1 s' : sim_pipe) (r : Nat) (v : Int) (lines : List asm_line)
    (base fuel cycles : Nat) (hl : (s0.reset.set_gp_register r v).load_program lines base = some s1)
    (hr : s1.run fuel cycles = run_result.returned s' ∨
      s1.run fuel cycles = run_result.looping s') :
    ir_consistent s' ∧
      (s'.op FORTH ≠ NOP → s'.specialP_Reg.get WB IR = (s'.op FORTH).toNat) := by
  have h1 : ir_consistent s1 :=
    ir_consistent_of_view
      ((load_program_ir_view _ _ _ _ hl).trans (set_gp_register_ir_view _ _ _))
      (reset_consistent s0)
  have h2 : ir_consistent s' := by
    unfold run at hr
    refine run_loop_consistent fuel _ s' hr ?_
    split_ifs
    · exact ir_consistent_of_view rfl h1
    · exact h1
  exact ⟨h2, h2.2.2.2⟩

/-! ## Write-back -/

/-- The conversion `unsigned -> int -> unsigned` is the identity modulo 2^32. -/
theorem ofInt32_toInt32 (n : Nat) : ofInt32 (toInt32 n) = u32 n := by
  unfold ofInt32 toInt32 u32
  have h32 : (2 : Nat) ^ 32 = 4294967296 := by norm_num
  have h31 : (2 : Nat) ^ 31 = 2147483648 := by norm_num
  have i32 : (2 : Int) ^ 32 = 4294967296 := by norm_num
  rw [h32, h31, i32]
  split_ifs <;> omega

/-- The head of `writeBack` when the IR register of the WB stage holds an ALU opcode. -/
theorem writeBackCommit_alu (s : sim_pipe) (hn : s.op FORTH ≠ NOP)
    (hir : s.specialP_Reg.get WB IR = ADD.toNat ∨ s.specialP_Reg.get WB IR = ADDI.toNat ∨
      s.specialP_Reg.get WB IR = SUB.toNat ∨ s.specialP_Reg.get WB IR = SUBI.toNat ∨
      s.specialP_Reg.get WB IR = XOR.toNat) :
    writeBackCommit s =
      s.set_gp_register (s.pipe_reg.get FORTH).pipe_IR.dest
        (toInt32 (s.specialP_Reg.get WB ALU_OUTPUT)) := by
  unfold writeBackCommit
  simp only [if_neg hn, if_pos hir]

/-- The head of `writeBack` when the IR register of the WB stage holds `LW`. -/
theorem writeBackCommit_lw (s : sim_pipe) (hn : s.op FORTH ≠ NOP)
    (hir : s.specialP_Reg.get WB IR = LW.toNat) :
    writeBackCommit s =
      s.set_gp_register (s.pipe_reg.get FORTH).pipe_IR.dest
        (toInt32 (s.specialP_Reg.get WB LMD)) := by
  have h : ¬ (s.specialP_Reg.get WB IR = ADD.toNat ∨ s.specialP_Reg.get WB IR = ADDI.toNat ∨
      s.specialP_Reg.get WB IR = SUB.toNat ∨ s.specialP_Reg.get WB IR = SUBI.toNat ∨
      s.specialP_Reg.get WB IR = XOR.toNat) := by
    rw [hir]
    decide
  unfold writeBackCommit
  simp only [if_neg hn, if_neg h, if_pos hir]

/-- The head of `writeBack` when the IR register of the WB stage holds neither an ALU opcode
nor `LW`. -/
theorem writeBackCommit_other (s : sim_pipe)
    (h1 : ¬ (s.specialP_Reg.get WB IR = ADD.toNat ∨ s.specialP_Reg.get WB IR = ADDI.toNat ∨
      s.specialP_Reg.get WB IR = SUB.toNat ∨ s.specialP_Reg.get WB IR = SUBI.toNat ∨
      s.specialP_Reg.get WB IR = XOR.toNat))
    (h2 : ¬ s.specialP_Reg.get WB IR = LW.toNat) (hn : s.op FORTH ≠ NOP) :
    writeBackCommit s = s := by
  unfold writeBackCommit
  simp only [if_neg hn, if_neg h1, if_neg h2]

/-- The head of `writeBack` when MEM/WB holds `NOP`. -/
theorem writeBackCommit_nop (s : sim_pipe) (hn : s.op FORTH = NOP) :
    writeBackCommit s = s.setSP WB IR NOP.toNat := by
  have hir : (s.setSP WB IR NOP.toNat).specialP_Reg.get WB IR = NOP.toNat := rfl
  have h1 : ¬ ((s.setSP WB IR NOP.toNat).specialP_Reg.get WB IR = ADD.toNat ∨
      (s.setSP WB IR NOP.toNat).specialP_Reg.get WB IR = ADDI.toNat ∨
      (s.setSP WB IR NOP.toNat).specialP_Reg.get WB IR = SUB.toNat ∨
      (s.setSP WB IR NOP.toNat).specialP_Reg.get WB IR = SUBI.toNat ∨
      (s.setSP WB IR NOP.toNat).specialP_Reg.get WB IR = XOR.toNat) := by
    rw [hir]
    decide
  have h2 : ¬ (s.setSP WB IR NOP.toNat).specialP_Reg.get WB IR = LW.toNat := by
    rw [hir]
    decide
  unfold writeBackCommit
  simp only [if_pos hn, if_neg h1, if_neg h2]

/-- The head of `writeBack` writes no register other than the `dest` of the instruction in
MEM/WB. -/
theorem writeBackCommit_others (s : sim_pipe) :
    ∀ r, r ≠ (s.pipe_reg.get FORTH).pipe_IR.dest →
      (writeBackCommit s).generalP_Reg r = s.generalP_Reg r := by
  intro r hr
  unfold writeBackCommit set_gp_register
  dsimp only
  split_ifs <;> first | rfl | exact if_neg hr

/-- The head of `writeBack` writes no register when the `dest` of the instruction in MEM/WB is
not the index of a register. -/
theorem writeBackCommit_out_of_range (s : sim_pipe)
    (hd : 32 ≤ (s.pipe_reg.get FORTH).pipe_IR.dest) :
    (writeBackCommit s).generalP_Reg = s.generalP_Reg := by
  have key : ∀ (s0 : sim_pipe) (d : Nat) (v : Int), 32 ≤ d →
      (s0.set_gp_register d v).generalP_Reg = s0.generalP_Reg := by
    intro s0 d v h
    unfold set_gp_register
    rw [if_neg (show ¬ d < NUM_GP_REGISTERS from not_lt.mpr h)]
  unfold writeBackCommit
  dsimp only
  split_ifs <;> first | rfl | exact key _ _ _ hd

/-- In a call of `writeBack` the register file is written by the head of the method only. -/
theorem writeBack_generalP_Reg (s s' : sim_pipe) (h : writeBack s = some s') :
    s'.generalP_Reg = (writeBackCommit s).generalP_Reg := by
  unfold writeBack at h
  by_cases hc : (writeBackCommit s).clkIn ≥ WB + 1
  · simp only [hc, if_true] at h
    obtain ⟨t, ht, rfl⟩ := Option.map_eq_some'.mp h
    obtain ⟨d, hd, hf⟩ := Option.bind_eq_some.mp ht
    obtain ⟨e, he, hd⟩ := Option.bind_eq_some.mp hd
    obtain ⟨m, hm, he⟩ := Option.bind_eq_some.mp he
    have m1 := (memory_frame _ _ hm).1
    have e1 := (execute_frame _ _ he).1
    have d1 := (decode_frame _ _ hd).1
    have f1 := (fetch_frame _ _ hf).1
    have : t.generalP_Reg = (writeBackCommit s).generalP_Reg :=
      f1.trans (d1.trans (e1.trans m1))
    split_ifs <;> exact this
  · simp only [hc, if_false, Option.some.injEq] at h
    rw [← h]

/-- The register written by `set_gp_register`, as stored and as read by `get_gp_register`. -/
theorem set_gp_register_at (s : sim_pipe) (d : Nat) (v : Nat) (hd : d < 32) :
    (s.set_gp_register d (toInt32 v)).generalP_Reg d = u32 v ∧
    (s.set_gp_register d (toInt32 v)).get_gp_register d = toInt32 v := by
  have hd' : d < NUM_GP_REGISTERS := hd
  have h1 : (s.set_gp_register d (toInt32 v)).generalP_Reg d = u32 v := by
    unfold set_gp_register
    rw [if_pos hd']
    show (if d = d then ofInt32 (toInt32 v) else s.generalP_Reg d) = u32 v
    rw [if_pos rfl]
    exact ofInt32_toInt32 v
  refine ⟨h1, ?_⟩
  unfold get_gp_register
  rw [if_pos hd', h1]
  unfold toInt32 u32
  rw [Nat.mod_mod]

/-- C17.  Write-back, for a state in which the IR register of the WB stage agrees with the
opcode of the instruction latched in MEM/WB unless that is `NOP` (by `run_ir_consistent` above
this is the case in every state that `run` produces from a simulator that has been reset and
loaded).  When MEM/WB holds `ADD`, `ADDI`, `SUB`, `SUBI` or `XOR` with `dest < 32`, register
`dest` becomes `ALU_OUTPUT` of the WB stage; when it holds `LW`, register `dest` becomes `LMD`
of the WB stage; when it holds `SW`, a conditional branch, `JUMP`, `NOP` or `EOP`, no register
changes; in every case the registers other than `dest` are unchanged, the rest of the call of
`writeBack` (the calls of `memory`, `execute`, `decode` and `fetch` it makes) does not write
the register file, and no register changes when `dest` is not the index of a register. -/
theorem c17_write_back (s : sim_pipe)
    (hc : s.op FORTH ≠ NOP → s.specialP_Reg.get WB IR = (s.op FORTH).toNat) :
    ((s.op FORTH = ADD ∨ s.op FORTH = ADDI ∨ s.op FORTH = SUB ∨ s.op FORTH = SUBI ∨
        s.op FORTH = XOR) → (s.pipe_reg.get FORTH).pipe_IR.dest < 32 →
      (writeBackCommit s).generalP_Reg (s.pipe_reg.get FORTH).pipe_IR.dest =
          u32 (s.get_sp_register ALU_OUTPUT WB) ∧
        (writeBackCommit s).get_gp_register (s.pipe_reg.get FORTH).pipe_IR.dest =
          toInt32 (s.get_sp_register ALU_OUTPUT WB)) ∧
    (s.op FORTH = LW → (s.pipe_reg.get FORTH).pipe_IR.dest < 32 →
      (writeBackCommit s).generalP_Reg (s.pipe_reg.get FORTH).pipe_IR.dest =
          u32 (s.get_sp_register LMD WB) ∧
        (writeBackCommit s).get_gp_register (s.pipe_reg.get FORTH).pipe_IR.dest =
          toInt32 (s.get_sp_register LMD WB)) ∧
    ((s.op FORTH = SW ∨ s.op FORTH = BEQZ ∨ s.op FORTH = BNEZ ∨ s.op FORTH = BLTZ ∨
        s.op FORTH = BGTZ ∨ s.op FORTH = BLEZ ∨ s.op FORTH = BGEZ ∨ s.op FORTH = JUMP ∨
        s.op FORTH = NOP ∨ s.op FORTH = EOP) →
      (writeBackCommit s).generalP_Reg = s.generalP_Reg) ∧
    (∀ r, r ≠ (s.pipe_reg.get FORTH).pipe_IR.dest →
      (writeBackCommit s).generalP_Reg r = s.generalP_Reg r) ∧
    (∀ s', writeBack s = some s' → s'.generalP_Reg = (writeBackCommit s).generalP_Reg) ∧
    (32 ≤ (s.pipe_reg.get FORTH).pipe_IR.dest →
      (writeBackCommit s).generalP_Reg = s.generalP_Reg) := by
  have hA : s.get_sp_register ALU_OUTPUT WB = s.specialP_Reg.get WB ALU_OUTPUT := rfl
  have hL : s.get_sp_register LMD WB = s.specialP_Reg.get WB LMD := rfl
  refine ⟨?_, ?_, ?_, writeBackCommit_others s, writeBack_generalP_Reg s,
    writeBackCommit_out_of_range s⟩
  · intro ho hd
    have hn : s.op FORTH ≠ NOP := by
      rcases ho with h | h | h | h | h <;> rw [h] <;> decide
    have hir := hc hn
    have hir' : s.specialP_Reg.get WB IR = ADD.toNat ∨ s.specialP_Reg.get WB IR = ADDI.toNat ∨
        s.specialP_Reg.get WB IR = SUB.toNat ∨ s.specialP_Reg.get WB IR = SUBI.toNat ∨
        s.specialP_Reg.get WB IR = XOR.toNat := by
      rw [hir]
      rcases ho with h | h | h | h | h <;> rw [h] <;> decide
    rw [writeBackCommit_alu s hn hir', hA]
    exact set_gp_register_at s _ _ hd
  · intro ho hd
    have hn : s.op FORTH ≠ NOP := by rw [ho]; decide
    have hir : s.specialP_Reg.get WB IR = LW.toNat := by rw [hc hn, ho]
    rw [writeBackCommit_lw s hn hir, hL]
    exact set_gp_register_at s _ _ hd
  · intro ho
    by_cases hn : s.op FORTH = NOP
    · rw [writeBackCommit_nop s hn]
      rfl
    · have hir := hc hn
      have h1 : ¬ (s.specialP_Reg.get WB IR = ADD.toNat ∨
          s.specialP_Reg.get WB IR = ADDI.toNat ∨ s.specialP_Reg.get WB IR = SUB.toNat ∨
          s.specialP_Reg.get WB IR = SUBI.toNat ∨ s.specialP_Reg.get WB IR = XOR.toNat) := by
        rw [hir]
        rcases ho with h | h | h | h | h | h | h | h | h | h <;> rw [h] <;> decide
      have h2 : ¬ s.specialP_Reg.get WB IR = LW.toNat := by
        rw [hir]
        rcases ho with h | h | h | h | h | h | h | h | h | h <;> rw [h] <;> decide
      rw [writeBackCommit_other s h1 h2 hn]

/-- Witness of C17: scenario S1 after four passes; MEM/WB holds `ADDI R1 R0 5` and the head of
the fifth pass writes 5 into R1. -/
theorem c17_write_back_witness :
    (state_after 0 program_S1 4).op FORTH = ADDI ∧
    (state_after 0 program_S1 4).specialP_Reg.get WB IR = ADDI.toNat ∧
    ((state_after 0 program_S1 4).pipe_reg.get FORTH).pipe_IR.dest = 1 ∧
    (state_after 0 program_S1 4).get_sp_register ALU_OUTPUT WB = 5 ∧
    (state_after 0 program_S1 4).generalP_Reg 1 = UNDEFINED ∧
    (writeBackCommit (state_after 0 program_S1 4)).generalP_Reg 1 = 5 ∧
    (writeBackCommit (state_after 0 program_S1 4)).get_gp_register 1 = 5 := by
  have h := (c17_write_back (state_after 0 program_S1 4) (fun _ => rfl)).1
    (Or.inr (Or.inl rfl)) (by decide)
  exact ⟨rfl, rfl, rfl, rfl, rfl, h.1, h.2⟩

/-! ## Fetch -/

/-- The body of an unstalled `fetch` that loads `EOP`: PC, NPC and the counters are left as
they are. -/
theorem fetchLoad_EOP (s : sim_pipe) (instr : instruction_t) (h : instr.opcode = EOP) :
    (fetchLoad s instr).op FIRST = EOP ∧
    (fetchLoad s instr).specialP_Reg.get IF PC = s.specialP_Reg.get IF PC ∧
    (fetchLoad s instr).specialP_Reg.get ID NPC = s.specialP_Reg.get ID NPC ∧
    (fetchLoad s instr).totalInstCount = s.totalInstCount ∧
    (fetchLoad s instr).inst_count = s.inst_count := by
  have hE : ¬ instr.opcode.toNat ≠ EOP.toNat := by rw [h]; decide
  refine ⟨?_, ?_, ?_, ?_, ?_⟩ <;> unfold fetchLoad <;> dsimp only <;>
    split_ifs with h1 h2 h3 <;>
    first
      | exact absurd (show instr.opcode.toNat ≠ EOP.toNat from h1) hE
      | exact h
      | rfl

/-- The body of an unstalled `fetch` that loads an instruction other than `EOP`, with the
cycle counter at 1 or more. -/
theorem fetchLoad_other (s : sim_pipe) (instr : instruction_t) (h : instr.opcode ≠ EOP)
    (hc : 0 < s.clkIn) :
    (fetchLoad s instr).op FIRST = instr.opcode ∧
    (fetchLoad s instr).specialP_Reg.get IF PC =
      u32 (s.instr_base_address + 4 * s.inst_count + 4) ∧
    (fetchLoad s instr).specialP_Reg.get ID NPC =
      u32 (s.instr_base_address + 4 * s.inst_count + 4) ∧
    (fetchLoad s instr).totalInstCount = u64 (s.totalInstCount + 1) ∧
    (fetchLoad s instr).inst_count = u64 (s.inst_count + 1) := by
  have hE : instr.opcode.toNat ≠ EOP.toNat := by
    intro he
    apply h
    revert he
    cases instr.opcode <;> decide
  refine ⟨?_, ?_, ?_, ?_, ?_⟩ <;> unfold fetchLoad <;> dsimp only <;>
    split_ifs with h1 h2 h3 <;>
    first
      | exact absurd hE h1
      | rfl
      | (exfalso
         have a2 : ¬ s.clkIn = 1 := h2
         have a3 : ¬ s.clkIn > 1 := h3
         omega)

/-- The body of an unstalled `fetch` that loads an instruction other than `EOP` increments
the two instruction counters. -/
theorem fetchLoad_count (s : sim_pipe) (instr : instruction_t) (h : instr.opcode ≠ EOP) :
    (fetchLoad s instr).totalInstCount = u64 (s.totalInstCount + 1) ∧
    (fetchLoad s instr).inst_count = u64 (s.inst_count + 1) := by
  have hE : instr.opcode.toNat ≠ EOP.toNat := by
    intro he
    apply h
    revert he
    cases instr.opcode <;> decide
  refine ⟨?_, ?_⟩ <;> unfold fetchLoad <;> dsimp only <;>
    split_ifs with h1 h2 h3 <;>
    first
      | exact absurd hE h1
      | rfl

/-- The redirection of `fetch` succeeds when the fetch index is the member `inst_count` or
the pending branch target is a known label. -/
theorem fetchJump_index (s : sim_pipe) (i : Nat)
    (hidx : s.branchToLabel = "" ∧ i = s.inst_count ∨
      s.branchToLabel ≠ "" ∧ s.labelPCMap.lookup s.branchToLabel = some i) :
    ∃ j, fetchJump s = some j ∧ j.inst_count = i ∧ j.instr_memory = s.instr_memory ∧
      j.instr_base_address = s.instr_base_address ∧ j.clkIn = s.clkIn ∧
      j.totalInstCount = s.totalInstCount ∧
      j.specialP_Reg = s.specialP_Reg := by
  unfold fetchJump
  rcases hidx with ⟨h1, h2⟩ | ⟨h1, h2⟩
  · rw [if_neg (by rw [h1]; decide)]
    exact ⟨s, rfl, h2.symm, rfl, rfl, rfl, rfl, rfl⟩
  · rw [if_pos h1, h2]
    exact ⟨_, rfl, rfl, rfl, rfl, rfl, rfl, rfl⟩

/-- An unstalled `fetch` whose index is in range returns. -/
theorem fetch_unstalled (s : sim_pipe) (i : Nat) (instr : instruction_t)
    (hm : s.memoryStall = false) (hs : s.stalls = 0)
    (hidx : s.branchToLabel = "" ∧ i = s.inst_count ∨
      s.branchToLabel ≠ "" ∧ s.labelPCMap.lookup s.branchToLabel = some i)
    (hi : i < PROGRAM_SIZE) (hmem : s.instr_memory[i]? = some instr) :
    ∃ j s', fetch s = some s' ∧ j.inst_count = i ∧
      j.instr_base_address = s.instr_base_address ∧ j.clkIn = s.clkIn ∧
      j.totalInstCount = s.totalInstCount ∧ j.specialP_Reg = s.specialP_Reg ∧
      s'.op FIRST = (fetchLoad j instr).op FIRST ∧
      s'.specialP_Reg = (fetchLoad j instr).specialP_Reg ∧
      s'.totalInstCount = (fetchLoad j instr).totalInstCount := by
  obtain ⟨j, hj, j1, j2, j3, j4, j5, j6⟩ := fetchJump_index s i hidx
  have hmem' : (if j.inst_count < PROGRAM_SIZE then j.instr_memory[j.inst_count]? else none) =
      some instr := by
    rw [j1, j2, if_pos hi, hmem]
  rw [fetch_eq, if_neg (by rw [hm]; decide), if_neg (by rw [hs]; decide), hj]
  simp only [Option.some_bind, hmem']
  refine ⟨j, _, rfl, j1, j3, j4, j5, j6, ?_, ?_, ?_⟩ <;> split_ifs <;> rfl

/-- Counterexample to C18 as stated ("of any opcode, including EOP").  In the sixth pass of
`run(0)` on scenario S1, loaded at base address 0, `fetch` is called unstalled with fetch
index 3 and loads the `EOP`; afterwards `get_sp_register(PC, IF)` and
`get_sp_register(NPC, ID)` are 12, the values left by the fetch of the `ADD` at index 2, and
not 0 + 4 * (3 + 1) = 16. -/
theorem c18_fetch_eop_counterexample :
    ∃ s0 s5 t s6, boot 16 0 program_S1 = some s0 ∧ s0.run 5 0 = run_result.looping s5 ∧
      ((beforeDecode s5).bind decode) = some t ∧
      t.memoryStall = false ∧ t.stalls = 0 ∧ t.branchToLabel = "" ∧ t.inst_count = 3 ∧
      t.instr_base_address = 0 ∧ fetch t = some s6 ∧ s6.op FIRST = EOP ∧
      s0.run 6 0 = run_result.looping { s6 with clkIn := 7 } ∧
      s6.get_sp_register PC IF = 12 ∧ s6.get_sp_register NPC ID = 12 :=
  ⟨_, _, _, _, rfl, rfl, rfl, rfl, rfl, rfl, rfl, rfl, rfl, rfl, rfl, rfl, rfl⟩

/-- C18, amended.  For every call of `fetch` that is not stalled (cycle counter at 1 or more,
as in every call that `run` makes) and fetches the instruction at index `i`, the member
`inst_count` or the target of the pending branch: the call returns with the instruction in
IF/ID; if its opcode is not `EOP`, afterwards `get_sp_register(PC, IF)` is
`base + 4 * (i + 1)` modulo 2^32 and `get_sp_register(NPC, ID)` holds the same value, where
`base` is the member `instr_base_address` set by `load_program`; if it is `EOP`, which
`fetch` excludes by an explicit test, both registers are left as they are. -/
theorem c18_fetch_pc (s : sim_pipe) (i : Nat) (instr : instruction_t)
    (hm : s.memoryStall = false) (hs : s.stalls = 0) (hc : 0 < s.clkIn)
    (hidx : s.branchToLabel = "" ∧ i = s.inst_count ∨
      s.branchToLabel ≠ "" ∧ s.labelPCMap.lookup s.branchToLabel = some i)
    (hi : i < PROGRAM_SIZE) (hmem : s.instr_memory[i]? = some instr) :
    ∃ s', fetch s = some s' ∧ s'.op FIRST = instr.opcode ∧
      (instr.opcode ≠ EOP →
        s'.get_sp_register PC IF = u32 (s.instr_base_address + 4 * (i + 1)) ∧
        s'.get_sp_register NPC ID = u32 (s.instr_base_address + 4 * (i + 1))) ∧
      (instr.opcode = EOP →
        s'.get_sp_register PC IF = s.get_sp_register PC IF ∧
        s'.get_sp_register NPC ID = s.get_sp_register NPC ID) := by
  obtain ⟨j, s', hf, j1, j3, j4, _, j6, f1, f2, _⟩ := fetch_unstalled s i instr hm hs hidx hi hmem
  have hP : ∀ x : sim_pipe, x.get_sp_register PC IF = x.specialP_Reg.get IF PC := fun _ => rfl
  have hN : ∀ x : sim_pipe, x.get_sp_register NPC ID = x.specialP_Reg.get ID NPC := fun _ => rfl
  refine ⟨s', hf, ?_, ?_, ?_⟩
  · by_cases he : instr.opcode = EOP
    · rw [f1, (fetchLoad_EOP j instr he).1, he]
    · rw [f1, (fetchLoad_other j instr he (by omega)).1]
  · intro he
    obtain ⟨_, l2, l3, _, _⟩ := fetchLoad_other j instr he (by omega)
    rw [hP, hN, f2, l2, l3, j1, j3, Nat.mul_add]
    exact ⟨rfl, rfl⟩
  · intro he
    obtain ⟨_, l2, l3, _, _⟩ := fetchLoad_EOP j instr he
    rw [hP, hN, f2, l2, l3, hP, hN, j6]
    exact ⟨rfl, rfl⟩

/-- Witness of C18: the first pass of `run(0)` on scenario S1, a call of `fetch` with the cycle
counter at 1 and fetch index 0, loads `ADDI R1 R0 5` and sets PC and NPC to 4. -/
theorem c18_fetch_pc_witness :
    (state_after 0 program_S1 0).memoryStall = false ∧
    (state_after 0 program_S1 0).stalls = 0 ∧
    (state_after 0 program_S1 0).clkIn = 1 ∧
    (state_after 0 program_S1 0).branchToLabel = "" ∧
    (state_after 0 program_S1 0).inst_count = 0 ∧
    (state_after 0 program_S1 0).instr_base_address = 0 ∧
    (state_after 0 program_S1 0).instr_memory[0]? =
      some { opcode := ADDI, src1 := 0, src2 := 0, dest := 1, immediate := 5, label := "" } ∧
    ∃ s', fetch (state_after 0 program_S1 0) = some s' ∧ s'.op FIRST = ADDI ∧
      s'.get_sp_register PC IF = 4 ∧ s'.get_sp_register NPC ID = 4 := by
  obtain ⟨s', h1, h2, h3, _⟩ := c18_fetch_pc (state_after 0 program_S1 0) 0
    { opcode := ADDI, src1 := 0, src2 := 0, dest := 1, immediate := 5, label := "" }
    rfl rfl (by rw [show (state_after 0 program_S1 0).clkIn = 1 from rfl]; decide)
    (Or.inl ⟨rfl, rfl⟩) (by decide) rfl
  have h4 := h3 (by decide)
  exact ⟨rfl, rfl, rfl, rfl, rfl, rfl, rfl, s', h1, h2, h4.1, h4.2⟩

/-! ## The instruction counter -/

/-- The increment of the 64-bit counter, read through the 32-bit accessor. -/
theorem u32_u64_succ (t : Nat) : u32 (u64 (t + 1)) = u32 (u32 t + 1) := by
  unfold u32 u64
  have h32 : (2 : Nat) ^ 32 = 4294967296 := by norm_num
  have h64 : (2 : Nat) ^ 64 = 18446744073709551616 := by norm_num
  rw [h32, h64]
  omega

/-- A stalled `fetch` returns and leaves the instruction counter as it is. -/
theorem fetch_stalled (s : sim_pipe) (h : s.memoryStall = true ∨ s.stalls ≠ 0) :
    ∃ s', fetch s = some s' ∧ s'.totalInstCount = s.totalInstCount := by
  rw [fetch_eq]
  by_cases h1 : s.memoryStall = true
  · rw [if_pos h1]
    exact ⟨s, rfl, rfl⟩
  · have h2 : s.stalls ≠ 0 := h.resolve_left h1
    rw [if_neg h1, if_pos h2]
    refine ⟨_, rfl, ?_⟩
    split_ifs <;> rfl

/-- The method `load_program` leaves the instruction counter as it is. -/
theorem load_program_totalInstCount (s s' : sim_pipe) (lines : List asm_line) (base : Nat)
    (h : s.load_program lines base = some s') : s'.totalInstCount = s.totalInstCount := by
  unfold load_program at h
  obtain ⟨a, _, h⟩ := Option.bind_eq_some.mp h
  obtain ⟨b, _, rfl⟩ := Option.map_eq_some'.mp h
  rfl

/-! ## Reset -/

/-- C20.  After `reset`, and therefore after construction (the constructor ends with a call
of `reset`): `get_gp_register(i)` reads the undefined value 0xFFFFFFFF, -1 as `int`, for every
`i < 32`; every byte of the data memory is 0xFF; `get_sp_register(r, s)` is 0xFFFFFFFF for
every register name `r` and stage `s`; each of the four latches holds `NOP` with all its
other members zero (and an empty label); the instruction counters, the pending and the total
stall count and the countdown of the memory stage are 0, the stall flags clear and the cycle
counter 1. -/
theorem c20_reset (s : sim_pipe) (mem_size mem_latency : Nat) :
    (∀ i, i < 32 → s.reset.generalP_Reg i = 0xFFFFFFFF ∧ s.reset.get_gp_register i = -1) ∧
    (∀ a, a < s.reset.data_memory_size → s.reset.data_memory a = 0xFF) ∧
    (∀ reg stage, reg < 9 → stage < 5 → s.reset.get_sp_register reg stage = 0xFFFFFFFF) ∧
    (∀ k, k < 4 → s.reset.pipe_reg.get k = latch NOP 0 0 0 0 "" 0) ∧
    s.reset.totalInstCount = 0 ∧ s.reset.inst_count = 0 ∧
    s.reset.get_instructions_executed = 0 ∧
    s.reset.stalls = 0 ∧ s.reset.totalStalls = 0 ∧ s.reset.get_stalls = 0 ∧
    s.reset.stallMem = 0 ∧ s.reset.memoryStall = false ∧ s.reset.branchStall = false ∧
    s.reset.memStallCompleted = false ∧ s.reset.clkIn = 1 ∧
    sim_pipe.new mem_size mem_latency = (sim_pipe.new mem_size mem_latency).reset ∧
    (sim_pipe.new mem_size mem_latency).data_memory_size = mem_size := by
  refine ⟨?_, ?_, ?_, ?_, rfl, rfl, rfl, rfl, rfl, rfl, rfl, rfl, rfl, rfl, rfl, rfl, rfl⟩
  · intro i hi
    refine ⟨rfl, ?_⟩
    unfold get_gp_register
    rw [if_pos (show i < NUM_GP_REGISTERS from hi)]
    show toInt32 0xFFFFFFFF = -1
    decide
  · intro a _
    rfl
  · intro reg stage hr hs
    unfold get_sp_register
    rw [if_pos (show reg < NUM_SP_REGISTERS ∧ stage < 5 from ⟨hr, hs⟩)]
    interval_cases stage <;> interval_cases reg <;> rfl
  · intro k hk
    interval_cases k <;> rfl

/-! ## Stage registers that no method assigns -/

/-- Reading a register of a row after an assignment to another register of the row. -/
theorem sp_row_get_set (r : sp_row) (b v reg : Nat) (h : b ≠ reg) :
    (r.set b v).get reg = r.get reg := by
  rcases b with _ | _ | _ | _ | _ | _ | _ | _ | _ | b <;>
    rcases reg with _ | _ | _ | _ | _ | _ | _ | _ | _ | reg <;>
    first | rfl | exact absurd rfl h

/-- Reading a stage register after an assignment to another stage register. -/
theorem sp_table_get_set (t : sp_table) (a b v stage reg : Nat) (h : ¬ (a = stage ∧ b = reg)) :
    (t.set a b v).get stage reg = t.get stage reg := by
  by_cases hb : b = reg
  · have ha : a ≠ stage := fun e => h ⟨e, hb⟩
    rcases a with _ | _ | _ | _ | _ | a <;> rcases stage with _ | _ | _ | _ | _ | stage <;>
      first | rfl | exact absurd rfl ha
  · rcases a with _ | _ | _ | _ | _ | a <;> rcases stage with _ | _ | _ | _ | _ | stage <;>
      first | rfl | exact sp_row_get_set _ b v reg hb

/-- Nothing is lost where nothing changes. -/
theorem sp_kept_refl (t : sp_table) : sp_kept t t := fun _ _ _ => rfl

/-- Steps compose. -/
theorem sp_kept_trans {a b c : sp_table} (h1 : sp_kept a b) (h2 : sp_kept b c) : sp_kept a c :=
  fun stage reg h => (h1 stage reg h).trans (h2 stage reg h)

/-- An assignment to a register of `sp_written` keeps the others. -/
theorem sp_kept_set (t : sp_table) (a b v : Nat) (h : sp_written a b = true) :
    sp_kept (t.set a b v) t := by
  intro stage reg hw
  refine sp_table_get_set t a b v stage reg ?_
  rintro ⟨rfl, rfl⟩
  rw [h] at hw
  exact Bool.noConfusion hw

/-- Assignments to registers of `sp_written` after a step that keeps the others. -/
theorem sp_kept_set_trans {t s : sp_table} (a b v : Nat) (h : sp_written a b = true)
    (hk : sp_kept t s) : sp_kept (t.set a b v) s :=
  sp_kept_trans (sp_kept_set t a b v h) hk

/-- The special purpose registers after hazard detection. -/
theorem hazardDetect_specialP_Reg (s : sim_pipe) :
    (hazardDetect s).specialP_Reg =
      if s.specialP_Reg.get ID IR = SW.toNat then
        (s.specialP_Reg.set ID B (s.pipe_reg.get FIRST).pipe_IR.src1).set ID A
          (s.pipe_reg.get FIRST).pipe_IR.src2
      else
        (s.specialP_Reg.set ID A (s.pipe_reg.get FIRST).pipe_IR.src1).set ID B
          (s.pipe_reg.get FIRST).pipe_IR.src2 := by
  simp only [hazardDetect, apply_ite sim_pipe.specialP_Reg, setSP_specialP_Reg,
    setSP_pipe_reg, @ite_self sp_table]

/-- Hazard detection assigns to A and B of the ID stage only. -/
theorem hazardDetect_sp_kept (s : sim_pipe) :
    sp_kept (hazardDetect s).specialP_Reg s.specialP_Reg := by
  rw [hazardDetect_specialP_Reg]
  split_ifs
  · exact sp_kept_set_trans _ _ _ rfl (sp_kept_set _ _ _ _ rfl)
  · exact sp_kept_set_trans _ _ _ rfl (sp_kept_set _ _ _ _ rfl)

/-- The hazard handler assigns to A and B of the ID stage only. -/
theorem hazardHandler_sp_kept (s : sim_pipe) :
    sp_kept (hazardHandler s).specialP_Reg s.specialP_Reg := by
  have hq : (hazardHandler s).specialP_Reg = s.specialP_Reg ∨
      (hazardHandler s).specialP_Reg = (hazardDetect s).specialP_Reg := by
    simp only [hazardHandler, apply_ite sim_pipe.specialP_Reg, @ite_self sp_table]
    split_ifs
    · exact Or.inl rfl
    · exact Or.inr rfl
    · exact Or.inl rfl
  rcases hq with h | h
  · rw [h]
    exact sp_kept_refl _
  · rw [h]
    exact hazardDetect_sp_kept s

/-- The register read of `decode` assigns to no special purpose register. -/
theorem decodeRead_specialP_Reg (s : sim_pipe) :
    (decodeRead s).specialP_Reg = s.specialP_Reg := by
  simp only [decodeRead, apply_ite sim_pipe.specialP_Reg, setPipe_specialP_Reg,
    @ite_self sp_table]

/-- The end of `decode` assigns to NPC, IMM, A, B and IR of the EXE stage only. -/
theorem decodeLatch_sp_kept (s : sim_pipe) :
    sp_kept (decodeLatch s).specialP_Reg s.specialP_Reg := by
  unfold decodeLatch
  dsimp only
  split_ifs <;> simp only [setSP_specialP_Reg, setPipe_specialP_Reg] <;>
    repeat first
      | refine sp_kept_set_trans _ _ _ rfl ?_
      | exact sp_kept_refl s.specialP_Reg

/-- The switch of `execute` assigns to no special purpose register. -/
theorem executeBranch_specialP_Reg (s : sim_pipe) :
    (executeBranch s).specialP_Reg = s.specialP_Reg := by
  unfold executeBranch
  generalize (s.pipe_reg.get SECOND).pipe_IR = ir
  rcases ir with ⟨o, s1, s2, d, im, l⟩
  cases o <;> dsimp only <;> (try split_ifs) <;> rfl

/-- The end of `execute` assigns to IR, ALU_OUTPUT and B of the MEM stage only. -/
theorem executeLatch_sp_kept (s : sim_pipe) :
    sp_kept (executeLatch s).specialP_Reg s.specialP_Reg := by
  unfold executeLatch
  dsimp only
  split_ifs <;> simp only [setSP_specialP_Reg, setPipe_specialP_Reg] <;>
    repeat first
      | refine sp_kept_set_trans _ _ _ rfl ?_
      | exact sp_kept_refl s.specialP_Reg

/-- The latency bookkeeping of `memory` assigns to no special purpose register. -/
theorem memoryWait_specialP_Reg (s : sim_pipe) :
    (memoryWait s).specialP_Reg = s.specialP_Reg := by
  unfold memoryWait
  dsimp only
  split_ifs <;> rfl

/-- The method `write_memory` assigns to no special purpose register. -/
theorem write_memory_specialP_Reg (s s' : sim_pipe) (a v : Nat)
    (h : s.write_memory a v = some s') : s'.specialP_Reg = s.specialP_Reg := by
  unfold write_memory at h
  split_ifs at h
  simp only [Option.some.injEq] at h
  subst h
  rfl

/-- The data-memory access of `memory` assigns to IR of the MEM stage and to LMD, ALU_OUTPUT
and IR of the WB stage only. -/
theorem memoryAccess_sp_kept (s s' : sim_pipe) (h : memoryAccess s = some s') :
    sp_kept s'.specialP_Reg s.specialP_Reg := by
  have h0 : ∀ s0 : sim_pipe, s0 = (if s.op THIRD = NOP then s.setSP MEM IR NOP.toNat else s) →
      sp_kept s0.specialP_Reg s.specialP_Reg := by
    intro s0 hs0
    rw [hs0]
    split_ifs
    · exact sp_kept_set _ _ _ _ rfl
    · exact sp_kept_refl _
  unfold memoryAccess at h
  dsimp only at h
  generalize hs0 : (if s.op THIRD = NOP then s.setSP MEM IR NOP.toNat else s) = s0 at h
  have v0 := h0 s0 hs0.symm
  obtain ⟨t, ht, rfl⟩ := Option.map_eq_some'.mp h
  have vt : sp_kept t.specialP_Reg s0.specialP_Reg := by
    by_cases c1 : s0.specialP_Reg.get MEM IR = LW.toNat
    · rw [if_pos c1] at ht
      by_cases c2 : s0.specialP_Reg.get MEM ALU_OUTPUT + 4 ≤ s0.data_memory_size
      · rw [if_pos c2] at ht
        simp only [Option.some.injEq] at ht
        subst ht
        simp only [setSP_specialP_Reg, setPipe_specialP_Reg]
        exact sp_kept_set _ _ _ _ rfl
      · rw [if_neg c2] at ht
        contradiction
    · rw [if_neg c1] at ht
      by_cases c3 : s0.specialP_Reg.get MEM IR = SW.toNat
      · rw [if_pos c3] at ht
        rw [write_memory_specialP_Reg _ _ _ _ ht]
        exact sp_kept_refl _
      · rw [if_neg c3] at ht
        simp only [Option.some.injEq] at ht
        subst ht
        simp only [setSP_specialP_Reg]
        exact sp_kept_set _ _ _ _ rfl
  simp only [setSP_specialP_Reg, setPipe_specialP_Reg]
  exact sp_kept_set_trans _ _ _ rfl (sp_kept_trans vt v0)

/-- The method `set_gp_register` assigns to no special purpose register. -/
theorem set_gp_register_specialP_Reg (s : sim_pipe) (r : Nat) (v : Int) :
    (s.set_gp_register r v).specialP_Reg = s.specialP_Reg := by
  unfold set_gp_register
  split_ifs <;> rfl

/-- The head of `writeBack` assigns to IR of the WB stage only. -/
theorem writeBackCommit_sp_kept (s : sim_pipe) :
    sp_kept (writeBackCommit s).specialP_Reg s.specialP_Reg := by
  have h0 : sp_kept (if s.op FORTH = NOP then s.setSP WB IR NOP.toNat else s).specialP_Reg
      s.specialP_Reg := by
    split_ifs
    · exact sp_kept_set _ _ _ _ rfl
    · exact sp_kept_refl _
  have key : ∀ (s0 : sim_pipe) (c1 c2 : Prop) [Decidable c1] [Decidable c2] (d : Nat)
      (v w : Int), (if c1 then s0.set_gp_register d v
        else if c2 then s0.set_gp_register d w else s0).specialP_Reg = s0.specialP_Reg := by
    intro s0 c1 c2 _ _ d v w
    split_ifs
    · exact set_gp_register_specialP_Reg _ _ _
    · exact set_gp_register_specialP_Reg _ _ _
    · rfl
  unfold writeBackCommit
  dsimp only
  rw [key]
  exact h0

/-- The redirection of `fetch` assigns to no special purpose register. -/
theorem fetchJump_specialP_Reg (s s' : sim_pipe) (h : fetchJump s = some s') :
    s'.specialP_Reg = s.specialP_Reg := by
  unfold fetchJump at h
  split_ifs at h
  · obtain ⟨j, _, rfl⟩ := Option.map_eq_some'.mp h
    rfl
  · simp only [Option.some.injEq] at h
    subst h
    rfl

/-- The body of an unstalled `fetch` assigns to PC and IR of the IF stage and to NPC and IR of
the ID stage only. -/
theorem fetchLoad_sp_kept (s : sim_pipe) (instr : instruction_t) :
    sp_kept (fetchLoad s instr).specialP_Reg s.specialP_Reg := by
  unfold fetchLoad
  dsimp only
  split_ifs <;> simp only [setSP_specialP_Reg, setPipe_specialP_Reg] <;>
    repeat first
      | refine sp_kept_set_trans _ _ _ rfl ?_
      | exact sp_kept_refl s.specialP_Reg

/-- The method `load_program` assigns to PC of the IF stage only. -/
theorem load_program_sp_kept (s s' : sim_pipe) (lines : List asm_line) (base : Nat)
    (h : s.load_program lines base = some s') : sp_kept s'.specialP_Reg s.specialP_Reg := by
  unfold load_program at h
  obtain ⟨a, _, h⟩ := Option.bind_eq_some.mp h
  obtain ⟨b, _, rfl⟩ := Option.map_eq_some'.mp h
  exact sp_kept_set _ _ _ _ rfl

/-- The method `fetch` keeps the stage registers outside `sp_written`. -/
theorem fetch_sp_kept (s s' : sim_pipe) (h : fetch s = some s') :
    sp_kept s'.specialP_Reg s.specialP_Reg := by
  rw [fetch_eq] at h
  by_cases h1 : s.memoryStall = true
  · rw [if_pos h1] at h
    simp only [Option.some.injEq] at h
    subst h
    exact sp_kept_refl _
  · rw [if_neg h1] at h
    by_cases h2 : s.stalls ≠ 0
    · rw [if_pos h2] at h
      simp only [Option.some.injEq] at h
      subst h
      split_ifs <;> exact sp_kept_refl _
    · rw [if_neg h2] at h
      obtain ⟨j, hj, h⟩ := Option.bind_eq_some.mp h
      obtain ⟨instr, _, h⟩ := Option.bind_eq_some.mp h
      simp only [Option.some.injEq] at h
      subst h
      have hl := fetchLoad_sp_kept j instr
      rw [fetchJump_specialP_Reg s j hj] at hl
      split_ifs
      · exact hl
      · exact hl

/-- The method `decode`, with the call of `fetch` it makes, keeps the stage registers outside
`sp_written`. -/
theorem decode_sp_kept (s s' : sim_pipe) (h : decode s = some s') :
    sp_kept s'.specialP_Reg s.specialP_Reg := by
  rw [decode_eq] at h
  have a := hazardHandler_sp_kept s
  have c : sp_kept (decodeLatch (decodeRead (hazardHandler s))).specialP_Reg s.specialP_Reg := by
    have c0 := decodeLatch_sp_kept (decodeRead (hazardHandler s))
    rw [decodeRead_specialP_Reg] at c0
    exact sp_kept_trans c0 a
  by_cases h1 : (hazardHandler s).memoryStall = true
  · rw [if_pos h1] at h
    simp only [Option.some.injEq] at h
    subst h
    exact a
  · rw [if_neg h1] at h
    by_cases h2 : (hazardHandler s).stalls ≠ 0 ∧ (hazardHandler s).branchStall = false
    · rw [if_pos h2] at h
      simp only [Option.some.injEq] at h
      subst h
      exact a
    · rw [if_neg h2] at h
      by_cases h3 : (decodeLatch (decodeRead (hazardHandler s))).clkIn = ID + 1
      · rw [if_pos h3] at h
        obtain ⟨t, ht, rfl⟩ := Option.map_eq_some'.mp h
        have k := fetch_sp_kept _ _ ht
        exact sp_kept_trans k c
      · rw [if_neg h3] at h
        simp only [Option.some.injEq] at h
        subst h
        exact c

/-- The method `execute`, with the calls it makes, keeps the stage registers outside
`sp_written`. -/
theorem execute_sp_kept (s s' : sim_pipe) (h : execute s = some s') :
    sp_kept s'.specialP_Reg s.specialP_Reg := by
  unfold execute at h
  have c : sp_kept (executeLatch (executeBranch (executeAlu s))).specialP_Reg
      s.specialP_Reg := by
    have c0 := executeLatch_sp_kept (executeBranch (executeAlu s))
    rw [executeBranch_specialP_Reg] at c0
    exact c0
  by_cases h1 : s.memoryStall = true
  · rw [if_pos h1] at h
    simp only [Option.some.injEq] at h
    subst h
    exact sp_kept_refl _
  · rw [if_neg h1] at h
    by_cases h2 : (executeLatch (executeBranch (executeAlu s))).clkIn = EXE + 1
    · simp only [h2, if_true] at h
      obtain ⟨t, ht, rfl⟩ := Option.map_eq_some'.mp h
      obtain ⟨d, hd, hf⟩ := Option.bind_eq_some.mp ht
      have k := fetch_sp_kept _ _ hf
      exact sp_kept_trans k (sp_kept_trans (decode_sp_kept _ _ hd) c)
    · simp only [h2, if_false] at h
      simp only [Option.some.injEq] at h
      subst h
      exact c

/-- The method `memory`, with the calls it makes, keeps the stage registers outside
`sp_written`. -/
theorem memory_sp_kept (s s' : sim_pipe) (h : memory s = some s') :
    sp_kept s'.specialP_Reg s.specialP_Reg := by
  unfold memory at h
  have a := memoryWait_specialP_Reg s
  by_cases h1 : (memoryWait s).memoryStall = true
  · simp only [h1, if_true] at h
    simp only [Option.some.injEq] at h
    subst h
    rw [a]
    exact sp_kept_refl _
  · simp only [h1, if_false] at h
    obtain ⟨m, hm, h⟩ := Option.bind_eq_some.mp h
    have m2 := memoryAccess_sp_kept _ _ hm
    rw [a] at m2
    by_cases h3 : m.clkIn = MEM + 1
    · rw [if_pos h3] at h
      obtain ⟨t, ht, rfl⟩ := Option.map_eq_some'.mp h
      obtain ⟨d, hd, hf⟩ := Option.bind_eq_some.mp ht
      obtain ⟨e, he, hd⟩ := Option.bind_eq_some.mp hd
      have k := fetch_sp_kept _ _ hf
      exact sp_kept_trans k
        (sp_kept_trans (decode_sp_kept _ _ hd) (sp_kept_trans (execute_sp_kept _ _ he) m2))
    · rw [if_neg h3] at h
      simp only [Option.some.injEq] at h
      subst h
      exact m2

/-- The method `writeBack`, with the calls it makes, keeps the stage registers outside
`sp_written`. -/
theorem writeBack_sp_kept (s s' : sim_pipe) (h : writeBack s = some s') :
    sp_kept s'.specialP_Reg s.specialP_Reg := by
  unfold writeBack at h
  have a := writeBackCommit_sp_kept s
  by_cases hc : (writeBackCommit s).clkIn ≥ WB + 1
  · simp only [hc, if_true] at h
    obtain ⟨t, ht, rfl⟩ := Option.map_eq_some'.mp h
    obtain ⟨d, hd, hf⟩ := Option.bind_eq_some.mp ht
    obtain ⟨e, he, hd⟩ := Option.bind_eq_some.mp hd
    obtain ⟨m, hm, he⟩ := Option.bind_eq_some.mp he
    have k := fetch_sp_kept _ _ hf
    have key : sp_kept t.specialP_Reg s.specialP_Reg :=
      sp_kept_trans k
        (sp_kept_trans (decode_sp_kept _ _ hd)
          (sp_kept_trans (execute_sp_kept _ _ he) (sp_kept_trans (memory_sp_kept _ _ hm) a)))
    split_ifs
    · exact key
    · exact key
  · simp only [hc, if_false, Option.some.injEq] at h
    subst h
    exact a

/-- A pass of the dispatch keeps the stage registers outside `sp_written`. -/
theorem dispatch_sp_kept (s s' : sim_pipe) (h : dispatch s = some s') :
    sp_kept s'.specialP_Reg s.specialP_Reg := by
  unfold dispatch at h
  split_ifs at h
  · exact fetch_sp_kept _ _ h
  · exact decode_sp_kept _ _ h
  · exact execute_sp_kept _ _ h
  · exact memory_sp_kept _ _ h
  · exact writeBack_sp_kept _ _ h
  · exact writeBack_sp_kept _ _ h
  · simp only [Option.some.injEq] at h
    subst h
    exact sp_kept_refl _

/-- The loop of `run` keeps the stage registers outside `sp_written`. -/
theorem run_loop_sp_kept : ∀ (fuel : Nat) (s s' : sim_pipe),
    (run_loop fuel s = run_result.returned s' ∨ run_loop fuel s = run_result.looping s') →
      sp_kept s'.specialP_Reg s.specialP_Reg := by
  intro fuel
  induction fuel with
  | zero =>
    intro s s' h
    rcases h with h | h
    · simp [run_loop] at h
    · simp only [run_loop, run_result.looping.injEq] at h
      subst h
      exact sp_kept_refl _
  | succ fuel ih =>
    intro s s' h
    rw [run_loop_succ] at h
    cases hd : dispatch s with
    | none => simp [hd] at h
    | some s1 =>
      simp only [hd] at h
      have h1 := dispatch_sp_kept s s1 hd
      by_cases hr : s1.runAlways = true
      · simp only [hr, if_true] at h
        exact sp_kept_trans (ih s1 s' h) h1
      · simp only [hr] at h
        rcases h with h | h
        · simp only [Bool.false_eq_true, if_false, run_result.returned.injEq] at h
          subst h
          exact h1
        · simp at h

/-- In every reachable state of the integer simulator the stage registers outside `sp_written`
hold what `reset` has put there. -/
theorem reachable_sp_kept (s : sim_pipe) (h : reachable s) :
    sp_kept s.specialP_Reg (sp_table.fill UNDEFINED) := by
  induction h with
  | reset s => exact sp_kept_refl _
  | load_program lines base _ hl ih => exact sp_kept_trans (load_program_sp_kept _ _ _ _ hl) ih
  | set_gp_register reg value _ ih =>
    rw [set_gp_register_specialP_Reg]
    exact ih
  | write_memory address value _ hw ih =>
    rw [write_memory_specialP_Reg _ _ _ _ hw]
    exact ih
  | run fuel cycles _ hr ih =>
    unfold run at hr
    refine sp_kept_trans (run_loop_sp_kept fuel _ _ hr) ?_
    split_ifs
    · exact ih
    · exact ih

/-- In every reachable state of the integer simulator, every stage register to which no method
assigns reads `UNDEFINED` through `get_sp_register`. -/
theorem reachable_unwritten (s : sim_pipe) (h : reachable s) (stage reg : Nat)
    (hs : stage < 5) (hr : reg < 9) (hw : sp_written stage reg = false) :
    s.get_sp_register reg stage = UNDEFINED := by
  have hk := reachable_sp_kept s h stage reg hw
  unfold get_sp_register
  rw [if_pos ⟨hr, hs⟩, hk]
  rcases stage with _ | _ | _ | _ | _ | stage <;>
    rcases reg with _ | _ | _ | _ | _ | _ | _ | _ | _ | reg <;> first | rfl | omega

/-- The state in which scenario S1 has returned from `run(0)` is reachable. -/
theorem reachable_S1 : reachable (state_after 0 program_S1 9) :=
  reachable.run 9 0
    (reachable.load_program program_S1 0
      (reachable.set_gp_register 0 0 (reachable.reset (sim_pipe.new 16 0)))
      (rfl : (((sim_pipe.new 16 0).reset).set_gp_register 0 0).load_program program_S1 0 =
        boot 16 0 program_S1))
    (Or.inl rfl)

/-- C23.  In every state of the integer simulator reachable from `reset` by `load_program`,
`set_gp_register`, `write_memory` and `run`, `get_sp_register(LMD, ID)` returns `UNDEFINED`
(0xFFFFFFFF): no method assigns to `specialP_Reg[ID][LMD]`. -/
theorem c23_lmd_id_undefined (s : sim_pipe) (h : reachable s) :
    s.get_sp_register LMD ID = 0xFFFFFFFF :=
  reachable_unwritten s h ID LMD (by decide) (by decide) rfl

/-- Witness of C23: the state in which scenario S1 has returned from `run(0)`. -/
theorem c23_lmd_id_undefined_witness :
    reachable (state_after 0 program_S1 9) ∧
      (state_after 0 program_S1 9).get_sp_register LMD ID = 0xFFFFFFFF :=
  ⟨reachable_S1, c23_lmd_id_undefined _ reachable_S1⟩

/-- C24.  The state in which scenario S1 (`ADDI R1 R0 5; ADDI R2 R0 7; ADD R3 R1 R2; EOP` with
R0 = 0) has returned from `run(0)` is reachable, and in it `get_sp_register(A, ID)` and
`get_sp_register(B, ID)` return 0, not `UNDEFINED`: the hazard handler has stored the source
operands of the instruction in IF/ID there (after four passes of the loop they are 1 and 2,
the register numbers of the `ADD`).  In the same state `get_sp_register(IR, IF)` returns 14,
the opcode of `EOP`, although the IF stage has no IR.  The stage registers to which no method
assigns do read `UNDEFINED` in every reachable state, for instance LMD of ID and A and B of
IF. -/
theorem c24_id_operands_written :
    reachable (state_after 0 program_S1 9) ∧
    (state_after 0 program_S1 9).get_sp_register A ID = 0 ∧
    (state_after 0 program_S1 9).get_sp_register B ID = 0 ∧
    (state_after 0 program_S1 9).get_sp_register A ID ≠ 0xFFFFFFFF ∧
    (state_after 0 program_S1 9).get_sp_register B ID ≠ 0xFFFFFFFF ∧
    (state_after 0 program_S1 4).get_sp_register A ID = 1 ∧
    (state_after 0 program_S1 4).get_sp_register B ID = 2 ∧
    (state_after 0 program_S1 9).get_sp_register IR IF = 14 ∧
    (∀ s, reachable s → s.get_sp_register LMD ID = 0xFFFFFFFF ∧
      s.get_sp_register A IF = 0xFFFFFFFF ∧ s.get_sp_register B IF = 0xFFFFFFFF) :=
  ⟨reachable_S1, rfl, rfl, by decide, by decide, rfl, rfl, rfl, fun s h =>
    ⟨reachable_unwritten s h ID LMD (by decide) (by decide) rfl,
      reachable_unwritten s h IF A (by decide) (by decide) rfl,
      reachable_unwritten s h IF B (by decide) (by decide) rfl⟩⟩

/-! ## `reset` and the instruction memory -/

/-- The method `reset` of the FP variant overwrites every slot of the instruction memory: the
opcode becomes `NOP` and the four numeric members become `UNDEFINED` (the label is kept). -/
theorem fp_reset_instr_memory (t : fp.sim_pipe_fp) (i : fp.instruction_t)
    (h : i ∈ t.reset.instr_memory) :
    i.opcode = .NOP ∧ i.src1 = UNDEFINED ∧ i.src2 = UNDEFINED ∧ i.dest = UNDEFINED ∧
      i.immediate = UNDEFINED := by
  have h' : i ∈ t.instr_memory.map fun i : fp.instruction_t =>
      { i with opcode := fp.opcode_t.NOP, src1 := UNDEFINED, src2 := UNDEFINED,
               dest := UNDEFINED, immediate := UNDEFINED } := h
  obtain ⟨j, _, rfl⟩ := List.mem_map.mp h'
  exact ⟨rfl, rfl, rfl, rfl, rfl⟩

/-- C21.  The method `reset` of the integer simulator does not assign to `instr_memory`: in
every state the instruction memory is after `reset` what it was before.  After scenario S1 has
been loaded (`ADDI R1 R0 5; ADDI R2 R0 7; ADD R3 R1 R2; EOP`) and `reset` has been called, slot
0 still holds `ADDI R1 R0 5` and the next call of `fetch` puts it into IF/ID.  The method
`reset` of the FP simulator does clear the instruction memory: every slot gets opcode `NOP` and
`UNDEFINED` operands, and after the same steps `fp_fetch` puts a `NOP` into IF/ID. -/
theorem c21_reset_keeps_program :
    (∀ s : sim_pipe, s.reset.instr_memory = s.instr_memory) ∧
    (∃ s0 s1, boot 16 0 program_S1 = some s0 ∧
      s0.reset.instr_memory[0]? =
        some { opcode := ADDI, src1 := 0, src2 := 0, dest := 1, immediate := 5, label := "" } ∧
      fetch s0.reset = some s1 ∧
      (s1.pipe_reg.get FIRST).pipe_IR =
        { opcode := ADDI, src1 := 0, src2 := 0, dest := 1, immediate := 5, label := "" } ∧
      s1.get_instructions_executed = 1) ∧
    (∀ (t : fp.sim_pipe_fp) (i : fp.instruction_t), i ∈ t.reset.instr_memory →
      i.opcode = .NOP ∧ i.src1 = UNDEFINED ∧ i.src2 = UNDEFINED ∧ i.dest = UNDEFINED ∧
        i.immediate = UNDEFINED) ∧
    (∃ t0 t1, fp.boot 16 0 fp.program_S1 = some t0 ∧
      t0.instr_memory[0]? =
        some { opcode := .ADDI, src1 := 0, src2 := UNDEFINED, dest := 1, immediate := 5,
               label := "" } ∧
      t0.reset.fp_fetch = some t1 ∧ t1.op FIRST = .NOP) :=
  ⟨fun _ => rfl, ⟨_, _, rfl, rfl, rfl, rfl, rfl⟩, fp_reset_instr_memory,
    ⟨_, _, rfl, rfl, rfl, rfl⟩⟩

/-! # The floating-point variant and the observability calls -/

/-! ## Data memory: `write_memory` -/

/-- The four bytes of a 32-bit value, least significant first, reassemble to the value. -/
theorem bytes_reassemble (v : Nat) (hv : v < 2 ^ 32) :
    v % 2 ^ 8 + 2 ^ 8 * (v / 2 ^ 8 % 2 ^ 8) + 2 ^ 16 * (v / 2 ^ 16 % 2 ^ 8) +
      2 ^ 24 * (v / 2 ^ 24 % 2 ^ 8) = v := by
  norm_num at hv ⊢
  omega

/-- The bytes that `int2char` stores, the bytes it leaves, and the value that `char2int`
reads back. -/
theorem int2char_spec (mem : Nat → Nat) (a v : Nat) (hv : v < 2 ^ 32) :
    (∀ k, k < 4 → int2char v mem a (a + k) = v / 2 ^ (8 * k) % 2 ^ 8) ∧
    (∀ j, (j < a ∨ a + 4 ≤ j) → int2char v mem a j = mem j) ∧
    char2int (int2char v mem a) a = v := by
  refine ⟨?_, ?_, ?_⟩
  · intro k hk
    unfold int2char
    rcases k with _ | _ | _ | _ | k
    · simp
    · simp
    · simp
    · simp
    · omega
  · intro j hj
    unfold int2char
    rw [if_neg (by omega), if_neg (by omega), if_neg (by omega), if_neg (by omega)]
  · unfold char2int int2char
    simp only [if_true, if_neg (show ¬ a + 1 = a by omega), if_neg (show ¬ a + 2 = a by omega),
      if_neg (show ¬ a + 2 = a + 1 by omega), if_neg (show ¬ a + 3 = a by omega),
      if_neg (show ¬ a + 3 = a + 1 by omega), if_neg (show ¬ a + 3 = a + 2 by omega)]
    exact bytes_reassemble v hv

/-- The bytes that `unsigned2char` stores, the bytes it leaves, and the value that
`char2unsigned` reads back. -/
theorem unsigned2char_spec (mem : Nat → Nat) (a v : Nat) (hv : v < 2 ^ 32) :
    (∀ k, k < 4 → fp.unsigned2char v mem a (a + k) = v / 2 ^ (8 * k) % 2 ^ 8) ∧
    (∀ j, (j < a ∨ a + 4 ≤ j) → fp.unsigned2char v mem a j = mem j) ∧
    fp.char2unsigned (fp.unsigned2char v mem a) a = v := by
  refine ⟨?_, ?_, ?_⟩
  · intro k hk
    unfold fp.unsigned2char
    rcases k with _ | _ | _ | _ | k
    · simp
    · simp
    · simp
    · simp
    · omega
  · intro j hj
    unfold fp.unsigned2char
    rw [if_neg (by omega), if_neg (by omega), if_neg (by omega), if_neg (by omega)]
  · unfold fp.char2unsigned fp.unsigned2char
    simp only [if_true, if_neg (show ¬ a + 1 = a by omega), if_neg (show ¬ a + 2 = a by omega),
      if_neg (show ¬ a + 2 = a + 1 by omega), if_neg (show ¬ a + 3 = a by omega),
      if_neg (show ¬ a + 3 = a + 1 by omega), if_neg (show ¬ a + 3 = a + 2 by omega)]
    have h := bytes_reassemble v hv
    unfold u32
    norm_num at hv h ⊢
    omega

/-- C22.  For every address `a` with `a + 3` inside the data memory and every 32-bit value
`v`, `write_memory(a, v)` returns with byte `a + k` equal to `(v >> 8k) & 0xFF` for
`k = 0..3` and every other byte of the data memory unchanged, and the four bytes reassemble
to `v`: through `char2int` in the integer variant (the embedding takes the byte order of
`memcpy` to be little-endian, as the comments of the source do) and through `char2unsigned` in
the FP variant. -/
theorem c22_write_memory_round_trip (s : sim_pipe) (t : fp.sim_pipe_fp) (a v : Nat)
    (hv : v < 2 ^ 32) :
    (a + 3 < s.data_memory_size → ∃ s', s.write_memory a v = some s' ∧
      (∀ k, k < 4 → s'.data_memory (a + k) = v / 2 ^ (8 * k) % 2 ^ 8) ∧
      (∀ j, (j < a ∨ a + 4 ≤ j) → s'.data_memory j = s.data_memory j) ∧
      char2int s'.data_memory a = v) ∧
    (a + 3 < t.data_memory_size → ∃ t', t.write_memory a v = some t' ∧
      (∀ k, k < 4 → t'.data_memory (a + k) = v / 2 ^ (8 * k) % 2 ^ 8) ∧
      (∀ j, (j < a ∨ a + 4 ≤ j) → t'.data_memory j = t.data_memory j) ∧
      fp.char2unsigned t'.data_memory a = v) := by
  refine ⟨?_, ?_⟩
  · intro h
    refine ⟨{ s with data_memory := int2char v s.data_memory a }, ?_,
      int2char_spec s.data_memory a v hv⟩
    unfold write_memory
    rw [if_pos (show a + 4 ≤ s.data_memory_size by omega)]
  · intro h
    refine ⟨{ t with data_memory := fp.unsigned2char v t.data_memory a }, ?_,
      unsigned2char_spec t.data_memory a v hv⟩
    unfold fp.sim_pipe_fp.write_memory
    rw [if_pos (show a + 4 ≤ t.data_memory_size by omega)]

/-- Witness of C22: the value 0x12345678 written at address 4 of a 16-byte data memory in both
variants. -/
theorem c22_write_memory_round_trip_witness :
    (0x12345678 < 2 ^ 32) ∧
    (4 + 3 < (sim_pipe.new 16 0).data_memory_size ∧
      ∃ s', (sim_pipe.new 16 0).write_memory 4 0x12345678 = some s' ∧
        s'.data_memory 4 = 0x78 ∧ s'.data_memory 5 = 0x56 ∧ s'.data_memory 6 = 0x34 ∧
        s'.data_memory 7 = 0x12 ∧ s'.data_memory 3 = 0xFF ∧ s'.data_memory 8 = 0xFF ∧
        char2int s'.data_memory 4 = 0x12345678) ∧
    (4 + 3 < (fp.sim_pipe_fp.new 16 0).data_memory_size ∧
      ∃ t', (fp.sim_pipe_fp.new 16 0).write_memory 4 0x12345678 = some t' ∧
        fp.char2unsigned t'.data_memory 4 = 0x12345678) := by
  have h := c22_write_memory_round_trip (sim_pipe.new 16 0) (fp.sim_pipe_fp.new 16 0) 4
    0x12345678 (by norm_num)
  obtain ⟨s', h1, _, _, h4⟩ := h.1 (by decide)
  obtain ⟨t', g1, _, _, g4⟩ := h.2 (by decide)
  refine ⟨by norm_num, ⟨by decide, s', h1, ?_, ?_, ?_, ?_, ?_, ?_, h4⟩, by decide, t', g1, g4⟩
  all_goals
    have e : s' = { sim_pipe.new 16 0 with
        data_memory := int2char 0x12345678 (sim_pipe.new 16 0).data_memory 4 } :=
      (Option.some.inj h1).symm
    rw [e]
    decide

/-! ## Out-of-range indices in the integer variant -/

/-- C25.  In the integer simulator `get_gp_register(reg)` returns 0 for every `reg >= 32`,
`get_sp_register` returns 0 when the register name is 9 or more or the stage is 5 or more, and
`set_gp_register(reg, v)` with `reg >= 32` returns the simulator state unchanged. -/
theorem c25_out_of_range (s : sim_pipe) (reg stage : Nat) (v : Int) :
    (32 ≤ reg → s.get_gp_register reg = 0) ∧
    ((9 ≤ reg ∨ 5 ≤ stage) → s.get_sp_register reg stage = 0) ∧
    (32 ≤ reg → s.set_gp_register reg v = s) := by
  refine ⟨?_, ?_, ?_⟩
  · intro h
    unfold get_gp_register
    rw [if_neg (show ¬ reg < NUM_GP_REGISTERS from not_lt.mpr h)]
  · intro h
    unfold get_sp_register
    rw [if_neg]
    intro hc
    have h9 : reg < 9 := hc.1
    omega
  · intro h
    unfold set_gp_register
    rw [if_neg (show ¬ reg < NUM_GP_REGISTERS from not_lt.mpr h)]

/-- Witness of C25: register 32 and stage 5 on the state in which scenario S1 has returned. -/
theorem c25_out_of_range_witness :
    (state_after 0 program_S1 9).get_gp_register 32 = 0 ∧
    (state_after 0 program_S1 9).get_sp_register 32 5 = 0 ∧
    (state_after 0 program_S1 9).set_gp_register 32 7 = state_after 0 program_S1 9 :=
  have h := c25_out_of_range (state_after 0 program_S1 9) 32 5 7
  ⟨h.1 (by decide), h.2.1 (Or.inl (by decide)), h.2.2 (by decide)⟩

/-! ## The accessors of the FP variant -/

/-- C26.  In the FP simulator `get_clock_cycles()` returns the stall counter `fp_totalStalls`
and `get_stalls()` returns the cycle counter `fp_clkIn`, in every state: the two are swapped.
On scenario S1 (`ADDI R1 R0 5; ADDI R2 R0 7; ADD R3 R1 R2; EOP` with R0 = 0), when `run(0)`
has returned the cycle counter is 7 and the stall counter is 0, and `get_clock_cycles()`
returns 0 and `get_stalls()` returns 7. -/
theorem c26_fp_accessors_swapped :
    (∀ s : fp.sim_pipe_fp, s.get_clock_cycles = s.fp_totalStalls ∧ s.get_stalls = s.fp_clkIn) ∧
    (∀ fo : fp.float_ops, ∃ s0 s, fp.boot 16 0 fp.program_S1 = some s0 ∧
      s0.run fo 7 0 = fp.sim_pipe_fp.run_result.returned s ∧
      s.fp_clkIn = 7 ∧ s.fp_totalStalls = 0 ∧
      s.get_clock_cycles = 0 ∧ s.get_stalls = 7 ∧ s.get_clock_cycles ≠ s.fp_clkIn ∧
      s.get_stalls ≠ s.fp_totalStalls) := by
  refine ⟨fun s => ⟨rfl, rfl⟩, ?_⟩
  apply forall_of_generic
  exact ⟨_, _, rfl, rfl, rfl, rfl, rfl, rfl, by decide, by decide⟩

/-! ## The FP variant never stalls for a hazard -/

/-- C27.  On scenario S1 (`ADDI R1 R0 5; ADDI R2 R0 7; ADD R3 R1 R2; EOP` with R0 = 0) the FP
simulator returns from `run(0)` after 7 passes with no stall recorded and with
R3 = 0xFFFFFFFE, the sum of the reset values of R1 and R2: the `ADD` has been decoded before
the two `ADDI` have committed (R1 = 5 and R2 = 7 are committed afterwards).  The integer
simulator returns from the same scenario after 9 passes with 2 stall cycles and R3 = 12. -/
theorem c27_fp_no_hazard_stall :
    (∀ fo : fp.float_ops, ∃ s0 s, fp.boot 16 0 fp.program_S1 = some s0 ∧
      s0.run fo 7 0 = fp.sim_pipe_fp.run_result.returned s ∧
      s.get_int_register 1 = some 5 ∧ s.get_int_register 2 = some 7 ∧
      s.generalP_IntReg 3 = 0xFFFFFFFE ∧ s.get_int_register 3 = some (-2) ∧
      s.get_int_register 3 ≠ some 12 ∧ s.fp_totalStalls = 0 ∧ s.fp_stalls = 0) ∧
    (∃ s0 s, boot 16 0 program_S1 = some s0 ∧ s0.run 9 0 = run_result.returned s ∧
      s.get_gp_register 3 = 12 ∧ s.get_stalls = 2) := by
  refine ⟨?_, ⟨_, _, rfl, rfl, rfl, rfl⟩⟩
  apply forall_of_generic
  exact ⟨_, _, rfl, rfl, rfl, rfl, rfl, rfl, by decide, rfl, rfl⟩

/-- The state in which the `ADD` of scenario S1 is decoded in the FP variant: in the fourth
pass of `run(0)`, made by `fp_memory`, `fp_decode` finds the `ADD` in IF/ID while R1 and R2
still hold their reset value, and copies these values into ID/EX. -/
theorem fp_add_decoded_early :
    ∀ fo : fp.float_ops, ∃ s0 s3 s4, fp.boot 16 0 fp.program_S1 = some s0 ∧
      s0.run fo 3 0 = fp.sim_pipe_fp.run_result.looping s3 ∧
      s0.run fo 4 0 = fp.sim_pipe_fp.run_result.looping s4 ∧
      s3.fp_clkIn = 4 ∧ s3.op FIRST = .ADD ∧
      s3.generalP_IntReg 1 = UNDEFINED ∧ s3.generalP_IntReg 2 = UNDEFINED ∧
      s4.op SECOND = .ADD ∧ (s4.fp_pipe_reg.get SECOND).pipe_IR.src1 = UNDEFINED ∧
      (s4.fp_pipe_reg.get SECOND).pipe_IR.src2 = UNDEFINED ∧
      s4.generalP_IntReg 1 = UNDEFINED := by
  apply forall_of_generic
  exact ⟨_, _, _, rfl, rfl, rfl, rfl, rfl, rfl, rfl, rfl, rfl, rfl, rfl⟩

/-! ## The execution units are not used by `run` -/

/-- C28.  For the program `LWS F1 0(R0); LWS F2 4(R0); MULTS F3 F1 F2; EOP` on an FP simulator
with one INTEGER unit and one MULTIPLIER unit and with R0 = 0, `run(0)` returns after 7 passes
with the cycle counter at 7 whether the latency of the multiplier is 4 or 1: the difference is
0 and not 3.  In both runs the units are after the run what they were before it (no unit has
been marked busy), and no stall has been recorded. -/
theorem c28_multiplier_latency_ignored :
    ∀ fo : fp.float_ops, ∃ a b sa sb, fp.boot_mults 4 = some a ∧ fp.boot_mults 1 = some b ∧
      a.run fo 7 0 = fp.sim_pipe_fp.run_result.returned sa ∧
      b.run fo 7 0 = fp.sim_pipe_fp.run_result.returned sb ∧
      (a.exec_units.map fun x => (x.type, x.latency, x.busy)) =
        (fp.exe_unit_t.INTEGER, 1, 0) :: (fp.exe_unit_t.MULTIPLIER, 4, 0) ::
          List.replicate 8 (fp.exe_unit_t.INTEGER, 0, 0) ∧
      (b.exec_units.map fun x => (x.type, x.latency, x.busy)) =
        (fp.exe_unit_t.INTEGER, 1, 0) :: (fp.exe_unit_t.MULTIPLIER, 1, 0) ::
          List.replicate 8 (fp.exe_unit_t.INTEGER, 0, 0) ∧
      sa.fp_clkIn = 7 ∧ sb.fp_clkIn = 7 ∧ sa.fp_clkIn ≠ sb.fp_clkIn + 3 ∧
      sa.exec_units = a.exec_units ∧ sb.exec_units = b.exec_units ∧
      sa.fp_totalStalls = 0 ∧ sb.fp_totalStalls = 0 ∧
      sa.fp_totalInstCount = 3 ∧ sb.fp_totalInstCount = 3 := by
  apply forall_of_generic
  exact ⟨_, _, _, _, rfl, rfl, rfl, rfl, rfl, rfl, rfl, rfl, by decide, rfl, rfl, rfl, rfl, rfl,
    rfl⟩

/-! ## The integer register file of the FP variant -/

/-- The conversion `int -> unsigned -> int` is the identity on the values of `int`. -/
theorem toInt32_ofInt32 (v : Int) (h1 : -2 ^ 31 ≤ v) (h2 : v < 2 ^ 31) :
    toInt32 (ofInt32 v) = v := by
  unfold toInt32 ofInt32
  have i32 : (2 : Int) ^ 32 = 4294967296 := by norm_num
  have i31 : (2 : Int) ^ 31 = 2147483648 := by norm_num
  have n32 : (2 : Nat) ^ 32 = 4294967296 := by norm_num
  have n31 : (2 : Nat) ^ 31 = 2147483648 := by norm_num
  rw [i31] at h1 h2
  rw [i32, n31, n32]
  split_ifs <;> omega

/-- C29.  In the FP simulator the array `generalP_IntReg` has `NUM_SP_INT_REGISTERS` = 15
slots while `get_int_register` and `set_int_register` admit every `reg < 32`.  For `reg < 15`
and every `int` value `v`, `set_int_register(reg, v)` followed by `get_int_register(reg)`
returns `v`, and no other integer register and no floating-point register changes.  For
`15 <= reg < 32` both calls pass the guard and access a slot outside the array: the embedding
gives them no result; for `reg >= 32` the guard fails, the read returns 0 and the write
changes nothing. -/
theorem c29_int_register_file (s : fp.sim_pipe_fp) (reg : Nat) (v : Int) :
    fp.NUM_SP_INT_REGISTERS = 15 ∧
    (reg < 15 → -2 ^ 31 ≤ v → v < 2 ^ 31 →
      ∃ s', s.set_int_register reg v = some s' ∧ s'.get_int_register reg = some v ∧
        (∀ r, r ≠ reg → s'.generalP_IntReg r = s.generalP_IntReg r) ∧
        s'.generalP_FPReg = s.generalP_FPReg) ∧
    (15 ≤ reg → reg < 32 → s.set_int_register reg v = none ∧ s.get_int_register reg = none) ∧
    (32 ≤ reg → s.set_int_register reg v = some s ∧ s.get_int_register reg = some 0) := by
  refine ⟨rfl, ?_, ?_, ?_⟩
  · intro hr h1 h2
    have hg : reg < NUM_GP_REGISTERS := by
      show reg < 32
      omega
    have hi : reg < fp.NUM_SP_INT_REGISTERS := hr
    refine ⟨{ s with generalP_IntReg := upd s.generalP_IntReg reg (ofInt32 v) }, ?_, ?_, ?_, rfl⟩
    · unfold fp.sim_pipe_fp.set_int_register
      rw [if_pos hg, if_pos hi]
    · unfold fp.sim_pipe_fp.get_int_register
      rw [if_pos hg, if_pos hi]
      show some (toInt32 (upd s.generalP_IntReg reg (ofInt32 v) reg)) = some v
      unfold upd
      rw [if_pos rfl, toInt32_ofInt32 v h1 h2]
    · intro r hne
      show upd s.generalP_IntReg reg (ofInt32 v) r = s.generalP_IntReg r
      unfold upd
      rw [if_neg hne]
  · intro h1 h2
    have hg : reg < NUM_GP_REGISTERS := h2
    have hi : ¬ reg < fp.NUM_SP_INT_REGISTERS := not_lt.mpr h1
    unfold fp.sim_pipe_fp.set_int_register fp.sim_pipe_fp.get_int_register
    rw [if_pos hg, if_neg hi, if_pos hg, if_neg hi]
    exact ⟨rfl, rfl⟩
  · intro h
    have hg : ¬ reg < NUM_GP_REGISTERS := not_lt.mpr h
    unfold fp.sim_pipe_fp.set_int_register fp.sim_pipe_fp.get_int_register
    rw [if_neg hg, if_neg hg]
    exact ⟨rfl, rfl⟩

/-- Witness of C29 on a new simulator: register 14 is the last one inside the array; the
accesses to register 15 leave it. -/
theorem c29_int_register_file_witness :
    (∃ s', (fp.sim_pipe_fp.new 16 0).set_int_register 14 (-7) = some s' ∧
      s'.get_int_register 14 = some (-7)) ∧
    (fp.sim_pipe_fp.new 16 0).set_int_register 15 7 = none ∧
    (fp.sim_pipe_fp.new 16 0).get_int_register 15 = none ∧
    (fp.sim_pipe_fp.new 16 0).get_int_register 32 = some 0 := by
  have h := c29_int_register_file (fp.sim_pipe_fp.new 16 0) 14 (-7)
  have h15 := c29_int_register_file (fp.sim_pipe_fp.new 16 0) 15 7
  have h32 := c29_int_register_file (fp.sim_pipe_fp.new 16 0) 32 7
  obtain ⟨s', g1, g2, _⟩ := h.2.1 (by decide) (by norm_num) (by norm_num)
  exact ⟨⟨s', g1, g2⟩, (h15.2.2.1 (by decide) (by decide)).1,
    (h15.2.2.1 (by decide) (by decide)).2, (h32.2.2.2 (by decide)).2⟩

/-! ## `get_free_unit` -/

/-- One iteration of the loop of `get_free_unit`, for an opcode that needs a unit: the test
made on unit `u` is the test for the type that the specification requires. -/
theorem get_free_unit_from_succ (s : fp.sim_pipe_fp) (opcode : fp.opcode_t) (n u : Nat)
    (h1 : opcode ≠ .EOP) (h2 : opcode ≠ .NOP) :
    s.get_free_unit_from opcode (n + 1) u =
      (s.exec_units[u]?).bind fun x =>
        if some x.type = fp.required_unit opcode ∧ x.busy = 0 then some u
        else s.get_free_unit_from opcode n (u + 1) := by
  cases opcode <;> first
    | exact absurd rfl h1
    | exact absurd rfl h2
    | (rw [fp.sim_pipe_fp.get_free_unit_from]
       simp [fp.required_unit])

/-- The loop of `get_free_unit` from unit `u` with `n` iterations left, all inside the array:
it returns the first idle unit of the required type among `u, ..., u + n - 1`, or `UNDEFINED`
when there is none. -/
theorem get_free_unit_from_spec (s : fp.sim_pipe_fp) (opcode : fp.opcode_t)
    (h1 : opcode ≠ .EOP) (h2 : opcode ≠ .NOP) :
    ∀ n u, u + n ≤ s.exec_units.length →
      ∃ r, s.get_free_unit_from opcode n u = some r ∧
        ((u ≤ r ∧ r < u + n ∧ fp.free_unit s opcode r ∧
            ∀ v, u ≤ v → v < r → ¬ fp.free_unit s opcode v) ∨
          (r = UNDEFINED ∧ ∀ v, u ≤ v → v < u + n → ¬ fp.free_unit s opcode v)) := by
  intro n
  induction n with
  | zero =>
    intro u _
    refine ⟨UNDEFINED, rfl, Or.inr ⟨rfl, ?_⟩⟩
    intro v hv1 hv2
    omega
  | succ n ih =>
    intro u hu
    rw [get_free_unit_from_succ s opcode n u h1 h2]
    have hlt : u < s.exec_units.length := by omega
    have hx : s.exec_units[u]? = some (s.exec_units.get ⟨u, hlt⟩) := List.getElem?_eq_getElem hlt
    rw [hx, Option.some_bind]
    by_cases hc : some (s.exec_units.get ⟨u, hlt⟩).type = fp.required_unit opcode ∧
        (s.exec_units.get ⟨u, hlt⟩).busy = 0
    · rw [if_pos hc]
      refine ⟨u, rfl, Or.inl ⟨le_refl u, by omega, ⟨_, hx, hc.1, hc.2⟩, ?_⟩⟩
      intro v hv1 hv2
      omega
    · rw [if_neg hc]
      have hnot : ¬ fp.free_unit s opcode u := by
        rintro ⟨x, hx', hty, hb⟩
        rw [hx] at hx'
        have hxe : s.exec_units.get ⟨u, hlt⟩ = x := Option.some.inj hx'
        rw [hxe] at hc
        exact hc ⟨hty, hb⟩
      obtain ⟨r, hr, hcase⟩ := ih (u + 1) (by omega)
      refine ⟨r, hr, ?_⟩
      rcases hcase with ⟨g1, g2, g3, g4⟩ | ⟨g1, g2⟩
      · refine Or.inl ⟨by omega, by omega, g3, ?_⟩
        intro v hv1 hv2
        by_cases hvu : v = u
        · rw [hvu]
          exact hnot
        · exact g4 v (by omega) hv2
      · refine Or.inr ⟨g1, ?_⟩
        intro v hv1 hv2
        by_cases hvu : v = u
        · rw [hvu]
          exact hnot
        · exact g2 v (by omega) (by omega)

/-- C30.  In the FP simulator with at least one unit configured (the `num_units` configured
units lie in the `MAX_UNITS` slots of `exec_units`) and an opcode other than `EOP` and `NOP`,
`get_free_unit(opcode)` returns a value `r`: either the smallest index `r < num_units` whose
unit has `busy = 0` and the type required by the opcode, or `UNDEFINED` when there is no such
unit; and it returns `UNDEFINED` exactly when there is none.  The method is a function of the
state: it assigns to no member. -/
theorem c30_get_free_unit (s : fp.sim_pipe_fp) (opcode : fp.opcode_t)
    (h0 : 0 < s.num_units) (hlen : s.exec_units.length = fp.MAX_UNITS)
    (hmax : s.num_units ≤ fp.MAX_UNITS) (h1 : opcode ≠ .EOP) (h2 : opcode ≠ .NOP) :
    ∃ r, s.get_free_unit opcode = some r ∧
      ((r < s.num_units ∧ fp.free_unit s opcode r ∧ ∀ v, v < r → ¬ fp.free_unit s opcode v) ∨
        (r = UNDEFINED ∧ ∀ v, v < s.num_units → ¬ fp.free_unit s opcode v)) ∧
      (r = UNDEFINED ↔ ∀ v, v < s.num_units → ¬ fp.free_unit s opcode v) := by
  have hm : fp.MAX_UNITS = 10 := rfl
  have hU : UNDEFINED = 4294967295 := rfl
  obtain ⟨r, hr, hcase⟩ := get_free_unit_from_spec s opcode h1 h2 s.num_units 0
    (by rw [hlen]; omega)
  refine ⟨r, ?_, ?_, ?_⟩
  · unfold fp.sim_pipe_fp.get_free_unit
    rw [if_neg (by omega)]
    exact hr
  · rcases hcase with ⟨_, g2, g3, g4⟩ | ⟨g1, g2⟩
    · exact Or.inl ⟨by omega, g3, fun v hv => g4 v (Nat.zero_le v) hv⟩
    · exact Or.inr ⟨g1, fun v hv => g2 v (Nat.zero_le v) (by omega)⟩
  · rcases hcase with ⟨_, g2, g3, _⟩ | ⟨g1, g2⟩
    · constructor
      · intro hu
        omega
      · intro hnone
        exact absurd g3 (hnone r (by omega))
    · exact ⟨fun _ v hv => g2 v (Nat.zero_le v) (by omega), fun _ => g1⟩

/-- Witness of C30: a simulator with one INTEGER unit and one MULTIPLIER unit; `MULTS` gets
unit 1, `ADD` gets unit 0 and `ADDS` gets `UNDEFINED`. -/
theorem c30_get_free_unit_witness :
    ∃ s, fp.boot_mults 4 = some s ∧ s.num_units = 2 ∧
      s.get_free_unit .MULTS = some 1 ∧ s.get_free_unit .ADD = some 0 ∧
      s.get_free_unit .ADDS = some UNDEFINED ∧
      ∃ r, s.get_free_unit .MULTS = some r ∧
        ((r < s.num_units ∧ fp.free_unit s .MULTS r ∧
            ∀ v, v < r → ¬ fp.free_unit s .MULTS v) ∨
          (r = UNDEFINED ∧ ∀ v, v < s.num_units → ¬ fp.free_unit s .MULTS v)) ∧
        (r = UNDEFINED ↔ ∀ v, v < s.num_units → ¬ fp.free_unit s .MULTS v) := by
  refine ⟨_, rfl, rfl, rfl, rfl, rfl, ?_⟩
  exact c30_get_free_unit _ .MULTS (by decide) rfl (by decide) (by decide) (by decide)

/-! ## No method called by `run` touches the execution units -/

/-- Writing a special purpose register leaves the execution units as they are. -/
theorem fp_setSP_units (s : fp.sim_pipe_fp) (a b c : Nat) :
    (s.setSP a b c).exec_units = s.exec_units ∧ (s.setSP a b c).num_units = s.num_units :=
  ⟨rfl, rfl⟩

/-- Writing a latch leaves the execution units as they are. -/
theorem fp_setPipe_units (s : fp.sim_pipe_fp) (k : Nat) (r : fp.pipeline_Registers) :
    (s.setPipe k r).exec_units = s.exec_units ∧ (s.setPipe k r).num_units = s.num_units :=
  ⟨rfl, rfl⟩

/-- The method `set_int_register` leaves the execution units as they are. -/
theorem fp_set_int_register_units (s s' : fp.sim_pipe_fp) (reg : Nat) (v : Int)
    (h : s.set_int_register reg v = some s') :
    s'.exec_units = s.exec_units ∧ s'.num_units = s.num_units := by
  unfold fp.sim_pipe_fp.set_int_register at h
  split_ifs at h <;> simp only [Option.some.injEq] at h <;> subst h <;> exact ⟨rfl, rfl⟩

/-- The method `write_memory` of the FP variant leaves the execution units as they are. -/
theorem fp_write_memory_units (s s' : fp.sim_pipe_fp) (a v : Nat)
    (h : s.write_memory a v = some s') :
    s'.exec_units = s.exec_units ∧ s'.num_units = s.num_units := by
  unfold fp.sim_pipe_fp.write_memory at h
  split_ifs at h
  simp only [Option.some.injEq] at h
  subst h
  exact ⟨rfl, rfl⟩

/-- The method `fp_fetch` leaves the execution units as they are. -/
theorem fp_fetch_units (s s' : fp.sim_pipe_fp) (h : s.fp_fetch = some s') :
    s'.exec_units = s.exec_units ∧ s'.num_units = s.num_units := by
  unfold fp.sim_pipe_fp.fp_fetch at h
  by_cases h1 : s.fp_memoryStall = true
  · rw [if_pos h1] at h
    simp only [Option.some.injEq] at h
    subst h
    exact ⟨rfl, rfl⟩
  · rw [if_neg h1] at h
    by_cases h2 : s.fp_stalls ≠ 0
    · rw [if_pos h2] at h
      simp only [Option.some.injEq] at h
      subst h
      split_ifs <;> exact ⟨rfl, rfl⟩
    · rw [if_neg h2] at h
      dsimp only at h
      obtain ⟨instr, _, h⟩ := Option.bind_eq_some.mp h
      simp only [Option.some.injEq] at h
      subst h
      refine ⟨?_, ?_⟩ <;> split_ifs <;> simp only [fp_setSP_units, fp_setPipe_units]

/-- The method `fp_decode`, with the call of `fp_fetch` it makes, leaves the execution units
as they are. -/
theorem fp_decode_units (s s' : fp.sim_pipe_fp) (h : s.fp_decode = some s') :
    s'.exec_units = s.exec_units ∧ s'.num_units = s.num_units := by
  unfold fp.sim_pipe_fp.fp_decode at h
  by_cases h1 : s.fp_memoryStall = true
  · rw [if_pos h1] at h
    simp only [Option.some.injEq] at h
    subst h
    exact ⟨rfl, rfl⟩
  · rw [if_neg h1] at h
    by_cases h2 : s.fp_stalls ≠ 0 ∧ s.fp_branchStall = false
    · rw [if_pos h2] at h
      simp only [Option.some.injEq] at h
      subst h
      exact ⟨rfl, rfl⟩
    · rw [if_neg h2] at h
      obtain ⟨d, hd, h⟩ := Option.bind_eq_some.mp h
      have hdu : d.exec_units = s.exec_units ∧ d.num_units = s.num_units := by
        by_cases h3 : s.op FIRST ≠ fp.opcode_t.NOP
        · rw [if_pos h3] at hd
          dsimp only at hd
          obtain ⟨v1, _, hd⟩ := Option.bind_eq_some.mp hd
          obtain ⟨v2, _, rfl⟩ := Option.map_eq_some'.mp hd
          exact ⟨rfl, rfl⟩
        · rw [if_neg h3] at hd
          simp only [Option.some.injEq] at hd
          subst hd
          exact ⟨rfl, rfl⟩
      dsimp only at h
      split_ifs at h
      all_goals first
        | (obtain ⟨t, ht, rfl⟩ := Option.map_eq_some'.mp h
           have k := fp_fetch_units _ _ ht
           simp only [fp_setSP_units, fp_setPipe_units] at k
           exact ⟨k.1.trans hdu.1, k.2.trans hdu.2⟩)
        | (simp only [Option.some.injEq] at h
           subst h
           simp only [fp_setSP_units, fp_setPipe_units]
           exact hdu)

/-- The switch of `fp_execute` leaves the execution units as they are. -/
theorem fp_executeBranch_units (s : fp.sim_pipe_fp) :
    (fp.sim_pipe_fp.executeBranch s).exec_units = s.exec_units ∧
      (fp.sim_pipe_fp.executeBranch s).num_units = s.num_units := by
  unfold fp.sim_pipe_fp.executeBranch
  generalize (s.fp_pipe_reg.get SECOND).pipe_IR = ir
  rcases ir with ⟨o, s1, s2, d, im, l⟩
  cases o <;> dsimp only <;> (try split_ifs) <;> exact ⟨rfl, rfl⟩

/-- The method `fp_execute`, with the calls it makes, leaves the execution units as they
are. -/
theorem fp_execute_units (fo : fp.float_ops) (s s' : fp.sim_pipe_fp)
    (h : s.fp_execute fo = some s') :
    s'.exec_units = s.exec_units ∧ s'.num_units = s.num_units := by
  unfold fp.sim_pipe_fp.fp_execute at h
  by_cases h1 : s.fp_memoryStall = true
  · rw [if_pos h1] at h
    simp only [Option.some.injEq] at h
    subst h
    exact ⟨rfl, rfl⟩
  · rw [if_neg h1] at h
    dsimp only at h
    split_ifs at h
    all_goals first
      | (obtain ⟨t, ht, rfl⟩ := Option.map_eq_some'.mp h
         obtain ⟨d, hd, hf⟩ := Option.bind_eq_some.mp ht
         have k := fp_fetch_units _ _ hf
         have kd := fp_decode_units _ _ hd
         simp only [fp_setSP_units, fp_setPipe_units, fp_executeBranch_units] at kd
         exact ⟨k.1.trans kd.1, k.2.trans kd.2⟩)
      | (simp only [Option.some.injEq] at h
         subst h
         simp only [fp_setSP_units, fp_setPipe_units, fp_executeBranch_units]
         exact ⟨trivial, trivial⟩)

/-- The latency bookkeeping of `fp_memory` leaves the execution units as they are. -/
theorem fp_memoryWait_units (s : fp.sim_pipe_fp) :
    (fp.sim_pipe_fp.memoryWait s).exec_units = s.exec_units ∧
      (fp.sim_pipe_fp.memoryWait s).num_units = s.num_units := by
  unfold fp.sim_pipe_fp.memoryWait
  dsimp only
  split_ifs <;> exact ⟨rfl, rfl⟩

/-- The method `fp_memory`, with the calls it makes, leaves the execution units as they
are. -/
theorem fp_memory_units (fo : fp.float_ops) (s s' : fp.sim_pipe_fp)
    (h : s.fp_memory fo = some s') :
    s'.exec_units = s.exec_units ∧ s'.num_units = s.num_units := by
  unfold fp.sim_pipe_fp.fp_memory at h
  have a := fp_memoryWait_units s
  generalize fp.sim_pipe_fp.memoryWait s = w at h a
  dsimp only at h
  by_cases h1 : w.fp_memoryStall = true
  · rw [if_pos h1] at h
    simp only [Option.some.injEq] at h
    subst h
    exact a
  · rw [if_neg h1] at h
    obtain ⟨m, hm, h⟩ := Option.bind_eq_some.mp h
    have hmu : m.exec_units = w.exec_units ∧ m.num_units = w.num_units := by
      split_ifs at hm
      all_goals first
        | contradiction
        | (have k := fp_write_memory_units _ _ _ _ hm
           simp only [fp_setSP_units] at k
           exact k)
        | (simp only [Option.some.injEq] at hm
           subst hm
           simp only [fp_setSP_units, fp_setPipe_units]
           exact ⟨trivial, trivial⟩)
    split_ifs at h
    all_goals first
      | (obtain ⟨t, ht, rfl⟩ := Option.map_eq_some'.mp h
         obtain ⟨d, hd, hf⟩ := Option.bind_eq_some.mp ht
         obtain ⟨e, he, hd⟩ := Option.bind_eq_some.mp hd
         have k := fp_fetch_units _ _ hf
         have kd := fp_decode_units _ _ hd
         have ke := fp_execute_units fo _ _ he
         simp only [fp_setSP_units, fp_setPipe_units] at ke
         exact ⟨k.1.trans (kd.1.trans (ke.1.trans (hmu.1.trans a.1))),
           k.2.trans (kd.2.trans (ke.2.trans (hmu.2.trans a.2)))⟩)
      | (simp only [Option.some.injEq] at h
         subst h
         simp only [fp_setSP_units, fp_setPipe_units]
         exact ⟨hmu.1.trans a.1, hmu.2.trans a.2⟩)

/-- The method `fp_writeBack`, with the calls it makes, leaves the execution units as they
are. -/
theorem fp_writeBack_units (fo : fp.float_ops) (s s' : fp.sim_pipe_fp)
    (h : s.fp_writeBack fo = some s') :
    s'.exec_units = s.exec_units ∧ s'.num_units = s.num_units := by
  unfold fp.sim_pipe_fp.fp_writeBack at h
  dsimp only at h
  obtain ⟨c, hc, h⟩ := Option.bind_eq_some.mp h
  have hcu : c.exec_units = s.exec_units ∧ c.num_units = s.num_units := by
    split_ifs at hc
    all_goals first
      | (have k := fp_set_int_register_units _ _ _ _ hc
         simp only [fp_setSP_units] at k
         exact k)
      | (simp only [Option.some.injEq] at hc
         subst hc
         simp only [fp_setSP_units]
         exact ⟨trivial, trivial⟩)
  by_cases h5 : c.fp_clkIn ≥ WB + 1
  · rw [if_pos h5] at h
    obtain ⟨t, ht, rfl⟩ := Option.map_eq_some'.mp h
    obtain ⟨d, hd, hf⟩ := Option.bind_eq_some.mp ht
    obtain ⟨e, he, hd⟩ := Option.bind_eq_some.mp hd
    obtain ⟨m, hm, he⟩ := Option.bind_eq_some.mp he
    have k := fp_fetch_units _ _ hf
    have kd := fp_decode_units _ _ hd
    have ke := fp_execute_units fo _ _ he
    have km := fp_memory_units fo _ _ hm
    have key : t.exec_units = s.exec_units ∧ t.num_units = s.num_units :=
      ⟨k.1.trans (kd.1.trans (ke.1.trans (km.1.trans hcu.1))),
        k.2.trans (kd.2.trans (ke.2.trans (km.2.trans hcu.2)))⟩
    split_ifs
    · exact key
    · exact key
  · rw [if_neg h5] at h
    simp only [Option.some.injEq] at h
    subst h
    exact hcu

/-- A pass of the dispatch of the FP variant leaves the execution units as they are. -/
theorem fp_dispatch_units (fo : fp.float_ops) (s s' : fp.sim_pipe_fp)
    (h : s.dispatch fo = some s') :
    s'.exec_units = s.exec_units ∧ s'.num_units = s.num_units := by
  unfold fp.sim_pipe_fp.dispatch at h
  split_ifs at h
  · exact fp_fetch_units _ _ h
  · exact fp_decode_units _ _ h
  · exact fp_execute_units fo _ _ h
  · exact fp_memory_units fo _ _ h
  · exact fp_writeBack_units fo _ _ h
  · exact fp_writeBack_units fo _ _ h
  · simp only [Option.some.injEq] at h
    subst h
    exact ⟨rfl, rfl⟩

/-- The loop of `run` of the FP variant leaves the execution units as they are. -/
theorem fp_run_loop_units (fo : fp.float_ops) : ∀ (fuel : Nat) (s s' : fp.sim_pipe_fp),
    (fp.sim_pipe_fp.run_loop fo fuel s = fp.sim_pipe_fp.run_result.returned s' ∨
      fp.sim_pipe_fp.run_loop fo fuel s = fp.sim_pipe_fp.run_result.looping s') →
      s'.exec_units = s.exec_units ∧ s'.num_units = s.num_units := by
  intro fuel
  induction fuel with
  | zero =>
    intro s s' h
    rcases h with h | h
    · simp [fp.sim_pipe_fp.run_loop] at h
    · simp only [fp.sim_pipe_fp.run_loop, fp.sim_pipe_fp.run_result.looping.injEq] at h
      subst h
      exact ⟨rfl, rfl⟩
  | succ fuel ih =>
    intro s s' h
    rw [fp.sim_pipe_fp.run_loop] at h
    cases hd : s.dispatch fo with
    | none => simp [hd] at h
    | some s1 =>
      simp only [hd] at h
      have h1 := fp_dispatch_units fo s s1 hd
      by_cases hr : s1.fp_runAlways = true
      · simp only [hr, if_true] at h
        have h2 := ih s1 s' h
        exact ⟨h2.1.trans h1.1, h2.2.trans h1.2⟩
      · simp only [hr] at h
        rcases h with h | h
        · simp only [Bool.false_eq_true, if_false,
            fp.sim_pipe_fp.run_result.returned.injEq] at h
          subst h
          exact h1
        · simp at h

/-- No call of `run` of the FP variant changes a unit or the number of units, whatever the
program, the state and the number of passes: `run` marks no unit busy and decrements no busy
counter. -/
theorem fp_run_units (fo : fp.float_ops) (fuel cycles : Nat) (s s' : fp.sim_pipe_fp)
    (h : s.run fo fuel cycles = fp.sim_pipe_fp.run_result.returned s' ∨
      s.run fo fuel cycles = fp.sim_pipe_fp.run_result.looping s') :
    s'.exec_units = s.exec_units ∧ s'.num_units = s.num_units := by
  unfold fp.sim_pipe_fp.run at h
  have k := fp_run_loop_units fo fuel _ s' h
  refine ⟨k.1.trans ?_, k.2.trans ?_⟩ <;> split_ifs <;> rfl

/-! ## No method called by `run` writes a floating-point register -/

/-- Writing a special purpose register leaves the floating-point registers and the instruction
memory as they are. -/
theorem fp_setSP_fpregs (s : fp.sim_pipe_fp) (a b c : Nat) :
    (s.setSP a b c).generalP_FPReg = s.generalP_FPReg ∧
      (s.setSP a b c).instr_memory = s.instr_memory :=
  ⟨rfl, rfl⟩

/-- Writing a latch leaves the floating-point registers and the instruction memory as they are. -/
theorem fp_setPipe_fpregs (s : fp.sim_pipe_fp) (k : Nat) (r : fp.pipeline_Registers) :
    (s.setPipe k r).generalP_FPReg = s.generalP_FPReg ∧
      (s.setPipe k r).instr_memory = s.instr_memory :=
  ⟨rfl, rfl⟩

/-- The method `set_int_register` leaves the floating-point registers and the instruction memory
as they are. -/
theorem fp_set_int_register_fpregs (s s' : fp.sim_pipe_fp) (reg : Nat) (v : Int)
    (h : s.set_int_register reg v = some s') :
    s'.generalP_FPReg = s.generalP_FPReg ∧ s'.instr_memory = s.instr_memory := by
  unfold fp.sim_pipe_fp.set_int_register at h
  split_ifs at h <;> simp only [Option.some.injEq] at h <;> subst h <;> exact ⟨rfl, rfl⟩

/-- The method `write_memory` of the FP variant leaves the floating-point registers and the
instruction memory as they are. -/
theorem fp_write_memory_fpregs (s s' : fp.sim_pipe_fp) (a v : Nat)
    (h : s.write_memory a v = some s') :
    s'.generalP_FPReg = s.generalP_FPReg ∧ s'.instr_memory = s.instr_memory := by
  unfold fp.sim_pipe_fp.write_memory at h
  split_ifs at h
  simp only [Option.some.injEq] at h
  subst h
  exact ⟨rfl, rfl⟩

/-- The method `fp_fetch` leaves the floating-point registers and the instruction memory as they
are. -/
theorem fp_fetch_fpregs (s s' : fp.sim_pipe_fp) (h : s.fp_fetch = some s') :
    s'.generalP_FPReg = s.generalP_FPReg ∧ s'.instr_memory = s.instr_memory := by
  unfold fp.sim_pipe_fp.fp_fetch at h
  by_cases h1 : s.fp_memoryStall = true
  · rw [if_pos h1] at h
    simp only [Option.some.injEq] at h
    subst h
    exact ⟨rfl, rfl⟩
  · rw [if_neg h1] at h
    by_cases h2 : s.fp_stalls ≠ 0
    · rw [if_pos h2] at h
      simp only [Option.some.injEq] at h
      subst h
      split_ifs <;> exact ⟨rfl, rfl⟩
    · rw [if_neg h2] at h
      dsimp only at h
      obtain ⟨instr, _, h⟩ := Option.bind_eq_some.mp h
      simp only [Option.some.injEq] at h
      subst h
      refine ⟨?_, ?_⟩ <;> split_ifs <;> simp only [fp_setSP_fpregs, fp_setPipe_fpregs]

/-- The method `fp_decode`, with the call of `fp_fetch` it makes, leaves the floating-point
registers and the instruction memory as they are. -/
theorem fp_decode_fpregs (s s' : fp.sim_pipe_fp) (h : s.fp_decode = some s') :
    s'.generalP_FPReg = s.generalP_FPReg ∧ s'.instr_memory = s.instr_memory := by
  unfold fp.sim_pipe_fp.fp_decode at h
  by_cases h1 : s.fp_memoryStall = true
  · rw [if_pos h1] at h
    simp only [Option.some.injEq] at h
    subst h
    exact ⟨rfl, rfl⟩
  · rw [if_neg h1] at h
    by_cases h2 : s.fp_stalls ≠ 0 ∧ s.fp_branchStall = false
    · rw [if_pos h2] at h
      simp only [Option.some.injEq] at h
      subst h
      exact ⟨rfl, rfl⟩
    · rw [if_neg h2] at h
      obtain ⟨d, hd, h⟩ := Option.bind_eq_some.mp h
      have hdu : d.generalP_FPReg = s.generalP_FPReg ∧ d.instr_memory = s.instr_memory := by
        by_cases h3 : s.op FIRST ≠ fp.opcode_t.NOP
        · rw [if_pos h3] at hd
          dsimp only at hd
          obtain ⟨v1, _, hd⟩ := Option.bind_eq_some.mp hd
          obtain ⟨v2, _, rfl⟩ := Option.map_eq_some'.mp hd
          exact ⟨rfl, rfl⟩
        · rw [if_neg h3] at hd
          simp only [Option.some.injEq] at hd
          subst hd
          exact ⟨rfl, rfl⟩
      dsimp only at h
      split_ifs at h
      all_goals first
        | (obtain ⟨t, ht, rfl⟩ := Option.map_eq_some'.mp h
           have k := fp_fetch_fpregs _ _ ht
           simp only [fp_setSP_fpregs, fp_setPipe_fpregs] at k
           exact ⟨k.1.trans hdu.1, k.2.trans hdu.2⟩)
        | (simp only [Option.some.injEq] at h
           subst h
           simp only [fp_setSP_fpregs, fp_setPipe_fpregs]
           exact hdu)

/-- The switch of `fp_execute` leaves the floating-point registers and the instruction memory as
they are. -/
theorem fp_executeBranch_fpregs (s : fp.sim_pipe_fp) :
    (fp.sim_pipe_fp.executeBranch s).generalP_FPReg = s.generalP_FPReg ∧
      (fp.sim_pipe_fp.executeBranch s).instr_memory = s.instr_memory := by
  unfold fp.sim_pipe_fp.executeBranch
  generalize (s.fp_pipe_reg.get SECOND).pipe_IR = ir
  rcases ir with ⟨o, s1, s2, d, im, l⟩
  cases o <;> dsimp only <;> (try split_ifs) <;> exact ⟨rfl, rfl⟩

/-- The method `fp_execute`, with the calls it makes, leaves the floating-point registers and
the instruction memory as they are. -/
theorem fp_execute_fpregs (fo : fp.float_ops) (s s' : fp.sim_pipe_fp)
    (h : s.fp_execute fo = some s') :
    s'.generalP_FPReg = s.generalP_FPReg ∧ s'.instr_memory = s.instr_memory := by
  unfold fp.sim_pipe_fp.fp_execute at h
  by_cases h1 : s.fp_memoryStall = true
  · rw [if_pos h1] at h
    simp only [Option.some.injEq] at h
    subst h
    exact ⟨rfl, rfl⟩
  · rw [if_neg h1] at h
    dsimp only at h
    split_ifs at h
    all_goals first
      | (obtain ⟨t, ht, rfl⟩ := Option.map_eq_some'.mp h
         obtain ⟨d, hd, hf⟩ := Option.bind_eq_some.mp ht
         have k := fp_fetch_fpregs _ _ hf
         have kd := fp_decode_fpregs _ _ hd
         simp only [fp_setSP_fpregs, fp_setPipe_fpregs, fp_executeBranch_fpregs] at kd
         exact ⟨k.1.trans kd.1, k.2.trans kd.2⟩)
      | (simp only [Option.some.injEq] at h
         subst h
         simp only [fp_setSP_fpregs, fp_setPipe_fpregs, fp_executeBranch_fpregs]
         exact ⟨trivial, trivial⟩)

/-- The latency bookkeeping of `fp_memory` leaves the floating-point registers and the
instruction memory as they are. -/
theorem fp_memoryWait_fpregs (s : fp.sim_pipe_fp) :
    (fp.sim_pipe_fp.memoryWait s).generalP_FPReg = s.generalP_FPReg ∧
      (fp.sim_pipe_fp.memoryWait s).instr_memory = s.instr_memory := by
  unfold fp.sim_pipe_fp.memoryWait
  dsimp only
  split_ifs <;> exact ⟨rfl, rfl⟩

/-- The method `fp_memory`, with the calls it makes, leaves the floating-point registers and the
instruction memory as they are. -/
theorem fp_memory_fpregs (fo : fp.float_ops) (s s' : fp.sim_pipe_fp)
    (h : s.fp_memory fo = some s') :
    s'.generalP_FPReg = s.generalP_FPReg ∧ s'.instr_memory = s.instr_memory := by
  unfold fp.sim_pipe_fp.fp_memory at h
  have a := fp_memoryWait_fpregs s
  generalize fp.sim_pipe_fp.memoryWait s = w at h a
  dsimp only at h
  by_cases h1 : w.fp_memoryStall = true
  · rw [if_pos h1] at h
    simp only [Option.some.injEq] at h
    subst h
    exact a
  · rw [if_neg h1] at h
    obtain ⟨m, hm, h⟩ := Option.bind_eq_some.mp h
    have hmu : m.generalP_FPReg = w.generalP_FPReg ∧ m.instr_memory = w.instr_memory := by
      split_ifs at hm
      all_goals first
        | contradiction
        | (have k := fp_write_memory_fpregs _ _ _ _ hm
           simp only [fp_setSP_fpregs] at k
           exact k)
        | (simp only [Option.some.injEq] at hm
           subst hm
           simp only [fp_setSP_fpregs, fp_setPipe_fpregs]
           exact ⟨trivial, trivial⟩)
    split_ifs at h
    all_goals first
      | (obtain ⟨t, ht, rfl⟩ := Option.map_eq_some'.mp h
         obtain ⟨d, hd, hf⟩ := Option.bind_eq_some.mp ht
         obtain ⟨e, he, hd⟩ := Option.bind_eq_some.mp hd
         have k := fp_fetch_fpregs _ _ hf
         have kd := fp_decode_fpregs _ _ hd
         have ke := fp_execute_fpregs fo _ _ he
         simp only [fp_setSP_fpregs, fp_setPipe_fpregs] at ke
         exact ⟨k.1.trans (kd.1.trans (ke.1.trans (hmu.1.trans a.1))),
           k.2.trans (kd.2.trans (ke.2.trans (hmu.2.trans a.2)))⟩)
      | (simp only [Option.some.injEq] at h
         subst h
         simp only [fp_setSP_fpregs, fp_setPipe_fpregs]
         exact ⟨hmu.1.trans a.1, hmu.2.trans a.2⟩)

/-- The method `fp_writeBack`, with the calls it makes, leaves the floating-point registers and
the instruction memory as they are. -/
theorem fp_writeBack_fpregs (fo : fp.float_ops) (s s' : fp.sim_pipe_fp)
    (h : s.fp_writeBack fo = some s') :
    s'.generalP_FPReg = s.generalP_FPReg ∧ s'.instr_memory = s.instr_memory := by
  unfold fp.sim_pipe_fp.fp_writeBack at h
  dsimp only at h
  obtain ⟨c, hc, h⟩ := Option.bind_eq_some.mp h
  have hcu : c.generalP_FPReg = s.generalP_FPReg ∧ c.instr_memory = s.instr_memory := by
    split_ifs at hc
    all_goals first
      | (have k := fp_set_int_register_fpregs _ _ _ _ hc
         simp only [fp_setSP_fpregs] at k
         exact k)
      | (simp only [Option.some.injEq] at hc
         subst hc
         simp only [fp_setSP_fpregs]
         exact ⟨trivial, trivial⟩)
  by_cases h5 : c.fp_clkIn ≥ WB + 1
  · rw [if_pos h5] at h
    obtain ⟨t, ht, rfl⟩ := Option.map_eq_some'.mp h
    obtain ⟨d, hd, hf⟩ := Option.bind_eq_some.mp ht
    obtain ⟨e, he, hd⟩ := Option.bind_eq_some.mp hd
    obtain ⟨m, hm, he⟩ := Option.bind_eq_some.mp he
    have k := fp_fetch_fpregs _ _ hf
    have kd := fp_decode_fpregs _ _ hd
    have ke := fp_execute_fpregs fo _ _ he
    have km := fp_memory_fpregs fo _ _ hm
    have key : t.generalP_FPReg = s.generalP_FPReg ∧ t.instr_memory = s.instr_memory :=
      ⟨k.1.trans (kd.1.trans (ke.1.trans (km.1.trans hcu.1))),
        k.2.trans (kd.2.trans (ke.2.trans (km.2.trans hcu.2)))⟩
    split_ifs
    · exact key
    · exact key
  · rw [if_neg h5] at h
    simp only [Option.some.injEq] at h
    subst h
    exact hcu

/-- A pass of the dispatch of the FP variant leaves the floating-point registers and the
instruction memory as they are. -/
theorem fp_dispatch_fpregs (fo : fp.float_ops) (s s' : fp.sim_pipe_fp)
    (h : s.dispatch fo = some s') :
    s'.generalP_FPReg = s.generalP_FPReg ∧ s'.instr_memory = s.instr_memory := by
  unfold fp.sim_pipe_fp.dispatch at h
  split_ifs at h
  · exact fp_fetch_fpregs _ _ h
  · exact fp_decode_fpregs _ _ h
  · exact fp_execute_fpregs fo _ _ h
  · exact fp_memory_fpregs fo _ _ h
  · exact fp_writeBack_fpregs fo _ _ h
  · exact fp_writeBack_fpregs fo _ _ h
  · simp only [Option.some.injEq] at h
    subst h
    exact ⟨rfl, rfl⟩

/-- The loop of `run` of the FP variant leaves the floating-point registers and the instruction
memory as they are. -/
theorem fp_run_loop_fpregs (fo : fp.float_ops) : ∀ (fuel : Nat) (s s' : fp.sim_pipe_fp),
    (fp.sim_pipe_fp.run_loop fo fuel s = fp.sim_pipe_fp.run_result.returned s' ∨
      fp.sim_pipe_fp.run_loop fo fuel s = fp.sim_pipe_fp.run_result.looping s') →
      s'.generalP_FPReg = s.generalP_FPReg ∧ s'.instr_memory = s.instr_memory := by
  intro fuel
  induction fuel with
  | zero =>
    intro s s' h
    rcases h with h | h
    · simp [fp.sim_pipe_fp.run_loop] at h
    · simp only [fp.sim_pipe_fp.run_loop, fp.sim_pipe_fp.run_result.looping.injEq] at h
      subst h
      exact ⟨rfl, rfl⟩
  | succ fuel ih =>
    intro s s' h
    rw [fp.sim_pipe_fp.run_loop] at h
    cases hd : s.dispatch fo with
    | none => simp [hd] at h
    | some s1 =>
      simp only [hd] at h
      have h1 := fp_dispatch_fpregs fo s s1 hd
      by_cases hr : s1.fp_runAlways = true
      · simp only [hr, if_true] at h
        have h2 := ih s1 s' h
        exact ⟨h2.1.trans h1.1, h2.2.trans h1.2⟩
      · simp only [hr] at h
        rcases h with h | h
        · simp only [Bool.false_eq_true, if_false,
            fp.sim_pipe_fp.run_result.returned.injEq] at h
          subst h
          exact h1
        · simp at h

/-- No call of `run` of the FP variant changes a floating-point register or the instruction
memory, whatever the program, the state and the number of passes. -/
theorem fp_run_fpregs (fo : fp.float_ops) (fuel cycles : Nat) (s s' : fp.sim_pipe_fp)
    (h : s.run fo fuel cycles = fp.sim_pipe_fp.run_result.returned s' ∨
      s.run fo fuel cycles = fp.sim_pipe_fp.run_result.looping s') :
    s'.generalP_FPReg = s.generalP_FPReg ∧ s'.instr_memory = s.instr_memory := by
  unfold fp.sim_pipe_fp.run at h
  have k := fp_run_loop_fpregs fo fuel _ s' h
  refine ⟨k.1.trans ?_, k.2.trans ?_⟩ <;> split_ifs <;> rfl

/-! ## Write-back in the FP variant -/

/-- The run of `program_fp_commit`: the contents of MEM/WB and of the registers of WB after 5
and 6 passes, and the floating-point registers F2 and F3 after 5, 6 and 7 passes. -/
theorem fp_commit_run :
    ∀ fo : fp.float_ops, ∃ s0 s5 s6 s7, fp.boot_fp_commit = some s0 ∧
      s0.run fo 5 0 = fp.sim_pipe_fp.run_result.looping s5 ∧
      s0.run fo 6 0 = fp.sim_pipe_fp.run_result.looping s6 ∧
      s0.run fo 7 0 = fp.sim_pipe_fp.run_result.returned s7 ∧
      s5.op FORTH = .LWS ∧ s5.specialP_Reg.get WB IR = fp.opcode_t.LWS.toNat ∧
      (s5.fp_pipe_reg.get FORTH).pipe_IR.dest = 2 ∧ s5.specialP_Reg.get WB LMD = 0xFF ∧
      s5.fp_clkIn = 6 ∧ s5.generalP_FPReg 2 = 0xFFFFFFFF ∧ s6.generalP_FPReg 2 = 0xFFFFFFFF ∧
      s6.op FORTH = .ADDS ∧ s6.specialP_Reg.get WB IR = fp.opcode_t.ADDS.toNat ∧
      (s6.fp_pipe_reg.get FORTH).pipe_IR.dest = 3 ∧
      s6.specialP_Reg.get WB ALU_OUTPUT = u32 (fo.adds 0x40000000 0x40000000) ∧
      s6.fp_clkIn = 7 ∧ s6.generalP_FPReg 3 = 0xFFFFFFFF ∧ s7.generalP_FPReg 3 = 0xFFFFFFFF ∧
      s7.generalP_FPReg 2 = 0xFFFFFFFF := by
  apply forall_of_generic
  exact ⟨_, _, _, _, rfl, rfl, rfl, rfl, rfl, rfl, rfl, rfl, rfl, rfl, rfl, rfl, rfl, rfl, rfl,
    rfl, rfl, rfl, rfl⟩

/-- C31.  The method `fp_writeBack`, with the calls it makes, never writes a floating-point
register: the register file `generalP_FPReg` is after the call what it was before, whatever
MEM/WB holds, and the same holds for a whole call of `run`.  On the program
`LW R4 0(R0); LWS F2 0(R0); ADDS F3 F1 F1; EOP` (R0 = 0, R1 = 0x40000000, the bit pattern of
2.0): after 5 passes MEM/WB holds the `LWS` with `dest` 2 and the LMD register of WB holds
0xFF, and the write-back of the sixth pass leaves F2 at 0xFFFFFFFF; after 6 passes MEM/WB
holds the `ADDS` with `dest` 3 and the ALU_OUTPUT register of WB holds the sum that the host
arithmetic gives for the operands, and the write-back of the seventh pass, with which `run(0)`
returns, leaves F3 at 0xFFFFFFFF (with the sum of 2.0 and 2.0 being 4.0, bit pattern
0x40800000, F3 differs from ALU_OUTPUT). -/
theorem c31_fp_results_not_committed :
    (∀ (fo : fp.float_ops) (s s' : fp.sim_pipe_fp), s.fp_writeBack fo = some s' →
      s'.generalP_FPReg = s.generalP_FPReg) ∧
    (∀ (fo : fp.float_ops) (fuel cycles : Nat) (s s' : fp.sim_pipe_fp),
      s.run fo fuel cycles = fp.sim_pipe_fp.run_result.returned s' →
      s'.generalP_FPReg = s.generalP_FPReg) ∧
    (∀ fo : fp.float_ops, ∃ s0 s5 s6 s7, fp.boot_fp_commit = some s0 ∧
      s0.run fo 5 0 = fp.sim_pipe_fp.run_result.looping s5 ∧
      s0.run fo 6 0 = fp.sim_pipe_fp.run_result.looping s6 ∧
      s0.run fo 7 0 = fp.sim_pipe_fp.run_result.returned s7 ∧
      s5.op FORTH = .LWS ∧ s5.specialP_Reg.get WB IR = fp.opcode_t.LWS.toNat ∧
      (s5.fp_pipe_reg.get FORTH).pipe_IR.dest = 2 ∧ s5.specialP_Reg.get WB LMD = 0xFF ∧
      s6.generalP_FPReg 2 = 0xFFFFFFFF ∧ s6.generalP_FPReg 2 ≠ s5.specialP_Reg.get WB LMD ∧
      s6.op FORTH = .ADDS ∧ s6.specialP_Reg.get WB IR = fp.opcode_t.ADDS.toNat ∧
      (s6.fp_pipe_reg.get FORTH).pipe_IR.dest = 3 ∧
      s6.specialP_Reg.get WB ALU_OUTPUT = u32 (fo.adds 0x40000000 0x40000000) ∧
      s7.generalP_FPReg 3 = 0xFFFFFFFF ∧ s7.generalP_FPReg 2 = 0xFFFFFFFF ∧
      (fo.adds 0x40000000 0x40000000 = 0x40800000 →
        s7.generalP_FPReg 3 ≠ s6.specialP_Reg.get WB ALU_OUTPUT)) := by
  refine ⟨fun fo s s' h => (fp_writeBack_fpregs fo s s' h).1,
    fun fo fuel cycles s s' h => (fp_run_fpregs fo fuel cycles s s' (Or.inl h)).1, ?_⟩
  intro fo
  obtain ⟨s0, s5, s6, s7, h0, h5, h6, h7, a1, a2, a3, a4, _, _, b1, b2, b3, b4, b5, _, _, c1,
    c2⟩ := fp_commit_run fo
  refine ⟨s0, s5, s6, s7, h0, h5, h6, h7, a1, a2, a3, a4, b1, ?_, b2, b3, b4, b5, c1, c2, ?_⟩
  · rw [b1, a4]
    decide
  · intro h
    rw [c1, b5, h]
    decide

/-! ## A branch that is not taken -/

/-- The switch of `execute` on a conditional branch that it does not take returns the state
as it is: for `BEQZ` with a non-zero operand, `BNEZ` and `BGTZ` with a zero operand, `BLEZ`
with a non-zero operand and `BLTZ` with any operand. -/
theorem executeBranch_not_taken (s : sim_pipe)
    (h : s.op SECOND = BEQZ ∧ (s.pipe_reg.get SECOND).pipe_IR.src1 ≠ 0 ∨
      s.op SECOND = BNEZ ∧ (s.pipe_reg.get SECOND).pipe_IR.src1 = 0 ∨
      s.op SECOND = BGTZ ∧ (s.pipe_reg.get SECOND).pipe_IR.src1 = 0 ∨
      s.op SECOND = BLEZ ∧ (s.pipe_reg.get SECOND).pipe_IR.src1 ≠ 0 ∨
      s.op SECOND = BLTZ) :
    executeBranch s = s := by
  unfold sim_pipe.op at h
  unfold executeBranch
  generalize (s.pipe_reg.get SECOND).pipe_IR = ir at h
  rcases ir with ⟨o, s1, s2, d, im, l⟩
  dsimp only at h ⊢
  rcases h with ⟨h1, h2⟩ | ⟨h1, h2⟩ | ⟨h1, h2⟩ | ⟨h1, h2⟩ | h1 <;> subst h1 <;> dsimp only
  · rw [if_neg h2]
  · rw [if_neg (not_not.mpr h2)]
  · rw [if_neg (by omega)]
  · rw [if_neg (by omega)]
  · rw [if_neg (by omega)]

/-- C32.  When `execute` processes, with no memory stall, a conditional branch that it does
not take, the pending branch-target label and `noBranches` are afterwards what they were
before: the label is not cleared.  (`BEQZ` is not taken with a non-zero operand, `BNEZ` and
`BGTZ` with a zero operand, `BLEZ` with a non-zero operand, `BLTZ` never; the state spoken of
is the one `execute` has reached when it returns or, with the cycle counter at 3, when it
calls `decode` and `fetch`.)  On `BEQZ R0 A; BNEZ R0 B; A: ADDI R1 R0 5; B: EOP` with R0 = 0,
loaded over `program_fill`: after 3 passes the pending label is `A`, set by the `BEQZ`, and
ID/EX holds the `BNEZ` with operand 0; in the fourth pass `execute` processes this `BNEZ` and
the pending label is still `A`, as it is at the end of the pass. -/
theorem c32_not_taken_keeps_label :
    (∀ s : sim_pipe, s.memoryStall = false →
      (s.op SECOND = BEQZ ∧ (s.pipe_reg.get SECOND).pipe_IR.src1 ≠ 0 ∨
        s.op SECOND = BNEZ ∧ (s.pipe_reg.get SECOND).pipe_IR.src1 = 0 ∨
        s.op SECOND = BGTZ ∧ (s.pipe_reg.get SECOND).pipe_IR.src1 = 0 ∨
        s.op SECOND = BLEZ ∧ (s.pipe_reg.get SECOND).pipe_IR.src1 ≠ 0 ∨
        s.op SECOND = BLTZ) →
      (executeLatch (executeBranch (executeAlu s))).branchToLabel = s.branchToLabel ∧
      (executeLatch (executeBranch (executeAlu s))).noBranches = s.noBranches ∧
      (s.clkIn ≠ EXE + 1 → ∃ s', execute s = some s' ∧ s'.branchToLabel = s.branchToLabel)) ∧
    (∃ m, memoryAccess (memoryWait (two_branches_after 3)) = some m ∧
      (two_branches_after 3).clkIn = 4 ∧ m.memoryStall = false ∧ m.op SECOND = BNEZ ∧
      (m.pipe_reg.get SECOND).pipe_IR.src1 = 0 ∧ m.branchToLabel = "A" ∧
      (executeLatch (executeBranch (executeAlu m))).branchToLabel = "A" ∧
      (executeLatch (executeBranch (executeAlu m))).branchToLabel ≠ "" ∧
      (two_branches_after 4).op THIRD = BNEZ ∧ (two_branches_after 4).branchToLabel = "A") := by
  refine ⟨?_, ⟨_, rfl, rfl, rfl, rfl, rfl, rfl, rfl, by decide, rfl, rfl⟩⟩
  intro s hm h
  have hb := executeLatch_branch (executeBranch (executeAlu s))
  have he : executeBranch (executeAlu s) = executeAlu s := executeBranch_not_taken _ h
  have h1 : (executeLatch (executeBranch (executeAlu s))).branchToLabel = s.branchToLabel := by
    rw [hb.1, he]
    rfl
  have h2 : (executeLatch (executeBranch (executeAlu s))).noBranches = s.noBranches := by
    rw [hb.2.1, he]
    rfl
  refine ⟨h1, h2, ?_⟩
  intro hc
  have hc' : (executeLatch (executeBranch (executeAlu s))).clkIn ≠ EXE + 1 := by
    rw [hb.2.2, (executeBranch_frame _).2.2.2]
    exact hc
  refine ⟨_, ?_, h1⟩
  rw [execute, if_neg (by rw [hm]; decide)]
  exact if_neg hc'

/-! ## The release of a pending stall -/

/-- C33.  The hazard handler entered with no memory stall and a pending stall of
`s.stalls > 0` cycles recorded at cycle `s.currentClk`.  The release cycle is
`currentClk + stalls`, plus 4 when `memStallCompleted` is set and the stall is not a branch
stall, computed in 32-bit arithmetic.  If the cycle counter differs from the release cycle the
handler returns the state as it is (pending stall and total stall count unchanged).  If it
equals the release cycle, the total stall count increases by `stalls` (modulo 2^32) and: when
IF/ID holds a conditional branch, a stall of 2 recorded at the current cycle with the
branch-stall flag set is pending afterwards; otherwise no stall is pending and the
branch-stall flag is clear.  Where the sums do not exceed 32 bits the release cycle and the
new total are the plain sums. -/
theorem c33_stall_release (s : sim_pipe) (hm : s.memoryStall = false) (hs : 0 < s.stalls) :
    (s.clkIn ≠ u32 (s.currentClk + s.stalls +
        (if s.memStallCompleted = true ∧ s.branchStall = false then 4 else 0)) →
      hazardHandler s = s) ∧
    (s.clkIn = u32 (s.currentClk + s.stalls +
        (if s.memStallCompleted = true ∧ s.branchStall = false then 4 else 0)) →
      (hazardHandler s).totalStalls = u32 (s.totalStalls + s.stalls) ∧
      (s.totalStalls + s.stalls < 2 ^ 32 →
        (hazardHandler s).totalStalls = s.totalStalls + s.stalls) ∧
      (isCondBranch (s.op FIRST) = true →
        (hazardHandler s).stalls = 2 ∧ (hazardHandler s).currentClk = s.clkIn ∧
        (hazardHandler s).branchStall = true) ∧
      (isCondBranch (s.op FIRST) = false →
        (hazardHandler s).stalls = 0 ∧ (hazardHandler s).branchStall = false)) ∧
    (s.currentClk + s.stalls +
        (if s.memStallCompleted = true ∧ s.branchStall = false then 4 else 0) < 2 ^ 32 →
      u32 (s.currentClk + s.stalls +
        (if s.memStallCompleted = true ∧ s.branchStall = false then 4 else 0)) =
      s.currentClk + s.stalls +
        (if s.memStallCompleted = true ∧ s.branchStall = false then 4 else 0)) := by
  have hs0 : s.stalls ≠ 0 := Nat.pos_iff_ne_zero.mp hs
  have hd : (if s.stalls = 0 ∧ (decide (s.op FIRST = NOP) || decide (s.op SECOND = NOP) ||
      decide (s.op THIRD = NOP)) = false then hazardDetect s else s) = s :=
    if_neg (fun h => hs0 h.1)
  have hh : hazardHandler s =
      if s.stalls ≠ 0 ∧ s.clkIn = u32 (s.currentClk + s.stalls +
          (if s.memStallCompleted = true ∧ s.branchStall = false then 4 else 0)) then
        (if isCondBranch (s.op FIRST) then
          { (if s.branchStall then
              { { s with totalStalls := u32 (s.totalStalls + s.stalls), stalls := 0 } with
                branchStall := false }
             else { s with totalStalls := u32 (s.totalStalls + s.stalls), stalls := 0 }) with
            stalls := 2, currentClk := u32 s.clkIn, branchStall := true }
        else
          (if s.branchStall then
            { { s with totalStalls := u32 (s.totalStalls + s.stalls), stalls := 0 } with
              branchStall := false }
           else { s with totalStalls := u32 (s.totalStalls + s.stalls), stalls := 0 }))
      else s := by
    unfold hazardHandler
    rw [if_neg (by rw [hm]; decide)]
    simp only [hd]
    by_cases hb : s.branchStall = true <;> simp [hb, sim_pipe.op]
  refine ⟨?_, ?_, ?_⟩
  · intro hne
    rw [hh, if_neg (fun h => hne h.2)]
  · intro heq
    have hlt : s.clkIn < 2 ^ 32 := by
      rw [heq]
      exact Nat.mod_lt _ (by norm_num)
    rw [hh, if_pos ⟨hs0, heq⟩]
    have ht : ∀ t : sim_pipe, t = (if isCondBranch (s.op FIRST) then
          { (if s.branchStall then
              { { s with totalStalls := u32 (s.totalStalls + s.stalls), stalls := 0 } with
                branchStall := false }
             else { s with totalStalls := u32 (s.totalStalls + s.stalls), stalls := 0 }) with
            stalls := 2, currentClk := u32 s.clkIn, branchStall := true }
        else
          (if s.branchStall then
            { { s with totalStalls := u32 (s.totalStalls + s.stalls), stalls := 0 } with
              branchStall := false }
           else { s with totalStalls := u32 (s.totalStalls + s.stalls), stalls := 0 })) →
        t.totalStalls = u32 (s.totalStalls + s.stalls) := by
      intro t e
      subst e
      split_ifs <;> rfl
    refine ⟨ht _ rfl, ?_, ?_, ?_⟩
    · intro hlt2
      exact (ht _ rfl).trans (Nat.mod_eq_of_lt hlt2)
    · intro hc
      rw [if_pos hc]
      refine ⟨rfl, ?_, rfl⟩
      show u32 s.clkIn = s.clkIn
      exact Nat.mod_eq_of_lt hlt
    · intro hc
      rw [if_neg (by rw [hc]; decide)]
      constructor <;> split_ifs <;> first | rfl | simp_all
  · intro hlt
    exact Nat.mod_eq_of_lt hlt

/-- Witness of C33: the hazard handler in the sixth pass of `run(0)` on scenario S1, where the
stall of 2 recorded at cycle 4 for the `ADD` is released at cycle 6: the total goes from 0 to
2 and no stall is pending afterwards. -/
theorem c33_stall_release_witness :
    (S1_handler_state 5).memoryStall = false ∧ (S1_handler_state 5).stalls = 2 ∧
    (S1_handler_state 5).currentClk = 4 ∧ (S1_handler_state 5).clkIn = 6 ∧
    (S1_handler_state 5).totalStalls = 0 ∧ (S1_handler_state 5).op FIRST = ADD ∧
    (hazardHandler (S1_handler_state 5)).totalStalls = 2 ∧
    (hazardHandler (S1_handler_state 5)).stalls = 0 ∧
    (hazardHandler (S1_handler_state 5)).branchStall = false ∧
    hazardHandler (S1_handler_state 4) = S1_handler_state 4 :=
  have h := c33_stall_release (S1_handler_state 5) rfl (by decide)
  have h4 := c33_stall_release (S1_handler_state 4) rfl (by decide)
  ⟨rfl, rfl, rfl, rfl, rfl, rfl, (h.2.1 rfl).1, ((h.2.1 rfl).2.2.2 rfl).1,
    ((h.2.1 rfl).2.2.2 rfl).2, h4.1 (by decide)⟩

/-! ## Invariants of the stages

A property that each block of the stages preserves holds in every reachable state, provided
`reset` establishes it and the methods called between the runs preserve it. -/

/-- The method `fetch` preserves a stage invariant. -/
theorem invariant_fetch {P : sim_pipe → Prop} (hP : stage_invariant P) (s s' : sim_pipe)
    (h0 : P s) (h : fetch s = some s') : P s' := by
  rw [fetch_eq] at h
  by_cases h1 : s.memoryStall = true
  · rw [if_pos h1] at h
    simp only [Option.some.injEq] at h
    subst h
    exact h0
  · rw [if_neg h1] at h
    by_cases h2 : s.stalls ≠ 0
    · rw [if_pos h2] at h
      simp only [Option.some.injEq] at h
      subst h
      split_ifs
      · exact hP.squash s h0
      · exact h0
    · rw [if_neg h2] at h
      obtain ⟨j, hj, h⟩ := Option.bind_eq_some.mp h
      obtain ⟨instr, _, h⟩ := Option.bind_eq_some.mp h
      simp only [Option.some.injEq] at h
      subst h
      have hl := hP.load j instr (hP.redirect s j h0 hj)
      split_ifs
      · exact hP.clock _ _ hl
      · exact hl

/-- The method `decode`, with the call of `fetch` it makes, preserves a stage invariant. -/
theorem invariant_decode {P : sim_pipe → Prop} (hP : stage_invariant P) (s s' : sim_pipe)
    (h0 : P s) (h : decode s = some s') : P s' := by
  rw [decode_eq] at h
  have a := hP.hazard s h0
  have c := hP.latch _ (hP.read _ a)
  by_cases h1 : (hazardHandler s).memoryStall = true
  · rw [if_pos h1] at h
    simp only [Option.some.injEq] at h
    subst h
    exact a
  · rw [if_neg h1] at h
    by_cases h2 : (hazardHandler s).stalls ≠ 0 ∧ (hazardHandler s).branchStall = false
    · rw [if_pos h2] at h
      simp only [Option.some.injEq] at h
      subst h
      exact hP.bubble _ a
    · rw [if_neg h2] at h
      by_cases h3 : (decodeLatch (decodeRead (hazardHandler s))).clkIn = ID + 1
      · rw [if_pos h3] at h
        obtain ⟨t, ht, rfl⟩ := Option.map_eq_some'.mp h
        exact hP.clock _ _ (invariant_fetch hP _ _ c ht)
      · rw [if_neg h3] at h
        simp only [Option.some.injEq] at h
        subst h
        exact c

/-- The method `execute`, with the calls it makes, preserves a stage invariant. -/
theorem invariant_execute {P : sim_pipe → Prop} (hP : stage_invariant P) (s s' : sim_pipe)
    (h0 : P s) (h : execute s = some s') : P s' := by
  unfold execute at h
  have c := hP.forward _ (hP.branch _ (hP.alu s h0))
  by_cases h1 : s.memoryStall = true
  · rw [if_pos h1] at h
    simp only [Option.some.injEq] at h
    subst h
    exact h0
  · rw [if_neg h1] at h
    by_cases h2 : (executeLatch (executeBranch (executeAlu s))).clkIn = EXE + 1
    · simp only [h2, if_true] at h
      obtain ⟨t, ht, rfl⟩ := Option.map_eq_some'.mp h
      obtain ⟨d, hd, hf⟩ := Option.bind_eq_some.mp ht
      exact hP.clock _ _ (invariant_fetch hP _ _ (invariant_decode hP _ _ c hd) hf)
    · simp only [h2, if_false] at h
      simp only [Option.some.injEq] at h
      subst h
      exact c

/-- The method `memory`, with the calls it makes, preserves a stage invariant. -/
theorem invariant_memory {P : sim_pipe → Prop} (hP : stage_invariant P) (s s' : sim_pipe)
    (h0 : P s) (h : memory s = some s') : P s' := by
  unfold memory at h
  have a := hP.wait s h0
  by_cases h1 : (memoryWait s).memoryStall = true
  · simp only [h1, if_true] at h
    simp only [Option.some.injEq] at h
    subst h
    exact a
  · simp only [h1, if_false] at h
    obtain ⟨m, hm, h⟩ := Option.bind_eq_some.mp h
    have m2 := hP.access _ _ a hm
    by_cases h3 : m.clkIn = MEM + 1
    · rw [if_pos h3] at h
      obtain ⟨t, ht, rfl⟩ := Option.map_eq_some'.mp h
      obtain ⟨d, hd, hf⟩ := Option.bind_eq_some.mp ht
      obtain ⟨e, he, hd⟩ := Option.bind_eq_some.mp hd
      exact hP.clock _ _ (invariant_fetch hP _ _
        (invariant_decode hP _ _ (invariant_execute hP _ _ m2 he) hd) hf)
    · rw [if_neg h3] at h
      simp only [Option.some.injEq] at h
      subst h
      exact m2

/-- The method `writeBack`, with the calls it makes, preserves a stage invariant. -/
theorem invariant_writeBack {P : sim_pipe → Prop} (hP : stage_invariant P) (s s' : sim_pipe)
    (h0 : P s) (h : writeBack s = some s') : P s' := by
  unfold writeBack at h
  have a := hP.commit s h0
  by_cases hc : (writeBackCommit s).clkIn ≥ WB + 1
  · simp only [hc, if_true] at h
    obtain ⟨t, ht, rfl⟩ := Option.map_eq_some'.mp h
    obtain ⟨d, hd, hf⟩ := Option.bind_eq_some.mp ht
    obtain ⟨e, he, hd⟩ := Option.bind_eq_some.mp hd
    obtain ⟨m, hm, he⟩ := Option.bind_eq_some.mp he
    have key : P t := invariant_fetch hP _ _
      (invariant_decode hP _ _ (invariant_execute hP _ _ (invariant_memory hP _ _ a hm) he) hd)
      hf
    split_ifs
    · exact hP.running _ _ key
    · exact hP.clock _ _ key
  · simp only [hc, if_false, Option.some.injEq] at h
    subst h
    exact a

/-- A pass of the dispatch preserves a stage invariant. -/
theorem invariant_dispatch {P : sim_pipe → Prop} (hP : stage_invariant P) (s s' : sim_pipe)
    (h0 : P s) (h : dispatch s = some s') : P s' := by
  unfold dispatch at h
  split_ifs at h
  · exact invariant_fetch hP _ _ h0 h
  · exact invariant_decode hP _ _ h0 h
  · exact invariant_execute hP _ _ h0 h
  · exact invariant_memory hP _ _ h0 h
  · exact invariant_writeBack hP _ _ h0 h
  · exact invariant_writeBack hP _ _ h0 h
  · simp only [Option.some.injEq] at h
    subst h
    exact h0

/-- The loop of `run` preserves a stage invariant. -/
theorem invariant_run_loop {P : sim_pipe → Prop} (hP : stage_invariant P) :
    ∀ (fuel : Nat) (s s' : sim_pipe), P s →
      (run_loop fuel s = run_result.returned s' ∨ run_loop fuel s = run_result.looping s') →
      P s' := by
  intro fuel
  induction fuel with
  | zero =>
    intro s s' h0 h
    rcases h with h | h
    · simp [run_loop] at h
    · simp only [run_loop, run_result.looping.injEq] at h
      subst h
      exact h0
  | succ fuel ih =>
    intro s s' h0 h
    rw [run_loop_succ] at h
    cases hd : dispatch s with
    | none => simp [hd] at h
    | some s1 =>
      simp only [hd] at h
      have h1 := invariant_dispatch hP s s1 h0 hd
      by_cases hr : s1.runAlways = true
      · simp only [hr, if_true] at h
        exact ih s1 s' h1 h
      · simp only [hr] at h
        rcases h with h | h
        · simp only [Bool.false_eq_true, if_false, run_result.returned.injEq] at h
          subst h
          exact h1
        · simp at h

/-- A stage invariant that `reset` establishes and `load_program`, `set_gp_register` and
`write_memory` preserve holds in every reachable state. -/
theorem invariant_reachable {P : sim_pipe → Prop} (hP : stage_invariant P)
    (hreset : ∀ s : sim_pipe, P s.reset)
    (hload : ∀ (s s' : sim_pipe) (lines : List asm_line) (base : Nat), P s →
      s.load_program lines base = some s' → P s')
    (hset : ∀ (s : sim_pipe) (reg : Nat) (value : Int), P s → P (s.set_gp_register reg value))
    (hwrite : ∀ (s s' : sim_pipe) (address value : Nat), P s →
      s.write_memory address value = some s' → P s')
    (s : sim_pipe) (h : reachable s) : P s := by
  induction h with
  | reset s => exact hreset s
  | load_program lines base _ hl ih => exact hload _ _ lines base ih hl
  | set_gp_register reg value _ ih => exact hset _ reg value ih
  | write_memory address value _ hw ih => exact hwrite _ _ address value ih hw
  | run fuel cycles _ hr ih =>
    unfold run at hr
    refine invariant_run_loop hP fuel _ _ ?_ hr
    split_ifs
    · exact hP.running _ _ ih
    · exact ih

/-! ## The hazard handler as a composition of its blocks -/

/-- Hazard detection in terms of `hazardOperands` and `hazardRules`. -/
theorem hazardDetect_eq (s : sim_pipe) :
    hazardDetect s =
      if (hazardRules (hazardOperands s)).stalls ≠ 0 then hazardRules (hazardOperands s)
      else { hazardRules (hazardOperands s) with memStallCompleted := false } :=
  rfl

/-- The method `hazardHandler` in terms of `hazardDetect` and `hazardRelease`. -/
theorem hazardHandler_eq (s : sim_pipe) :
    hazardHandler s =
      if s.memoryStall then s
      else hazardRelease
        (if s.stalls = 0 ∧ (decide (s.op FIRST = NOP) || decide (s.op SECOND = NOP) ||
            decide (s.op THIRD = NOP)) = false then hazardDetect s else s) :=
  rfl

/-- The head of hazard detection changes A and B of the ID stage only. -/
theorem hazardOperands_shape (s : sim_pipe) :
    ∃ t : sp_table, hazardOperands s = { s with specialP_Reg := t } := by
  unfold hazardOperands
  split_ifs
  · exact ⟨_, rfl⟩
  · exact ⟨_, rfl⟩

/-- The chain of tests of hazard detection returns the state as it is or with a stall of 1 or
2 recorded at the current cycle; the branch-stall flag is set only with a stall of 2. -/
theorem hazardRules_shape (s : sim_pipe) :
    hazardRules s = s ∨
    hazardRules s = { s with stalls := 2, currentClk := u32 s.clkIn } ∨
    hazardRules s = { s with stalls := 1, currentClk := u32 s.clkIn } ∨
    hazardRules s = { s with stalls := 2, currentClk := u32 s.clkIn, branchStall := true } := by
  unfold hazardRules
  dsimp only
  split_ifs
  all_goals first
    | exact Or.inl rfl
    | exact Or.inr (Or.inl rfl)
    | exact Or.inr (Or.inr (Or.inl rfl))
    | exact Or.inr (Or.inr (Or.inr rfl))

/-- The release block returns the state as it is, or with the pending stall added to the
total and either cleared, the branch-stall flag with it, or, when IF/ID holds a conditional
branch, replaced by a branch stall of 2 recorded at the current cycle. -/
theorem hazardRelease_shape (s : sim_pipe) :
    hazardRelease s = s ∨
    hazardRelease s = { s with totalStalls := u32 (s.totalStalls + s.stalls), stalls := 0,
                               branchStall := false } ∨
    (isCondBranch (s.op FIRST) = true ∧
      hazardRelease s = { s with totalStalls := u32 (s.totalStalls + s.stalls), stalls := 2,
                                 currentClk := u32 s.clkIn, branchStall := true }) := by
  unfold hazardRelease
  dsimp only
  by_cases hb : s.branchStall = true
  · simp only [hb, if_true]
    split_ifs
    all_goals first
      | exact Or.inl rfl
      | exact Or.inr (Or.inl rfl)
      | exact Or.inr (Or.inr ⟨by assumption, rfl⟩)
  · have hb' : s.branchStall = false := by simpa using hb
    simp only [hb', Bool.false_eq_true, if_false]
    split_ifs
    all_goals first
      | exact Or.inl rfl
      | exact Or.inr (Or.inr ⟨by assumption, rfl⟩)
      | (refine Or.inr (Or.inl ?_)
         cases s
         simp only at hb'
         subst hb'
         rfl)

/-! ## The blocks that leave the bookkeeping of the stalls alone -/

/-- Writing a special purpose register leaves the bookkeeping of the stalls as it is. -/
theorem setSP_stall_view (s : sim_pipe) (a b c : Nat) :
    stall_view (s.setSP a b c) = stall_view s := rfl

/-- Writing a latch leaves the bookkeeping of the stalls as it is. -/
theorem setPipe_stall_view (s : sim_pipe) (k : Nat) (r : pipeline_Registers) :
    stall_view (s.setPipe k r) = stall_view s := rfl

/-- The redirection of `fetch` leaves the bookkeeping of the stalls as it is. -/
theorem fetchJump_stall_view (s s' : sim_pipe) (h : fetchJump s = some s') :
    stall_view s' = stall_view s := by
  unfold fetchJump at h
  split_ifs at h
  · obtain ⟨j, _, rfl⟩ := Option.map_eq_some'.mp h
    rfl
  · simp only [Option.some.injEq] at h
    subst h
    rfl

/-- The body of an unstalled `fetch` leaves the bookkeeping of the stalls as it is. -/
theorem fetchLoad_stall_view (s : sim_pipe) (instr : instruction_t) :
    stall_view (fetchLoad s instr) = stall_view s := by
  have k : ∀ (t : sim_pipe) (a b : Nat),
      stall_view { t with inst_count := a, totalInstCount := b } = stall_view t :=
    fun _ _ _ => rfl
  unfold fetchLoad
  dsimp only
  split_ifs <;> simp only [k, setSP_stall_view, setPipe_stall_view]

/-- The register read of `decode` leaves the bookkeeping of the stalls as it is. -/
theorem decodeRead_stall_view (s : sim_pipe) : stall_view (decodeRead s) = stall_view s := by
  unfold decodeRead
  split_ifs
  · rfl
  · rfl

/-- The end of `decode` leaves the bookkeeping of the stalls as it is. -/
theorem decodeLatch_stall_view (s : sim_pipe) : stall_view (decodeLatch s) = stall_view s := by
  unfold decodeLatch
  dsimp only
  split_ifs <;> simp only [setSP_stall_view, setPipe_stall_view]

/-- The call of `alu` in `execute` leaves the bookkeeping of the stalls as it is. -/
theorem executeAlu_stall_view (s : sim_pipe) : stall_view (executeAlu s) = stall_view s := rfl

/-- The switch of `execute` leaves the bookkeeping of the stalls as it is. -/
theorem executeBranch_stall_view (s : sim_pipe) :
    stall_view (executeBranch s) = stall_view s := by
  unfold executeBranch
  generalize (s.pipe_reg.get SECOND).pipe_IR = ir
  rcases ir with ⟨o, s1, s2, d, im, l⟩
  cases o <;> dsimp only <;> (try split_ifs) <;> rfl

/-- The end of `execute` leaves the bookkeeping of the stalls as it is. -/
theorem executeLatch_stall_view (s : sim_pipe) :
    stall_view (executeLatch s) = stall_view s := by
  unfold executeLatch
  dsimp only
  split_ifs <;> simp only [setSP_stall_view, setPipe_stall_view]

/-- The method `write_memory` leaves the bookkeeping of the stalls as it is. -/
theorem write_memory_stall_view (s s' : sim_pipe) (a v : Nat)
    (h : s.write_memory a v = some s') : stall_view s' = stall_view s := by
  unfold write_memory at h
  split_ifs at h
  simp only [Option.some.injEq] at h
  subst h
  rfl

/-- The data-memory access of `memory` leaves the bookkeeping of the stalls as it is. -/
theorem memoryAccess_stall_view (s s' : sim_pipe) (h : memoryAccess s = some s') :
    stall_view s' = stall_view s := by
  simp only [memoryAccess, Option.map_eq_some'] at h
  obtain ⟨t, ht, rfl⟩ := h
  simp only [setSP_stall_view, setPipe_stall_view]
  split_ifs at ht
  all_goals first
    | contradiction
    | (have k := write_memory_stall_view _ _ _ _ ht
       simp only [setSP_stall_view] at k
       exact k)
    | (simp only [Option.some.injEq] at ht
       subst ht
       simp only [setSP_stall_view, setPipe_stall_view])

/-- The method `set_gp_register` leaves the bookkeeping of the stalls as it is. -/
theorem set_gp_register_stall_view (s : sim_pipe) (r : Nat) (v : Int) :
    stall_view (s.set_gp_register r v) = stall_view s := by
  unfold set_gp_register
  split_ifs
  · rfl
  · rfl

/-- The head of `writeBack` leaves the bookkeeping of the stalls as it is. -/
theorem writeBackCommit_stall_view (s : sim_pipe) :
    stall_view (writeBackCommit s) = stall_view s := by
  unfold writeBackCommit
  dsimp only
  split_ifs <;> simp only [set_gp_register_stall_view, setSP_stall_view]

/-- The method `load_program` leaves the bookkeeping of the stalls as it is. -/
theorem load_program_stall_view (s s' : sim_pipe) (lines : List asm_line) (base : Nat)
    (h : s.load_program lines base = some s') : stall_view s' = stall_view s := by
  unfold load_program at h
  obtain ⟨a, _, h⟩ := Option.bind_eq_some.mp h
  obtain ⟨b, _, rfl⟩ := Option.map_eq_some'.mp h
  rfl

/-- A property of the bookkeeping of the stalls that the hazard handler and the latency
bookkeeping of `memory` preserve is a stage invariant. -/
theorem stage_invariant_of_stall_view
    (Q : Nat × Nat × Bool × Nat × Bool × Bool × Nat × Nat → Prop)
    (hh : ∀ s : sim_pipe, Q (stall_view s) → Q (stall_view (hazardHandler s)))
    (hw : ∀ s : sim_pipe, Q (stall_view s) → Q (stall_view (memoryWait s))) :
    stage_invariant fun s => Q (stall_view s) where
  clock := fun _ _ h => h
  running := fun _ _ h => h
  squash := fun _ h => h
  redirect := fun s s' h0 h => by rw [fetchJump_stall_view s s' h]; exact h0
  load := fun s instr h0 => by rw [fetchLoad_stall_view]; exact h0
  hazard := hh
  bubble := fun _ h => h
  read := fun s h0 => by rw [decodeRead_stall_view]; exact h0
  latch := fun s h0 => by rw [decodeLatch_stall_view]; exact h0
  alu := fun _ h => h
  branch := fun s h0 => by rw [executeBranch_stall_view]; exact h0
  forward := fun s h0 => by rw [executeLatch_stall_view]; exact h0
  wait := hw
  access := fun s s' h0 h => by rw [memoryAccess_stall_view s s' h]; exact h0
  commit := fun s h0 => by rw [writeBackCommit_stall_view]; exact h0

/-- A property of the bookkeeping of the stalls that `reset` establishes and that the hazard
handler and the latency bookkeeping of `memory` preserve holds in every reachable state. -/
theorem reachable_stall_view (Q : Nat × Nat × Bool × Nat × Bool × Bool × Nat × Nat → Prop)
    (hr : ∀ s : sim_pipe, Q (stall_view s.reset))
    (hh : ∀ s : sim_pipe, Q (stall_view s) → Q (stall_view (hazardHandler s)))
    (hw : ∀ s : sim_pipe, Q (stall_view s) → Q (stall_view (memoryWait s)))
    (s : sim_pipe) (h : reachable s) : Q (stall_view s) := by
  refine invariant_reachable (stage_invariant_of_stall_view Q hh hw) hr ?_ ?_ ?_ s h
  · intro s s' lines base h0 hl
    show Q (stall_view s')
    rw [load_program_stall_view s s' lines base hl]
    exact h0
  · intro s reg value h0
    show Q (stall_view (s.set_gp_register reg value))
    rw [set_gp_register_stall_view]
    exact h0
  · intro s s' address value h0 hw
    show Q (stall_view s')
    rw [write_memory_stall_view s s' address value hw]
    exact h0

/-! ## The pending stall count -/

/-- Hazard detection, which runs with no stall pending, leaves a stall count of 0, 1 or 2 and
sets the branch-stall flag only together with a stall count of 2. -/
theorem hazardDetect_stalls_bounded (s : sim_pipe) (h0 : s.stalls = 0)
    (hb : s.branchStall = false) : stalls_bounded (hazardDetect s) := by
  obtain ⟨t, ht⟩ := hazardOperands_shape s
  have hn : ¬ s.branchStall = true := by
    rw [hb]
    decide
  have key : stalls_bounded (hazardRules (hazardOperands s)) := by
    rcases hazardRules_shape (hazardOperands s) with h | h | h | h <;> rw [h, ht]
    · exact ⟨Or.inl h0, fun h => absurd h hn⟩
    · exact ⟨Or.inr (Or.inr rfl), fun _ => rfl⟩
    · exact ⟨Or.inr (Or.inl rfl), fun h => absurd h hn⟩
    · exact ⟨Or.inr (Or.inr rfl), fun _ => rfl⟩
  rw [hazardDetect_eq]
  split_ifs
  · exact key
  · exact key

/-- The release block keeps the pending stall count in 0, 1, 2 and the branch-stall flag set
only with a count of 2. -/
theorem hazardRelease_stalls_bounded (s : sim_pipe) (h : stalls_bounded s) :
    stalls_bounded (hazardRelease s) := by
  rcases hazardRelease_shape s with e | e | ⟨_, e⟩ <;> rw [e]
  · exact h
  · exact ⟨Or.inl rfl, fun h => Bool.noConfusion h⟩
  · exact ⟨Or.inr (Or.inr rfl), fun _ => rfl⟩

/-- The hazard handler keeps the pending stall count in 0, 1, 2 and the branch-stall flag set
only with a count of 2. -/
theorem hazardHandler_stalls_bounded (s : sim_pipe) (h : stalls_bounded s) :
    stalls_bounded (hazardHandler s) := by
  rw [hazardHandler_eq]
  split_ifs with hm hd
  · exact h
  · refine hazardRelease_stalls_bounded _ (hazardDetect_stalls_bounded s hd.1 ?_)
    by_contra hc
    have := h.2 (by simpa using hc)
    omega
  · exact hazardRelease_stalls_bounded _ h

/-- The latency bookkeeping of `memory` assigns neither to the pending stall count nor to the
branch-stall flag. -/
theorem memoryWait_stalls (s : sim_pipe) :
    (memoryWait s).stalls = s.stalls ∧ (memoryWait s).branchStall = s.branchStall := by
  unfold memoryWait
  dsimp only
  split_ifs <;> exact ⟨rfl, rfl⟩

/-- C39.  In every state of the integer simulator reachable from `reset` by `load_program`,
`set_gp_register`, `write_memory` and `run` (the states in which `run` is between two passes
of its loop included), the pending stall count `stalls` is 0, 1 or 2, and the branch-stall
flag is set only while the pending stall count is 2. -/
theorem c39_stalls_bounded (s : sim_pipe) (h : reachable s) :
    (s.stalls = 0 ∨ s.stalls = 1 ∨ s.stalls = 2) ∧ (s.branchStall = true → s.stalls = 2) := by
  refine reachable_stall_view
    (fun v => (v.1 = 0 ∨ v.1 = 1 ∨ v.1 = 2) ∧ (v.2.2.1 = true → v.1 = 2)) ?_ ?_ ?_ s h
  · intro s
    exact ⟨Or.inl rfl, fun h => Bool.noConfusion h⟩
  · intro s h0
    exact hazardHandler_stalls_bounded s h0
  · intro s h0
    show stalls_bounded (memoryWait s)
    unfold stalls_bounded
    rw [(memoryWait_stalls s).1, (memoryWait_stalls s).2]
    exact h0

/-- Witness of C39: the state of scenario S1 after five passes of `run(0)`, in which the stall
of 2 recorded for the `ADD` is pending. -/
theorem c39_stalls_bounded_witness :
    reachable (state_after 0 program_S1 5) ∧ (state_after 0 program_S1 5).stalls = 2 ∧
    (state_after 0 program_S1 5).branchStall = false ∧
    ((state_after 0 program_S1 5).stalls = 0 ∨ (state_after 0 program_S1 5).stalls = 1 ∨
      (state_after 0 program_S1 5).stalls = 2) :=
  have hr : reachable (state_after 0 program_S1 5) :=
    reachable.run 5 0
      (reachable.load_program program_S1 0
        (reachable.set_gp_register 0 0 (reachable.reset (sim_pipe.new 16 0)))
        (rfl : (((sim_pipe.new 16 0).reset).set_gp_register 0 0).load_program program_S1 0 =
          boot 16 0 program_S1))
      (Or.inr rfl)
  ⟨hr, rfl, rfl, (c39_stalls_bounded _ hr).1⟩

/-! ## The memory-latency countdown -/

/-- The hazard handler assigns neither to the memory-latency countdown, the memory-stall flag
nor the configured latency. -/
theorem hazardHandler_stallMem (s : sim_pipe) :
    (hazardHandler s).stallMem = s.stallMem ∧ (hazardHandler s).memoryStall = s.memoryStall ∧
    (hazardHandler s).data_memory_latency = s.data_memory_latency := by
  have hd : (hazardDetect s).stallMem = s.stallMem ∧
      (hazardDetect s).memoryStall = s.memoryStall ∧
      (hazardDetect s).data_memory_latency = s.data_memory_latency := by
    obtain ⟨t, ht⟩ := hazardOperands_shape s
    have key : (hazardRules (hazardOperands s)).stallMem = s.stallMem ∧
        (hazardRules (hazardOperands s)).memoryStall = s.memoryStall ∧
        (hazardRules (hazardOperands s)).data_memory_latency = s.data_memory_latency := by
      rcases hazardRules_shape (hazardOperands s) with h | h | h | h <;> rw [h, ht] <;>
        exact ⟨rfl, rfl, rfl⟩
    rw [hazardDetect_eq]
    split_ifs
    · exact key
    · exact key
  have hr : ∀ t : sim_pipe, (hazardRelease t).stallMem = t.stallMem ∧
      (hazardRelease t).memoryStall = t.memoryStall ∧
      (hazardRelease t).data_memory_latency = t.data_memory_latency := by
    intro t
    rcases hazardRelease_shape t with e | e | ⟨_, e⟩ <;> rw [e] <;> exact ⟨rfl, rfl, rfl⟩
  rw [hazardHandler_eq]
  split_ifs
  · exact ⟨rfl, rfl, rfl⟩
  · exact ⟨(hr _).1.trans hd.1, (hr _).2.1.trans hd.2.1, (hr _).2.2.trans hd.2.2⟩
  · exact hr s

/-- The latency bookkeeping of `memory` keeps the countdown at most the configured latency
and the memory-stall flag set exactly while the countdown is non-zero, the latency being a
32-bit value. -/
theorem memoryWait_stallMem_bounded (s : sim_pipe) (hl : s.data_memory_latency < 2 ^ 32)
    (h : stallMem_bounded s) :
    stallMem_bounded (memoryWait s) ∧
      (memoryWait s).data_memory_latency = s.data_memory_latency := by
  obtain ⟨h1, h2⟩ := h
  have h32 : (2 : Nat) ^ 32 = 4294967296 := by norm_num
  rw [h32] at hl
  unfold stallMem_bounded memoryWait
  dsimp only
  by_cases h0 : s.data_memory_latency = 0
  · have hz : s.stallMem = 0 := by omega
    have hm : s.memoryStall = false := by
      by_contra hc
      exact (h2.mp (by simpa using hc)) hz
    simp [h0, hz, hm]
  · simp only [h0, if_false]
    by_cases hlt : s.stallMem < s.data_memory_latency
    · simp only [hlt, if_true]
      by_cases hop : s.op THIRD = LW ∨ s.op THIRD = SW
      · simp only [hop, if_true]
        have hu : u32 (s.stallMem + 1) = s.stallMem + 1 := by
          unfold u32
          rw [h32]
          omega
        rw [hu]
        refine ⟨⟨by omega, ?_⟩, trivial⟩
        simp
      · simp only [hop, if_false]
        exact ⟨⟨h1, h2⟩, trivial⟩
    · simp only [hlt, if_false]
      have he : s.stallMem = s.data_memory_latency := by omega
      simp [he, h0]

/-- C40.  In every state of the integer simulator reachable from `reset` by `load_program`,
`set_gp_register`, `write_memory` and `run` (the states in which `run` is between two passes
of its loop included), with a configured data-memory latency that is a 32-bit value as in the
source: the memory-latency countdown `stallMem` is at most the latency, and the memory-stall
flag is set if and only if `stallMem` is non-zero. -/
theorem c40_stallMem_bounded (s : sim_pipe) (h : reachable s)
    (hl : s.data_memory_latency < 2 ^ 32) :
    s.stallMem ≤ s.data_memory_latency ∧ (s.memoryStall = true ↔ s.stallMem ≠ 0) := by
  refine reachable_stall_view
    (fun v => v.2.2.2.2.2.2.2 < 2 ^ 32 →
      v.2.2.2.1 ≤ v.2.2.2.2.2.2.2 ∧ (v.2.2.2.2.1 = true ↔ v.2.2.2.1 ≠ 0)) ?_ ?_ ?_ s h hl
  · intro s _
    exact ⟨Nat.zero_le _, by simp [stall_view, sim_pipe.reset]⟩
  · intro s h0
    show (hazardHandler s).data_memory_latency < 2 ^ 32 → stallMem_bounded (hazardHandler s)
    unfold stallMem_bounded
    rw [(hazardHandler_stallMem s).1, (hazardHandler_stallMem s).2.1,
      (hazardHandler_stallMem s).2.2]
    exact h0
  · intro s h0
    show (memoryWait s).data_memory_latency < 2 ^ 32 → stallMem_bounded (memoryWait s)
    intro hl'
    have hl2 : s.data_memory_latency < 2 ^ 32 := by
      have e : (memoryWait s).data_memory_latency = s.data_memory_latency := by
        unfold memoryWait
        dsimp only
        split_ifs <;> rfl
      rw [← e]
      exact hl'
    exact (memoryWait_stallMem_bounded s hl2 (h0 hl2)).1

/-- Witness of C40: the state of scenario S3 (latency 2) after eight passes of `run(0)`, in
which the store waits in the memory stage with the countdown at 2. -/
theorem c40_stallMem_bounded_witness :
    reachable (state_after 2 program_S2 8) ∧
    (state_after 2 program_S2 8).data_memory_latency = 2 ∧
    (state_after 2 program_S2 8).stallMem = 2 ∧
    (state_after 2 program_S2 8).memoryStall = true ∧
    (state_after 2 program_S2 8).stallMem ≤ (state_after 2 program_S2 8).data_memory_latency :=
  have hr : reachable (state_after 2 program_S2 8) :=
    reachable.run 8 0
      (reachable.load_program program_S2 0
        (reachable.set_gp_register 0 0 (reachable.reset (sim_pipe.new 16 2)))
        (rfl : (((sim_pipe.new 16 2).reset).set_gp_register 0 0).load_program program_S2 0 =
          boot 16 2 program_S2))
      (Or.inr rfl)
  ⟨hr, rfl, rfl, rfl, (c40_stallMem_bounded _ hr (by decide)).1⟩

/-! ## The member `pipe_NPC` of the latches -/

/-- Writing to a latch a record whose member `pipe_NPC` is zero. -/
theorem npc_zero_set (t : pipe_table) (k : Nat) (r : pipeline_Registers) (h : npc_zero t)
    (hr : r.pipe_NPC = 0) : npc_zero (t.set k r) := by
  intro i
  have h0 := h 0
  have h1 := h 1
  have h2 := h 2
  have h3 := h 3
  unfold pipe_table.set
  unfold pipe_table.get at h0 h1 h2 h3 ⊢
  rcases k with _ | _ | _ | _ | k <;> rcases i with _ | _ | _ | i <;>
    first | exact hr | exact h0 | exact h1 | exact h2 | exact h3

/-- A latch of a table in which the members `pipe_NPC` are zero. -/
theorem npc_zero_get (t : pipe_table) (k : Nat) (h : npc_zero t) : (t.get k).pipe_NPC = 0 :=
  h k

/-- A state with the latches of a state in which the members `pipe_NPC` are zero. -/
theorem latch_npc_zero_congr {s t : sim_pipe} (h : t.pipe_reg = s.pipe_reg)
    (h0 : latch_npc_zero s) : latch_npc_zero t := by
  unfold latch_npc_zero
  rw [h]
  exact h0

/-- No block of the stages assigns to the member `pipe_NPC` of a latch: the members are zero
after each block if they are zero before it. -/
theorem latch_npc_zero_invariant : stage_invariant latch_npc_zero where
  clock := fun _ _ h => h
  running := fun _ _ h => h
  squash := fun s h => npc_zero_set _ _ _ h rfl
  redirect := by
    intro s s' h0 h
    unfold fetchJump at h
    split_ifs at h
    · obtain ⟨j, _, rfl⟩ := Option.map_eq_some'.mp h
      exact h0
    · simp only [Option.some.injEq] at h
      subst h
      exact h0
  load := by
    intro s instr h0
    have e : (fetchLoad s instr).pipe_reg =
        s.pipe_reg.set FIRST { s.pipe_reg.get FIRST with pipe_IR := instr } := by
      unfold fetchLoad
      dsimp only
      split_ifs <;> simp only [setSP_pipe_reg, setPipe_pipe_reg]
    unfold latch_npc_zero
    rw [e]
    exact npc_zero_set _ _ _ h0 (h0 FIRST)
  hazard := by
    intro s h0
    have e : (hazardHandler s).pipe_reg = s.pipe_reg := by
      have hd : (hazardDetect s).pipe_reg = s.pipe_reg := by
        simp only [hazardDetect, apply_ite sim_pipe.pipe_reg, setSP_pipe_reg,
          @ite_self pipe_table]
      have hr : ∀ t : sim_pipe, (hazardRelease t).pipe_reg = t.pipe_reg := by
        intro t
        rcases hazardRelease_shape t with e | e | ⟨_, e⟩ <;> rw [e]
      rw [hazardHandler_eq]
      split_ifs
      · rfl
      · exact (hr _).trans hd
      · exact hr s
    exact latch_npc_zero_congr e h0
  bubble := fun s h => npc_zero_set _ _ _ h rfl
  read := by
    intro s h0
    unfold decodeRead
    split_ifs
    · dsimp only
      unfold latch_npc_zero
      simp only [setPipe_pipe_reg]
      refine npc_zero_set _ _ _ (npc_zero_set _ _ _ h0 (h0 FIRST)) ?_
      exact npc_zero_get _ FIRST (npc_zero_set _ _ _ h0 (h0 FIRST))
    · exact h0
  latch := by
    intro s h0
    unfold decodeLatch latch_npc_zero
    dsimp only
    split_ifs <;> simp only [setSP_pipe_reg, setPipe_pipe_reg] <;>
      repeat first
        | exact h0
        | refine npc_zero_set _ _ _ ?_ ?_
        | refine npc_zero_get _ FIRST ?_
  alu := fun s h => npc_zero_set _ _ _ h (h SECOND)
  branch := by
    intro s h0
    unfold executeBranch
    generalize (s.pipe_reg.get SECOND).pipe_IR = ir
    rcases ir with ⟨o, s1, s2, d, im, l⟩
    cases o <;> dsimp only <;> (try split_ifs) <;> exact h0
  forward := by
    intro s h0
    unfold executeLatch latch_npc_zero
    dsimp only
    split_ifs <;> simp only [setSP_pipe_reg, setPipe_pipe_reg] <;>
      exact npc_zero_set _ _ _ h0 (h0 SECOND)
  wait := by
    intro s h0
    unfold memoryWait
    dsimp only
    split_ifs <;> exact h0
  access := by
    intro s s' h0 h
    simp only [memoryAccess, Option.map_eq_some'] at h
    obtain ⟨t, ht, rfl⟩ := h
    have key : latch_npc_zero t := by
      split_ifs at ht
      all_goals first
        | contradiction
        | (unfold write_memory at ht
           split_ifs at ht
           simp only [Option.some.injEq] at ht
           subst ht
           exact h0)
        | (simp only [Option.some.injEq] at ht
           subst ht
           first
             | exact h0
             | exact npc_zero_set _ _ _ h0 (h0 FORTH))
    unfold latch_npc_zero
    simp only [setSP_pipe_reg, setPipe_pipe_reg]
    exact npc_zero_set _ _ _ key (key THIRD)
  commit := by
    intro s h0
    unfold writeBackCommit set_gp_register
    dsimp only
    split_ifs <;> exact h0

/-- In every reachable state the member `pipe_NPC` of each latch is zero. -/
theorem reachable_latch_npc_zero (s : sim_pipe) (h : reachable s) : latch_npc_zero s := by
  refine invariant_reachable latch_npc_zero_invariant ?_ ?_ ?_ ?_ s h
  · intro s k
    unfold sim_pipe.reset pipe_table.get
    rcases k with _ | _ | _ | k <;> rfl
  · intro s s' lines base h0 hl
    unfold load_program at hl
    obtain ⟨a, _, hl⟩ := Option.bind_eq_some.mp hl
    obtain ⟨b, _, rfl⟩ := Option.map_eq_some'.mp hl
    exact h0
  · intro s reg value h0
    unfold set_gp_register
    split_ifs
    · exact h0
    · exact h0
  · intro s s' address value h0 hw
    unfold write_memory at hw
    split_ifs at hw
    simp only [Option.some.injEq] at hw
    subst hw
    exact h0

/-- The ALU output that `execute` forwards to the MEM stage for a branch or `JUMP` is the sum
of the member `pipe_NPC` of the ID/EX latch and of the immediate, modulo 2^32. -/
theorem execute_branch_alu_output (s : sim_pipe)
    (hop : isCondBranch (s.op SECOND) = true ∨ s.op SECOND = JUMP) :
    (executeLatch (executeBranch (executeAlu s))).get_sp_register ALU_OUTPUT MEM =
      u32 ((s.pipe_reg.get SECOND).pipe_NPC + (s.pipe_reg.get SECOND).pipe_IR.immediate) := by
  have hb : ∀ t : sim_pipe, (executeBranch t).pipe_reg = t.pipe_reg ∧
      (executeBranch t).specialP_Reg = t.specialP_Reg := by
    intro t
    unfold executeBranch
    generalize (t.pipe_reg.get SECOND).pipe_IR = ir
    rcases ir with ⟨o, s1, s2, d, im, l⟩
    cases o <;> dsimp only <;> (try split_ifs) <;> exact ⟨rfl, rfl⟩
  have hn : (executeBranch (executeAlu s)).op SECOND ≠ NOP := by
    unfold sim_pipe.op
    rw [(hb _).1]
    show s.op SECOND ≠ NOP
    rcases hop with h | h
    · intro hc
      rw [hc] at h
      exact absurd h (by decide)
    · rw [h]
      decide
  have ha : alu (s.pipe_reg.get SECOND).pipe_IR.opcode.toNat (s.pipe_reg.get SECOND).pipe_IR.src1
      (s.pipe_reg.get SECOND).pipe_IR.src2 (s.pipe_reg.get SECOND).pipe_IR.immediate
      (s.pipe_reg.get SECOND).pipe_NPC =
      u32 ((s.pipe_reg.get SECOND).pipe_NPC + (s.pipe_reg.get SECOND).pipe_IR.immediate) := by
    unfold sim_pipe.op at hop
    generalize (s.pipe_reg.get SECOND).pipe_IR = ir at hop
    rcases ir with ⟨o, s1, s2, d, im, l⟩
    dsimp only at hop ⊢
    cases o <;> first | rfl | (exfalso; revert hop; decide)
  unfold executeLatch
  dsimp only
  rw [if_neg hn]
  unfold get_sp_register
  rw [if_pos (by decide)]
  simp only [setSP_specialP_Reg, setPipe_specialP_Reg, (hb _).1]
  rw [← ha]
  rfl

/-- C34.  When `execute` processes a conditional branch or `JUMP`, the value it writes to the
ALU_OUTPUT register of MEM is the sum, modulo 2^32, of the immediate and of the member
`pipe_NPC` of the ID/EX latch, which no method ever assigns and which is zero in every
reachable state (and after each block of a stage run from such a state): the value is the
immediate alone, not NPC + IMM.  In scenario S4 the `BNEZ R1 END` at index 1 (NPC = 8, resolved
immediate 4, target address 12) is in ID/EX after 5 passes; the sixth pass writes 4 to
ALU_OUTPUT of MEM where NPC + IMM is 12. -/
theorem c34_branch_alu_output_is_immediate :
    (∀ s : sim_pipe, isCondBranch (s.op SECOND) = true ∨ s.op SECOND = JUMP →
      (executeLatch (executeBranch (executeAlu s))).get_sp_register ALU_OUTPUT MEM =
        u32 ((s.pipe_reg.get SECOND).pipe_NPC + (s.pipe_reg.get SECOND).pipe_IR.immediate)) ∧
    (∀ s : sim_pipe, reachable s → ∀ k, (s.pipe_reg.get k).pipe_NPC = 0) ∧
    stage_invariant (fun s => ∀ k, (s.pipe_reg.get k).pipe_NPC = 0) ∧
    (∃ m, (state_after 0 (program_S4 1) 5).writeBackCommit.memory = some m ∧
      (state_after 0 (program_S4 1) 5).clkIn = 6 ∧
      m.memoryStall = false ∧ m.op SECOND = BNEZ ∧
      m.get_sp_register NPC EXE = 8 ∧ m.get_sp_register IMM EXE = 4 ∧
      (m.pipe_reg.get SECOND).pipe_IR.immediate = 4 ∧ (m.pipe_reg.get SECOND).pipe_NPC = 0 ∧
      (executeLatch (executeBranch (executeAlu m))).get_sp_register ALU_OUTPUT MEM = 4 ∧
      (executeLatch (executeBranch (executeAlu m))).get_sp_register ALU_OUTPUT MEM ≠
        u32 (m.get_sp_register NPC EXE + m.get_sp_register IMM EXE) ∧
      (state_after 0 (program_S4 1) 6).get_sp_register ALU_OUTPUT MEM = 4) :=
  ⟨execute_branch_alu_output, reachable_latch_npc_zero, latch_npc_zero_invariant,
    ⟨_, rfl, rfl, rfl, rfl, rfl, rfl, rfl, rfl, rfl, by decide, rfl⟩⟩

/-! ## `JUMP` -/

/-- The hazard handler sets the branch-stall flag only when IF/ID holds a conditional
branch. -/
theorem hazardHandler_branchStall (s : sim_pipe) (hc : isCondBranch (s.op FIRST) = false)
    (h : (hazardHandler s).branchStall = true) : s.branchStall = true := by
  have hn : ¬ isCondBranch (s.op FIRST) = true := by
    rw [hc]
    decide
  have hrules : ∀ t : sim_pipe, t.op FIRST = s.op FIRST →
      (hazardRules t).branchStall = t.branchStall ∧ (hazardRules t).op FIRST = s.op FIRST := by
    intro t ht
    have hc' : isCondBranch (t.op FIRST) = false := ht ▸ hc
    unfold hazardRules
    dsimp only
    rw [hc']
    simp only [Bool.false_eq_true, if_false]
    split_ifs <;> exact ⟨rfl, ht⟩
  have hdet : (hazardDetect s).branchStall = s.branchStall ∧
      (hazardDetect s).op FIRST = s.op FIRST := by
    obtain ⟨t, ht⟩ := hazardOperands_shape s
    have k := hrules (hazardOperands s) (by rw [ht]; rfl)
    have e : (hazardOperands s).branchStall = s.branchStall := by rw [ht]
    rw [hazardDetect_eq]
    split_ifs
    · exact ⟨k.1.trans e, k.2⟩
    · exact ⟨k.1.trans e, k.2⟩
  have hrel : ∀ t : sim_pipe, t.op FIRST = s.op FIRST →
      (hazardRelease t).branchStall = true → t.branchStall = true := by
    intro t ht
    rcases hazardRelease_shape t with e | e | ⟨c, _⟩
    · rw [e]
      exact id
    · rw [e]
      exact fun h => Bool.noConfusion h
    · exact absurd c (ht ▸ hn)
  rw [hazardHandler_eq] at h
  split_ifs at h
  · exact h
  · exact hdet.1 ▸ hrel _ hdet.2 h
  · exact hrel s rfl h

/-- An unstalled `fetch` with no branch target pending loads the instruction at the fetch
index and, unless it is `EOP`, moves the fetch index to the next instruction. -/
theorem fetch_sequential (s : sim_pipe) (instr : instruction_t) (hm : s.memoryStall = false)
    (hs : s.stalls = 0) (hl : s.branchToLabel = "") (hi : s.inst_count < PROGRAM_SIZE)
    (hmem : s.instr_memory[s.inst_count]? = some instr) :
    ∃ s', fetch s = some s' ∧ (s'.pipe_reg.get FIRST).pipe_IR = instr ∧
      s'.instr_memory = s.instr_memory ∧ s'.branchToLabel = "" ∧
      (instr.opcode ≠ EOP → s'.inst_count = u64 (s.inst_count + 1)) ∧
      (instr.opcode = EOP → s'.inst_count = s.inst_count) := by
  have hj : fetchJump s = some s := by
    unfold fetchJump
    rw [if_neg (by rw [hl]; decide)]
  have hmem' : (if s.inst_count < PROGRAM_SIZE then s.instr_memory[s.inst_count]? else none) =
      some instr := by
    rw [if_pos hi, hmem]
  have e0 : (fetchLoad s instr).pipe_reg =
      s.pipe_reg.set FIRST { s.pipe_reg.get FIRST with pipe_IR := instr } := by
    unfold fetchLoad
    dsimp only
    split_ifs <;> simp only [setSP_pipe_reg, setPipe_pipe_reg]
  have e2 : ((fetchLoad s instr).instr_memory, (fetchLoad s instr).branchToLabel) =
      (s.instr_memory, s.branchToLabel) := by
    have k1 : ∀ (t : sim_pipe) (a b c : Nat),
        ((t.setSP a b c).instr_memory, (t.setSP a b c).branchToLabel) =
          (t.instr_memory, t.branchToLabel) := fun _ _ _ _ => rfl
    have k2 : ∀ (t : sim_pipe) (k : Nat) (r : pipeline_Registers),
        ((t.setPipe k r).instr_memory, (t.setPipe k r).branchToLabel) =
          (t.instr_memory, t.branchToLabel) := fun _ _ _ => rfl
    have k3 : ∀ (t : sim_pipe) (a b : Nat),
        (({ t with inst_count := a, totalInstCount := b } : sim_pipe).instr_memory,
          ({ t with inst_count := a, totalInstCount := b } : sim_pipe).branchToLabel) =
          (t.instr_memory, t.branchToLabel) := fun _ _ _ => rfl
    unfold fetchLoad
    dsimp only
    split_ifs <;> simp only [k1, k2, k3]
  simp only [Prod.mk.injEq] at e2
  have e1 : ((fetchLoad s instr).pipe_reg.get FIRST).pipe_IR = instr ∧
      (fetchLoad s instr).instr_memory = s.instr_memory ∧
      (fetchLoad s instr).branchToLabel = s.branchToLabel := by
    refine ⟨?_, e2.1, e2.2⟩
    rw [e0]
    rfl
  rw [fetch_eq, if_neg (by rw [hm]; decide), if_neg (by rw [hs]; decide), hj]
  simp only [Option.some_bind, hmem']
  refine ⟨_, rfl, ?_, ?_, ?_, ?_, ?_⟩
  · split_ifs
    · exact e1.1
    · exact e1.1
  · split_ifs
    · exact e1.2.1
    · exact e1.2.1
  · split_ifs
    · exact e1.2.2.trans hl
    · exact e1.2.2.trans hl
  · intro hne
    have k := (fetchLoad_count s instr hne).2
    split_ifs
    · exact k
    · exact k
  · intro he
    have k := (fetchLoad_EOP s instr he).2.2.2.2
    split_ifs
    · exact k
    · exact k

/-- C38.  `JUMP` never transfers control in the integer simulator.  When `execute` processes
a `JUMP`, the pending branch-target label and the fetch index are afterwards what they were
before and `noBranches` is true (the state spoken of is the one `execute` has reached when it
returns or, with the cycle counter at 3, when it calls `decode` and `fetch`).  With a `JUMP`,
or any instruction other than a conditional branch, in IF/ID the hazard handler does not set
the branch-stall flag.  An unstalled `fetch` with no label pending loads the instruction at
the fetch index and moves the index to the next instruction.  On
`JUMP END; ADDI R1 R0 5; END: EOP` with R0 = 0: after 3 passes the `JUMP` has been executed, no
label is pending, no stall is pending and the `ADDI` at index 1 is in ID/EX; `run(0)` returns
after 7 passes with R1 = 5. -/
theorem c38_jump_never_transfers :
    (∀ s : sim_pipe, s.op SECOND = JUMP →
      (executeLatch (executeBranch (executeAlu s))).branchToLabel = s.branchToLabel ∧
      (executeLatch (executeBranch (executeAlu s))).noBranches = true ∧
      (executeLatch (executeBranch (executeAlu s))).inst_count = s.inst_count ∧
      (s.memoryStall = false → s.clkIn ≠ EXE + 1 →
        execute s = some (executeLatch (executeBranch (executeAlu s))))) ∧
    (∀ s : sim_pipe, s.op FIRST = JUMP → (hazardHandler s).branchStall = true →
      s.branchStall = true) ∧
    (∀ (s : sim_pipe) (instr : instruction_t), s.memoryStall = false → s.stalls = 0 →
      s.branchToLabel = "" → s.inst_count < PROGRAM_SIZE →
      s.instr_memory[s.inst_count]? = some instr →
      ∃ s', fetch s = some s' ∧ (s'.pipe_reg.get FIRST).pipe_IR = instr ∧
        (instr.opcode = JUMP → s'.inst_count = u64 (s.inst_count + 1) ∧
          s'.branchToLabel = "")) ∧
    (∃ s0 s2 s3 s, boot 16 0 program_jump = some s0 ∧
      s0.run 2 0 = run_result.looping s2 ∧ s0.run 3 0 = run_result.looping s3 ∧
      s0.run 7 0 = run_result.returned s ∧
      s2.op SECOND = JUMP ∧ s2.op FIRST = ADDI ∧ s2.inst_count = 2 ∧
      s3.op THIRD = JUMP ∧ s3.op SECOND = ADDI ∧ s3.op FIRST = EOP ∧
      s3.branchToLabel = "" ∧ s3.noBranches = true ∧ s3.stalls = 0 ∧ s3.branchStall = false ∧
      s.generalP_Reg 1 = 5 ∧ s.get_instructions_executed = 2) := by
  refine ⟨?_, ?_, ?_, ⟨_, _, _, _, rfl, rfl, rfl, rfl, rfl, rfl, rfl, rfl, rfl, rfl, rfl, rfl,
    rfl, rfl, rfl, rfl⟩⟩
  · intro s hop
    have hb := executeLatch_branch (executeBranch (executeAlu s))
    have hx : ∀ t : sim_pipe, t.op SECOND = JUMP →
        executeBranch t = { t with noBranches := true } := by
      intro t ht
      unfold sim_pipe.op at ht
      unfold executeBranch
      dsimp only
      rw [ht]
    have hl : ∀ t : sim_pipe, (executeLatch t).inst_count = t.inst_count := by
      intro t
      unfold executeLatch
      dsimp only
      split_ifs <;> rfl
    have hx' : executeBranch (executeAlu s) = { executeAlu s with noBranches := true } :=
      hx _ hop
    refine ⟨?_, ?_, ?_, ?_⟩
    · rw [hb.1, hx']
      rfl
    · rw [hb.2.1, hx']
    · rw [hl, hx']
      rfl
    · intro hm hc
      have hc' : (executeLatch (executeBranch (executeAlu s))).clkIn ≠ EXE + 1 := by
        rw [hb.2.2, (executeBranch_frame _).2.2.2]
        exact hc
      rw [execute, if_neg (by rw [hm]; decide)]
      exact if_neg hc'
  · intro s hop h
    exact hazardHandler_branchStall s (by rw [hop]; rfl) h
  · intro s instr hm hs hl hi hmem
    obtain ⟨s', h1, h2, _, h4, h5, _⟩ := fetch_sequential s instr hm hs hl hi hmem
    refine ⟨s', h1, h2, ?_⟩
    intro hj
    exact ⟨h5 (by rw [hj]; decide), h4⟩

/-! ### Label resolution -/

/-- The parsing loop stores the opcode of the line. -/
theorem store_opcode (l : asm_line) (i : instruction_t) : (l.store i).opcode = l.opcode := by
  rcases l with ⟨lb, o, p1, p2, p3, tg⟩
  cases o <;> rfl

/-- The parsing loop stores the label operand of a branch or `JUMP`. -/
theorem store_label (l : asm_line) (i : instruction_t)
    (hb : isCondBranch l.opcode = true ∨ l.opcode = JUMP) : (l.store i).label = l.target := by
  rcases l with ⟨lb, o, p1, p2, p3, tg⟩
  dsimp only at hb
  cases o <;> first | rfl | (exfalso; revert hb; decide)

/-- The parsing loop leaves the slots below the current line as they are. -/
theorem loadLines_below : ∀ (lines : List asm_line) (nr : Nat) (imem : List instruction_t)
    (labels : List (String × Nat)) (imem' : List instruction_t) (labels' : List (String × Nat)),
    loadLines lines nr imem labels = some (imem', labels') →
    ∀ j, j < nr → imem'[j]? = imem[j]? := by
  intro lines
  induction lines with
  | nil =>
    intro nr imem labels imem' labels' h j _
    rw [loadLines] at h
    cases h
    rfl
  | cons l ls ih =>
    intro nr imem labels imem' labels' h j hj
    rw [loadLines] at h
    by_cases h1 : nr < PROGRAM_SIZE
    · rw [if_pos h1] at h
      cases hs : imem[nr]? with
      | none => rw [hs] at h; cases h
      | some slot =>
        rw [hs] at h
        rw [ih _ _ _ _ _ h j (by omega)]
        exact List.getElem?_set_ne (by omega)
    · rw [if_neg h1] at h
      cases h

/-- The parsing loop stores line `j` of the file into slot `nr + j`. -/
theorem loadLines_slot : ∀ (lines : List asm_line) (nr : Nat) (imem : List instruction_t)
    (labels : List (String × Nat)) (imem' : List instruction_t) (labels' : List (String × Nat)),
    loadLines lines nr imem labels = some (imem', labels') →
    ∀ (j : Nat) (l : asm_line), lines[j]? = some l →
      ∃ slot, imem'[nr + j]? = some (l.store slot) := by
  intro lines
  induction lines with
  | nil =>
    intro nr imem labels imem' labels' _ j l hl
    cases hl
  | cons l0 ls ih =>
    intro nr imem labels imem' labels' h j l hl
    rw [loadLines] at h
    by_cases h1 : nr < PROGRAM_SIZE
    · rw [if_pos h1] at h
      cases hs : imem[nr]? with
      | none => rw [hs] at h; cases h
      | some slot =>
        rw [hs] at h
        cases j with
        | zero =>
          rw [List.getElem?_cons_zero] at hl
          cases hl
          refine ⟨slot, ?_⟩
          rw [Nat.add_zero, loadLines_below _ _ _ _ _ _ h nr (by omega)]
          have hlt : nr < imem.length := by
            rcases List.getElem?_eq_some.mp hs with ⟨hlt, _⟩
            exact hlt
          rw [List.getElem?_set_self hlt]
        | succ j =>
          rw [List.getElem?_cons_succ] at hl
          obtain ⟨x, hx⟩ := ih _ _ _ _ _ h j l hl
          refine ⟨x, ?_⟩
          rw [← hx]
          congr 1
          omega
    · rw [if_neg h1] at h
      cases h

/-- A label that no line defines is looked up after the parsing loop as before it. -/
theorem loadLines_lookup_none (name : String) : ∀ (lines : List asm_line) (nr : Nat)
    (imem : List instruction_t) (labels : List (String × Nat)) (imem' : List instruction_t)
    (labels' : List (String × Nat)),
    loadLines lines nr imem labels = some (imem', labels') →
    (∀ (j : Nat) (l : asm_line), lines[j]? = some l → l.label ≠ some name) →
    labels'.lookup name = labels.lookup name := by
  intro lines
  induction lines with
  | nil =>
    intro nr imem labels imem' labels' h _
    rw [loadLines] at h
    cases h
    rfl
  | cons l0 ls ih =>
    intro nr imem labels imem' labels' h hn
    rw [loadLines] at h
    by_cases h1 : nr < PROGRAM_SIZE
    · rw [if_pos h1] at h
      cases hs : imem[nr]? with
      | none => rw [hs] at h; cases h
      | some slot =>
        rw [hs] at h
        rw [ih _ _ _ _ _ h (fun j l hl => hn (j + 1) l (List.getElem?_cons_succ.trans hl))]
        have h0 := hn 0 l0 (List.getElem?_cons_zero)
        cases hlab : l0.label with
        | none => rfl
        | some nm =>
          rw [hlab] at h0
          have hne : ¬ name = nm := fun e => h0 (by rw [e])
          show List.lookup name ((nm, nr) :: labels) = List.lookup name labels
          rw [List.lookup_cons]
          have : (name == nm) = false := by
            rw [beq_eq_false_iff_ne]; exact hne
          rw [this]
    · rw [if_neg h1] at h
      cases h

/-- After the parsing loop a label is looked up as the index of the last line that defines
it. -/
theorem loadLines_lookup (name : String) : ∀ (lines : List asm_line) (nr : Nat)
    (imem : List instruction_t) (labels : List (String × Nat)) (imem' : List instruction_t)
    (labels' : List (String × Nat)),
    loadLines lines nr imem labels = some (imem', labels') →
    ∀ (t : Nat) (lt : asm_line), lines[t]? = some lt → lt.label = some name →
    (∀ (j : Nat) (l : asm_line), t < j → lines[j]? = some l → l.label ≠ some name) →
    labels'.lookup name = some (nr + t) := by
  intro lines
  induction lines with
  | nil =>
    intro nr imem labels imem' labels' _ t lt hl
    cases hl
  | cons l0 ls ih =>
    intro nr imem labels imem' labels' h t lt hl hn hlast
    rw [loadLines] at h
    by_cases h1 : nr < PROGRAM_SIZE
    · rw [if_pos h1] at h
      cases hs : imem[nr]? with
      | none => rw [hs] at h; cases h
      | some slot =>
        rw [hs] at h
        cases t with
        | zero =>
          rw [List.getElem?_cons_zero] at hl
          cases hl
          rw [loadLines_lookup_none name _ _ _ _ _ _ h
            (fun j l hj => hlast (j + 1) l (by omega) (List.getElem?_cons_succ.trans hj))]
          rw [hn]
          show List.lookup name ((name, nr) :: labels) = some (nr + 0)
          rw [List.lookup_cons, beq_self_eq_true]
          rfl
        | succ t =>
          rw [List.getElem?_cons_succ] at hl
          rw [ih _ _ _ _ _ h t lt hl hn
            (fun j l hj hq => hlast (j + 1) l (by omega) (List.getElem?_cons_succ.trans hq))]
          congr 1
          omega
    · rw [if_neg h1] at h
      cases h

/-- The resolution loop leaves the slots below its index as they are. -/
theorem resolveLabels_below : ∀ (fuel k : Nat) (imem : List instruction_t)
    (labels : List (String × Nat)) (imem' : List instruction_t) (labels' : List (String × Nat)),
    resolveLabels fuel k imem labels = some (imem', labels') →
    ∀ j, j < k → imem'[j]? = imem[j]? := by
  intro fuel
  induction fuel with
  | zero =>
    intro k imem labels imem' labels' h
    rw [resolveLabels] at h
    cases h
  | succ fuel ih =>
    intro k imem labels imem' labels' h j hj
    rw [resolveLabels] at h
    by_cases h1 : k < PROGRAM_SIZE
    · rw [if_pos h1] at h
      cases hs : imem[k]? with
      | none => rw [hs] at h; cases h
      | some instr =>
        rw [hs] at h
        dsimp only at h
        by_cases h2 : instr.opcode = EOP
        · rw [if_pos h2] at h
          cases h
          rfl
        · rw [if_neg h2] at h
          split_ifs at h
          all_goals first
            | exact ih _ _ _ _ _ h j (by omega)
            | (rw [ih _ _ _ _ _ h j (by omega)]; exact List.getElem?_set_ne (by omega))
    · rw [if_neg h1] at h
      cases h

/-- Appending an entry to the label map keeps the look-up of a label that is defined. -/
theorem lookup_append_some (name : String) (t : Nat) : ∀ (labels extra : List (String × Nat)),
    labels.lookup name = some t → (labels ++ extra).lookup name = some t := by
  intro labels
  induction labels with
  | nil => intro extra h; cases h
  | cons p ps ih =>
    intro extra h
    rcases p with ⟨a, b⟩
    rw [List.cons_append, List.lookup_cons]
    rw [List.lookup_cons] at h
    cases hab : (name == a) with
    | true => rw [hab] at h; exact h
    | false => rw [hab] at h; exact ih extra h

/-- The resolution loop writes into the slot of a branch or `JUMP` that it reaches before an
`EOP` the immediate computed from the index under the label. -/
theorem resolveLabels_slot : ∀ (fuel k : Nat) (imem : List instruction_t)
    (labels : List (String × Nat)) (imem' : List instruction_t) (labels' : List (String × Nat)),
    resolveLabels fuel k imem labels = some (imem', labels') →
    ∀ (i : Nat) (instr : instruction_t) (t : Nat), k ≤ i →
    (∀ (j : Nat) (x : instruction_t), k ≤ j → j < i → imem[j]? = some x → x.opcode ≠ EOP) →
    imem[i]? = some instr → (isCondBranch instr.opcode = true ∨ instr.opcode = JUMP) →
    labels.lookup instr.label = some t →
    imem'[i]? = some { instr with immediate := u32 (sub32 (sub32 t i) 1 * 2 ^ 2) } := by
  intro fuel
  induction fuel with
  | zero =>
    intro k imem labels imem' labels' h
    rw [resolveLabels] at h
    cases h
  | succ fuel ih =>
    intro k imem labels imem' labels' h i instr t hk he hi hb ht
    rw [resolveLabels] at h
    by_cases h1 : k < PROGRAM_SIZE
    · rw [if_pos h1] at h
      cases hs : imem[k]? with
      | none => rw [hs] at h; cases h
      | some x =>
        rw [hs] at h
        dsimp only at h
        have hklt : k < imem.length := by
          rcases List.getElem?_eq_some.mp hs with ⟨hlt, _⟩
          exact hlt
        by_cases hki : k = i
        · subst hki
          rw [hi] at hs
          cases hs
          have h2 : ¬ instr.opcode = EOP := by
            intro e; rw [e] at hb; revert hb; decide
          have h3 : instr.opcode = BLTZ ∨ instr.opcode = BNEZ ∨ instr.opcode = BGTZ ∨
              instr.opcode = BEQZ ∨ instr.opcode = BGEZ ∨ instr.opcode = BLEZ ∨
              instr.opcode = JUMP := by
            revert hb
            cases instr.opcode <;> decide
          rw [if_neg h2, if_pos h3, ht] at h
          rw [resolveLabels_below _ _ _ _ _ _ h k (by omega), List.getElem?_set_self hklt]
          rfl
        · have h2 : ¬ x.opcode = EOP := he k x (le_refl k) (by omega) hs
          rw [if_neg h2] at h
          split_ifs at h with h3 h4
          · refine ih _ _ _ _ _ h i instr t (by omega) ?_ ?_ hb (lookup_append_some _ _ _ _ ht)
            · intro j y hj1 hj2 hy
              rw [List.getElem?_set_ne (by omega)] at hy
              exact he j y (by omega) hj2 hy
            · rw [List.getElem?_set_ne hki]
              exact hi
          · refine ih _ _ _ _ _ h i instr t (by omega) ?_ ?_ hb ht
            · intro j y hj1 hj2 hy
              rw [List.getElem?_set_ne (by omega)] at hy
              exact he j y (by omega) hj2 hy
            · rw [List.getElem?_set_ne hki]
              exact hi
          · exact ih _ _ _ _ _ h i instr t (by omega)
              (fun j y hj1 hj2 hy => he j y (by omega) hj2 hy) hi hb ht
    · rw [if_neg h1] at h
      cases h

/-- The immediate that the resolution loop computes is `(t - i - 1) * 4` modulo `2^32`. -/
theorem resolved_immediate (t i : Nat) :
    ((u32 (sub32 (sub32 t i) 1 * 2 ^ 2) : Nat) : Int) = (((t : Int) - i - 1) * 2 ^ 2) % 2 ^ 32 := by
  unfold u32 sub32
  have h32 : (2 : Nat) ^ 32 = 4294967296 := by norm_num
  have h32i : (2 : Int) ^ 32 = 4294967296 := by norm_num
  have h2 : (2 : Nat) ^ 2 = 4 := by norm_num
  have h2i : (2 : Int) ^ 2 = 4 := by norm_num
  rw [h32, h32i, h2, h2i]
  omega

/-- Adding the resolved immediate to the address after the branch gives the address of the
target, modulo `2^32`. -/
theorem resolved_target (base t i : Nat) :
    u32 (base + 4 * (i + 1) + u32 (sub32 (sub32 t i) 1 * 2 ^ 2)) = u32 (base + 4 * t) := by
  unfold u32 sub32
  have h32 : (2 : Nat) ^ 32 = 4294967296 := by norm_num
  have h2 : (2 : Nat) ^ 2 = 4 := by norm_num
  rw [h32, h2]
  omega


/-- For a conditional branch or `JUMP` the function `alu` returns `npc + imm` modulo `2^32`. -/
theorem alu_branch (o : opcode_t) (a b imm npc : Nat)
    (h : isCondBranch o = true ∨ o = JUMP) : alu o.toNat a b imm npc = u32 (npc + imm) := by
  cases o <;> first | (exfalso; revert h; decide) | rfl

/-- C35.  Label resolution.  Let `load_program` return for the lines of an assembly file, let
line `i` be a conditional branch or a `JUMP` with no `EOP` on an earlier line, and let the
label that it names map to the index `t`, that is, line `t` is the last line that carries it
(before or after line `i`).  Then slot `i` of the instruction memory holds that opcode with
the immediate `((t - i - 1) << 2)` modulo `2^32`, and the function `alu`, applied to that
opcode and immediate with `npc = base + 4 * (i + 1)`, returns `base + 4 * t` modulo `2^32`,
the byte address of line `t`. -/
theorem c35_label_resolution (s s' : sim_pipe) (lines : List asm_line) (base i t : Nat)
    (l lt : asm_line) (h : s.load_program lines base = some s')
    (hl : lines[i]? = some l) (hb : isCondBranch l.opcode = true ∨ l.opcode = JUMP)
    (he : ∀ (j : Nat) (x : asm_line), j < i → lines[j]? = some x → x.opcode ≠ EOP)
    (ht : lines[t]? = some lt) (hn : lt.label = some l.target)
    (hlast : ∀ (j : Nat) (x : asm_line), t < j → lines[j]? = some x →
      x.label ≠ some l.target) :
    ∃ instr, s'.instr_memory[i]? = some instr ∧ instr.opcode = l.opcode ∧
      (instr.immediate : Int) = (((t : Int) - i - 1) * 2 ^ 2) % 2 ^ 32 ∧
      ∀ a b, alu instr.opcode.toNat a b instr.immediate (base + 4 * (i + 1)) =
        u32 (base + 4 * t) := by
  unfold load_program at h
  dsimp only at h
  obtain ⟨⟨im1, lb1⟩, h1, h⟩ := Option.bind_eq_some.mp h
  obtain ⟨⟨im2, lb2⟩, h2, h⟩ := Option.map_eq_some'.mp h
  subst h
  obtain ⟨slot, hslot⟩ := loadLines_slot _ _ _ _ _ _ h1 i l hl
  rw [Nat.zero_add] at hslot
  have hlook := loadLines_lookup l.target _ _ _ _ _ _ h1 t lt ht hn hlast
  rw [Nat.zero_add] at hlook
  have hilt : i < lines.length := by
    rcases List.getElem?_eq_some.mp hl with ⟨hlt, _⟩
    exact hlt
  have hE : ∀ (j : Nat) (x : instruction_t), 0 ≤ j → j < i → im1[j]? = some x →
      x.opcode ≠ EOP := by
    intro j x _ hj hx
    have hjl : j < lines.length := by omega
    obtain ⟨sl, hsl⟩ := loadLines_slot _ _ _ _ _ _ h1 j (lines.get ⟨j, hjl⟩)
      (List.getElem?_eq_getElem hjl)
    rw [Nat.zero_add, hx] at hsl
    cases hsl
    rw [store_opcode]
    exact he j _ hj (List.getElem?_eq_getElem hjl)
  have hb1 : isCondBranch (l.store slot).opcode = true ∨ (l.store slot).opcode = JUMP := by
    rw [store_opcode]; exact hb
  have key := resolveLabels_slot _ _ _ _ _ _ h2 i (l.store slot) t (Nat.zero_le i) hE hslot hb1
    (by rw [store_label l slot hb]; exact hlook)
  refine ⟨_, key, store_opcode l slot, resolved_immediate t i, ?_⟩
  intro a b
  have ha := alu_branch (l.store slot).opcode a b (u32 (sub32 (sub32 t i) 1 * 2 ^ 2))
    (base + 4 * (i + 1)) hb1
  exact ha.trans (resolved_target base t i)

/-- Witness of C35: in the program `JUMP END; L: BNEZ R0 L; END: EOP`, loaded at base address
16, the branch at index 1 names the label of its own line (a backward target, `t = 1`): its
immediate is `-4` modulo `2^32`, and `alu` with `npc = 16 + 8` returns 20, the address of
line 1. -/
theorem c35_label_resolution_witness :
    program_jump_loop[1]? = some (labelled "L" (asmBranch BNEZ 0 "L")) ∧
    ∃ instr, (((sim_pipe.new 16 0).load_program program_jump_loop 16).getD
        (sim_pipe.new 16 0)).instr_memory[1]? = some instr ∧ instr.opcode = BNEZ ∧
      (instr.immediate : Int) = (((1 : Int) - 1 - 1) * 2 ^ 2) % 2 ^ 32 ∧
      instr.immediate = 0xFFFFFFFC ∧
      ∀ a b, alu instr.opcode.toNat a b instr.immediate (16 + 4 * (1 + 1)) = u32 (16 + 4 * 1) := by
  have h := c35_label_resolution (sim_pipe.new 16 0)
    (((sim_pipe.new 16 0).load_program program_jump_loop 16).getD (sim_pipe.new 16 0))
    program_jump_loop 16 1 1 (labelled "L" (asmBranch BNEZ 0 "L"))
    (labelled "L" (asmBranch BNEZ 0 "L")) rfl rfl (Or.inl rfl)
    (by
      intro j x hj hx
      have hj0 : j = 0 := by omega
      subst hj0
      cases hx
      decide)
    rfl rfl
    (by
      intro j x hj hx
      match j, hj, hx with
      | 2, _, hx => cases hx; decide
      | j + 3, _, hx => cases hx)
  obtain ⟨instr, h1, h2, h3, h4⟩ := h
  refine ⟨rfl, instr, h1, h2, h3, ?_, h4⟩
  have e : (instr.immediate : Int) = 4294967292 := by
    rw [h3]; norm_num
  exact_mod_cast e

/-! ## The cycle counter through the stages -/

/-- Writing a latch leaves the cycle counter as it is. -/
theorem setPipe_clkIn (s : sim_pipe) (k : Nat) (r : pipeline_Registers) :
    (s.setPipe k r).clkIn = s.clkIn := rfl

/-- The redirection of `fetch` leaves the cycle counter and the latches as they are. -/
theorem fetchJump_clkIn (s s' : sim_pipe) (h : fetchJump s = some s') :
    s'.clkIn = s.clkIn ∧ s'.pipe_reg = s.pipe_reg := by
  unfold fetchJump at h
  by_cases h1 : s.branchToLabel ≠ ""
  · rw [if_pos h1] at h
    obtain ⟨t, _, rfl⟩ := Option.map_eq_some'.mp h
    exact ⟨rfl, rfl⟩
  · rw [if_neg h1] at h
    simp only [Option.some.injEq] at h
    subst h
    exact ⟨rfl, rfl⟩

/-- The body of `fetch` leaves the cycle counter and the latches other than IF/ID as they
are. -/
theorem fetchLoad_clkIn (s : sim_pipe) (instr : instruction_t) :
    (fetchLoad s instr).clkIn = s.clkIn ∧
    (fetchLoad s instr).pipe_reg.SECOND = s.pipe_reg.SECOND ∧
    (fetchLoad s instr).pipe_reg.THIRD = s.pipe_reg.THIRD := by
  have k : ∀ (t : sim_pipe) (a b : Nat),
      ({ t with inst_count := a, totalInstCount := b } : sim_pipe).clkIn = t.clkIn ∧
      ({ t with inst_count := a, totalInstCount := b } : sim_pipe).pipe_reg = t.pipe_reg :=
    fun _ _ _ => ⟨rfl, rfl⟩
  unfold fetchLoad
  dsimp only
  split_ifs <;> refine ⟨?_, ?_, ?_⟩ <;>
    simp only [k, setSP_clkIn, setPipe_clkIn, setSP_pipe_reg, setPipe_pipe_reg] <;> rfl

/-- The hazard handler leaves the cycle counter and the latches as they are. -/
theorem hazardHandler_clkIn (s : sim_pipe) :
    (hazardHandler s).clkIn = s.clkIn ∧ (hazardHandler s).pipe_reg = s.pipe_reg := by
  have hd : ∀ t : sim_pipe, (hazardDetect t).clkIn = t.clkIn ∧
      (hazardDetect t).pipe_reg = t.pipe_reg := by
    intro t
    rw [hazardDetect_eq]
    obtain ⟨sp, ho⟩ := hazardOperands_shape t
    have hr : (hazardRules (hazardOperands t)).clkIn = t.clkIn ∧
        (hazardRules (hazardOperands t)).pipe_reg = t.pipe_reg := by
      rcases hazardRules_shape (hazardOperands t) with e | e | e | e <;> rw [e, ho] <;>
        exact ⟨rfl, rfl⟩
    split_ifs
    · exact hr
    · exact hr
  have hrel : ∀ t : sim_pipe, (hazardRelease t).clkIn = t.clkIn ∧
      (hazardRelease t).pipe_reg = t.pipe_reg := by
    intro t
    rcases hazardRelease_shape t with e | e | ⟨_, e⟩ <;> rw [e] <;> exact ⟨rfl, rfl⟩
  rw [hazardHandler_eq]
  split_ifs
  · exact ⟨rfl, rfl⟩
  · exact ⟨(hrel _).1.trans (hd s).1, (hrel _).2.trans (hd s).2⟩
  · exact hrel s

/-- The register read of `decode` leaves the cycle counter as it is. -/
theorem decodeRead_clkIn (s : sim_pipe) : (decodeRead s).clkIn = s.clkIn := by
  unfold decodeRead
  dsimp only
  split_ifs <;> rfl

/-- The end of the body of `decode` leaves the cycle counter as it is. -/
theorem decodeLatch_clkIn (s : sim_pipe) : (decodeLatch s).clkIn = s.clkIn := by
  unfold decodeLatch
  dsimp only
  split_ifs <;> simp only [setSP_clkIn, setPipe_clkIn]

/-- The body of `execute` leaves the cycle counter and the memory-stall flag as they are and
ends with the same contents in ID/EX and in EX/MEM. -/
theorem executeBody_clkIn (s : sim_pipe) :
    (executeLatch (executeBranch (executeAlu s))).clkIn = s.clkIn ∧
    (executeLatch (executeBranch (executeAlu s))).memoryStall = s.memoryStall ∧
    (executeLatch (executeBranch (executeAlu s))).pipe_reg.get SECOND =
      (executeLatch (executeBranch (executeAlu s))).pipe_reg.get THIRD := by
  refine ⟨?_, ?_, ?_⟩
  · rw [(executeLatch_branch _).2.2, (executeBranch_frame _).2.2.2]
    rfl
  · have h := (executeLatch_stall_view (executeBranch (executeAlu s))).trans
      ((executeBranch_stall_view (executeAlu s)).trans (executeAlu_stall_view s))
    exact congrArg (fun v => v.2.2.2.2.1) h
  · generalize executeBranch (executeAlu s) = t
    unfold executeLatch
    dsimp only
    split_ifs <;> simp only [setSP_pipe_reg, setPipe_pipe_reg] <;> rfl

/-- The latency bookkeeping of `memory` leaves the cycle counter as it is. -/
theorem memoryWait_clkIn (s : sim_pipe) : (memoryWait s).clkIn = s.clkIn := by
  unfold memoryWait
  dsimp only
  split_ifs <;> rfl

/-- The data-memory access of `memory` leaves the cycle counter and the memory-stall flag as
they are. -/
theorem memoryAccess_clkIn (s s' : sim_pipe) (h : memoryAccess s = some s') :
    s'.clkIn = s.clkIn ∧ s'.memoryStall = s.memoryStall := by
  have hv := memoryAccess_stall_view s s' h
  refine ⟨?_, congrArg (fun v => v.2.2.2.2.1) hv⟩
  unfold memoryAccess at h
  dsimp only at h
  obtain ⟨m, hm, rfl⟩ := Option.map_eq_some'.mp h
  simp only [setSP_clkIn, setPipe_clkIn]
  have hw : ∀ (t t' : sim_pipe) (a v : Nat), t.write_memory a v = some t' →
      t'.clkIn = t.clkIn := by
    intro t t' a v ht
    unfold write_memory at ht
    split_ifs at ht
    simp only [Option.some.injEq] at ht
    subst ht
    rfl
  split_ifs at hm
  all_goals first
    | (simp only [Option.some.injEq] at hm; subst hm; simp only [setSP_clkIn, setPipe_clkIn])
    | (rw [hw _ _ _ _ hm]; simp only [setSP_clkIn, setPipe_clkIn])
    | (rw [hw _ _ _ _ hm])

/-- The method `set_gp_register` leaves the cycle counter and the latches as they are. -/
theorem set_gp_register_clkIn (s : sim_pipe) (r : Nat) (v : Int) :
    (s.set_gp_register r v).clkIn = s.clkIn ∧ (s.set_gp_register r v).pipe_reg = s.pipe_reg := by
  unfold set_gp_register
  split_ifs <;> exact ⟨rfl, rfl⟩

/-- The register update of `writeBack` leaves the cycle counter as it is. -/
theorem writeBackCommit_clkIn (s : sim_pipe) : (writeBackCommit s).clkIn = s.clkIn := by
  unfold writeBackCommit
  dsimp only
  split_ifs <;> simp only [(set_gp_register_clkIn _ _ _).1, setSP_clkIn]

/-- The method `fetch` leaves the ID/EX and EX/MEM latches as they are, and the cycle counter
too unless it is 1, when it may increment it. -/
theorem fetch_clock (s s' : sim_pipe) (h : fetch s = some s') :
    (s'.clkIn = s.clkIn ∨ (s.clkIn = 1 ∧ s'.clkIn = u64 (s.clkIn + 1))) ∧
    s'.pipe_reg.SECOND = s.pipe_reg.SECOND ∧ s'.pipe_reg.THIRD = s.pipe_reg.THIRD := by
  rw [fetch_eq] at h
  by_cases h1 : s.memoryStall = true
  · rw [if_pos h1] at h
    simp only [Option.some.injEq] at h
    subst h
    exact ⟨Or.inl rfl, rfl, rfl⟩
  · rw [if_neg h1] at h
    by_cases h2 : s.stalls ≠ 0
    · rw [if_pos h2] at h
      simp only [Option.some.injEq] at h
      subst h
      split_ifs
      · exact ⟨Or.inl rfl, rfl, rfl⟩
      · exact ⟨Or.inl rfl, rfl, rfl⟩
    · rw [if_neg h2] at h
      obtain ⟨j, hj, h⟩ := Option.bind_eq_some.mp h
      obtain ⟨instr, _, h⟩ := Option.bind_eq_some.mp h
      simp only [Option.some.injEq] at h
      subst h
      obtain ⟨j1, j2⟩ := fetchJump_clkIn s j hj
      obtain ⟨l1, l2, l3⟩ := fetchLoad_clkIn j instr
      have e2 : (fetchLoad j instr).pipe_reg.SECOND = s.pipe_reg.SECOND := by rw [l2, j2]
      have e3 : (fetchLoad j instr).pipe_reg.THIRD = s.pipe_reg.THIRD := by rw [l3, j2]
      have e1 : (fetchLoad j instr).clkIn = s.clkIn := l1.trans j1
      by_cases hc : (fetchLoad j instr).clkIn = IF + 1
      · rw [if_pos hc]
        refine ⟨Or.inr ⟨e1 ▸ hc, ?_⟩, e2, e3⟩
        show u64 ((fetchLoad j instr).clkIn + 1) = u64 (s.clkIn + 1)
        rw [e1]
      · rw [if_neg hc]
        exact ⟨Or.inl e1, e2, e3⟩

/-- The method `decode` leaves the cycle counter as it is unless it is 2, when it may
increment it. -/
theorem decode_clock (s s' : sim_pipe) (h : decode s = some s') :
    s'.clkIn = s.clkIn ∨ (s.clkIn = 2 ∧ s'.clkIn = u64 (s.clkIn + 1)) := by
  rw [decode_eq] at h
  have a := (hazardHandler_clkIn s).1
  have c : (decodeLatch (decodeRead (hazardHandler s))).clkIn = s.clkIn := by
    rw [decodeLatch_clkIn, decodeRead_clkIn, a]
  by_cases h1 : (hazardHandler s).memoryStall = true
  · rw [if_pos h1] at h
    simp only [Option.some.injEq] at h
    subst h
    exact Or.inl a
  · rw [if_neg h1] at h
    by_cases h2 : (hazardHandler s).stalls ≠ 0 ∧ (hazardHandler s).branchStall = false
    · rw [if_pos h2] at h
      simp only [Option.some.injEq] at h
      subst h
      exact Or.inl a
    · rw [if_neg h2] at h
      by_cases h3 : (decodeLatch (decodeRead (hazardHandler s))).clkIn = ID + 1
      · rw [if_pos h3] at h
        obtain ⟨t, ht, rfl⟩ := Option.map_eq_some'.mp h
        have hs2 : s.clkIn = 2 := c ▸ h3
        rcases (fetch_clock _ _ ht).1 with e | ⟨e, _⟩
        · refine Or.inr ⟨hs2, ?_⟩
          show u64 (t.clkIn + 1) = u64 (s.clkIn + 1)
          rw [e, c]
        · rw [c, hs2] at e
          exact absurd e (by decide)
      · rw [if_neg h3] at h
        simp only [Option.some.injEq] at h
        subst h
        exact Or.inl c

/-- The method `execute` leaves the cycle counter as it is unless it is 3, when it may
increment it. -/
theorem execute_clock (s s' : sim_pipe) (h : execute s = some s') :
    s'.clkIn = s.clkIn ∨ (s.clkIn = 3 ∧ s'.clkIn = u64 (s.clkIn + 1)) := by
  unfold execute at h
  have c := (executeBody_clkIn s).1
  by_cases h1 : s.memoryStall = true
  · rw [if_pos h1] at h
    simp only [Option.some.injEq] at h
    subst h
    exact Or.inl rfl
  · rw [if_neg h1] at h
    by_cases h2 : (executeLatch (executeBranch (executeAlu s))).clkIn = EXE + 1
    · simp only [h2, if_true] at h
      obtain ⟨t, ht, rfl⟩ := Option.map_eq_some'.mp h
      obtain ⟨d, hd, hf⟩ := Option.bind_eq_some.mp ht
      have hs3 : s.clkIn = 3 := c ▸ h2
      have ed : d.clkIn = 3 := by
        rcases decode_clock _ _ hd with e | ⟨e, _⟩
        · rw [e, c, hs3]
        · rw [c, hs3] at e
          exact absurd e (by decide)
      have et : t.clkIn = 3 := by
        rcases (fetch_clock _ _ hf).1 with e | ⟨e, _⟩
        · rw [e, ed]
        · rw [ed] at e
          exact absurd e (by decide)
      refine Or.inr ⟨hs3, ?_⟩
      show u64 (t.clkIn + 1) = u64 (s.clkIn + 1)
      rw [et, hs3]
    · simp only [h2, if_false] at h
      simp only [Option.some.injEq] at h
      subst h
      exact Or.inl c

/-- The method `memory` leaves the cycle counter as it is unless it is 4, when it may
increment it. -/
theorem memory_clock (s s' : sim_pipe) (h : memory s = some s') :
    s'.clkIn = s.clkIn ∨ (s.clkIn = 4 ∧ s'.clkIn = u64 (s.clkIn + 1)) := by
  unfold memory at h
  have a := memoryWait_clkIn s
  by_cases h1 : (memoryWait s).memoryStall = true
  · simp only [h1, if_true] at h
    simp only [Option.some.injEq] at h
    subst h
    exact Or.inl a
  · simp only [h1, if_false] at h
    obtain ⟨m, hm, h⟩ := Option.bind_eq_some.mp h
    have m2 : m.clkIn = s.clkIn := (memoryAccess_clkIn _ _ hm).1.trans a
    by_cases h3 : m.clkIn = MEM + 1
    · rw [if_pos h3] at h
      obtain ⟨t, ht, rfl⟩ := Option.map_eq_some'.mp h
      obtain ⟨d, hd, hf⟩ := Option.bind_eq_some.mp ht
      obtain ⟨e, he, hd⟩ := Option.bind_eq_some.mp hd
      have hs4 : s.clkIn = 4 := m2 ▸ h3
      have m4 : m.clkIn = 4 := h3
      have ee : e.clkIn = 4 := by
        rcases execute_clock _ _ he with x | ⟨x, _⟩
        · rw [x, m4]
        · rw [m4] at x
          exact absurd x (by decide)
      have ed : d.clkIn = 4 := by
        rcases decode_clock _ _ hd with x | ⟨x, _⟩
        · rw [x, ee]
        · rw [ee] at x
          exact absurd x (by decide)
      have et : t.clkIn = 4 := by
        rcases (fetch_clock _ _ hf).1 with x | ⟨x, _⟩
        · rw [x, ed]
        · rw [ed] at x
          exact absurd x (by decide)
      refine Or.inr ⟨hs4, ?_⟩
      show u64 (t.clkIn + 1) = u64 (s.clkIn + 1)
      rw [et, hs4]
    · rw [if_neg h3] at h
      simp only [Option.some.injEq] at h
      subst h
      exact Or.inl m2

/-- The method `writeBack` called with the cycle counter at 5 or more leaves it as it is or
increments it. -/
theorem writeBack_clock (s s' : sim_pipe) (h5 : 5 ≤ s.clkIn) (h : writeBack s = some s') :
    s'.clkIn = s.clkIn ∨ s'.clkIn = u64 (s.clkIn + 1) := by
  unfold writeBack at h
  have a := writeBackCommit_clkIn s
  have hc : (writeBackCommit s).clkIn ≥ WB + 1 := by rw [a]; exact h5
  simp only [hc, if_true] at h
  obtain ⟨t, ht, rfl⟩ := Option.map_eq_some'.mp h
  obtain ⟨d, hd, hf⟩ := Option.bind_eq_some.mp ht
  obtain ⟨e, he, hd⟩ := Option.bind_eq_some.mp hd
  obtain ⟨m, hm, he⟩ := Option.bind_eq_some.mp he
  have em : m.clkIn = s.clkIn := by
    rcases memory_clock _ _ hm with x | ⟨x, _⟩
    · rw [x, a]
    · rw [a] at x; omega
  have ee : e.clkIn = s.clkIn := by
    rcases execute_clock _ _ he with x | ⟨x, _⟩
    · rw [x, em]
    · rw [em] at x; omega
  have ed : d.clkIn = s.clkIn := by
    rcases decode_clock _ _ hd with x | ⟨x, _⟩
    · rw [x, ee]
    · rw [ee] at x; omega
  have et : t.clkIn = s.clkIn := by
    rcases (fetch_clock _ _ hf).1 with x | ⟨x, _⟩
    · rw [x, ed]
    · rw [ed] at x; omega
  split_ifs
  · exact Or.inl et
  · refine Or.inr ?_
    show u64 (t.clkIn + 1) = u64 (s.clkIn + 1)
    rw [et]

/-- A pass of the dispatch leaves the cycle counter as it is or increments it. -/
theorem dispatch_clock (s s' : sim_pipe) (h : dispatch s = some s') :
    s'.clkIn = s.clkIn ∨ s'.clkIn = u64 (s.clkIn + 1) := by
  unfold dispatch at h
  split_ifs at h with h1 h2 h3 h4 h5 h6
  · rcases (fetch_clock _ _ h).1 with x | ⟨_, x⟩
    · exact Or.inl x
    · exact Or.inr x
  · rcases decode_clock _ _ h with x | ⟨_, x⟩
    · exact Or.inl x
    · exact Or.inr x
  · rcases execute_clock _ _ h with x | ⟨_, x⟩
    · exact Or.inl x
    · exact Or.inr x
  · rcases memory_clock _ _ h with x | ⟨_, x⟩
    · exact Or.inl x
    · exact Or.inr x
  · exact writeBack_clock _ _ (by
      have : s.clkIn = 4 + 1 := h5
      omega) h
  · exact writeBack_clock _ _ (by
      have : s.clkIn > 4 + 1 := h6
      omega) h
  · simp only [Option.some.injEq] at h
    subst h
    exact Or.inl rfl

/-- The hazard handler is entered in the state `decodeEntry`: a pass of the dispatch that
reaches `decode` is `decode` from that state, followed, when the cycle counter is not 2, by
`fetch` and the end of the pass. -/
theorem dispatch_decodeEntry (s h : sim_pipe) (he : decodeEntry s = some h) :
    dispatch s =
      if s.clkIn = ID + 1 then decode h
      else if s.clkIn ≥ WB + 1 then
        ((decode h).bind fetch).map fun s =>
          if s.specialP_Reg.get WB IR = EOP.toNat ∧ s.noBranches = true then
            { s with runAlways := false }
          else { s with clkIn := u64 (s.clkIn + 1) }
      else ((decode h).bind fetch).map fun s => { s with clkIn := u64 (s.clkIn + 1) } := by
  unfold decodeEntry at he
  by_cases h2 : s.clkIn = ID + 1
  · rw [if_pos h2] at he
    simp only [Option.some.injEq] at he
    subst he
    rw [if_pos h2]
    unfold dispatch
    have h2' : s.clkIn = 1 + 1 := h2
    rw [if_neg (show ¬ s.clkIn = IF + 1 by show ¬ s.clkIn = 0 + 1; omega), if_pos h2]
  · rw [if_neg h2] at he
    rw [if_neg h2]
    have h2' : ¬ s.clkIn = 1 + 1 := h2
    by_cases h3 : s.clkIn = EXE + 1
    · have h3' : s.clkIn = 2 + 1 := h3
      rw [if_pos h3] at he
      rw [if_neg (show ¬ s.clkIn ≥ WB + 1 by show ¬ s.clkIn ≥ 4 + 1; omega)]
      by_cases hm : s.memoryStall = true
      · rw [if_pos hm] at he
        cases he
      · rw [if_neg hm] at he
        simp only [Option.some.injEq] at he
        unfold dispatch
        rw [if_neg (show ¬ s.clkIn = IF + 1 by show ¬ s.clkIn = 0 + 1; omega), if_neg h2,
          if_pos h3]
        unfold execute
        rw [if_neg hm]
        dsimp only
        rw [he, if_pos (by rw [← he, (executeBody_clkIn s).1]; exact h3)]
    · rw [if_neg h3] at he
      have h3' : ¬ s.clkIn = 2 + 1 := h3
      by_cases h4 : s.clkIn = MEM + 1
      · have h4' : s.clkIn = 3 + 1 := h4
        rw [if_pos h4] at he
        rw [if_neg (show ¬ s.clkIn ≥ WB + 1 by show ¬ s.clkIn ≥ 4 + 1; omega)]
        by_cases hm : (memoryWait s).memoryStall = true
        · rw [if_pos hm] at he
          cases he
        · rw [if_neg hm] at he
          obtain ⟨m, hm1, hm2⟩ := Option.bind_eq_some.mp he
          unfold dispatch
          rw [if_neg (show ¬ s.clkIn = IF + 1 by show ¬ s.clkIn = 0 + 1; omega), if_neg h2,
            if_neg h3, if_pos h4]
          unfold memory
          dsimp only
          rw [if_neg hm, hm1]
          have mc : m.clkIn = MEM + 1 := by
            rw [(memoryAccess_clkIn _ _ hm1).1, memoryWait_clkIn]
            exact h4
          show (if m.clkIn = MEM + 1 then _ else _) = _
          rw [if_pos mc, hm2]
          rfl
      · rw [if_neg h4] at he
        have h4' : ¬ s.clkIn = 3 + 1 := h4
        by_cases h5 : s.clkIn ≥ WB + 1
        · rw [if_pos h5] at he
          rw [if_pos h5, dispatch_writeBack s h5]
          unfold writeBack
          dsimp only
          rw [if_pos (by rw [writeBackCommit_clkIn]; exact h5)]
          unfold beforeDecode at he
          rw [he]
          rfl
        · rw [if_neg h5] at he
          cases he

/-- A latch after `reset` does not depend on what it held. -/
theorem reset_latch (r : pipeline_Registers) : r.reset = pipeline_Registers.zero.reset := rfl

/-- A pass of the dispatch preserves `fresh_latches`. -/
theorem dispatch_fresh (s s' : sim_pipe) (h0 : fresh_latches s) (h : dispatch s = some s') :
    fresh_latches s' := by
  have h64 : (2 : Nat) ^ 64 = 18446744073709551616 := by norm_num
  obtain ⟨hlt, hl⟩ := h0
  unfold fresh_latches
  by_cases h1 : s.clkIn = 1
  · have hf : fetch s = some s' := by
      unfold dispatch at h
      rw [if_pos (show s.clkIn = IF + 1 from h1)] at h
      exact h
    obtain ⟨hc, e2, e3⟩ := fetch_clock _ _ hf
    obtain ⟨l2, l3⟩ := hl (Or.inl h1)
    refine ⟨?_, fun _ => ⟨e2.trans l2, e3.trans l3⟩⟩
    rcases hc with x | ⟨_, x⟩
    · rw [x]; exact hlt
    · rw [x, h1, h64]; decide
  · by_cases h2 : s.clkIn = 2
    · have hd : decode s = some s' := by
        unfold dispatch at h
        rw [if_neg (show ¬ s.clkIn = IF + 1 from h1), if_pos (show s.clkIn = ID + 1 from h2)]
          at h
        exact h
      obtain ⟨l2, l3⟩ := hl (Or.inr h2)
      obtain ⟨a1, a2⟩ := hazardHandler_clkIn s
      rw [decode_eq] at hd
      by_cases c1 : (hazardHandler s).memoryStall = true
      · rw [if_pos c1] at hd
        simp only [Option.some.injEq] at hd
        subst hd
        rw [a1, a2]
        exact ⟨hlt, fun _ => ⟨l2, l3⟩⟩
      · rw [if_neg c1] at hd
        by_cases c2 : (hazardHandler s).stalls ≠ 0 ∧ (hazardHandler s).branchStall = false
        · rw [if_pos c2] at hd
          simp only [Option.some.injEq] at hd
          subst hd
          rw [setPipe_clkIn, setPipe_pipe_reg, a1, a2]
          exact ⟨hlt, fun _ => ⟨rfl, l3⟩⟩
        · rw [if_neg c2] at hd
          have c : (decodeLatch (decodeRead (hazardHandler s))).clkIn = ID + 1 := by
            rw [decodeLatch_clkIn, decodeRead_clkIn, a1]
            exact h2
          rw [if_pos c] at hd
          obtain ⟨t, ht, rfl⟩ := Option.map_eq_some'.mp hd
          have et : t.clkIn = 2 := by
            rcases (fetch_clock _ _ ht).1 with x | ⟨x, _⟩
            · rw [x]; exact c
            · rw [c] at x
              exact absurd x (by decide)
          have e3 : ({ t with clkIn := u64 (t.clkIn + 1) } : sim_pipe).clkIn = 3 := by
            show u64 (t.clkIn + 1) = 3
            rw [et]
            rfl
          rw [e3]
          exact ⟨by rw [h64]; decide, fun x => by omega⟩
    · by_cases h0 : s.clkIn = 0
      · rw [dispatch_clk_zero s h0] at h
        simp only [Option.some.injEq] at h
        subst h
        exact ⟨hlt, hl⟩
      · have hx := dispatch_clock s s' h
        have h3 : 3 ≤ s.clkIn := by omega
        have hc : s'.clkIn < 2 ^ 64 ∧ ¬ (s'.clkIn = 1 ∨ s'.clkIn = 2) := by
          rcases hx with x | x
          · rw [x]
            exact ⟨hlt, by omega⟩
          · rw [x]
            unfold u64
            rw [h64] at hlt ⊢
            omega
        exact ⟨hc.1, fun x => absurd x hc.2⟩

/-- The loop of `run` preserves `fresh_latches`. -/
theorem run_loop_fresh : ∀ (fuel : Nat) (s s' : sim_pipe), fresh_latches s →
    (run_loop fuel s = run_result.returned s' ∨ run_loop fuel s = run_result.looping s') →
    fresh_latches s' := by
  intro fuel
  induction fuel with
  | zero =>
    intro s s' h0 h
    rcases h with h | h
    · simp [run_loop] at h
    · simp only [run_loop, run_result.looping.injEq] at h
      subst h
      exact h0
  | succ fuel ih =>
    intro s s' h0 h
    rw [run_loop_succ] at h
    cases hd : dispatch s with
    | none => simp [hd] at h
    | some s1 =>
      simp only [hd] at h
      have h1 := dispatch_fresh s s1 h0 hd
      by_cases hr : s1.runAlways = true
      · simp only [hr, if_true] at h
        exact ih s1 s' h1 h
      · simp only [hr] at h
        rcases h with h | h
        · simp only [Bool.false_eq_true, if_false, run_result.returned.injEq] at h
          subst h
          exact h1
        · simp at h

/-- In every reachable state the cycle counter is a 64-bit value, and while it is 1 or 2 the
ID/EX and EX/MEM latches are as `reset` left them. -/
theorem reachable_fresh (s : sim_pipe) (h : reachable s) : fresh_latches s := by
  induction h with
  | reset s => exact ⟨by show (1 : Nat) < 2 ^ 64; norm_num, fun _ => ⟨rfl, rfl⟩⟩
  | load_program lines base _ hl ih =>
    unfold load_program at hl
    dsimp only at hl
    obtain ⟨⟨im1, lb1⟩, _, hl⟩ := Option.bind_eq_some.mp hl
    obtain ⟨⟨im2, lb2⟩, _, hl⟩ := Option.map_eq_some'.mp hl
    subst hl
    exact ih
  | set_gp_register reg value _ ih =>
    unfold fresh_latches
    rw [(set_gp_register_clkIn _ reg value).1, (set_gp_register_clkIn _ reg value).2]
    exact ih
  | write_memory address value _ hw ih =>
    unfold write_memory at hw
    split_ifs at hw
    simp only [Option.some.injEq] at hw
    subst hw
    exact ih
  | run fuel cycles _ hr ih =>
    unfold run at hr
    refine run_loop_fresh fuel _ _ ?_ hr
    split_ifs
    · exact ih
    · exact ih

/-- A call of `execute` that is not the stage called by the dispatch, returning with no memory
stall, has run its body: ID/EX and EX/MEM hold the same contents. -/
theorem execute_entry (m h : sim_pipe) (hc : m.clkIn ≠ 3) (he : execute m = some h)
    (hm : h.memoryStall = false) : h.pipe_reg.get SECOND = h.pipe_reg.get THIRD := by
  unfold execute at he
  by_cases h1 : m.memoryStall = true
  · rw [if_pos h1] at he
    simp only [Option.some.injEq] at he
    subst he
    rw [hm] at h1
    exact Bool.noConfusion h1
  · rw [if_neg h1] at he
    dsimp only at he
    rw [if_neg (by rw [(executeBody_clkIn m).1]; exact hc)] at he
    simp only [Option.some.injEq] at he
    subst he
    exact (executeBody_clkIn m).2.2

/-- When the test on the EX/MEM latch is the one that records the stall, the chain of tests
records a stall of 1. -/
theorem exmemRule_fires (t : sim_pipe) (h : exmemRule t) :
    hazardRules t = { t with stalls := 1, currentClk := u32 t.clkIn } := by
  obtain ⟨h1, h2, h3⟩ := h
  unfold hazardRules
  dsimp only
  rw [if_neg h1, if_neg h2, if_pos h3]

/-- When the test on the EX/MEM latch is not the one that records the stall, the chain of
tests for an IF/ID instruction other than `SW` is the chain without that test. -/
theorem exmemRule_silent (t : sim_pipe) (h1 : t.op FIRST ≠ SW) (h : ¬ exmemRule t) :
    hazardRules t =
      if t.specialP_Reg.get ID A = (t.pipe_reg.get SECOND).pipe_IR.dest ∨
          t.specialP_Reg.get ID B = (t.pipe_reg.get SECOND).pipe_IR.dest then
        if t.op SECOND = ADD ∨ t.op SECOND = ADDI ∨ t.op SECOND = SUB ∨ t.op SECOND = SUBI ∨
            t.op SECOND = XOR ∨ t.op SECOND = LW then
          { t with stalls := 2, currentClk := u32 t.clkIn }
        else t
      else if (t.op FORTH ≠ SW ∧ t.op FORTH ≠ BNEZ ∧ t.op FIRST ≠ BNEZ ∧ t.op FORTH ≠ NOP ∧
          t.op FORTH ≠ BLTZ) ∧
          (t.specialP_Reg.get ID A = (t.pipe_reg.get FORTH).pipe_IR.dest ∨
            t.specialP_Reg.get ID B = (t.pipe_reg.get FORTH).pipe_IR.dest) then
        { t with stalls := 1, currentClk := u32 t.clkIn }
      else if isCondBranch (t.op FIRST) then
        { t with stalls := 2, currentClk := u32 t.clkIn, branchStall := true }
      else t := by
  unfold hazardRules
  dsimp only
  rw [if_neg h1]
  by_cases h2 : t.specialP_Reg.get ID A = (t.pipe_reg.get SECOND).pipe_IR.dest ∨
      t.specialP_Reg.get ID B = (t.pipe_reg.get SECOND).pipe_IR.dest
  · rw [if_pos h2, if_pos h2]
  · rw [if_neg h2, if_neg h2, if_neg (fun h3 => h ⟨h1, h2, h3⟩)]

/-- C37.  Let `s` be a state reachable from `reset` through `load_program`,
`set_gp_register`, `write_memory` and `run`, and let the pass of the dispatch from `s` enter
`decode`, and with it the hazard handler, in state `h` with no memory stall.  Then in `h` the
ID/EX latch and the EX/MEM latch hold identical contents, so that the test of hazard
detection on the EX/MEM latch, which records a stall of 1 when it is reached and succeeds, is
never the test that records the stall: for an IF/ID instruction other than `SW` the chain of
tests is the test on ID/EX, the test on MEM/WB and the branch test.  The state `h` is the
state in which the handler is entered: the pass from `s` is `decode` from `h`, followed, when
the cycle counter is not 2, by `fetch` and the end of the pass. -/
theorem c37_handler_entry_latches (s h : sim_pipe) (hr : reachable s)
    (he : decodeEntry s = some h) (hm : h.memoryStall = false) :
    h.pipe_reg.get SECOND = h.pipe_reg.get THIRD ∧
    ¬ exmemRule (hazardOperands h) ∧
    (∀ t : sim_pipe, exmemRule t →
      hazardRules t = { t with stalls := 1, currentClk := u32 t.clkIn }) ∧
    (h.op FIRST ≠ SW → ∀ t : sim_pipe, t = hazardOperands h →
      hazardRules t =
        if t.specialP_Reg.get ID A = (t.pipe_reg.get SECOND).pipe_IR.dest ∨
            t.specialP_Reg.get ID B = (t.pipe_reg.get SECOND).pipe_IR.dest then
          if t.op SECOND = ADD ∨ t.op SECOND = ADDI ∨ t.op SECOND = SUB ∨ t.op SECOND = SUBI ∨
              t.op SECOND = XOR ∨ t.op SECOND = LW then
            { t with stalls := 2, currentClk := u32 t.clkIn }
          else t
        else if (t.op FORTH ≠ SW ∧ t.op FORTH ≠ BNEZ ∧ t.op FIRST ≠ BNEZ ∧ t.op FORTH ≠ NOP ∧
            t.op FORTH ≠ BLTZ) ∧
            (t.specialP_Reg.get ID A = (t.pipe_reg.get FORTH).pipe_IR.dest ∨
              t.specialP_Reg.get ID B = (t.pipe_reg.get FORTH).pipe_IR.dest) then
          { t with stalls := 1, currentClk := u32 t.clkIn }
        else if isCondBranch (t.op FIRST) then
          { t with stalls := 2, currentClk := u32 t.clkIn, branchStall := true }
        else t) ∧
    dispatch s =
      (if s.clkIn = ID + 1 then decode h
      else if s.clkIn ≥ WB + 1 then
        ((decode h).bind fetch).map fun s =>
          if s.specialP_Reg.get WB IR = EOP.toNat ∧ s.noBranches = true then
            { s with runAlways := false }
          else { s with clkIn := u64 (s.clkIn + 1) }
      else ((decode h).bind fetch).map fun s => { s with clkIn := u64 (s.clkIn + 1) }) := by
  have key : h.pipe_reg.get SECOND = h.pipe_reg.get THIRD := by
    have he' := he
    unfold decodeEntry at he'
    by_cases h2 : s.clkIn = ID + 1
    · rw [if_pos h2] at he'
      simp only [Option.some.injEq] at he'
      subst he'
      obtain ⟨l2, l3⟩ := (reachable_fresh s hr).2 (Or.inr h2)
      show s.pipe_reg.SECOND = s.pipe_reg.THIRD
      rw [l2, l3]
    · rw [if_neg h2] at he'
      by_cases h3 : s.clkIn = EXE + 1
      · rw [if_pos h3] at he'
        by_cases c : s.memoryStall = true
        · rw [if_pos c] at he'
          cases he'
        · rw [if_neg c] at he'
          simp only [Option.some.injEq] at he'
          subst he'
          exact (executeBody_clkIn s).2.2
      · rw [if_neg h3] at he'
        by_cases h4 : s.clkIn = MEM + 1
        · rw [if_pos h4] at he'
          by_cases c : (memoryWait s).memoryStall = true
          · rw [if_pos c] at he'
            cases he'
          · rw [if_neg c] at he'
            obtain ⟨m, hm1, hm2⟩ := Option.bind_eq_some.mp he'
            have mc : m.clkIn = 4 := by
              rw [(memoryAccess_clkIn _ _ hm1).1, memoryWait_clkIn]
              exact h4
            exact execute_entry m h (by rw [mc]; decide) hm2 hm
        · rw [if_neg h4] at he'
          by_cases h5 : s.clkIn ≥ WB + 1
          · rw [if_pos h5] at he'
            unfold beforeDecode at he'
            obtain ⟨m, hm1, hm2⟩ := Option.bind_eq_some.mp he'
            have h5' : s.clkIn ≥ 4 + 1 := h5
            have mc : m.clkIn = s.clkIn := by
              rcases memory_clock _ _ hm1 with x | ⟨x, _⟩
              · rw [x, writeBackCommit_clkIn]
              · rw [writeBackCommit_clkIn] at x
                omega
            exact execute_entry m h (by rw [mc]; omega) hm2 hm
          · rw [if_neg h5] at he'
            cases he'
  obtain ⟨sp, ho⟩ := hazardOperands_shape h
  have hp : (hazardOperands h).pipe_reg = h.pipe_reg := by rw [ho]
  have hop : ∀ k, (hazardOperands h).op k = h.op k := by
    intro k
    unfold sim_pipe.op
    rw [hp]
  have hn : ¬ exmemRule (hazardOperands h) := by
    rintro ⟨_, h2, _, h4⟩
    rw [hp] at h2 h4
    rw [key] at h2
    exact h2 h4
  refine ⟨key, hn, exmemRule_fires, ?_, dispatch_decodeEntry s h he⟩
  intro hsw t ht
  subst ht
  exact exmemRule_silent (hazardOperands h) (by rw [hop]; exact hsw) hn

/-- Witness of C37: the state of scenario S1 after three passes of `run(0)`.  The fourth pass
enters the hazard handler with `ADD R3 R1 R2` in IF/ID, `ADDI R2 R0 7` in both ID/EX and
EX/MEM and `ADDI R1 R0 5` in MEM/WB; the handler records the stall of 2 of the test on
ID/EX. -/
theorem c37_handler_entry_latches_witness :
    reachable (state_after 0 program_S1 3) ∧
    ∃ h, decodeEntry (state_after 0 program_S1 3) = some h ∧ h.memoryStall = false ∧
      h.op FIRST = ADD ∧ h.op SECOND = ADDI ∧ h.op FORTH = ADDI ∧
      (h.pipe_reg.get SECOND).pipe_IR.dest = 2 ∧ (h.pipe_reg.get FORTH).pipe_IR.dest = 1 ∧
      (hazardHandler h).stalls = 2 ∧
      h.pipe_reg.get SECOND = h.pipe_reg.get THIRD ∧ ¬ exmemRule (hazardOperands h) :=
  have hr : reachable (state_after 0 program_S1 3) :=
    reachable.run 3 0
      (reachable.load_program program_S1 0
        (reachable.set_gp_register 0 0 (reachable.reset (sim_pipe.new 16 0)))
        (rfl : (((sim_pipe.new 16 0).reset).set_gp_register 0 0).load_program program_S1 0 =
          boot 16 0 program_S1))
      (Or.inr rfl)
  have hc := c37_handler_entry_latches (state_after 0 program_S1 3)
    ((decodeEntry (state_after 0 program_S1 3)).getD (sim_pipe.new 16 0)) hr rfl rfl
  ⟨hr, _, rfl, rfl, rfl, rfl, rfl, rfl, rfl, rfl, hc.1, hc.2.1⟩

/-! ## Assignments to latches and stage registers on `core` -/

/-- Writing a latch on `core`. -/
theorem setPipe_core (s : sim_pipe) (k : Nat) (r : pipeline_Registers) :
    (s.setPipe k r).core = { s.core with pipe := s.core.pipe.set k r } := rfl

/-- Writing a stage register other than IR and ALU_OUTPUT changes no member of `core`. -/
theorem setSP_core_other (s : sim_pipe) (a b v : Nat) (h1 : b ≠ IR) (h2 : b ≠ ALU_OUTPUT) :
    (s.setSP a b v).core = s.core := by
  have h : ∀ st reg, (reg = IR ∨ reg = ALU_OUTPUT) →
      (s.setSP a b v).specialP_Reg.get st reg = s.specialP_Reg.get st reg := by
    intro st reg hr
    rw [setSP_specialP_Reg]
    refine sp_table_get_set _ _ _ _ _ _ (fun x => ?_)
    rcases hr with e | e
    · exact h1 (x.2.trans e)
    · exact h2 (x.2.trans e)
  unfold sim_pipe.core
  rw [h ID IR (Or.inl rfl), h EXE IR (Or.inl rfl), h MEM IR (Or.inl rfl), h WB IR (Or.inl rfl),
    h MEM ALU_OUTPUT (Or.inr rfl), h WB ALU_OUTPUT (Or.inr rfl)]
  rfl

/-- Writing the IR register of IF changes no member of `core`. -/
theorem setSP_core_IF_IR (s : sim_pipe) (v : Nat) : (s.setSP IF IR v).core = s.core := rfl

/-- Writing the IR register of ID on `core`. -/
theorem setSP_core_ID_IR (s : sim_pipe) (v : Nat) :
    (s.setSP ID IR v).core = { s.core with idIR := v } := rfl

/-- Writing the IR register of EXE on `core`. -/
theorem setSP_core_EXE_IR (s : sim_pipe) (v : Nat) :
    (s.setSP EXE IR v).core = { s.core with exeIR := v } := rfl

/-- Writing the IR register of MEM on `core`. -/
theorem setSP_core_MEM_IR (s : sim_pipe) (v : Nat) :
    (s.setSP MEM IR v).core = { s.core with memIR := v } := rfl

/-- Writing the IR register of WB on `core`. -/
theorem setSP_core_WB_IR (s : sim_pipe) (v : Nat) :
    (s.setSP WB IR v).core = { s.core with wbIR := v } := rfl

/-- Writing the ALU_OUTPUT register of MEM on `core`. -/
theorem setSP_core_MEM_OUT (s : sim_pipe) (v : Nat) :
    (s.setSP MEM ALU_OUTPUT v).core = { s.core with memOut := v } := rfl

/-- Writing the ALU_OUTPUT register of WB on `core`. -/
theorem setSP_core_WB_OUT (s : sim_pipe) (v : Nat) :
    (s.setSP WB ALU_OUTPUT v).core = { s.core with wbOut := v } := rfl

/-! ## The blocks of the stages on the record `core` -/

/-- The register update of `writeBack` on `core`. -/
theorem writeBackCommit_core (s : sim_pipe)
    (h : (if s.core.op FORTH = NOP then NOP.toNat else s.core.wbIR) ≠ LW.toNat) :
    (writeBackCommit s).core = s.core.commit := by
  unfold writeBackCommit
  dsimp only
  by_cases hn : s.op FORTH = NOP
  · have hn' : s.core.op FORTH = NOP := hn
    rw [if_pos hn]
    have e : (s.setSP WB IR NOP.toNat).specialP_Reg.get WB IR = NOP.toNat := rfl
    rw [e, if_neg (by decide), if_neg (by decide)]
    unfold core.commit
    rw [if_pos hn', if_neg (fun x => absurd x.1 (by decide))]
    rfl
  · have hn' : ¬ s.core.op FORTH = NOP := hn
    rw [if_neg hn'] at h
    rw [if_neg hn]
    unfold core.commit
    rw [if_neg hn']
    by_cases ha : s.specialP_Reg.get WB IR = ADD.toNat ∨ s.specialP_Reg.get WB IR = ADDI.toNat ∨
        s.specialP_Reg.get WB IR = SUB.toNat ∨ s.specialP_Reg.get WB IR = SUBI.toNat ∨
        s.specialP_Reg.get WB IR = XOR.toNat
    · rw [if_pos ha]
      unfold set_gp_register
      by_cases hd : (s.pipe_reg.get FORTH).pipe_IR.dest < NUM_GP_REGISTERS
      · rw [if_pos hd, if_pos ⟨ha, hd⟩]
        rfl
      · rw [if_neg hd, if_neg (fun x => hd x.2)]
    · have h' : ¬ s.specialP_Reg.get WB IR = LW.toNat := h
      rw [if_neg ha, if_neg h', if_neg (fun x => ha x.1)]

/-- The latency bookkeeping of `memory` on `core`: with no memory stall under way and neither
`LW` nor `SW` in EX/MEM it changes nothing. -/
theorem memoryWait_core (s : sim_pipe) (hm : s.memoryStall = false) (h0 : s.stallMem = 0)
    (hop : ¬ (s.op THIRD = LW ∨ s.op THIRD = SW)) :
    (memoryWait s).core = s.core ∧ (memoryWait s).memoryStall = false := by
  unfold memoryWait
  dsimp only
  by_cases hl : s.data_memory_latency = 0
  · rw [if_pos hl]
    have e1 : ¬ ({ s with memoryStall := false } : sim_pipe).stallMem <
        ({ s with memoryStall := false } : sim_pipe).data_memory_latency := by
      show ¬ s.stallMem < s.data_memory_latency
      omega
    have e2 : ¬ (({ s with memoryStall := false } : sim_pipe).data_memory_latency ≠ 0 ∧
        ({ s with memoryStall := false } : sim_pipe).stallMem =
          ({ s with memoryStall := false } : sim_pipe).data_memory_latency) :=
      fun x => x.1 hl
    rw [if_neg e1, if_neg e2]
    refine ⟨?_, rfl⟩
    unfold sim_pipe.core
    rw [hm]
  · rw [if_neg hl, if_pos (by omega), if_neg hop]
    exact ⟨rfl, hm⟩

/-- The data-memory access of `memory` on `core`, when the IR register of MEM holds neither
`LW` nor `SW`: the access returns. -/
theorem memoryAccess_core (s : sim_pipe)
    (h : (if s.core.op THIRD = NOP then NOP.toNat else s.core.memIR) ≠ LW.toNat ∧
      (if s.core.op THIRD = NOP then NOP.toNat else s.core.memIR) ≠ SW.toNat) :
    ∃ a, memoryAccess s = some a ∧ a.core = s.core.access ∧
      a.memoryStall = s.memoryStall := by
  unfold memoryAccess
  dsimp only
  by_cases hn : s.op THIRD = NOP
  · have hn' : s.core.op THIRD = NOP := hn
    rw [if_pos hn]
    have e : (s.setSP MEM IR NOP.toNat).specialP_Reg.get MEM IR = NOP.toNat := rfl
    rw [e, if_neg (by decide), if_neg (by decide)]
    refine ⟨_, rfl, ?_, rfl⟩
    unfold core.access
    rw [if_pos hn']
    rfl
  · have hn' : ¬ s.core.op THIRD = NOP := hn
    rw [if_neg hn'] at h
    have h1 : ¬ s.specialP_Reg.get MEM IR = LW.toNat := h.1
    have h2 : ¬ s.specialP_Reg.get MEM IR = SW.toNat := h.2
    rw [if_neg hn, if_neg h1, if_neg h2]
    refine ⟨_, rfl, ?_, rfl⟩
    unfold core.access
    rw [if_neg hn']
    rfl

/-- The call of `alu` in `execute` on `core`. -/
theorem executeAlu_core (s : sim_pipe) :
    (executeAlu s).core =
      { s.core with
        pipe := s.core.pipe.set SECOND
          { s.core.pipe.get SECOND with pipe_ALU_OUTPUT := s.core.aluOut } } :=
  rfl

/-- The switch of `execute` on `core`, when ID/EX holds no conditional branch. -/
theorem executeBranch_core (s : sim_pipe) (hb : isCondBranch (s.op SECOND) = false) :
    (executeBranch s).core = { s.core with noBranches := true } := by
  unfold executeBranch
  unfold sim_pipe.op at hb
  generalize (s.pipe_reg.get SECOND).pipe_IR = ir at hb
  rcases ir with ⟨o, s1, s2, d, im, l⟩
  dsimp only at hb ⊢
  cases o <;> first | rfl | (exfalso; revert hb; decide)

/-- The end of `execute` on `core`. -/
theorem executeLatch_core (s : sim_pipe) :
    (executeLatch s).core =
      { s.core with
        memIR := if s.core.op SECOND = NOP then NOP.toNat else s.core.exeIR
        memOut :=
          if s.core.op SECOND = NOP then 0 else (s.core.pipe.get SECOND).pipe_ALU_OUTPUT
        pipe := s.core.pipe.set THIRD (s.core.pipe.get SECOND) } := by
  unfold executeLatch
  dsimp only
  by_cases hn : s.op SECOND = NOP
  · have hn' : s.core.op SECOND = NOP := hn
    rw [if_pos hn, if_pos hn', if_pos hn']
    rfl
  · have hn' : ¬ s.core.op SECOND = NOP := hn
    rw [if_neg hn, if_neg hn', if_neg hn']
    rfl

/-- The body of `execute` on `core`, when ID/EX holds no conditional branch. -/
theorem executeBody_core (s : sim_pipe) (hb : isCondBranch (s.op SECOND) = false) :
    (executeLatch (executeBranch (executeAlu s))).core = s.core.exec := by
  have hb' : isCondBranch ((executeAlu s).op SECOND) = false := hb
  rw [executeLatch_core, executeBranch_core _ hb', executeAlu_core]
  rfl

/-- The head of hazard detection on `core`: it changes no member of `core`, and when the IR
register of ID does not hold `SW` it leaves the source indices of IF/ID in A and B of ID. -/
theorem hazardOperands_core (s : sim_pipe) (hid : s.specialP_Reg.get ID IR ≠ SW.toNat) :
    (hazardOperands s).core = s.core ∧
    (hazardOperands s).specialP_Reg.get ID A = (s.pipe_reg.get FIRST).pipe_IR.src1 ∧
    (hazardOperands s).specialP_Reg.get ID B = (s.pipe_reg.get FIRST).pipe_IR.src2 := by
  unfold hazardOperands
  rw [if_neg hid]
  exact ⟨rfl, rfl, rfl⟩

/-- The chain of tests of hazard detection on `core`, when IF/ID holds neither `SW` nor a
conditional branch and ID/EX and EX/MEM hold the same contents. -/
theorem hazardRules_core (s : sim_pipe) (hid : s.specialP_Reg.get ID IR ≠ SW.toNat)
    (hsw : s.op FIRST ≠ SW) (hcb : isCondBranch (s.op FIRST) = false)
    (h23 : s.pipe_reg.get SECOND = s.pipe_reg.get THIRD) :
    (hazardRules (hazardOperands s)).core = s.core.rules := by
  obtain ⟨hc, ha, hb⟩ := hazardOperands_core s hid
  obtain ⟨sp, ho⟩ := hazardOperands_shape s
  have hp : (hazardOperands s).pipe_reg = s.pipe_reg := by rw [ho]
  have hck : (hazardOperands s).clkIn = s.clkIn := by rw [ho]
  have hop : ∀ k, (hazardOperands s).op k = s.op k := by
    intro k
    unfold sim_pipe.op
    rw [hp]
  have hn : ¬ exmemRule (hazardOperands s) := by
    rintro ⟨_, h2, _, h4⟩
    rw [hp] at h2 h4
    rw [h23] at h2
    exact h2 h4
  have key : ∀ t : sim_pipe, t.op FIRST ≠ SW → ¬ exmemRule t →
      isCondBranch (t.op FIRST) = false →
      (hazardRules t).core =
        if t.specialP_Reg.get ID A = (t.pipe_reg.get SECOND).pipe_IR.dest ∨
            t.specialP_Reg.get ID B = (t.pipe_reg.get SECOND).pipe_IR.dest then
          if t.op SECOND = ADD ∨ t.op SECOND = ADDI ∨ t.op SECOND = SUB ∨ t.op SECOND = SUBI ∨
              t.op SECOND = XOR ∨ t.op SECOND = LW then
            { t.core with stalls := 2, currentClk := u32 t.clkIn }
          else t.core
        else if (t.op FORTH ≠ SW ∧ t.op FORTH ≠ BNEZ ∧ t.op FIRST ≠ BNEZ ∧ t.op FORTH ≠ NOP ∧
            t.op FORTH ≠ BLTZ) ∧
            (t.specialP_Reg.get ID A = (t.pipe_reg.get FORTH).pipe_IR.dest ∨
              t.specialP_Reg.get ID B = (t.pipe_reg.get FORTH).pipe_IR.dest) then
          { t.core with stalls := 1, currentClk := u32 t.clkIn }
        else t.core := by
    intro t h1 h2 h3
    rw [exmemRule_silent t h1 h2, h3]
    simp only [Bool.false_eq_true, if_false]
    split_ifs <;> rfl
  rw [key _ (by rw [hop]; exact hsw) hn (by rw [hop]; exact hcb), ha, hb, hp, hop, hop, hop, hc,
    hck]
  rfl

/-- Hazard detection on `core`, under the conditions of `hazardRules_core` and with the
completion flag of the memory stall clear. -/
theorem hazardDetect_core (s : sim_pipe) (hid : s.specialP_Reg.get ID IR ≠ SW.toNat)
    (hsw : s.op FIRST ≠ SW) (hcb : isCondBranch (s.op FIRST) = false)
    (h23 : s.pipe_reg.get SECOND = s.pipe_reg.get THIRD) (hc : s.memStallCompleted = false) :
    (hazardDetect s).core = s.core.rules := by
  have hr := hazardRules_core s hid hsw hcb h23
  have hm : (hazardRules (hazardOperands s)).memStallCompleted = false := by
    have e : (hazardRules (hazardOperands s)).core.memStallCompleted = false := by
      rw [hr]
      unfold core.rules
      split_ifs <;> exact hc
    exact e
  rw [hazardDetect_eq]
  split_ifs
  · exact hr
  · rw [← hr]
    generalize hazardRules (hazardOperands s) = t at hm
    unfold sim_pipe.core
    rw [hm]

/-- The release block of the hazard handler on `core`, when no memory stall has completed, no
branch stall is pending and IF/ID holds no conditional branch. -/
theorem hazardRelease_core (s : sim_pipe) (hc : s.memStallCompleted = false)
    (hb : s.branchStall = false) (hcb : isCondBranch (s.op FIRST) = false) :
    (hazardRelease s).core = s.core.release := by
  have hmS : (if s.memStallCompleted = true ∧ s.branchStall = false then 4 else 0) = 0 :=
    if_neg (fun x => by rw [hc] at x; exact Bool.noConfusion x.1)
  unfold hazardRelease core.release
  dsimp only
  rw [hmS]
  by_cases h : s.stalls ≠ 0 ∧ s.clkIn = u32 (s.currentClk + s.stalls + 0)
  · have h' : s.core.stalls ≠ 0 ∧ s.core.clkIn = u32 (s.core.currentClk + s.core.stalls + 0) := h
    rw [if_pos h, if_pos h']
    unfold sim_pipe.op at hcb ⊢
    simp only [hb, hcb, Bool.false_eq_true, if_false]
    unfold sim_pipe.core
    simp only [hb]
  · have h' : ¬ (s.core.stalls ≠ 0 ∧
        s.core.clkIn = u32 (s.core.currentClk + s.core.stalls + 0)) := h
    rw [if_neg h, if_neg h']

/-- The hazard handler on `core`, entered with no memory stall, no completed memory stall and
no branch stall pending, when IF/ID holds neither a bubble, `SW` nor a conditional branch and
EX/MEM holds what ID/EX holds unless this is a bubble. -/
theorem hazardHandler_core (s : sim_pipe) (hm : s.memoryStall = false)
    (hc : s.memStallCompleted = false) (hb : s.branchStall = false)
    (hid : s.specialP_Reg.get ID IR ≠ SW.toNat) (hnop : s.op FIRST ≠ NOP)
    (hsw : s.op FIRST ≠ SW) (hcb : isCondBranch (s.op FIRST) = false)
    (h23 : s.op SECOND ≠ NOP → s.pipe_reg.get SECOND = s.pipe_reg.get THIRD) :
    (hazardHandler s).core = s.core.handler ∧ (hazardHandler s).memoryStall = false ∧
    (hazardHandler s).branchStall = false := by
  have hms : (hazardHandler s).memoryStall = false := by
    rw [(hazardHandler_frame s).2.2]
    exact hm
  have key : (hazardHandler s).core = s.core.handler := by
    rw [hazardHandler_eq, if_neg (by rw [hm]; exact Bool.noConfusion)]
    unfold core.handler
    by_cases h0 : s.stalls = 0 ∧ s.op SECOND ≠ NOP
    · have h0' : s.core.stalls = 0 ∧ s.core.op SECOND ≠ NOP := h0
      have e23 := h23 h0.2
      have h3 : s.op THIRD ≠ NOP := by
        unfold sim_pipe.op
        rw [← e23]
        exact h0.2
      have hcond : s.stalls = 0 ∧ (decide (s.op FIRST = NOP) || decide (s.op SECOND = NOP) ||
          decide (s.op THIRD = NOP)) = false := by
        refine ⟨h0.1, ?_⟩
        simp only [hnop, h0.2, h3, decide_False, Bool.or_self]
      rw [if_pos hcond, if_pos h0']
      have hd := hazardDetect_core s hid hsw hcb e23 hc
      have hdm : (hazardDetect s).memStallCompleted = false := by
        have e : (hazardDetect s).core.memStallCompleted = false := by
          rw [hd]
          unfold core.rules
          split_ifs <;> exact hc
        exact e
      have hdb : (hazardDetect s).branchStall = false := by
        have e : (hazardDetect s).core.branchStall = false := by
          rw [hd]
          unfold core.rules
          split_ifs <;> exact hb
        exact e
      have hdc : isCondBranch ((hazardDetect s).op FIRST) = false := by
        have e : (hazardDetect s).core.pipe = s.core.pipe := by
          rw [hd]
          unfold core.rules
          split_ifs <;> rfl
        have e' : (hazardDetect s).pipe_reg = s.pipe_reg := e
        unfold sim_pipe.op
        rw [e']
        exact hcb
      rw [hazardRelease_core _ hdm hdb hdc, hd]
    · have h0' : ¬ (s.core.stalls = 0 ∧ s.core.op SECOND ≠ NOP) := h0
      have hcond : ¬ (s.stalls = 0 ∧ (decide (s.op FIRST = NOP) || decide (s.op SECOND = NOP) ||
          decide (s.op THIRD = NOP)) = false) := by
        rintro ⟨x1, x2⟩
        refine h0 ⟨x1, ?_⟩
        intro hs
        rw [hs] at x2
        simp at x2
      rw [if_neg hcond, if_neg h0']
      exact hazardRelease_core s hc hb hcb
  refine ⟨key, hms, ?_⟩
  have e : (hazardHandler s).core.branchStall = false := by
    rw [key]
    unfold core.handler core.release
    split_ifs <;> first | exact hb | (unfold core.rules; split_ifs <;> exact hb)
  exact e

/-- The register read of `decode` on `core`, when IF/ID holds no bubble. -/
theorem decodeRead_core (s : sim_pipe) (hnop : s.op FIRST ≠ NOP) :
    (decodeRead s).core =
      { s.core with
        pipe := s.core.pipe.set FIRST
          { s.core.pipe.get FIRST with
            pipe_IR :=
              { (s.core.pipe.get FIRST).pipe_IR with
                src1 := readReg s.core.regs (s.core.pipe.get FIRST).pipe_IR.src1
                src2 := readReg s.core.regs (s.core.pipe.get FIRST).pipe_IR.src2 } } } := by
  unfold decodeRead
  rw [if_pos hnop]
  rfl

/-- The end of the body of `decode` on `core`, when the IR register of ID does not hold
`SW`. -/
theorem decodeLatch_core (s : sim_pipe) (hid : s.specialP_Reg.get ID IR ≠ SW.toNat) :
    (decodeLatch s).core =
      { s.core with
        exeIR := s.core.idIR
        pipe := s.core.pipe.set SECOND (s.core.pipe.get FIRST) } := by
  have e1 := fun (t : sim_pipe) (v : Nat) => setSP_core_other t EXE NPC v (by decide) (by decide)
  have e2 := fun (t : sim_pipe) (v : Nat) => setSP_core_other t EXE IMM v (by decide) (by decide)
  have e3 := fun (t : sim_pipe) (v : Nat) => setSP_core_other t EXE A v (by decide) (by decide)
  have e4 := fun (t : sim_pipe) (v : Nat) => setSP_core_other t EXE B v (by decide) (by decide)
  unfold decodeLatch
  dsimp only
  split_ifs with c1 c2 c3
  · simp only [setPipe_core, setSP_core_EXE_IR, e1, e2, e3, e4, setSP_pipe_reg, setSP_specialP_Reg]
    rfl
  · simp only [setPipe_core, setSP_core_EXE_IR, e1, e2, e3, e4, setSP_pipe_reg, setSP_specialP_Reg]
    rfl
  · exact absurd c3 hid
  · simp only [setPipe_core, setSP_core_EXE_IR, e1, e2, e3, e4, setSP_pipe_reg, setSP_specialP_Reg]
    rfl

/-- The end of `decode` on `core`, when IF/ID holds no bubble, the IR register of ID does not
hold `SW` and no branch stall is pending. -/
theorem decodeTail_core (s : sim_pipe) (hb : s.branchStall = false) (hnop : s.op FIRST ≠ NOP)
    (hid : s.specialP_Reg.get ID IR ≠ SW.toNat) :
    (if s.stalls ≠ 0 ∧ s.branchStall = false then
        s.setPipe SECOND (s.pipe_reg.get SECOND).reset
      else decodeLatch (decodeRead s)).core = s.core.decodeTail := by
  unfold core.decodeTail
  by_cases h : s.stalls ≠ 0
  · have h' : s.core.stalls ≠ 0 := h
    rw [if_pos ⟨h, hb⟩, if_pos h']
    rfl
  · have h' : ¬ s.core.stalls ≠ 0 := h
    rw [if_neg (fun x => h x.1), if_neg h']
    have hid' : (decodeRead s).specialP_Reg.get ID IR ≠ SW.toNat := by
      rw [decodeRead_specialP_Reg]
      exact hid
    rw [decodeLatch_core _ hid', decodeRead_core _ hnop]
    rfl

/-- The body of `fetch` on `core`. -/
theorem fetchLoad_core (s : sim_pipe) (instr : instruction_t) :
    (fetchLoad s instr).core = s.core.load instr := by
  have e1 := fun (t : sim_pipe) (v : Nat) => setSP_core_other t IF PC v (by decide) (by decide)
  have e2 := fun (t : sim_pipe) (v : Nat) => setSP_core_other t ID NPC v (by decide) (by decide)
  have k : ∀ (t : sim_pipe) (a b : Nat),
      ({ t with inst_count := a, totalInstCount := b } : sim_pipe).core =
        { t.core with inst_count := a } := fun _ _ _ => rfl
  unfold fetchLoad core.load
  dsimp only
  by_cases h : instr.opcode.toNat ≠ EOP.toNat
  · rw [if_pos h]
    split_ifs with c1 c2 c3
    · rw [k, e2, e1, setSP_core_ID_IR, setSP_core_IF_IR, setPipe_core]
      rfl
    · rw [k, e1, e2, setSP_core_ID_IR, setSP_core_IF_IR, setPipe_core]
      rfl
    · rw [k, setSP_core_ID_IR, setSP_core_IF_IR, setPipe_core]
      rfl
    · exact absurd h c1
  · rw [if_neg h]
    split_ifs with c1 c2 c3
    · exact absurd c1 h
    · exact absurd c1 h
    · exact absurd c1 h
    · simp only [setSP_core_ID_IR, setSP_core_IF_IR, setPipe_core]
      rfl

/-- A `fetch` with a hazard stall pending, no memory stall and no branch stall returns the
state as it is. -/
theorem fetch_stalled_core (s : sim_pipe) (hm : s.memoryStall = false)
    (hb : s.branchStall = false) (hs : s.stalls ≠ 0) : fetch s = some s := by
  rw [fetch_eq, if_neg (by rw [hm]; exact Bool.noConfusion), if_pos hs,
    if_neg (by rw [hb]; exact Bool.noConfusion)]

/-- An unstalled `fetch` with no label pending on `core`: it loads the instruction at the
fetch index and, when called by the dispatch with the cycle counter at 1, increments the
counter. -/
theorem fetch_load_core (s : sim_pipe) (instr : instruction_t) (hm : s.memoryStall = false)
    (hs : s.stalls = 0) (hl : s.branchToLabel = "") (hi : s.inst_count < PROGRAM_SIZE)
    (hmem : s.instr_memory[s.inst_count]? = some instr) :
    ∃ t, fetch s = some t ∧
      t.core = if s.clkIn = 1 then (s.core.load instr).tick else s.core.load instr := by
  have hj : fetchJump s = some s := by
    unfold fetchJump
    rw [if_neg (by rw [hl]; exact fun x => x rfl)]
  rw [fetch_eq, if_neg (by rw [hm]; exact Bool.noConfusion), if_neg (by rw [hs]; exact fun x => x rfl),
    hj]
  show ∃ t, ((if s.inst_count < PROGRAM_SIZE then s.instr_memory[s.inst_count]? else none).bind
    fun instr => some (if (fetchLoad s instr).clkIn = IF + 1 then
      { fetchLoad s instr with clkIn := u64 ((fetchLoad s instr).clkIn + 1) }
      else fetchLoad s instr)) = some t ∧ _
  rw [if_pos hi, hmem]
  refine ⟨_, rfl, ?_⟩
  have hc : (fetchLoad s instr).clkIn = s.clkIn := (fetchLoad_clkIn s instr).1
  rw [hc]
  by_cases h1 : s.clkIn = 1
  · rw [if_pos (show s.clkIn = IF + 1 from h1), if_pos h1, ← fetchLoad_core, ← hc]
    rfl
  · rw [if_neg (show ¬ s.clkIn = IF + 1 from h1), if_neg h1, fetchLoad_core]

/-! ## Execution in program order -/

/-- The function `alu` returns a 32-bit value. -/
theorem alu_lt (opcode a b imm npc : Nat) : alu opcode a b imm npc < 2 ^ 32 := by
  unfold alu u32 sub32
  have h32 : (0 : Nat) < 2 ^ 32 := by norm_num
  split_ifs <;> first | exact Nat.mod_lt _ h32 | norm_num

/-- For an arithmetic opcode `alu` does not depend on `npc`. -/
theorem alu_npc (o : opcode_t) (a b imm npc : Nat) (h : is_alu o = true) :
    alu o.toNat a b imm npc = alu o.toNat a b imm 0 := by
  cases o <;> first | (exfalso; revert h; decide) | rfl

/-- Among the instructions of the program, `ins` is the content of the slot. -/
theorem ins_lt {imem : List instruction_t} {n : Nat} (hp : alu_program imem n) (k : Nat)
    (hk : k < n) :
    imem[k]? = some (ins imem n k) ∧ is_alu (ins imem n k).opcode = true ∧
    (ins imem n k).dest < 32 ∧ (ins imem n k).src1 < 32 ∧ (ins imem n k).src2 < 32 := by
  obtain ⟨i, h1, h2, h3, h4, h5⟩ := hp.body k hk
  have e : ins imem n k = i := by
    unfold ins
    rw [Nat.min_eq_left (Nat.le_of_lt hk), List.getD_eq_getElem?_getD, h1]
    rfl
  rw [e]
  exact ⟨h1, h2, h3, h4, h5⟩

/-- From the end of the program on, `ins` is the `EOP` of slot `n`. -/
theorem ins_ge {imem : List instruction_t} {n : Nat} (hp : alu_program imem n) (k : Nat)
    (hk : n ≤ k) :
    ins imem n k = ins imem n n ∧ imem[n]? = some (ins imem n n) ∧
    (ins imem n k).opcode = EOP ∧ (ins imem n k).src1 = (ins imem n k).dest := by
  obtain ⟨e, h1, h2, h3⟩ := hp.last
  have e0 : ins imem n k = e := by
    unfold ins
    rw [Nat.min_eq_right hk, List.getD_eq_getElem?_getD, h1]
    rfl
  have e1 : ins imem n n = e := by
    unfold ins
    rw [Nat.min_self, List.getD_eq_getElem?_getD, h1]
    rfl
  rw [e0, e1]
  exact ⟨rfl, h1, h2, h3⟩

/-- The slot at the fetch index behind instruction `f` holds instruction `f + 1`. -/
theorem ins_fetch {imem : List instruction_t} {n : Nat} (hp : alu_program imem n) (f : Nat) :
    min (f + 1) n < PROGRAM_SIZE ∧ imem[min (f + 1) n]? = some (ins imem n (f + 1)) := by
  have hs := hp.size
  refine ⟨lt_of_le_of_lt (Nat.min_le_right _ _) hs, ?_⟩
  by_cases h : f + 1 < n
  · rw [Nat.min_eq_left (Nat.le_of_lt h)]
    exact (ins_lt hp _ h).1
  · have h' : n ≤ f + 1 := Nat.le_of_not_lt h
    rw [Nat.min_eq_right h', (ins_ge hp _ h').1]
    exact (ins_ge hp _ h').2.1

/-- An opcode of the program, arithmetic or `EOP`, is none of the opcodes that the stages
treat apart. -/
theorem ins_opcode {imem : List instruction_t} {n : Nat} (hp : alu_program imem n) (k : Nat) :
    (ins imem n k).opcode ≠ NOP ∧ (ins imem n k).opcode ≠ SW ∧ (ins imem n k).opcode ≠ LW ∧
    isCondBranch (ins imem n k).opcode = false ∧ (ins imem n k).opcode.toNat ≠ SW.toNat ∧
    (ins imem n k).opcode.toNat ≠ LW.toNat ∧ (ins imem n k).opcode ≠ BNEZ ∧
    (ins imem n k).opcode ≠ BLTZ := by
  by_cases h : k < n
  · have ha := (ins_lt hp k h).2.1
    revert ha
    cases (ins imem n k).opcode <;> decide
  · have he := (ins_ge hp k (Nat.le_of_not_lt h)).2.2.1
    rw [he]
    decide

/-- The register files in program order hold 32-bit values when the first one does. -/
theorem seqRegs_lt (imem : List instruction_t) (n : Nat) (R0 : Nat → Nat)
    (h0 : ∀ x, R0 x < 2 ^ 32) : ∀ k x, seqRegs imem n R0 k x < 2 ^ 32 := by
  intro k
  induction k with
  | zero => exact h0
  | succ k ih =>
    intro x
    rw [seqRegs]
    split_ifs
    · unfold seqStep upd
      split_ifs
      · exact alu_lt _ _ _ _ _
      · exact ih x
    · exact ih x

/-- An instruction of the program changes only its destination register. -/
theorem seqRegs_succ (imem : List instruction_t) (n : Nat) (R0 : Nat → Nat) (k : Nat)
    (hk : k < n) :
    seqRegs imem n R0 (k + 1) =
      upd (seqRegs imem n R0 k) (ins imem n k).dest (res imem n R0 k) := by
  rw [seqRegs, if_pos hk]
  rfl

/-- From the end of the program on the register file does not change. -/
theorem seqRegs_ge (imem : List instruction_t) (n : Nat) (R0 : Nat → Nat) :
    ∀ k, n ≤ k → seqRegs imem n R0 k = seqRegs imem n R0 n := by
  intro k hk
  induction k with
  | zero =>
    have : n = 0 := Nat.le_zero.mp hk
    rw [this]
  | succ k ih =>
    by_cases h : n ≤ k
    · rw [seqRegs, if_neg (by omega)]
      exact ih h
    · have : n = k + 1 := by omega
      rw [this]

/-- Between two points of the program a register keeps its value when no instruction in
between writes it. -/
theorem seqRegs_keep (imem : List instruction_t) (n : Nat) (R0 : Nat → Nat) (x c : Nat) :
    ∀ d, (∀ j, c ≤ j → j < c + d → j < n → (ins imem n j).dest ≠ x) →
      seqRegs imem n R0 (c + d) x = seqRegs imem n R0 c x := by
  intro d
  induction d with
  | zero => intro _; rfl
  | succ d ih =>
    intro h
    have e : c + (d + 1) = (c + d) + 1 := rfl
    rw [e, seqRegs]
    have ih' := ih (fun j h1 h2 h3 => h j h1 (by omega) h3)
    split_ifs with hlt
    · unfold seqStep upd
      rw [if_neg (fun hx => h (c + d) (by omega) (by omega) hlt hx.symm)]
      exact ih'
    · exact ih'

/-- Reading a register index below 32 in a register file of 32-bit values gives the value. -/
theorem readReg_eq (R : Nat → Nat) (x : Nat) (hx : x < 32) (hR : R x < 2 ^ 32) :
    readReg R x = R x := by
  unfold readReg
  rw [if_pos (show x < NUM_GP_REGISTERS from hx), ofInt32_toInt32]
  exact Nat.mod_eq_of_lt hR

/-- The source registers of instruction `f`, read in the register file reached after `c`
instructions, give the result in program order when none of the instructions from `c` to
`f` writes them. -/
theorem reads_ok_of_indep {imem : List instruction_t} {n : Nat} (hp : alu_program imem n)
    (R0 : Nat → Nat) (h0 : ∀ x, R0 x < 2 ^ 32) (f c d : Nat) (hf : f = c + d)
    (h : ∀ j, c ≤ j → j < f → (ins imem n j).dest ≠ (ins imem n f).src1 ∧
      (ins imem n j).dest ≠ (ins imem n f).src2) :
    reads_ok imem n R0 f (seqRegs imem n R0 c) := by
  intro hlt
  obtain ⟨_, _, _, h1, h2⟩ := ins_lt hp f hlt
  have hb := seqRegs_lt imem n R0 h0
  rw [readReg_eq _ _ h1 (hb _ _), readReg_eq _ _ h2 (hb _ _)]
  unfold res
  have e1 := seqRegs_keep imem n R0 (ins imem n f).src1 c d
    (fun j a b _ => (h j a (by omega)).1)
  have e2 := seqRegs_keep imem n R0 (ins imem n f).src2 c d
    (fun j a b _ => (h j a (by omega)).2)
  rw [← hf] at e1 e2
  rw [e1, e2]

/-! ## The stages on the latch contents -/

/-- The opcode value of an arithmetic opcode is one of the five that `writeBack` commits, and
is the value of neither `NOP`, `EOP`, `LW` nor `SW`. -/
theorem is_alu_toNat (o : opcode_t) (h : is_alu o = true) :
    (o.toNat = ADD.toNat ∨ o.toNat = ADDI.toNat ∨ o.toNat = SUB.toNat ∨ o.toNat = SUBI.toNat ∨
      o.toNat = XOR.toNat) ∧ o ≠ NOP ∧ o.toNat ≠ EOP.toNat ∧
    (o = ADD ∨ o = ADDI ∨ o = SUB ∨ o = SUBI ∨ o = XOR ∨ o = LW) := by
  cases o <;> first | (exfalso; revert h; decide) | decide

/-- The register update of `writeBack` commits the instruction in MEM/WB: the register file
after `c` instructions becomes the one after the next. -/
theorem commit_regs {imem : List instruction_t} {n : Nat} (hp : alu_program imem n)
    (R0 : Nat → Nat) (v : core) (c c1 : Nat) (W : Option Nat)
    (hr : v.regs = seqRegs imem n R0 c)
    (hW : holds imem n R0 W (v.pipe.get FORTH) v.wbIR v.wbOut) (hn : nxt c W c1) :
    v.commit.regs = seqRegs imem n R0 c1 ∧
    (if v.op FORTH = NOP then NOP.toNat else v.wbIR) ≠ LW.toNat := by
  cases W with
  | none =>
    have hop : v.op FORTH = NOP := hW
    have hc : c1 = c := hn
    unfold core.commit
    dsimp only
    rw [if_pos hop, if_neg (fun x => absurd x.1 (by decide)), hc]
    exact ⟨hr, by decide⟩
  | some k =>
    obtain ⟨hk, hc⟩ := hn
    obtain ⟨h1, h2, h3, h4⟩ := hW
    subst hk
    subst hc
    have h1' : v.op FORTH = (ins imem n k).opcode := h1
    have hnop : ¬ v.op FORTH = NOP := by
      rw [h1']
      exact (ins_opcode hp k).1
    unfold core.commit
    dsimp only
    rw [if_neg hnop, h3]
    refine ⟨?_, (ins_opcode hp k).2.2.2.2.2.1⟩
    by_cases hlt : k < n
    · obtain ⟨_, ha, hd, _, _⟩ := ins_lt hp k hlt
      have hd' : (v.pipe.get FORTH).pipe_IR.dest < NUM_GP_REGISTERS := by
        rw [h2]
        exact hd
      rw [if_pos ⟨(is_alu_toNat _ ha).1, hd'⟩, seqRegs_succ imem n R0 k hlt, hr, h2, h4 hlt,
        ofInt32_toInt32]
      have hres : res imem n R0 k < 2 ^ 32 := alu_lt _ _ _ _ _
      unfold u32
      rw [Nat.mod_eq_of_lt hres]
    · have he := (ins_ge hp k (Nat.le_of_not_lt hlt)).2.2.1
      rw [he, if_neg (fun x => absurd x.1 (by decide)), seqRegs, if_neg hlt]
      exact hr

/-- The data-memory access moves the contents of EX/MEM, with its result, into MEM/WB. -/
theorem access_forth {imem : List instruction_t} {n : Nat} (hp : alu_program imem n)
    (R0 : Nat → Nat) (v : core) (T : Option Nat)
    (hT : holds imem n R0 T (v.pipe.get THIRD) v.memIR v.memOut) :
    holds imem n R0 T (v.access.pipe.get FORTH) v.access.wbIR v.access.wbOut ∧
    ((if v.op THIRD = NOP then NOP.toNat else v.memIR) ≠ LW.toNat ∧
      (if v.op THIRD = NOP then NOP.toNat else v.memIR) ≠ SW.toNat) ∧
    ¬ (v.op THIRD = LW ∨ v.op THIRD = SW) ∧
    (v.access.wbIR = EOP.toNat ↔ ∃ k, T = some k ∧ n ≤ k) := by
  cases T with
  | none =>
    have hop : v.op THIRD = NOP := hT
    refine ⟨hT, ?_, ?_, ?_⟩
    · rw [if_pos hop]
      exact ⟨by decide, by decide⟩
    · rw [hop]
      decide
    · have e : v.access.wbIR = NOP.toNat := by
        unfold core.access
        dsimp only
        rw [if_pos hop]
      rw [e]
      constructor
      · intro x
        exact absurd x (by decide)
      · rintro ⟨k, hk, _⟩
        cases hk
  | some k =>
    obtain ⟨h1, h2, h3, h4⟩ := hT
    have h1' : v.op THIRD = (ins imem n k).opcode := h1
    have hnop : ¬ v.op THIRD = NOP := by
      rw [h1']
      exact (ins_opcode hp k).1
    have e : v.access.wbIR = (ins imem n k).opcode.toNat := by
      unfold core.access
      dsimp only
      rw [if_neg hnop]
      exact h3
    refine ⟨⟨h1, h2, e, h4⟩, ?_, ?_, ?_⟩
    · rw [if_neg hnop, h3]
      exact ⟨(ins_opcode hp k).2.2.2.2.2.1, (ins_opcode hp k).2.2.2.2.1⟩
    · rw [h1']
      rintro (x | x)
      · exact (ins_opcode hp k).2.2.1 x
      · exact (ins_opcode hp k).2.1 x
    · rw [e]
      constructor
      · intro x
        refine ⟨k, rfl, ?_⟩
        by_contra hlt
        have hlt' : k < n := Nat.lt_of_not_le hlt
        exact (is_alu_toNat _ (ins_lt hp k hlt').2.1).2.2.1 x
      · rintro ⟨j, hj, hle⟩
        cases hj
        rw [(ins_ge hp k hle).2.2.1]

/-- The body of `execute` computes the result of the instruction in ID/EX and copies the latch
into EX/MEM. -/
theorem exec_third {imem : List instruction_t} {n : Nat} (hp : alu_program imem n)
    (R0 : Nat → Nat) (v : core) (S : Option Nat)
    (hS : holds imem n R0 S (v.pipe.get SECOND) v.exeIR v.aluOut) :
    holds imem n R0 S (v.exec.pipe.get SECOND) v.exec.exeIR v.exec.aluOut ∧
    holds imem n R0 S (v.exec.pipe.get THIRD) v.exec.memIR v.exec.memOut ∧
    v.exec.pipe.get SECOND = v.exec.pipe.get THIRD ∧ isCondBranch (v.op SECOND) = false := by
  cases S with
  | none =>
    have hop : v.op SECOND = NOP := hS
    refine ⟨hS, hS, rfl, ?_⟩
    rw [hop]
    rfl
  | some k =>
    obtain ⟨h1, h2, h3, h4⟩ := hS
    have h1' : v.op SECOND = (ins imem n k).opcode := h1
    have hnop : ¬ v.op SECOND = NOP := by
      rw [h1']
      exact (ins_opcode hp k).1
    have e1 : v.exec.memIR = v.exeIR := by
      unfold core.exec
      dsimp only
      rw [if_neg hnop]
    have e2 : v.exec.memOut = v.aluOut := by
      unfold core.exec
      dsimp only
      rw [if_neg hnop]
    refine ⟨⟨h1, h2, h3, h4⟩, ⟨h1, h2, ?_, ?_⟩, rfl, ?_⟩
    · rw [e1]
      exact h3
    · rw [e2]
      exact h4
    · rw [h1']
      exact (ins_opcode hp k).2.2.2.1

/-- The index behind a latch is determined by the index before it. -/
theorem nxt_unique {c a b : Nat} {k : Option Nat} (h1 : nxt c k a) (h2 : nxt c k b) : a = b := by
  cases k with
  | none => exact h1.trans h2.symm
  | some j => exact h1.2.trans h2.2.symm

/-- The index behind a latch is the index before it or the next one. -/
theorem nxt_le {c a : Nat} {k : Option Nat} (h : nxt c k a) : c ≤ a ∧ a ≤ c + 1 := by
  cases k with
  | none =>
    have e : a = c := h
    omega
  | some j =>
    have e : a = c + 1 := h.2
    omega

/-- The pipeline when `decode` is entered after the body of `execute` has run. -/
theorem mid_exec {imem : List instruction_t} {n : Nat} (hp : alu_program imem n)
    (R0 : Nat → Nat) (f c1 : Nat) (S Wn : Option Nat) (w : core)
    (hprog : w.imem = imem) (hregs : w.regs = seqRegs imem n R0 c1)
    (hfir : (w.pipe.get FIRST).pipe_IR = ins imem n f)
    (hfid : w.idIR = (ins imem n f).opcode.toNat) (hfix : w.inst_count = min (f + 1) n)
    (hsec : holds imem n R0 S (w.pipe.get SECOND) w.exeIR w.aluOut)
    (hfor : holds imem n R0 Wn (w.pipe.get FORTH) w.wbIR w.wbOut)
    (hchain : ∃ c2, nxt c1 Wn c2 ∧ nxt c2 S f)
    (hquiet : w.memoryStall = false ∧ w.stallMem = 0 ∧ w.memStallCompleted = false ∧
      w.branchStall = false ∧ w.label = "" ∧ w.runAlways = true)
    (hphase :
      (w.stalls = 0 ∧ w.clkIn ≤ 3 * f + 2 ∧ (S = none → Wn = none)) ∨
      (S = none ∧ f ≤ n ∧ w.stalls = 2 ∧ w.clkIn + 1 = w.currentClk + 2 ∧
        w.clkIn ≤ 3 * f + 3) ∨
      (S = none ∧ f ≤ n ∧ (w.stalls = 1 ∨ w.stalls = 2) ∧ w.clkIn = w.currentClk + w.stalls ∧
        w.clkIn ≤ 3 * f + 4 ∧ reads_ok imem n R0 f (seqRegs imem n R0 c1)))
    (hbound : c1 ≤ n + 1) :
    mid imem n R0 f c1 S Wn w.exec := by
  obtain ⟨e1, e2, e3, _⟩ := exec_third hp R0 w S hsec
  obtain ⟨q1, q2, q3, q4, q5, q6⟩ := hquiet
  exact
    { prog := hprog
      regs := hregs
      first_ir := hfir
      first_id := hfid
      first_ix := hfix
      second := e1
      third := e2
      forth := hfor
      mirror := fun _ => e3
      chain := hchain
      quiet := ⟨q1, q2, q3, q4, q5, rfl, q6⟩
      phase := hphase
      bound := hbound }

/-- The pipeline when `decode` is entered in a pass made by `writeBack`. -/
theorem mid_wb {imem : List instruction_t} {n : Nat} (hp : alu_program imem n)
    (R0 : Nat → Nat) (f c c1 : Nat) (S T W : Option Nat) (v : core)
    (hi : pinv imem n R0 f c S T W v) (hn : nxt c W c1) (hb : c1 ≤ n + 1) :
    mid imem n R0 f c1 S T v.commit.access.exec := by
  obtain ⟨q1, q2, q3, q4, q5, _, q7⟩ := hi.quiet
  refine mid_exec hp R0 f c1 S T v.commit.access hi.prog
    (commit_regs hp R0 v c c1 W hi.regs hi.forth hn).1 hi.first_ir hi.first_id hi.first_ix
    hi.second (access_forth hp R0 v.commit T hi.third).1 ?_ ⟨q1, q2, q3, q4, q5, q7⟩ ?_ hb
  · obtain ⟨a, b, h1, h2, h3⟩ := hi.chain
    rw [nxt_unique hn h1]
    exact ⟨b, h2, h3⟩
  · rcases hi.phase with h | h | h
    · exact Or.inl ⟨h.1, h.2.1, fun x => (h.2.2 x).1⟩
    · exact Or.inr (Or.inl h)
    · exact Or.inr (Or.inr ⟨h.1, h.2.1, h.2.2.1, h.2.2.2.1, h.2.2.2.2.1, h.2.2.2.2.2 c1 hn⟩)

/-- The pipeline when `decode` is entered in the pass made by `memory`, when MEM/WB holds a
bubble. -/
theorem mid_mem {imem : List instruction_t} {n : Nat} (hp : alu_program imem n)
    (R0 : Nat → Nat) (f c : Nat) (S T : Option Nat) (v : core)
    (hi : pinv imem n R0 f c S T none v) (hc : c ≤ n) :
    mid imem n R0 f c S T v.access.exec := by
  obtain ⟨q1, q2, q3, q4, q5, _, q7⟩ := hi.quiet
  have hn : nxt c none c := rfl
  refine mid_exec hp R0 f c S T v.access hi.prog hi.regs hi.first_ir hi.first_id hi.first_ix
    hi.second (access_forth hp R0 v T hi.third).1 ?_ ⟨q1, q2, q3, q4, q5, q7⟩ ?_ (by omega)
  · obtain ⟨a, b, h1, h2, h3⟩ := hi.chain
    rw [nxt_unique hn h1]
    exact ⟨b, h2, h3⟩
  · rcases hi.phase with h | h | h
    · exact Or.inl ⟨h.1, h.2.1, fun x => (h.2.2 x).1⟩
    · exact Or.inr (Or.inl h)
    · exact Or.inr (Or.inr ⟨h.1, h.2.1, h.2.2.1, h.2.2.2.1, h.2.2.2.2.1, h.2.2.2.2.2 c hn⟩)

/-- The pipeline when `decode` is entered in the pass made by `execute`, when EX/MEM and
MEM/WB hold bubbles. -/
theorem mid_exe {imem : List instruction_t} {n : Nat} (hp : alu_program imem n)
    (R0 : Nat → Nat) (f c : Nat) (S : Option Nat) (v : core)
    (hi : pinv imem n R0 f c S none none v) (hc : c ≤ n) :
    mid imem n R0 f c S none v.exec := by
  obtain ⟨q1, q2, q3, q4, q5, _, q7⟩ := hi.quiet
  have hn : nxt c none c := rfl
  refine mid_exec hp R0 f c S none v hi.prog hi.regs hi.first_ir hi.first_id hi.first_ix
    hi.second hi.forth ?_ ⟨q1, q2, q3, q4, q5, q7⟩ ?_ (by omega)
  · obtain ⟨a, b, h1, h2, h3⟩ := hi.chain
    have ea : a = c := h1
    have eb : b = a := h2
    rw [eb, ea] at h3
    exact ⟨c, rfl, h3⟩
  · rcases hi.phase with h | h | h
    · exact Or.inl ⟨h.1, h.2.1, fun _ => rfl⟩
    · exact Or.inr (Or.inl h)
    · exact Or.inr (Or.inr ⟨h.1, h.2.1, h.2.2.1, h.2.2.2.1, h.2.2.2.2.1, h.2.2.2.2.2 c hn⟩)

/-- The pipeline when `decode` is entered in the pass made by `decode`, when the three latches
behind IF/ID hold bubbles. -/
theorem mid_dec {imem : List instruction_t} {n : Nat} (R0 : Nat → Nat) (f c : Nat) (v : core)
    (hi : pinv imem n R0 f c none none none v) (hc : c ≤ n) :
    mid imem n R0 f c none none v := by
  have hn : nxt c none c := rfl
  have hop : v.op SECOND = NOP := hi.second
  exact
    { prog := hi.prog
      regs := hi.regs
      first_ir := hi.first_ir
      first_id := hi.first_id
      first_ix := hi.first_ix
      second := hi.second
      third := hi.third
      forth := hi.forth
      mirror := fun x => absurd hop x
      chain := by
        obtain ⟨a, b, h1, h2, h3⟩ := hi.chain
        have ea : a = c := h1
        have eb : b = a := h2
        rw [eb, ea] at h3
        exact ⟨c, rfl, h3⟩
      quiet := hi.quiet
      phase := by
        rcases hi.phase with h | h | h
        · exact Or.inl ⟨h.1, h.2.1, fun _ => rfl⟩
        · exact Or.inr (Or.inl h)
        · exact Or.inr (Or.inr ⟨h.1, h.2.1, h.2.2.1, h.2.2.2.1, h.2.2.2.2.1, h.2.2.2.2.2 c hn⟩)
      bound := by omega }

/-! ## The hazard handler, `decode` and `fetch` on the latch contents -/

/-- A small value is its own 32-bit truncation. -/
theorem u32_small (x : Nat) (h : x < 2 ^ 32) : u32 x = x := Nat.mod_eq_of_lt h

/-- A small value is its own 64-bit truncation. -/
theorem u64_small (x : Nat) (h : x < 2 ^ 32) : u64 x = x :=
  Nat.mod_eq_of_lt (lt_trans h (by norm_num))

/-- With no stall pending and a bubble in ID/EX the handler changes nothing. -/
theorem handler_idle (v : core) (h : v.stalls = 0) (hn : v.op SECOND = NOP) : v.handler = v := by
  unfold core.handler
  rw [if_neg (fun x => x.2 hn)]
  unfold core.release
  rw [if_neg (fun x => x.1 h)]

/-- With no stall pending and an instruction in ID/EX the handler is the chain of tests: a
stall that the chain records is not released in the same call. -/
theorem handler_rules (v : core) (h : v.stalls = 0) (hn : v.op SECOND ≠ NOP)
    (hs : v.clkIn + 2 < 2 ^ 32) : v.handler = v.rules := by
  have h32 : (2 : Nat) ^ 32 = 4294967296 := by norm_num
  have hu : u32 v.clkIn = v.clkIn := u32_small _ (by omega)
  have r0 : v.release = v := by
    unfold core.release
    rw [if_neg (fun x => x.1 h)]
  have r1 : ∀ st : Nat, st = 1 ∨ st = 2 →
      ({ v with stalls := st, currentClk := u32 v.clkIn } : core).release =
        { v with stalls := st, currentClk := u32 v.clkIn } := by
    intro st hst
    unfold core.release
    dsimp only
    rw [hu, if_neg]
    rintro ⟨_, x⟩
    rw [u32_small _ (by omega)] at x
    omega
  unfold core.handler
  rw [if_pos ⟨h, hn⟩]
  unfold core.rules
  split_ifs
  · exact r1 2 (Or.inr rfl)
  · exact r0
  · exact r1 1 (Or.inl rfl)
  · exact r0

/-- A stall of 2 in its first cycle is not released. -/
theorem handler_wait (v : core) (h : v.stalls = 2) (hc : v.clkIn + 1 = v.currentClk + 2)
    (hs : v.clkIn + 2 < 2 ^ 32) : v.handler = v := by
  have h32 : (2 : Nat) ^ 32 = 4294967296 := by norm_num
  unfold core.handler
  rw [if_neg (fun x => by rw [h] at x; exact absurd x.1 (by decide))]
  unfold core.release
  rw [if_neg]
  rintro ⟨_, x⟩
  rw [h, u32_small _ (by omega)] at x
  omega

/-- A stall is released at its release cycle. -/
theorem handler_release (v : core) (h : v.stalls = 1 ∨ v.stalls = 2)
    (hc : v.clkIn = v.currentClk + v.stalls) (hs : v.clkIn + 2 < 2 ^ 32) :
    v.handler = { v with stalls := 0 } := by
  have h32 : (2 : Nat) ^ 32 = 4294967296 := by norm_num
  unfold core.handler
  rw [if_neg (fun x => by rcases h with e | e <;> rw [e] at x <;> exact absurd x.1 (by decide))]
  unfold core.release
  rw [if_pos]
  refine ⟨by rcases h with e | e <;> rw [e] <;> decide, ?_⟩
  rw [u32_small _ (by omega)]
  exact hc

/-- Setting the pending stall to the value it has changes nothing. -/
theorem core_stalls_eta (v : core) (h : v.stalls = 0) : ({ v with stalls := 0 } : core) = v := by
  cases v
  cases h
  rfl

/-- The source indices of instruction `f` in the register file after `f` instructions give its
result in program order. -/
theorem reads_ok_self {imem : List instruction_t} {n : Nat} (hp : alu_program imem n)
    (R0 : Nat → Nat) (h0 : ∀ x, R0 x < 2 ^ 32) (f : Nat) :
    reads_ok imem n R0 f (seqRegs imem n R0 f) :=
  reads_ok_of_indep hp R0 h0 f f 0 rfl (fun j a b => by omega)

/-- The outcome of a pass in which `decode` is not stalled: instruction `f` moves into ID/EX
with the operands of program order and instruction `f + 1` is fetched. -/
theorem dec_outcome {imem : List instruction_t} {n : Nat} (hp : alu_program imem n)
    (R0 : Nat → Nat) (f c1 : Nat) (S Wn : Option Nat) (v : core)
    (hm : mid imem n R0 f c1 S Wn v)
    (hr : reads_ok imem n R0 f (seqRegs imem n R0 c1)) (hck : v.clkIn ≤ 3 * f + 4)
    (hf : f ≤ n + 3) :
    pinv imem n R0 (f + 1) c1 (some f) S Wn
      ((({ v with stalls := 0 } : core).decodeTail.refill (ins imem n (f + 1))).tick) := by
  have hn50 : n < 50 := hp.size
  have h32 : (2 : Nat) ^ 32 = 4294967296 := by norm_num
  have e : ((({ v with stalls := 0 } : core).decodeTail.refill (ins imem n (f + 1))).tick) =
      { v with
        stalls := 0
        exeIR := v.idIR
        idIR := (ins imem n (f + 1)).opcode.toNat
        inst_count :=
          if (ins imem n (f + 1)).opcode.toNat ≠ EOP.toNat then u64 (v.inst_count + 1)
          else v.inst_count
        clkIn := u64 (v.clkIn + 1)
        pipe :=
          ((v.pipe.set FIRST
            { v.pipe.get FIRST with
              pipe_IR :=
                { (v.pipe.get FIRST).pipe_IR with
                  src1 := readReg v.regs (v.pipe.get FIRST).pipe_IR.src1
                  src2 := readReg v.regs (v.pipe.get FIRST).pipe_IR.src2 } }).set SECOND
            { v.pipe.get FIRST with
              pipe_IR :=
                { (v.pipe.get FIRST).pipe_IR with
                  src1 := readReg v.regs (v.pipe.get FIRST).pipe_IR.src1
                  src2 := readReg v.regs (v.pipe.get FIRST).pipe_IR.src2 } }).set FIRST
            { v.pipe.get FIRST with
              pipe_IR := ins imem n (f + 1) } } := rfl
  rw [e]
  obtain ⟨q1, q2, q3, q4, q5, q6, q7⟩ := hm.quiet
  have hclk : u64 (v.clkIn + 1) = v.clkIn + 1 := u64_small _ (by omega)
  exact
    { prog := hm.prog
      regs := hm.regs
      first_ir := rfl
      first_id := rfl
      first_ix := by
        show (if (ins imem n (f + 1)).opcode.toNat ≠ EOP.toNat then u64 (v.inst_count + 1)
          else v.inst_count) = min (f + 1 + 1) n
        rw [hm.first_ix]
        by_cases hlt : f + 1 < n
        · rw [if_pos (is_alu_toNat _ (ins_lt hp _ hlt).2.1).2.2.1, u64_small _ (by omega)]
          omega
        · rw [(ins_ge hp _ (Nat.le_of_not_lt hlt)).2.2.1, if_neg (fun x => x rfl)]
          omega
      second := by
        refine ⟨?_, ?_, hm.first_id, ?_⟩
        · show (v.pipe.get FIRST).pipe_IR.opcode = (ins imem n f).opcode
          rw [hm.first_ir]
        · show (v.pipe.get FIRST).pipe_IR.dest = (ins imem n f).dest
          rw [hm.first_ir]
        · intro hlt
          show alu (v.pipe.get FIRST).pipe_IR.opcode.toNat
            (readReg v.regs (v.pipe.get FIRST).pipe_IR.src1)
            (readReg v.regs (v.pipe.get FIRST).pipe_IR.src2)
            (v.pipe.get FIRST).pipe_IR.immediate (v.pipe.get FIRST).pipe_NPC = res imem n R0 f
          rw [hm.first_ir, hm.regs, alu_npc _ _ _ _ _ (ins_lt hp f hlt).2.1]
          exact hr hlt
      third := hm.third
      forth := hm.forth
      chain := by
        obtain ⟨c2, h1, h2⟩ := hm.chain
        exact ⟨c2, f, h1, h2, rfl, rfl⟩
      quiet := ⟨q1, q2, q3, q4, q5, q6, q7⟩
      phase := by
        refine Or.inl ⟨rfl, ?_, fun x => Option.noConfusion x⟩
        show u64 (v.clkIn + 1) ≤ 3 * (f + 1) + 2
        rw [hclk]
        omega }

/-- The outcome of a pass in which `decode` is stalled: a bubble moves into ID/EX and IF/ID
keeps instruction `f`. -/
theorem bubble_outcome {imem : List instruction_t} {n : Nat} (hp : alu_program imem n)
    (R0 : Nat → Nat) (f c1 : Nat) (S Wn : Option Nat) (v : core) (st ck : Nat)
    (hm : mid imem n R0 f c1 S Wn v) (hst : st = 1 ∨ st = 2) (hfn : f ≤ n)
    (hph : (st = 2 ∧ v.clkIn + 1 + 1 = ck + 2 ∧ v.clkIn + 1 ≤ 3 * f + 3) ∨
      (v.clkIn + 1 = ck + st ∧ v.clkIn + 1 ≤ 3 * f + 4 ∧
        ∀ c2, nxt c1 Wn c2 → reads_ok imem n R0 f (seqRegs imem n R0 c2))) :
    pinv imem n R0 f c1 none S Wn
      ((({ v with stalls := st, currentClk := ck } : core).decodeTail.refill
        (ins imem n (f + 1))).tick) := by
  have hn50 : n < 50 := hp.size
  have h32 : (2 : Nat) ^ 32 = 4294967296 := by norm_num
  have hst0 : st ≠ 0 := by omega
  have e : ((({ v with stalls := st, currentClk := ck } : core).decodeTail.refill
        (ins imem n (f + 1))).tick) =
      { v with
        stalls := st
        currentClk := ck
        clkIn := u64 (v.clkIn + 1)
        pipe := v.pipe.set SECOND (v.pipe.get SECOND).reset } := by
    unfold core.decodeTail
    dsimp only
    rw [if_pos hst0]
    unfold core.refill
    dsimp only
    rw [if_pos hst0]
    rfl
  rw [e]
  have hclk : u64 (v.clkIn + 1) = v.clkIn + 1 := by
    refine u64_small _ ?_
    rcases hph with h | h <;> omega
  exact
    { prog := hm.prog
      regs := hm.regs
      first_ir := hm.first_ir
      first_id := hm.first_id
      first_ix := hm.first_ix
      second := rfl
      third := hm.third
      forth := hm.forth
      chain := by
        obtain ⟨c2, h1, h2⟩ := hm.chain
        exact ⟨c2, f, h1, h2, rfl⟩
      quiet := hm.quiet
      phase := by
        rcases hph with h | h
        · refine Or.inr (Or.inl ⟨rfl, hfn, h.1, ?_, ?_⟩)
          · show u64 (v.clkIn + 1) + 1 = ck + 2
            rw [hclk]
            exact h.2.1
          · show u64 (v.clkIn + 1) ≤ 3 * f + 3
            rw [hclk]
            exact h.2.2
        · refine Or.inr (Or.inr ⟨rfl, hfn, hst, ?_, ?_, h.2.2⟩)
          · show u64 (v.clkIn + 1) = ck + st
            rw [hclk]
            exact h.1
          · show u64 (v.clkIn + 1) ≤ 3 * f + 4
            rw [hclk]
            exact h.2.1 }

/-- Setting the stall bookkeeping to the values it has changes nothing. -/
theorem core_wait_eta (v : core) :
    ({ v with stalls := v.stalls, currentClk := v.currentClk } : core) = v := rfl

/-- The bounds that the latch contents give for the fetch index and the cycle counter at the
entry of `decode`. -/
theorem mid_bounds {imem : List instruction_t} {n : Nat} (hp : alu_program imem n)
    {R0 : Nat → Nat} {f c1 : Nat} {S Wn : Option Nat} {v : core}
    (hm : mid imem n R0 f c1 S Wn v) :
    c1 ≤ f ∧ f ≤ n + 3 ∧ v.clkIn ≤ 3 * f + 4 ∧ v.clkIn + 2 < 2 ^ 32 := by
  have hn50 : n < 50 := hp.size
  have h32 : (2 : Nat) ^ 32 = 4294967296 := by norm_num
  obtain ⟨c2, h1, h2⟩ := hm.chain
  have a1 := nxt_le h1
  have a2 := nxt_le h2
  have hb := hm.bound
  have hck : v.clkIn ≤ 3 * f + 4 := by
    rcases hm.phase with h | h | h
    · omega
    · omega
    · omega
  refine ⟨by omega, by omega, hck, by omega⟩

/-- The pass of `decode` and `fetch` when the handler leaves no stall pending. -/
theorem front_dec {imem : List instruction_t} {n : Nat} (hp : alu_program imem n)
    (R0 : Nat → Nat) (f c1 : Nat) (S Wn : Option Nat) (v : core)
    (hm : mid imem n R0 f c1 S Wn v) (hh : v.handler = { v with stalls := 0 })
    (hr : reads_ok imem n R0 f (seqRegs imem n R0 c1)) :
    ∃ f' S', pinv imem n R0 f' c1 S' S Wn ((v.front (ins imem n (f + 1))).tick) := by
  obtain ⟨_, b2, b3, _⟩ := mid_bounds hp hm
  unfold core.front
  rw [hh]
  exact ⟨f + 1, some f, dec_outcome hp R0 f c1 S Wn v hm hr b3 b2⟩

/-- The pass of `decode` and `fetch` when the handler leaves a stall pending. -/
theorem front_bubble {imem : List instruction_t} {n : Nat} (hp : alu_program imem n)
    (R0 : Nat → Nat) (f c1 : Nat) (S Wn : Option Nat) (v : core) (st ck : Nat)
    (hm : mid imem n R0 f c1 S Wn v)
    (hh : v.handler = { v with stalls := st, currentClk := ck })
    (hst : st = 1 ∨ st = 2) (hfn : f ≤ n)
    (hph : (st = 2 ∧ v.clkIn + 1 + 1 = ck + 2 ∧ v.clkIn + 1 ≤ 3 * f + 3) ∨
      (v.clkIn + 1 = ck + st ∧ v.clkIn + 1 ≤ 3 * f + 4 ∧
        ∀ c2, nxt c1 Wn c2 → reads_ok imem n R0 f (seqRegs imem n R0 c2))) :
    ∃ f' S', pinv imem n R0 f' c1 S' S Wn ((v.front (ins imem n (f + 1))).tick) := by
  unfold core.front
  rw [hh]
  exact ⟨f, none, bubble_outcome hp R0 f c1 S Wn v st ck hm hst hfn hph⟩

/-- The pass of `decode` and `fetch` on the latch contents: the instruction in IF/ID moves
into ID/EX with the operands of program order and the next one is fetched, or a bubble moves
into ID/EX and a stall is pending that ends when the operands are committed. -/
theorem front_spec {imem : List instruction_t} {n : Nat} (hp : alu_program imem n)
    (R0 : Nat → Nat) (h0 : ∀ x, R0 x < 2 ^ 32) (f c1 : Nat) (S Wn : Option Nat) (v : core)
    (hm : mid imem n R0 f c1 S Wn v) :
    ∃ f' S', pinv imem n R0 f' c1 S' S Wn ((v.front (ins imem n (f + 1))).tick) := by
  obtain ⟨b1, b2, b3, b4⟩ := mid_bounds hp hm
  have h32 : (2 : Nat) ^ 32 = 4294967296 := by norm_num
  obtain ⟨c2, n1, n2⟩ := hm.chain
  rcases hm.phase with ⟨hs, hck, hSW⟩ | ⟨hS, hfn, hs, hc, hck⟩ | ⟨hS, hfn, hs, hc, hck, hr⟩
  · -- no stall pending
    have hs0 : ({ v with stalls := 0 } : core) = v := core_stalls_eta v hs
    cases S with
    | none =>
      have hop : v.op SECOND = NOP := hm.second
      have hW : Wn = none := hSW rfl
      subst hW
      have e2 : c2 = c1 := n1
      have e3 : f = c2 := n2
      have ef : f = c1 := e3.trans e2
      refine front_dec hp R0 f c1 none none v hm ((handler_idle v hs hop).trans hs0.symm) ?_
      rw [← ef]
      exact reads_ok_self hp R0 h0 f
    | some k =>
      obtain ⟨s1, s2, s3, s4⟩ := hm.second
      have hop : v.op SECOND = (ins imem n k).opcode := s1
      have hnop : v.op SECOND ≠ NOP := by
        rw [hop]
        exact (ins_opcode hp k).1
      have ek : k = c2 := n2.1
      have ef : f = c2 + 1 := n2.2
      have hh := handler_rules v hs hnop b4
      have hu : u32 v.clkIn = v.clkIn := u32_small _ (by omega)
      have hfir := hm.first_ir
      by_cases r1 : (ins imem n f).src1 = (ins imem n k).dest ∨
          (ins imem n f).src2 = (ins imem n k).dest
      · -- the test on ID/EX succeeds
        by_cases hk : k < n
        · have ha := (is_alu_toNat _ (ins_lt hp k hk).2.1).2.2.2
          have hr : v.rules = { v with stalls := 2, currentClk := u32 v.clkIn } := by
            unfold core.rules
            rw [hfir, s2, if_pos r1, hop, if_pos ha]
          rw [hr, hu] at hh
          exact front_bubble hp R0 f c1 (some k) Wn v 2 v.clkIn hm hh (Or.inr rfl) (by omega)
            (Or.inl ⟨rfl, rfl, by omega⟩)
        · have he := (ins_ge hp k (Nat.le_of_not_lt hk)).2.2.1
          have hr : v.rules = v := by
            unfold core.rules
            rw [hfir, s2, if_pos r1, hop, he, if_neg (by decide)]
          rw [hr] at hh
          exact front_dec hp R0 f c1 (some k) Wn v hm (hh.trans hs0.symm)
            (fun hlt => absurd hlt (by omega))
      · -- the test on ID/EX fails
        have hkn : k < n ∨ f ≤ n := by
          by_cases hk : k < n
          · exact Or.inl hk
          · exfalso
            apply r1
            left
            have a1 := (ins_ge hp k (Nat.le_of_not_lt hk))
            have a2 := (ins_ge hp f (by omega))
            rw [a2.2.2.2, a2.1, ← a1.1]
        have hfn : f ≤ n := by omega
        by_cases r2 : (v.op FORTH ≠ SW ∧ v.op FORTH ≠ BNEZ ∧ v.op FIRST ≠ BNEZ ∧
            v.op FORTH ≠ NOP ∧ v.op FORTH ≠ BLTZ) ∧
            ((v.pipe.get FIRST).pipe_IR.src1 = (v.pipe.get FORTH).pipe_IR.dest ∨
              (v.pipe.get FIRST).pipe_IR.src2 = (v.pipe.get FORTH).pipe_IR.dest)
        · have hr : v.rules = { v with stalls := 1, currentClk := u32 v.clkIn } := by
            unfold core.rules
            rw [hfir, s2, if_neg r1, ← hfir, if_pos r2]
          rw [hr, hu] at hh
          refine front_bubble hp R0 f c1 (some k) Wn v 1 v.clkIn hm hh (Or.inl rfl) hfn
            (Or.inr ⟨rfl, by omega, ?_⟩)
          intro c3 n3
          rw [nxt_unique n3 n1]
          refine reads_ok_of_indep hp R0 h0 f c2 1 ef ?_
          intro j j1 j2
          have ej : j = k := by omega
          rw [ej]
          exact ⟨fun x => r1 (Or.inl x.symm), fun x => r1 (Or.inr x.symm)⟩
        · have hr : v.rules = v := by
            unfold core.rules
            rw [hfir, s2, if_neg r1, ← hfir, if_neg r2]
          rw [hr] at hh
          refine front_dec hp R0 f c1 (some k) Wn v hm (hh.trans hs0.symm) ?_
          have hk1 : ∀ j, j = k → (ins imem n j).dest ≠ (ins imem n f).src1 ∧
              (ins imem n j).dest ≠ (ins imem n f).src2 := by
            intro j ej
            rw [ej]
            exact ⟨fun x => r1 (Or.inl x.symm), fun x => r1 (Or.inr x.symm)⟩
          cases Wn with
          | none =>
            have e1 : c2 = c1 := n1
            refine reads_ok_of_indep hp R0 h0 f c1 1 (by omega) ?_
            intro j j1 j2
            exact hk1 j (by omega)
          | some w =>
            have ew : w = c1 := n1.1
            have e1 : c2 = c1 + 1 := n1.2
            obtain ⟨w1, w2, _, _⟩ := hm.forth
            have hopw : v.op FORTH = (ins imem n w).opcode := w1
            have hopf : v.op FIRST = (ins imem n f).opcode := by
              unfold core.op
              rw [hfir]
            have ow := ins_opcode hp w
            have of_ := ins_opcode hp f
            have r3 : ¬ ((ins imem n f).src1 = (ins imem n w).dest ∨
                (ins imem n f).src2 = (ins imem n w).dest) := by
              intro x
              apply r2
              refine ⟨?_, ?_⟩
              · rw [hopw, hopf]
                exact ⟨ow.2.1, ow.2.2.2.2.2.2.1, of_.2.2.2.2.2.2.1, ow.1, ow.2.2.2.2.2.2.2⟩
              · rw [hfir, w2]
                exact x
            refine reads_ok_of_indep hp R0 h0 f c1 2 (by omega) ?_
            intro j j1 j2
            by_cases ej : j = k
            · exact hk1 j ej
            · have ejw : j = w := by omega
              rw [ejw]
              exact ⟨fun x => r3 (Or.inl x.symm), fun x => r3 (Or.inr x.symm)⟩
  · -- first cycle of a stall of 2
    subst hS
    have e3 : f = c2 := n2
    have hh := handler_wait v hs hc b4
    refine front_bubble hp R0 f c1 none Wn v 2 v.currentClk hm ?_ (Or.inr rfl) hfn
      (Or.inr ⟨by omega, by omega, ?_⟩)
    · rw [← hs]
      exact hh.trans (core_wait_eta v).symm
    · intro c3 n3
      rw [nxt_unique n3 n1, ← e3]
      exact reads_ok_self hp R0 h0 f
  · -- release cycle
    exact front_dec hp R0 f c1 S Wn v hm (handler_release v hs hc b4) hr

/-! ## The passes of the dispatch on the latch contents -/

/-- The chain of tests leaves the latches and what `fetch` reads as they are. -/
theorem rules_view (v : core) :
    v.rules.fetch_view = v.fetch_view ∧ v.rules.pipe = v.pipe ∧ v.rules.idIR = v.idIR := by
  unfold core.rules
  split_ifs <;> exact ⟨rfl, rfl, rfl⟩

/-- The release of a stall leaves the latches and what `fetch` reads as they are. -/
theorem release_view (v : core) :
    v.release.fetch_view = v.fetch_view ∧ v.release.pipe = v.pipe ∧
    v.release.idIR = v.idIR := by
  unfold core.release
  split_ifs <;> exact ⟨rfl, rfl, rfl⟩

/-- The handler leaves the latches and what `fetch` reads as they are. -/
theorem handler_view (v : core) :
    v.handler.fetch_view = v.fetch_view ∧ v.handler.pipe = v.pipe ∧
    v.handler.idIR = v.idIR := by
  unfold core.handler
  have a := release_view (if v.stalls = 0 ∧ v.op SECOND ≠ NOP then v.rules else v)
  have b := rules_view v
  by_cases h : v.stalls = 0 ∧ v.op SECOND ≠ NOP
  · rw [if_pos h] at a ⊢
    exact ⟨a.1.trans b.1, a.2.1.trans b.2.1, a.2.2.trans b.2.2⟩
  · rw [if_neg h] at a ⊢
    exact a

/-- The body of `decode` leaves what `fetch` reads and the pending stall as they are. -/
theorem decodeTail_view (v : core) :
    v.decodeTail.fetch_view = v.fetch_view ∧ v.decodeTail.stalls = v.stalls := by
  unfold core.decodeTail
  split_ifs <;> exact ⟨rfl, rfl⟩

/-- With the cycle counter not at 2, `decode` returns the state left by its body. -/
theorem decode_late (d : sim_pipe) (hm : (hazardHandler d).memoryStall = false)
    (hc : d.clkIn ≠ 2) :
    decode d =
      some (if (hazardHandler d).stalls ≠ 0 ∧ (hazardHandler d).branchStall = false then
        (hazardHandler d).setPipe SECOND ((hazardHandler d).pipe_reg.get SECOND).reset
      else decodeLatch (decodeRead (hazardHandler d))) := by
  have hk : ¬ (decodeLatch (decodeRead (hazardHandler d))).clkIn = ID + 1 := by
    rw [decodeLatch_clkIn, decodeRead_clkIn, (hazardHandler_clkIn d).1]
    exact hc
  rw [decode_eq, hm, if_neg (by decide)]
  by_cases h : (hazardHandler d).stalls ≠ 0 ∧ (hazardHandler d).branchStall = false
  · rw [if_pos h, if_pos h]
  · rw [if_neg h, if_neg h, if_neg hk]

/-- With the cycle counter at 2 and no stall pending, `decode` calls `fetch` and increments
the cycle counter. -/
theorem decode_early (d : sim_pipe) (hm : (hazardHandler d).memoryStall = false)
    (hs : (hazardHandler d).stalls = 0) (hc : d.clkIn = 2) :
    decode d =
      (fetch (decodeLatch (decodeRead (hazardHandler d)))).map
        fun s => { s with clkIn := u64 (s.clkIn + 1) } := by
  have hk : (decodeLatch (decodeRead (hazardHandler d))).clkIn = ID + 1 := by
    rw [decodeLatch_clkIn, decodeRead_clkIn, (hazardHandler_clkIn d).1]
    exact hc
  rw [decode_eq, hm, if_neg (by decide), if_neg (fun x => x.1 hs), if_pos hk]

/-- The state that the body of `decode` leaves when it is entered with the latch contents of
a program of arithmetic instructions. -/
theorem decode_body_core {imem : List instruction_t} {n : Nat} (hp : alu_program imem n)
    (R0 : Nat → Nat) (f c1 : Nat) (S Wn : Option Nat) (d : sim_pipe)
    (hm : mid imem n R0 f c1 S Wn d.core) :
    (hazardHandler d).memoryStall = false ∧ (hazardHandler d).core = d.core.handler ∧
    (if (hazardHandler d).stalls ≠ 0 ∧ (hazardHandler d).branchStall = false then
        (hazardHandler d).setPipe SECOND ((hazardHandler d).pipe_reg.get SECOND).reset
      else decodeLatch (decodeRead (hazardHandler d))).core = d.core.handler.decodeTail := by
  obtain ⟨q1, q2, q3, q4, q5, q6, q7⟩ := hm.quiet
  have hfir : (d.pipe_reg.get FIRST).pipe_IR = ins imem n f := hm.first_ir
  have hfid : d.specialP_Reg.get ID IR = (ins imem n f).opcode.toNat := hm.first_id
  have o := ins_opcode hp f
  have hop : d.op FIRST = (ins imem n f).opcode := by
    unfold sim_pipe.op
    rw [hfir]
  have hnop : d.op FIRST ≠ NOP := by
    rw [hop]
    exact o.1
  have hsw : d.op FIRST ≠ SW := by
    rw [hop]
    exact o.2.1
  have hcb : isCondBranch (d.op FIRST) = false := by
    rw [hop]
    exact o.2.2.2.1
  have hid : d.specialP_Reg.get ID IR ≠ SW.toNat := by
    rw [hfid]
    exact o.2.2.2.2.1
  obtain ⟨k1, k2, k3⟩ := hazardHandler_core d q1 q3 q4 hid hnop hsw hcb hm.mirror
  have v := handler_view d.core
  have hpipe : (hazardHandler d).pipe_reg = d.pipe_reg := (congrArg core.pipe k1).trans v.2.1
  have hir : (hazardHandler d).specialP_Reg.get ID IR = d.specialP_Reg.get ID IR :=
    (congrArg core.idIR k1).trans v.2.2
  have hnop' : (hazardHandler d).op FIRST ≠ NOP := by
    unfold sim_pipe.op
    rw [hpipe]
    exact hnop
  have hid' : (hazardHandler d).specialP_Reg.get ID IR ≠ SW.toNat := by
    rw [hir]
    exact hid
  refine ⟨k2, k1, ?_⟩
  rw [decodeTail_core _ k3 hnop' hid', k1]

/-- The method `fetch` after the body of `decode`: nothing while a stall is pending, else the
load of the instruction at the fetch index. -/
theorem fetch_refill (e : sim_pipe) (instr : instruction_t)
    (hv : e.core.fetch_view = (e.inst_count, e.instr_memory, "", e.clkIn, false, false))
    (hi : e.inst_count < PROGRAM_SIZE) (hmem : e.instr_memory[e.inst_count]? = some instr)
    (hc : e.clkIn ≠ 1) :
    ∃ t, fetch e = some t ∧ t.core = e.core.refill instr := by
  have hl : e.branchToLabel = "" := congrArg (fun x => x.2.2.1) hv
  have hm : e.memoryStall = false := congrArg (fun x => x.2.2.2.2.1) hv
  have hb : e.branchStall = false := congrArg (fun x => x.2.2.2.2.2) hv
  by_cases hs : e.stalls = 0
  · obtain ⟨t, t1, t2⟩ := fetch_load_core e instr hm hs hl hi hmem
    rw [if_neg hc] at t2
    refine ⟨t, t1, ?_⟩
    unfold core.refill
    exact t2.trans (if_neg (show ¬ e.core.stalls ≠ 0 from fun x => x hs)).symm
  · refine ⟨e, fetch_stalled_core e hm hb hs, ?_⟩
    unfold core.refill
    exact (if_pos (show e.core.stalls ≠ 0 from hs)).symm

/-- The state in which `fetch` is called after `decode`, for the latch contents of a program of
arithmetic instructions. -/
theorem front_fetch {imem : List instruction_t} {n : Nat} (hp : alu_program imem n)
    (R0 : Nat → Nat) (f c1 : Nat) (S Wn : Option Nat) (d e : sim_pipe)
    (hm : mid imem n R0 f c1 S Wn d.core) (he : e.core = d.core.handler.decodeTail)
    (hc : d.clkIn ≠ 1) :
    ∃ t, fetch e = some t ∧ t.core = d.core.front (ins imem n (f + 1)) := by
  obtain ⟨q1, q2, q3, q4, q5, q6, q7⟩ := hm.quiet
  have v1 := (decodeTail_view d.core.handler).1
  have v2 := (handler_view d.core).1
  have hv : e.core.fetch_view = d.core.fetch_view := by
    rw [he]
    exact v1.trans v2
  have hi : e.inst_count = d.inst_count := congrArg (fun x => x.1) hv
  have hmm : e.instr_memory = d.instr_memory := congrArg (fun x => x.2.1) hv
  have hck : e.clkIn = d.clkIn := congrArg (fun x => x.2.2.2.1) hv
  have hdi : d.inst_count = min (f + 1) n := hm.first_ix
  have hdm : d.instr_memory = imem := hm.prog
  have hl : d.branchToLabel = "" := q5
  have hf := ins_fetch hp f
  have hv' : e.core.fetch_view = (e.inst_count, e.instr_memory, "", e.clkIn, false, false) := by
    rw [hv, hi, hmm, hck]
    unfold core.fetch_view
    rw [q1, q4, q5]
    rfl
  obtain ⟨t, t1, t2⟩ := fetch_refill e (ins imem n (f + 1)) hv'
    (by rw [hi, hdi]; exact hf.1) (by rw [hi, hmm, hdi, hdm]; exact hf.2)
    (by rw [hck]; exact hc)
  refine ⟨t, t1, ?_⟩
  rw [t2, he]
  rfl

/-- The calls of `decode` and `fetch` in a pass made by a later stage. -/
theorem decode_front {imem : List instruction_t} {n : Nat} (hp : alu_program imem n)
    (R0 : Nat → Nat) (f c1 : Nat) (S Wn : Option Nat) (d : sim_pipe)
    (hm : mid imem n R0 f c1 S Wn d.core) (hc : 3 ≤ d.clkIn) :
    ∃ t, (decode d).bind fetch = some t ∧ t.core = d.core.front (ins imem n (f + 1)) := by
  obtain ⟨k1, _, k3⟩ := decode_body_core hp R0 f c1 S Wn d hm
  rw [decode_late d k1 (by omega), Option.some_bind]
  exact front_fetch hp R0 f c1 S Wn d _ hm k3 (by omega)

/-- The pass made by `decode`, with the cycle counter at 2. -/
theorem decode_pass {imem : List instruction_t} {n : Nat} (hp : alu_program imem n)
    (R0 : Nat → Nat) (f c1 : Nat) (S Wn : Option Nat) (d : sim_pipe)
    (hm : mid imem n R0 f c1 S Wn d.core) (hs : d.core.handler.stalls = 0)
    (hc : d.clkIn = 2) :
    ∃ t, decode d = some t ∧ t.core = (d.core.front (ins imem n (f + 1))).tick := by
  obtain ⟨k1, k2, k3⟩ := decode_body_core hp R0 f c1 S Wn d hm
  have hs' : (hazardHandler d).stalls = 0 := (congrArg core.stalls k2).trans hs
  rw [if_neg (fun x => x.1 hs')] at k3
  obtain ⟨t, t1, t2⟩ := front_fetch hp R0 f c1 S Wn d _ hm k3 (by omega)
  rw [decode_early d k1 hs' hc, t1]
  refine ⟨_, rfl, ?_⟩
  rw [← t2]
  rfl

/-- The calls of `execute`, `decode` and `fetch` in a pass made by a later stage. -/
theorem execute_front {imem : List instruction_t} {n : Nat} (hp : alu_program imem n)
    (R0 : Nat → Nat) (f c1 : Nat) (S Wn : Option Nat) (c : sim_pipe)
    (hm : mid imem n R0 f c1 S Wn c.core.exec) (hms : c.memoryStall = false)
    (hb : isCondBranch (c.op SECOND) = false) (hc : 4 ≤ c.clkIn) :
    ∃ t, ((execute c).bind decode).bind fetch = some t ∧
      t.core = c.core.exec.front (ins imem n (f + 1)) := by
  have hk := (executeBody_clkIn c).1
  have he : execute c = some (executeLatch (executeBranch (executeAlu c))) := by
    unfold execute
    rw [hms, if_neg (by decide)]
    dsimp only
    rw [if_neg (by rw [hk]; show ¬ c.clkIn = 3; omega)]
  rw [he, Option.some_bind]
  have e1 := executeBody_core c hb
  rw [← e1] at hm ⊢
  exact decode_front hp R0 f c1 S Wn _ hm (by rw [hk]; omega)

/-- The pass made by `execute`, with the cycle counter at 3. -/
theorem execute_pass {imem : List instruction_t} {n : Nat} (hp : alu_program imem n)
    (R0 : Nat → Nat) (f c1 : Nat) (S Wn : Option Nat) (c : sim_pipe)
    (hm : mid imem n R0 f c1 S Wn c.core.exec) (hms : c.memoryStall = false)
    (hb : isCondBranch (c.op SECOND) = false) (hc : c.clkIn = 3) :
    ∃ t, execute c = some t ∧ t.core = (c.core.exec.front (ins imem n (f + 1))).tick := by
  have hk := (executeBody_clkIn c).1
  have e1 := executeBody_core c hb
  rw [← e1] at hm ⊢
  obtain ⟨t, t1, t2⟩ := decode_front hp R0 f c1 S Wn _ hm (by rw [hk]; omega)
  have he : execute c = some { t with clkIn := u64 (t.clkIn + 1) } := by
    unfold execute
    rw [hms, if_neg (by decide)]
    dsimp only
    rw [if_pos (by rw [hk]; exact hc), t1]
    rfl
  refine ⟨_, he, ?_⟩
  rw [← t2]
  rfl

/-- The calls of `decode` and `fetch` leave the IR register of WB, the register file, the
cycle counter and the flags of `run` as they are. -/
theorem front_back (v : core) (instr : instruction_t) :
    (v.front instr).back_view = v.back_view := by
  have a : ∀ w : core, w.rules.back_view = w.back_view := by
    intro w
    unfold core.rules
    split_ifs <;> rfl
  have b : ∀ w : core, w.release.back_view = w.back_view := by
    intro w
    unfold core.release
    split_ifs <;> rfl
  have c : ∀ w : core, w.decodeTail.back_view = w.back_view := by
    intro w
    unfold core.decodeTail
    split_ifs <;> rfl
  have d : ∀ w : core, (w.refill instr).back_view = w.back_view := by
    intro w
    unfold core.refill
    split_ifs <;> rfl
  have e : v.handler.back_view = v.back_view := by
    unfold core.handler
    rw [b]
    split_ifs
    · exact a v
    · rfl
  unfold core.front
  rw [d, c, e]

/-- The end of `writeBack` on the record `core`. -/
theorem finish_core (t : sim_pipe) :
    (if t.specialP_Reg.get WB IR = EOP.toNat ∧ t.noBranches = true then
        { t with runAlways := false }
      else { t with clkIn := u64 (t.clkIn + 1) }).core = t.core.finish := by
  unfold core.finish
  by_cases h : t.specialP_Reg.get WB IR = EOP.toNat ∧ t.noBranches = true
  · rw [if_pos h]
    exact (if_pos (show t.core.wbIR = EOP.toNat ∧ t.core.noBranches = true from h)).symm
  · rw [if_neg h]
    exact (if_neg (show ¬ (t.core.wbIR = EOP.toNat ∧ t.core.noBranches = true) from h)).symm

/-- The method `memory` on the latch contents of a program of arithmetic instructions: as the
stage called by `writeBack` and as the stage of the pass with the cycle counter at 4. -/
theorem memory_front {imem : List instruction_t} {n : Nat} (hp : alu_program imem n)
    (R0 : Nat → Nat) (f c1 : Nat) (S T Wn : Option Nat) (a : sim_pipe)
    (hm : mid imem n R0 f c1 S Wn a.core.access.exec)
    (hT : holds imem n R0 T (a.core.pipe.get THIRD) a.core.memIR a.core.memOut)
    (hS : holds imem n R0 S (a.core.pipe.get SECOND) a.core.exeIR a.core.aluOut)
    (q1 : a.memoryStall = false) (q2 : a.stallMem = 0) :
    (5 ≤ a.clkIn → ∃ t, (((memory a).bind execute).bind decode).bind fetch = some t ∧
      t.core = a.core.access.exec.front (ins imem n (f + 1))) ∧
    (a.clkIn = 4 → ∃ t, memory a = some t ∧
      t.core = (a.core.access.exec.front (ins imem n (f + 1))).tick) := by
  obtain ⟨_, hIR, hop, _⟩ := access_forth hp R0 a.core T hT
  obtain ⟨w1, w2⟩ := memoryWait_core a q1 q2 hop
  have hIR' : (if (memoryWait a).core.op THIRD = NOP then NOP.toNat
      else (memoryWait a).core.memIR) ≠ LW.toNat ∧
      (if (memoryWait a).core.op THIRD = NOP then NOP.toNat
      else (memoryWait a).core.memIR) ≠ SW.toNat := by
    rw [w1]
    exact hIR
  obtain ⟨c, c1', c2, c3⟩ := memoryAccess_core (memoryWait a) hIR'
  rw [w1] at c2
  have cms : c.memoryStall = false := c3.trans w2
  have hb : isCondBranch (c.op SECOND) = false := by
    have h1 := (exec_third hp R0 a.core S hS).2.2.2
    have e : c.op SECOND = a.core.op SECOND := congrArg (fun v => v.op SECOND) c2
    rw [e]
    exact h1
  have ck : c.clkIn = a.clkIn := congrArg core.clkIn c2
  have hmem : memory a =
      if c.clkIn = MEM + 1 then
        (((execute c).bind decode).bind fetch).map fun s => { s with clkIn := u64 (s.clkIn + 1) }
      else some c := by
    unfold memory
    dsimp only
    rw [w2, if_neg (by decide), c1', Option.some_bind]
  rw [← c2] at hm ⊢
  refine ⟨fun h5 => ?_, fun h4 => ?_⟩
  · rw [hmem, if_neg (by rw [ck]; show ¬ a.clkIn = 4; omega), Option.some_bind]
    exact execute_front hp R0 f c1 S Wn c hm cms hb (by omega)
  · obtain ⟨t, t1, t2⟩ := execute_front hp R0 f c1 S Wn c hm cms hb (by omega)
    rw [hmem, if_pos (by rw [ck]; exact h4), t1]
    refine ⟨_, rfl, ?_⟩
    rw [← t2]
    rfl

/-- The pass made by `writeBack`, with the cycle counter at 5 or more, on the latch contents of
a program of arithmetic instructions. -/
theorem writeBack_pass {imem : List instruction_t} {n : Nat} (hp : alu_program imem n)
    (R0 : Nat → Nat) (f c c1 : Nat) (S T W : Option Nat) (s : sim_pipe)
    (hi : pinv imem n R0 f c S T W s.core) (hn : nxt c W c1) (hb : c1 ≤ n + 1)
    (h5 : 5 ≤ s.clkIn) :
    ∃ t, writeBack s = some t ∧
      t.core = (s.core.commit.access.exec.front (ins imem n (f + 1))).finish := by
  obtain ⟨q1, q2, q3, q4, q5, q6, q7⟩ := hi.quiet
  have hm := mid_wb hp R0 f c c1 S T W s.core hi hn hb
  have ha := writeBackCommit_core s (commit_regs hp R0 s.core c c1 W hi.regs hi.forth hn).2
  have hk : (writeBackCommit s).clkIn = s.clkIn := congrArg core.clkIn ha
  rw [← ha] at hm ⊢
  have a1 : (writeBackCommit s).memoryStall = false := (congrArg core.memoryStall ha).trans q1
  have a2 : (writeBackCommit s).stallMem = 0 := (congrArg core.stallMem ha).trans q2
  have hT : holds imem n R0 T ((writeBackCommit s).core.pipe.get THIRD)
      (writeBackCommit s).core.memIR (writeBackCommit s).core.memOut := by
    rw [ha]
    exact hi.third
  have hS : holds imem n R0 S ((writeBackCommit s).core.pipe.get SECOND)
      (writeBackCommit s).core.exeIR (writeBackCommit s).core.aluOut := by
    rw [ha]
    exact hi.second
  obtain ⟨t, t1, t2⟩ :=
    (memory_front hp R0 f c1 S T T (writeBackCommit s) hm hT hS a1 a2).1 (by rw [hk]; exact h5)
  have hw : writeBack s =
      ((((memory (writeBackCommit s)).bind execute).bind decode).bind fetch).map fun s =>
        if s.specialP_Reg.get WB IR = EOP.toNat ∧ s.noBranches = true then
          { s with runAlways := false }
        else { s with clkIn := u64 (s.clkIn + 1) } := by
    unfold writeBack
    dsimp only
    rw [if_pos (by rw [hk]; exact h5)]
  rw [hw, t1]
  refine ⟨_, rfl, ?_⟩
  rw [← t2]
  exact finish_core t

/-- The pass made by `memory`, with the cycle counter at 4, on the latch contents of a program
of arithmetic instructions. -/
theorem memory_pass {imem : List instruction_t} {n : Nat} (hp : alu_program imem n)
    (R0 : Nat → Nat) (f c : Nat) (S T : Option Nat) (s : sim_pipe)
    (hi : pinv imem n R0 f c S T none s.core) (hc : c ≤ n) (h4 : s.clkIn = 4) :
    ∃ t, memory s = some t ∧
      t.core = (s.core.access.exec.front (ins imem n (f + 1))).tick := by
  obtain ⟨q1, q2, q3, q4, q5, q6, q7⟩ := hi.quiet
  exact (memory_front hp R0 f c S T T s (mid_mem hp R0 f c S T s.core hi hc) hi.third hi.second
    q1 q2).2 h4

/-- The pass made by `execute`, with the cycle counter at 3, on the latch contents of a
program of arithmetic instructions. -/
theorem execute_pass_inv {imem : List instruction_t} {n : Nat} (hp : alu_program imem n)
    (R0 : Nat → Nat) (f c : Nat) (S : Option Nat) (s : sim_pipe)
    (hi : pinv imem n R0 f c S none none s.core) (hc : c ≤ n) (h3 : s.clkIn = 3) :
    ∃ t, execute s = some t ∧ t.core = (s.core.exec.front (ins imem n (f + 1))).tick := by
  obtain ⟨q1, q2, q3, q4, q5, q6, q7⟩ := hi.quiet
  exact execute_pass hp R0 f c S none s (mid_exe hp R0 f c S s.core hi hc) q1
    (exec_third hp R0 s.core S hi.second).2.2.2 h3

/-- The pass made by `decode`, with the cycle counter at 2, on the latch contents of a program
of arithmetic instructions. -/
theorem decode_pass_inv {imem : List instruction_t} {n : Nat} (hp : alu_program imem n)
    (R0 : Nat → Nat) (f c : Nat) (s : sim_pipe)
    (hi : pinv imem n R0 f c none none none s.core) (hc : c ≤ n) (hs : s.stalls = 0)
    (h2 : s.clkIn = 2) :
    ∃ t, decode s = some t ∧ t.core = (s.core.front (ins imem n (f + 1))).tick := by
  have hop : s.core.op SECOND = NOP := hi.second
  refine decode_pass hp R0 f c none none s (mid_dec R0 f c s.core hi hc) ?_ h2
  rw [handler_idle s.core hs hop]
  exact hs

/-! ## One pass of the loop of `run` keeps the latch contents in program order -/

/-- When `EOP` is in EX/MEM at the start of a pass, ID/EX holds an instruction. -/
theorem eop_behind {imem : List instruction_t} {n : Nat} {R0 : Nat → Nat} {f c : Nat}
    {S T W : Option Nat} {v : core} (hi : pinv imem n R0 f c S T W v) (k : Nat)
    (hT : T = some k) (hk : n ≤ k) : S ≠ none := by
  intro hS
  obtain ⟨a, b, h1, h2, h3⟩ := hi.chain
  subst hS
  subst hT
  have e1 : k = a := h2.1
  have e2 : b = a + 1 := h2.2
  have e3 : f = b := h3
  rcases hi.phase with h | h | h
  · exact Option.noConfusion (h.2.2 rfl).1
  · have := h.2.1
    omega
  · have := h.2.1
    omega

/-- The state after `decode`, `fetch` and the increment of the cycle counter is again a state
of the loop, one cycle later. -/
theorem after_front {imem : List instruction_t} {n : Nat} (hp : alu_program imem n)
    (R0 : Nat → Nat) (h0 : ∀ x, R0 x < 2 ^ 32) (f c1 : Nat) (S Wn : Option Nat) (w : core)
    (hm : mid imem n R0 f c1 S Wn w) (hc1 : c1 ≤ n) (hlow : 2 ≤ w.clkIn)
    (h3 : w.clkIn = 2 → S = none ∧ Wn = none) (h4 : w.clkIn = 3 → Wn = none)
    (heop : ∀ k, Wn = some k → n ≤ k → w.clkIn = 4 ∧ S ≠ none) :
    good imem n R0 ((w.front (ins imem n (f + 1))).tick) ∧
    ((w.front (ins imem n (f + 1))).tick).runAlways = true ∧
    ((w.front (ins imem n (f + 1))).tick).clkIn = w.clkIn + 1 := by
  obtain ⟨f', S', hp'⟩ := front_spec hp R0 h0 f c1 S Wn w hm
  obtain ⟨_, _, _, b4⟩ := mid_bounds hp hm
  have h32 : (2 : Nat) ^ 32 = 4294967296 := by norm_num
  have hk : ((w.front (ins imem n (f + 1))).tick).clkIn = w.clkIn + 1 := by
    have e : (w.front (ins imem n (f + 1))).clkIn = w.clkIn :=
      congrArg (fun x => x.2.2.1) (front_back w (ins imem n (f + 1)))
    show u64 ((w.front (ins imem n (f + 1))).clkIn + 1) = _
    rw [e]
    exact u64_small _ (by omega)
  refine ⟨⟨f', c1, S', S, Wn, hp', ?_⟩, hp'.quiet.2.2.2.2.2.2, hk⟩
  exact
    { committed := hc1
      low := by
        rw [hk]
        omega
      two := by
        intro h
        rw [hk] at h
        omega
      three := by
        intro h
        rw [hk] at h
        exact h3 (by omega)
      four := by
        intro h
        rw [hk] at h
        exact h4 (by omega)
      eop := by
        intro k a b
        obtain ⟨x, y⟩ := heop k a b
        refine ⟨?_, y⟩
        rw [hk]
        omega }

/-- The pass made by `writeBack` on the latch contents: the run stops with the register file
of program order when `EOP` has passed the MEM stage, else the state is again a state of the
loop, one cycle later. -/
theorem finish_spec {imem : List instruction_t} {n : Nat} (hp : alu_program imem n)
    (R0 : Nat → Nat) (h0 : ∀ x, R0 x < 2 ^ 32) (f c : Nat) (S T W : Option Nat) (v : core)
    (hi : pinv imem n R0 f c S T W v) (hs : pstart n c S T W v) (h5 : 5 ≤ v.clkIn) :
    ∃ c1, nxt c W c1 ∧ c1 ≤ n + 1 ∧
      ((good imem n R0 ((v.commit.access.exec.front (ins imem n (f + 1))).finish) ∧
        ((v.commit.access.exec.front (ins imem n (f + 1))).finish).runAlways = true ∧
        ((v.commit.access.exec.front (ins imem n (f + 1))).finish).clkIn = v.clkIn + 1) ∨
      (((v.commit.access.exec.front (ins imem n (f + 1))).finish).runAlways = false ∧
        ((v.commit.access.exec.front (ins imem n (f + 1))).finish).regs =
          seqRegs imem n R0 n)) := by
  obtain ⟨a, b, h1, h2, h3⟩ := hi.chain
  have hc := hs.committed
  have ha := nxt_le h1
  have hb : a ≤ n + 1 := by omega
  refine ⟨a, h1, hb, ?_⟩
  have hm := mid_wb hp R0 f c a S T W v hi h1 hb
  have hiff := (access_forth hp R0 v.commit T hi.third).2.2.2
  have fb := front_back v.commit.access.exec (ins imem n (f + 1))
  have e1 : (v.commit.access.exec.front (ins imem n (f + 1))).wbIR = v.commit.access.wbIR :=
    congrArg (fun x => x.1) fb
  have e2 : (v.commit.access.exec.front (ins imem n (f + 1))).noBranches = true :=
    congrArg (fun x => x.2.2.2.1) fb
  have e3 : (v.commit.access.exec.front (ins imem n (f + 1))).regs = v.commit.regs :=
    congrArg (fun x => x.2.1) fb
  have hwk : v.commit.access.exec.clkIn = v.clkIn := rfl
  by_cases hE : ∃ k, T = some k ∧ n ≤ k
  · right
    have hf : (v.commit.access.exec.front (ins imem n (f + 1))).finish =
        { v.commit.access.exec.front (ins imem n (f + 1)) with runAlways := false } := by
      unfold core.finish
      rw [if_pos ⟨e1.trans (hiff.mpr hE), e2⟩]
    rw [hf]
    refine ⟨rfl, ?_⟩
    show (v.commit.access.exec.front (ins imem n (f + 1))).regs = _
    rw [e3, (commit_regs hp R0 v c a W hi.regs hi.forth h1).1]
    obtain ⟨k, k1, k2⟩ := hE
    subst k1
    have ek : k = a := h2.1
    exact seqRegs_ge imem n R0 a (by omega)
  · left
    have hf : (v.commit.access.exec.front (ins imem n (f + 1))).finish =
        (v.commit.access.exec.front (ins imem n (f + 1))).tick := by
      unfold core.finish
      rw [if_neg (fun x => hE (hiff.mp (e1.symm.trans x.1)))]
    rw [hf]
    have hc1 : a ≤ n := by
      cases T with
      | some k =>
        have ek : k = a := h2.1
        have hk : ¬ n ≤ k := fun x => hE ⟨k, rfl, x⟩
        omega
      | none =>
        cases W with
        | none =>
          have ea : a = c := h1
          omega
        | some j =>
          have ej : j = c := h1.1
          have ea : a = c + 1 := h1.2
          have hj : ¬ n ≤ j := fun x => (hs.eop j rfl x).2 rfl
          omega
    exact after_front hp R0 h0 f a S T v.commit.access.exec hm hc1 (by omega)
      (fun x => absurd x (by omega)) (fun x => absurd x (by omega))
      (fun k x y => absurd ⟨k, x, y⟩ hE)

/-- One pass of the loop of `run` from a state of the loop: the run stops with the register
file of program order, or the next state is a state of the loop one cycle later. -/
theorem good_step {imem : List instruction_t} {n : Nat} (hp : alu_program imem n)
    (R0 : Nat → Nat) (h0 : ∀ x, R0 x < 2 ^ 32) (s : sim_pipe) (hg : good imem n R0 s.core) :
    ∃ s', dispatch s = some s' ∧
      ((s'.runAlways = true ∧ good imem n R0 s'.core ∧ s'.clkIn = s.clkIn + 1) ∨
        (s'.runAlways = false ∧ s'.generalP_Reg = seqRegs imem n R0 n)) := by
  obtain ⟨f, c, S, T, W, hi, hs⟩ := hg
  have hlow : 2 ≤ s.clkIn := hs.low
  have hc := hs.committed
  by_cases h5 : 5 ≤ s.clkIn
  · obtain ⟨c1, n1, b1, hr⟩ := finish_spec hp R0 h0 f c S T W s.core hi hs h5
    obtain ⟨t, t1, t2⟩ := writeBack_pass hp R0 f c c1 S T W s hi n1 b1 h5
    rw [dispatch_writeBack s h5]
    refine ⟨t, t1, ?_⟩
    rw [← t2] at hr
    rcases hr with ⟨r1, r2, r3⟩ | ⟨r1, r2⟩
    · exact Or.inl ⟨r2, r1, r3⟩
    · exact Or.inr ⟨r1, r2⟩
  · by_cases h4 : s.clkIn = 4
    · have hW : W = none := hs.four h4
      subst hW
      obtain ⟨t, t1, t2⟩ := memory_pass hp R0 f c S T s hi hc h4
      have hr := after_front hp R0 h0 f c S T s.core.access.exec
        (mid_mem hp R0 f c S T s.core hi hc) hc hlow
        (fun x => absurd (show s.clkIn = 2 from x) (by omega))
        (fun x => absurd (show s.clkIn = 3 from x) (by omega))
        (fun k x y => ⟨h4, eop_behind hi k x y⟩)
      rw [dispatch_memory s h4]
      refine ⟨t, t1, Or.inl ?_⟩
      rw [← t2] at hr
      exact ⟨hr.2.1, hr.1, hr.2.2⟩
    · by_cases h3 : s.clkIn = 3
      · obtain ⟨hT, hW⟩ := hs.three h3
        subst hT
        subst hW
        obtain ⟨t, t1, t2⟩ := execute_pass_inv hp R0 f c S s hi hc h3
        have hr := after_front hp R0 h0 f c S none s.core.exec
          (mid_exe hp R0 f c S s.core hi hc) hc hlow
          (fun x => absurd (show s.clkIn = 2 from x) (by omega))
          (fun _ => rfl)
          (fun k x _ => Option.noConfusion x)
        have hd : dispatch s = execute s := by
          unfold dispatch
          rw [if_neg (by rw [h3]; decide), if_neg (by rw [h3]; decide), if_pos h3]
        rw [hd]
        refine ⟨t, t1, Or.inl ?_⟩
        rw [← t2] at hr
        exact ⟨hr.2.1, hr.1, hr.2.2⟩
      · have h2 : s.clkIn = 2 := by omega
        obtain ⟨hS, hT, hW, hst⟩ := hs.two h2
        subst hS
        subst hT
        subst hW
        obtain ⟨t, t1, t2⟩ := decode_pass_inv hp R0 f c s hi hc hst h2
        have hr := after_front hp R0 h0 f c none none s.core
          (mid_dec R0 f c s.core hi hc) hc hlow
          (fun _ => ⟨rfl, rfl⟩)
          (fun _ => rfl)
          (fun k x _ => Option.noConfusion x)
        have hd : dispatch s = decode s := by
          unfold dispatch
          rw [if_neg (by rw [h2]; decide), if_pos h2]
        rw [hd]
        refine ⟨t, t1, Or.inl ?_⟩
        rw [← t2] at hr
        exact ⟨hr.2.1, hr.1, hr.2.2⟩

/-! ## The loop of `run` on a program of arithmetic instructions -/

/-- In a state of the loop the cycle counter is bounded by the length of the program. -/
theorem good_clock {imem : List instruction_t} {n : Nat} {R0 : Nat → Nat} {v : core}
    (hg : good imem n R0 v) : v.clkIn ≤ 3 * n + 13 := by
  obtain ⟨f, c, S, T, W, hi, hs⟩ := hg
  obtain ⟨a, b, h1, h2, h3⟩ := hi.chain
  have a1 := nxt_le h1
  have a2 := nxt_le h2
  have a3 := nxt_le h3
  have hc := hs.committed
  rcases hi.phase with h | h | h
  · omega
  · omega
  · omega

/-- From a state of the loop, the loop of `run` returns within the passes that the bound on
the cycle counter leaves, with the register file of program order. -/
theorem good_run {imem : List instruction_t} {n : Nat} (hp : alu_program imem n)
    (R0 : Nat → Nat) (h0 : ∀ x, R0 x < 2 ^ 32) :
    ∀ (d : Nat) (s : sim_pipe), good imem n R0 s.core → s.clkIn + d = 3 * n + 14 →
      ∃ t, run_loop d s = run_result.returned t ∧ t.generalP_Reg = seqRegs imem n R0 n := by
  intro d
  induction d with
  | zero =>
    intro s hg hd
    have hb : s.clkIn ≤ 3 * n + 13 := good_clock hg
    omega
  | succ d ih =>
    intro s hg hd
    obtain ⟨s', h1, h2⟩ := good_step hp R0 h0 s hg
    rw [run_loop, h1]
    dsimp only
    rcases h2 with ⟨r1, r2, r3⟩ | ⟨r1, r2⟩
    · rw [if_pos r1]
      exact ih s' r2 (by omega)
    · rw [if_neg (by rw [r1]; decide)]
      exact ⟨s', rfl, r2⟩

/-- The instruction in slot 0 is `ins 0`. -/
theorem ins_zero {imem : List instruction_t} {n : Nat} (hp : alu_program imem n) :
    imem[0]? = some (ins imem n 0) := by
  by_cases h : 0 < n
  · exact (ins_lt hp 0 h).1
  · have e : n = 0 := by omega
    have h1 := (ins_ge hp 0 (by omega)).2.1
    rw [e] at h1 ⊢
    exact h1

/-- The first pass of the loop of `run`, made by `fetch`, leads to a state of the loop with
the cycle counter at 2. -/
theorem first_pass {imem : List instruction_t} {n : Nat} (hp : alu_program imem n)
    (R0 : Nat → Nat) (s : sim_pipe) (hi : pinit imem R0 s.core) :
    ∃ t, dispatch s = some t ∧ t.runAlways = true ∧ good imem n R0 t.core ∧ t.clkIn = 2 := by
  obtain ⟨q1, q2, q3, q4, q5, q6, q7⟩ := hi.quiet
  have hc : s.clkIn = 1 := hi.clock
  have hcount : s.inst_count = 0 := hi.count
  have hprog : s.instr_memory = imem := hi.prog
  have hd : dispatch s = fetch s := by
    unfold dispatch
    rw [if_pos hc]
  obtain ⟨t, t1, t2⟩ := fetch_load_core s (ins imem n 0) q1 hi.stalls q5
    (by rw [hcount]; decide) (by rw [hcount, hprog]; exact ins_zero hp)
  rw [if_pos hc] at t2
  have e : (s.core.load (ins imem n 0)).tick =
      { s.core with
        pipe := s.core.pipe.set FIRST { s.core.pipe.get FIRST with pipe_IR := ins imem n 0 }
        idIR := (ins imem n 0).opcode.toNat
        inst_count :=
          if (ins imem n 0).opcode.toNat ≠ EOP.toNat then u64 (s.core.inst_count + 1)
          else s.core.inst_count
        clkIn := u64 (s.core.clkIn + 1) } := rfl
  have hk : u64 (s.core.clkIn + 1) = 2 := by
    rw [hi.clock]
    rfl
  have hpv : pinv imem n R0 0 0 none none none ((s.core.load (ins imem n 0)).tick) := by
    rw [e]
    exact
      { prog := hi.prog
        regs := hi.regs
        first_ir := rfl
        first_id := rfl
        first_ix := by
          show (if (ins imem n 0).opcode.toNat ≠ EOP.toNat then u64 (s.core.inst_count + 1)
            else s.core.inst_count) = min (0 + 1) n
          rw [hi.count]
          by_cases hlt : 0 < n
          · rw [if_pos (is_alu_toNat _ (ins_lt hp _ hlt).2.1).2.2.1]
            have e1 : u64 (0 + 1) = 1 := rfl
            rw [e1]
            omega
          · rw [(ins_ge hp _ (Nat.le_of_not_lt hlt)).2.2.1, if_neg (fun x => x rfl)]
            omega
        second := hi.second
        third := hi.third
        forth := hi.forth
        chain := ⟨0, 0, rfl, rfl, rfl⟩
        quiet := ⟨q1, q2, q3, q4, q5, q6, q7⟩
        phase := by
          refine Or.inl ⟨hi.stalls, ?_, fun _ => ⟨rfl, rfl⟩⟩
          show u64 (s.core.clkIn + 1) ≤ 3 * 0 + 2
          rw [hk] }
  have hps : pstart n 0 none none none ((s.core.load (ins imem n 0)).tick) := by
    rw [e]
    exact
      { committed := Nat.zero_le n
        low := by
          show 2 ≤ u64 (s.core.clkIn + 1)
          rw [hk]
        two := fun _ => ⟨rfl, rfl, rfl, hi.stalls⟩
        three := fun _ => ⟨rfl, rfl⟩
        four := fun _ => rfl
        eop := fun k x _ => Option.noConfusion x }
  rw [hd]
  refine ⟨t, t1, ?_, ?_, ?_⟩
  · exact (congrArg core.runAlways t2).trans q7
  · rw [t2]
    exact ⟨0, 0, none, none, none, hpv, hps⟩
  · exact (congrArg core.clkIn t2).trans hk

/-- The method `run(0)` from the state left by `load_program` returns, with the register file
of program order. -/
theorem pinit_run {imem : List instruction_t} {n : Nat} (hp : alu_program imem n)
    (R0 : Nat → Nat) (h0 : ∀ x, R0 x < 2 ^ 32) (s : sim_pipe) (hi : pinit imem R0 s.core) :
    ∃ t, run_loop (3 * n + 13) s = run_result.returned t ∧
      t.generalP_Reg = seqRegs imem n R0 n := by
  obtain ⟨s1, h1, h2, h3, h4⟩ := first_pass hp R0 s hi
  have e : 3 * n + 13 = (3 * n + 12) + 1 := rfl
  rw [e, run_loop, h1]
  dsimp only
  rw [if_pos h2]
  exact good_run hp R0 h0 (3 * n + 12) s1 h3 (by omega)

/-! ## Loading a program of arithmetic instructions -/

/-- The parsing loop of `load_program` is total on a file that fits into the instruction
memory, and stores each line into the slot as it was before the call. -/
theorem loadLines_total : ∀ (lines : List asm_line) (nr : Nat) (imem : List instruction_t)
    (labels : List (String × Nat)), nr + lines.length ≤ PROGRAM_SIZE →
    PROGRAM_SIZE ≤ imem.length →
    ∃ imem' labels', loadLines lines nr imem labels = some (imem', labels') ∧
      ∀ (j : Nat) (l : asm_line) (slot : instruction_t), lines[j]? = some l →
        imem[nr + j]? = some slot → imem'[nr + j]? = some (l.store slot) := by
  intro lines
  induction lines with
  | nil =>
    intro nr imem labels _ _
    exact ⟨imem, labels, rfl, fun j l slot hl _ => by cases hl⟩
  | cons l0 ls ih =>
    intro nr imem labels h1 h2
    have hlen : (l0 :: ls).length = ls.length + 1 := rfl
    have hnr : nr < PROGRAM_SIZE := by omega
    have hlt : nr < imem.length := by omega
    have hs : imem[nr]? = some imem[nr] := List.getElem?_eq_getElem hlt
    obtain ⟨imem', labels', e, sl⟩ := ih (nr + 1) (imem.set nr (l0.store imem[nr]))
      (match l0.label with
        | some name => (name, nr) :: labels
        | none => labels)
      (by omega) (by rw [List.length_set]; exact h2)
    have e' : loadLines (l0 :: ls) nr imem labels = some (imem', labels') := by
      rw [loadLines, if_pos hnr, hs]
      exact e
    refine ⟨imem', labels', e', ?_⟩
    intro j l slot hl hslot
    cases j with
    | zero =>
      rw [List.getElem?_cons_zero] at hl
      cases hl
      rw [Nat.add_zero] at hslot ⊢
      rw [hs] at hslot
      cases hslot
      rw [loadLines_below _ _ _ _ _ _ e nr (by omega)]
      exact List.getElem?_set_self hlt
    | succ j =>
      rw [List.getElem?_cons_succ] at hl
      have e1 : nr + (j + 1) = nr + 1 + j := by omega
      rw [e1] at hslot ⊢
      refine sl j l slot hl ?_
      rw [List.getElem?_set_ne (by omega)]
      exact hslot

/-- An arithmetic opcode is neither `EOP` nor one of the opcodes with a branch target. -/
theorem is_alu_plain (o : opcode_t) (h : is_alu o = true) :
    o ≠ EOP ∧
    ¬ (o = BLTZ ∨ o = BNEZ ∨ o = BGTZ ∨ o = BEQZ ∨ o = BGEZ ∨ o = BLEZ ∨ o = JUMP) ∧
    (o = ADD ∨ o = ADDI ∨ o = SUB ∨ o = SUBI ∨ o = XOR) := by
  cases o <;> first | (exfalso; revert h; decide) | decide

/-- The resolution loop of `load_program` leaves a program of arithmetic instructions as it
is, and stops at its `EOP`. -/
theorem resolveLabels_alu {imem : List instruction_t} {n : Nat} (hp : alu_program imem n)
    (labels : List (String × Nat)) :
    ∀ (d k fuel : Nat), k + d = n → d < fuel →
      resolveLabels fuel k imem labels = some (imem, labels) := by
  have hn : n < PROGRAM_SIZE := hp.size
  intro d
  induction d with
  | zero =>
    intro k fuel hk hf
    cases fuel with
    | zero => omega
    | succ fuel =>
      have e : k = n := by omega
      obtain ⟨x, x1, x2, _⟩ := hp.last
      rw [resolveLabels, if_pos (by omega), e, x1]
      dsimp only
      rw [if_pos x2]
  | succ d ih =>
    intro k fuel hk hf
    cases fuel with
    | zero => omega
    | succ fuel =>
      obtain ⟨i, i1, i2, _⟩ := hp.body k (by omega)
      obtain ⟨a1, a2, _⟩ := is_alu_plain _ i2
      rw [resolveLabels, if_pos (by omega), i1]
      dsimp only
      rw [if_neg a1, if_neg a2]
      exact ih (k + 1) fuel (by omega) (by omega)

/-- The slot that `load_program` fills for a line with an arithmetic opcode or `EOP`, from a
zero-filled slot. -/
theorem store_zero (l : asm_line) :
    (is_alu l.opcode = true →
      (l.store instruction_t.zero).dest = u32 l.par1 ∧
      (l.store instruction_t.zero).src1 = u32 l.par2 ∧
      ((l.opcode = ADD ∨ l.opcode = SUB ∨ l.opcode = XOR) →
        (l.store instruction_t.zero).src2 = u32 l.par3) ∧
      (¬ (l.opcode = ADD ∨ l.opcode = SUB ∨ l.opcode = XOR) →
        (l.store instruction_t.zero).src2 = 0)) ∧
    (l.opcode = EOP →
      (l.store instruction_t.zero).src1 = (l.store instruction_t.zero).dest) := by
  obtain ⟨lab, o, p1, p2, p3, tg⟩ := l
  refine ⟨fun h => ?_, fun h => ?_⟩
  · have h' : is_alu o = true := h
    cases o <;> first
      | exact absurd h' (by decide)
      | exact ⟨rfl, rfl, fun _ => rfl, fun x => absurd (Or.inl rfl) x⟩
      | exact ⟨rfl, rfl, fun _ => rfl, fun x => absurd (Or.inr (Or.inl rfl)) x⟩
      | exact ⟨rfl, rfl, fun _ => rfl, fun x => absurd (Or.inr (Or.inr rfl)) x⟩
      | (refine ⟨rfl, rfl, ?_, fun _ => rfl⟩; rintro (x | x | x) <;> cases x)
  · have h' : o = EOP := h
    subst h'
    rfl

/-- The instruction memory that `load_program` builds from a file of arithmetic instructions
with register indices below 32, followed by `EOP`, in a zero-filled instruction memory. -/
theorem loaded_program (prog : List asm_line) (e : asm_line) (labels : List (String × Nat))
    (hlen : prog.length ≤ 49)
    (hops : ∀ l ∈ prog, is_alu l.opcode = true ∧ l.par1 < 32 ∧ l.par2 < 32 ∧
      (l.opcode = ADD ∨ l.opcode = SUB ∨ l.opcode = XOR → l.par3 < 32))
    (he : e.opcode = EOP) :
    ∃ imem labels', loadLines (prog ++ [e]) 0
        (List.replicate PROGRAM_SIZE instruction_t.zero) labels = some (imem, labels') ∧
      resolveLabels (PROGRAM_SIZE + 1) 0 imem labels' = some (imem, labels') ∧
      alu_program imem prog.length := by
  have h50 : PROGRAM_SIZE = 50 := rfl
  have hl : (prog ++ [e]).length = prog.length + 1 := by
    rw [List.length_append]
    rfl
  obtain ⟨imem, labels', e1, sl⟩ := loadLines_total (prog ++ [e]) 0
    (List.replicate PROGRAM_SIZE instruction_t.zero) labels (by omega)
    (by rw [List.length_replicate])
  have hslot : ∀ (j : Nat) (l : asm_line), j < PROGRAM_SIZE → (prog ++ [e])[j]? = some l →
      imem[j]? = some (l.store instruction_t.zero) := by
    intro j l hj hjl
    have x := sl j l instruction_t.zero hjl
      (by rw [Nat.zero_add]; exact List.getElem?_replicate_of_lt hj)
    rw [Nat.zero_add] at x
    exact x
  have hu : ∀ x : Nat, x < 32 → u32 x < 32 := by
    intro x hx
    exact lt_of_le_of_lt (Nat.mod_le _ _) hx
  have hp : alu_program imem prog.length :=
    { size := by omega
      body := by
        intro k hk
        have hk' : (prog ++ [e])[k]? = some prog[k] := by
          rw [List.getElem?_append_left hk]
          exact List.getElem?_eq_getElem hk
        obtain ⟨o1, o2, o3, o4⟩ := hops prog[k] (List.getElem_mem hk)
        obtain ⟨s1, s2, s3, s4⟩ := (store_zero prog[k]).1 o1
        refine ⟨_, hslot k _ (by omega) hk', ?_, ?_, ?_, ?_⟩
        · rw [store_opcode]
          exact o1
        · rw [s1]
          exact hu _ o2
        · rw [s2]
          exact hu _ o3
        · by_cases hc : prog[k].opcode = ADD ∨ prog[k].opcode = SUB ∨ prog[k].opcode = XOR
          · rw [s3 hc]
            exact hu _ (o4 hc)
          · rw [s4 hc]
            decide
      last := by
        have hk' : (prog ++ [e])[prog.length]? = some e := by
          rw [List.getElem?_append_right (Nat.le_refl _), Nat.sub_self]
          rfl
        refine ⟨_, hslot prog.length _ (by omega) hk', ?_, (store_zero e).2 he⟩
        rw [store_opcode]
        exact he }
  exact ⟨imem, labels', e1, resolveLabels_alu hp labels' prog.length 0 _ (by omega) (by omega),
    hp⟩

/-! ## Execution in program order -/

/-- The reference execution of a program of arithmetic instructions from instruction `k`, with
the register file that program order gives before it, ends at `EOP` with the register file of
program order. -/
theorem seq_run_alu {imem : List instruction_t} {n : Nat} (hp : alu_program imem n)
    (labels : List (String × Nat)) (mem_size : Nat) (mem : Nat → Nat) (R0 : Nat → Nat) :
    ∀ (d k : Nat), k + d = n →
      seq_run imem labels mem_size (d + 1)
        { pc := k, regs := seqRegs imem n R0 k, mem := mem } =
      some { pc := n, regs := seqRegs imem n R0 n, mem := mem } := by
  intro d
  induction d with
  | zero =>
    intro k hk
    have e : k = n := by omega
    subst e
    obtain ⟨_, x1, x2, _⟩ := ins_ge hp k (Nat.le_refl k)
    rw [seq_run]
    dsimp only
    rw [x1]
    dsimp only
    rw [x2]
  | succ d ih =>
    intro k hk
    have hlt : k < n := by omega
    obtain ⟨i1, i2, _⟩ := ins_lt hp k hlt
    have h := ih (k + 1) (by omega)
    rw [seqRegs_succ imem n R0 k hlt] at h
    unfold res at h
    rw [seq_run]
    dsimp only
    rw [i1]
    dsimp only
    rcases (is_alu_plain _ i2).2.2 with o | o | o | o | o <;>
    · rw [o] at h ⊢
      exact h

/-! ## The pipeline executes programs of arithmetic instructions in program order -/

/-- The conversion of `set_gp_register` gives a 32-bit value. -/
theorem ofInt32_lt (v : Int) : ofInt32 v < 2 ^ 32 := by
  unfold ofInt32
  have h1 : v % 2 ^ 32 < 2 ^ 32 := Int.emod_lt_of_pos v (by norm_num)
  have h2 : 0 ≤ v % 2 ^ 32 := Int.emod_nonneg v (by norm_num)
  omega

/-- Calls of `set_gp_register` change the register file only, and leave 32-bit values in
it. -/
theorem set_registers (inits : List (Nat × Int)) :
    ∀ (s : sim_pipe), (∀ x, s.generalP_Reg x < 2 ^ 32) →
      ∃ R : Nat → Nat,
        inits.foldl (fun s p => s.set_gp_register p.1 p.2) s = { s with generalP_Reg := R } ∧
        ∀ x, R x < 2 ^ 32 := by
  induction inits with
  | nil =>
    intro s h
    exact ⟨s.generalP_Reg, rfl, h⟩
  | cons p ps ih =>
    intro s h
    rw [List.foldl_cons]
    by_cases hr : p.1 < NUM_GP_REGISTERS
    · have e : s.set_gp_register p.1 p.2 =
          { s with generalP_Reg := upd s.generalP_Reg p.1 (ofInt32 p.2) } := by
        unfold set_gp_register
        rw [if_pos hr]
      rw [e]
      obtain ⟨R, r1, r2⟩ := ih { s with generalP_Reg := upd s.generalP_Reg p.1 (ofInt32 p.2) }
        (by
          intro x
          show upd s.generalP_Reg p.1 (ofInt32 p.2) x < 2 ^ 32
          unfold upd
          split_ifs
          · exact ofInt32_lt _
          · exact h x)
      exact ⟨R, r1, r2⟩
    · have e : s.set_gp_register p.1 p.2 = s := by
        unfold set_gp_register
        rw [if_neg hr]
      rw [e]
      exact ih s h

/-- The method `load_program` succeeds on a file of arithmetic instructions followed by `EOP`
in a new simulator, and leaves the program in the instruction memory and the state in which
`run` starts. -/
theorem load_alu_program (prog : List asm_line) (e : asm_line) (mem_size latency base : Nat)
    (hlen : prog.length ≤ 49)
    (hops : ∀ l ∈ prog, is_alu l.opcode = true ∧ l.par1 < 32 ∧ l.par2 < 32 ∧
      (l.opcode = ADD ∨ l.opcode = SUB ∨ l.opcode = XOR → l.par3 < 32))
    (he : e.opcode = EOP) :
    ∃ s0, (sim_pipe.new mem_size latency).load_program (prog ++ [e]) base = some s0 ∧
      alu_program s0.instr_memory prog.length ∧ (∀ x, s0.generalP_Reg x < 2 ^ 32) ∧
      ∀ R : Nat → Nat,
        pinit s0.instr_memory R
          ({ s0 with generalP_Reg := R, runAlways := true } : sim_pipe).core := by
  obtain ⟨imem, labels, e1, e2, hp⟩ := loaded_program prog e [] hlen hops he
  have hl : (sim_pipe.new mem_size latency).load_program (prog ++ [e]) base =
      some
        { (({ sim_pipe.new mem_size latency with instr_base_address := u32 base } :
            sim_pipe).setSP IF PC (u32 base)) with
          instr_memory := imem
          labelPCMap := [] ++ labels } := by
    show (loadLines (prog ++ [e]) 0 (List.replicate PROGRAM_SIZE instruction_t.zero) []).bind _ = _
    rw [e1, Option.some_bind]
    dsimp only
    rw [e2]
    rfl
  refine ⟨_, hl, hp, ?_, ?_⟩
  · intro x
    show UNDEFINED < 2 ^ 32
    decide
  · intro R
    exact
      { prog := rfl
        regs := rfl
        second := rfl
        third := rfl
        forth := rfl
        count := rfl
        clock := rfl
        stalls := rfl
        quiet := ⟨rfl, rfl, rfl, rfl, rfl, rfl, rfl⟩ }

/-- C36. For every program of at most 49 instructions drawn from `ADD`, `ADDI`, `SUB`, `SUBI`
and `XOR` with register indices below 32, followed by `EOP`, every data-memory size and
latency, every base address and every sequence of `set_gp_register` calls that sets the
initial register file: `load_program` succeeds, `run(0)` returns within `3 * n + 13` passes of
its loop, the execution of the instructions one at a time in program order reaches `EOP`, and
the final register file of the pipeline is the one of the execution in program order. -/
theorem c36_alu_programs_run_in_program_order (prog : List asm_line) (e : asm_line)
    (mem_size latency base : Nat) (inits : List (Nat × Int))
    (hlen : prog.length ≤ 49)
    (hops : ∀ l ∈ prog, is_alu l.opcode = true ∧ l.par1 < 32 ∧ l.par2 < 32 ∧
      (l.opcode = ADD ∨ l.opcode = SUB ∨ l.opcode = XOR → l.par3 < 32))
    (he : e.opcode = EOP) :
    ∃ s0 t st, (sim_pipe.new mem_size latency).load_program (prog ++ [e]) base = some s0 ∧
      (inits.foldl (fun s p => s.set_gp_register p.1 p.2) s0).run (3 * prog.length + 13) 0 =
        run_result.returned t ∧
      (inits.foldl (fun s p => s.set_gp_register p.1 p.2) s0).seq (prog.length + 1) = some st ∧
      t.generalP_Reg = st.regs := by
  obtain ⟨s0, h1, hp, hb, hi⟩ := load_alu_program prog e mem_size latency base hlen hops he
  obtain ⟨R, r1, r2⟩ := set_registers inits s0 hb
  obtain ⟨t, t1, t2⟩ := pinit_run hp R r2 _ (hi R)
  refine ⟨s0, t,
    { pc := prog.length, regs := seqRegs s0.instr_memory prog.length R prog.length,
      mem := s0.data_memory }, h1, ?_, ?_, ?_⟩
  · rw [r1]
    exact t1
  · rw [r1]
    exact seq_run_alu hp s0.labelPCMap s0.data_memory_size s0.data_memory R
      prog.length 0 (Nat.zero_add _)
  · exact t2

/-- C36 on the program `ADDI R1 R0 5; ADDI R2 R0 7; ADD R3 R1 R2; EOP`, whose last instruction
reads the results of the two before it, from a register file in which R0 is set to 0. -/
theorem c36_alu_programs_run_in_program_order_witness :
    ([asm ADDI 1 0 5, asm ADDI 2 0 7, asm ADD 3 1 2].length ≤ 49 ∧
      (∀ l ∈ [asm ADDI 1 0 5, asm ADDI 2 0 7, asm ADD 3 1 2],
        is_alu l.opcode = true ∧ l.par1 < 32 ∧ l.par2 < 32 ∧
          (l.opcode = ADD ∨ l.opcode = SUB ∨ l.opcode = XOR → l.par3 < 32)) ∧
      (asm EOP 0 0 0).opcode = EOP) ∧
    ∃ s0 t st,
      (sim_pipe.new 16 0).load_program
        ([asm ADDI 1 0 5, asm ADDI 2 0 7, asm ADD 3 1 2] ++ [asm EOP 0 0 0]) 0 = some s0 ∧
      ([((0 : Nat), (0 : Int))].foldl (fun s p => s.set_gp_register p.1 p.2) s0).run
          (3 * [asm ADDI 1 0 5, asm ADDI 2 0 7, asm ADD 3 1 2].length + 13) 0 =
        run_result.returned t ∧
      ([((0 : Nat), (0 : Int))].foldl (fun s p => s.set_gp_register p.1 p.2) s0).seq
          ([asm ADDI 1 0 5, asm ADDI 2 0 7, asm ADD 3 1 2].length + 1) = some st ∧
      t.generalP_Reg = st.regs :=
  ⟨⟨by decide, by decide, rfl⟩,
    c36_alu_programs_run_in_program_order [asm ADDI 1 0 5, asm ADDI 2 0 7, asm ADD 3 1 2]
      (asm EOP 0 0 0) 16 0 0 [(0, 0)] (by decide) (by decide) rfl⟩

/-! ## The instruction counter changes in calls of `fetch` only -/

/-- The change of the instruction counter from `n` to `n'` by `c` counted instructions, `c`
being 0 or 1: unchanged, or incremented in 64 bits. -/
theorem counted_u32 (n n' c : Nat)
    (h : (c = 0 ∧ n' = n) ∨ (c = 1 ∧ n' = u64 (n + 1))) : u32 n' = u32 (u32 n + c) := by
  rcases h with ⟨hc, hn⟩ | ⟨hc, hn⟩
  · rw [hc, hn]
    unfold u32
    simp
  · rw [hc, hn]
    exact u32_u64_succ n

/-- A call of `fetch` that returns changes the instruction counter by what it is to count. -/
theorem fetch_counts_spec (s s' : sim_pipe) (h : fetch s = some s') :
    (fetch_counts s = 0 ∧ s'.totalInstCount = s.totalInstCount) ∨
    (fetch_counts s = 1 ∧ s'.totalInstCount = u64 (s.totalInstCount + 1)) := by
  rw [fetch_eq] at h
  unfold fetch_counts
  by_cases h1 : s.memoryStall = true
  · rw [if_pos h1] at h
    simp only [Option.some.injEq] at h
    subst h
    left
    refine ⟨?_, rfl⟩
    rw [if_neg]
    intro x
    rw [h1] at x
    exact Bool.noConfusion x.1
  · rw [if_neg h1] at h
    have hm : s.memoryStall = false := by
      cases hb : s.memoryStall
      · rfl
      · exact absurd hb h1
    by_cases h2 : s.stalls ≠ 0
    · rw [if_pos h2] at h
      simp only [Option.some.injEq] at h
      left
      refine ⟨?_, ?_⟩
      · rw [if_neg (fun x => h2 x.2)]
      · rw [← h]
        split_ifs <;> rfl
    · rw [if_neg h2] at h
      have hs : s.stalls = 0 := not_not.mp h2
      obtain ⟨j, hj, h⟩ := Option.bind_eq_some.mp h
      obtain ⟨instr, hi, h⟩ := Option.bind_eq_some.mp h
      simp only [Option.some.injEq] at h
      have hjc := (fetchJump_frame s j hj).2.1
      have hf : fetched s = some instr := by
        unfold fetched
        rw [hj]
        exact hi
      have ht : s'.totalInstCount = (fetchLoad j instr).totalInstCount := by
        rw [← h]
        split_ifs <;> rfl
      rw [if_pos ⟨hm, hs⟩, hf]
      dsimp only
      by_cases he : instr.opcode = EOP
      · left
        refine ⟨if_neg (fun x => x he), ?_⟩
        rw [ht, (fetchLoad_EOP j instr he).2.2.2.1, hjc]
      · right
        refine ⟨if_pos he, ?_⟩
        rw [ht, (fetchLoad_count j instr he).1, hjc]

/-- A call of `decode` with the cycle counter not at 2 leaves the instruction counter as it
is. -/
theorem decode_inner (s s' : sim_pipe) (h : decode s = some s') (hc : s.clkIn ≠ 2) :
    s'.totalInstCount = s.totalInstCount := by
  rw [decode_eq] at h
  have a := (hazardHandler_frame s).2.1
  have b := (decodeRead_frame (hazardHandler s)).2.1
  have c := (decodeLatch_frame (decodeRead (hazardHandler s))).2.1
  have hk : ¬ (decodeLatch (decodeRead (hazardHandler s))).clkIn = ID + 1 := by
    rw [decodeLatch_clkIn, decodeRead_clkIn, (hazardHandler_clkIn s).1]
    exact hc
  by_cases h1 : (hazardHandler s).memoryStall = true
  · rw [if_pos h1] at h
    simp only [Option.some.injEq] at h
    subst h
    exact a
  · rw [if_neg h1] at h
    by_cases h2 : (hazardHandler s).stalls ≠ 0 ∧ (hazardHandler s).branchStall = false
    · rw [if_pos h2] at h
      simp only [Option.some.injEq] at h
      subst h
      exact a
    · rw [if_neg h2, if_neg hk] at h
      simp only [Option.some.injEq] at h
      subst h
      exact c.trans (b.trans a)

/-- A call of `decode` that returns leaves the cycle counter as it is unless it is 2. -/
theorem decode_inner_clkIn (s s' : sim_pipe) (h : decode s = some s') (hc : s.clkIn ≠ 2) :
    s'.clkIn = s.clkIn := by
  rcases decode_clock s s' h with x | x
  · exact x
  · exact absurd x.1 hc

/-- A call of `execute` with the cycle counter not at 3 leaves the instruction counter and the
cycle counter as they are. -/
theorem execute_inner (s s' : sim_pipe) (h : execute s = some s') (hc : s.clkIn ≠ 3) :
    s'.totalInstCount = s.totalInstCount ∧ s'.clkIn = s.clkIn := by
  unfold execute at h
  have a := (executeAlu_frame s).2.1
  have b := (executeBranch_frame (executeAlu s)).2.1
  have c := (executeLatch_frame (executeBranch (executeAlu s))).2.1
  have hk := (executeBody_clkIn s).1
  by_cases h1 : s.memoryStall = true
  · rw [if_pos h1] at h
    simp only [Option.some.injEq] at h
    subst h
    exact ⟨rfl, rfl⟩
  · rw [if_neg h1] at h
    have h2 : ¬ (executeLatch (executeBranch (executeAlu s))).clkIn = EXE + 1 := by
      rw [hk]
      exact hc
    simp only [h2, if_false, Option.some.injEq] at h
    subst h
    exact ⟨c.trans (b.trans a), hk⟩

/-- A call of `memory` with the cycle counter not at 4 leaves the instruction counter and the
cycle counter as they are. -/
theorem memory_inner (s s' : sim_pipe) (h : memory s = some s') (hc : s.clkIn ≠ 4) :
    s'.totalInstCount = s.totalInstCount ∧ s'.clkIn = s.clkIn := by
  unfold memory at h
  have a := (memoryWait_frame s).2
  have ak := memoryWait_clkIn s
  by_cases h1 : (memoryWait s).memoryStall = true
  · simp only [h1, if_true, Option.some.injEq] at h
    subst h
    exact ⟨a, ak⟩
  · simp only [h1, if_false] at h
    obtain ⟨m, hm, h⟩ := Option.bind_eq_some.mp h
    have m2 := (memoryAccess_frame _ _ hm).2.1
    have mk := (memoryAccess_clkIn _ _ hm).1
    have h3 : ¬ m.clkIn = MEM + 1 := by
      rw [mk, ak]
      exact hc
    rw [if_neg h3] at h
    simp only [Option.some.injEq] at h
    subst h
    exact ⟨m2.trans a, mk.trans ak⟩

/-- A pass whose call of `fetch` is made in state `e` and returns `t` changes the instruction
counter by what the pass is to count. -/
theorem entry_counts (s e t : sim_pipe) (he : fetchEntry s = some e)
    (hc : e.totalInstCount = s.totalInstCount) (hf : fetch e = some t) :
    (pass_counts s = 0 ∧ t.totalInstCount = s.totalInstCount) ∨
    (pass_counts s = 1 ∧ t.totalInstCount = u64 (s.totalInstCount + 1)) := by
  have k := fetch_counts_spec e t hf
  rw [hc] at k
  unfold pass_counts
  rw [he]
  exact k

/-- A pass that makes no call of `fetch` is to count nothing. -/
theorem no_entry_counts (s : sim_pipe) (he : fetchEntry s = none) : pass_counts s = 0 := by
  unfold pass_counts
  rw [he]

/-- A pass of the loop of `run` that returns changes the instruction counter by what the pass
is to count: by what its call of `fetch` counts, and not at all when it makes no such call. -/
theorem pass_counts_spec (s s' : sim_pipe) (h : dispatch s = some s') :
    (pass_counts s = 0 ∧ s'.totalInstCount = s.totalInstCount) ∨
    (pass_counts s = 1 ∧ s'.totalInstCount = u64 (s.totalInstCount + 1)) := by
  unfold dispatch at h
  by_cases c1 : s.clkIn = IF + 1
  · rw [if_pos c1] at h
    have he : fetchEntry s = some s := by
      unfold fetchEntry
      rw [if_pos c1]
    exact entry_counts s s s' he rfl h
  rw [if_neg c1] at h
  by_cases c2 : s.clkIn = ID + 1
  · rw [if_pos c2, decode_eq] at h
    have a := (hazardHandler_frame s).2.1
    have b := (decodeRead_frame (hazardHandler s)).2.1
    have c := (decodeLatch_frame (decodeRead (hazardHandler s))).2.1
    have hk : (decodeLatch (decodeRead (hazardHandler s))).clkIn = ID + 1 := by
      rw [decodeLatch_clkIn, decodeRead_clkIn, (hazardHandler_clkIn s).1]
      exact c2
    by_cases h1 : (hazardHandler s).memoryStall = true
    · rw [if_pos h1] at h
      simp only [Option.some.injEq] at h
      subst h
      refine Or.inl ⟨no_entry_counts s ?_, a⟩
      unfold fetchEntry
      rw [if_neg c1, if_pos c2, if_pos h1]
    · rw [if_neg h1] at h
      by_cases h2 : (hazardHandler s).stalls ≠ 0 ∧ (hazardHandler s).branchStall = false
      · rw [if_pos h2] at h
        simp only [Option.some.injEq] at h
        subst h
        refine Or.inl ⟨no_entry_counts s ?_, a⟩
        unfold fetchEntry
        rw [if_neg c1, if_pos c2, if_neg h1, if_pos h2]
      · rw [if_neg h2, if_pos hk] at h
        obtain ⟨t, ht, rfl⟩ := Option.map_eq_some'.mp h
        have he : fetchEntry s = some (decodeLatch (decodeRead (hazardHandler s))) := by
          unfold fetchEntry
          rw [if_neg c1, if_pos c2, if_neg h1, if_neg h2]
        exact entry_counts s _ t he (c.trans (b.trans a)) ht
  rw [if_neg c2] at h
  by_cases c3 : s.clkIn = EXE + 1
  · rw [if_pos c3] at h
    unfold execute at h
    have a := (executeAlu_frame s).2.1
    have b := (executeBranch_frame (executeAlu s)).2.1
    have c := (executeLatch_frame (executeBranch (executeAlu s))).2.1
    have hk := (executeBody_clkIn s).1
    by_cases h1 : s.memoryStall = true
    · rw [if_pos h1] at h
      simp only [Option.some.injEq] at h
      subst h
      refine Or.inl ⟨no_entry_counts s ?_, rfl⟩
      unfold fetchEntry
      rw [if_neg c1, if_neg c2, if_pos c3, if_pos h1]
    · rw [if_neg h1] at h
      have h2 : (executeLatch (executeBranch (executeAlu s))).clkIn = EXE + 1 := by
        rw [hk]
        exact c3
      simp only [h2, if_true] at h
      obtain ⟨t, ht, rfl⟩ := Option.map_eq_some'.mp h
      obtain ⟨d, hd, hf⟩ := Option.bind_eq_some.mp ht
      have he : fetchEntry s = some d := by
        unfold fetchEntry
        rw [if_neg c1, if_neg c2, if_pos c3, if_neg h1]
        exact hd
      have hdc := decode_inner _ d hd (by rw [hk, c3]; decide)
      exact entry_counts s d t he (hdc.trans (c.trans (b.trans a))) hf
  rw [if_neg c3] at h
  by_cases c4 : s.clkIn = MEM + 1
  · rw [if_pos c4] at h
    unfold memory at h
    have a := (memoryWait_frame s).2
    have ak := memoryWait_clkIn s
    by_cases h1 : (memoryWait s).memoryStall = true
    · simp only [h1, if_true, Option.some.injEq] at h
      subst h
      refine Or.inl ⟨no_entry_counts s ?_, a⟩
      unfold fetchEntry
      rw [if_neg c1, if_neg c2, if_neg c3, if_pos c4, if_pos h1]
    · simp only [h1, if_false] at h
      obtain ⟨m, hm, h⟩ := Option.bind_eq_some.mp h
      have m2 := (memoryAccess_frame _ _ hm).2.1
      have mk := (memoryAccess_clkIn _ _ hm).1
      have h3 : m.clkIn = MEM + 1 := by
        rw [mk, ak]
        exact c4
      rw [if_pos h3] at h
      obtain ⟨t, ht, rfl⟩ := Option.map_eq_some'.mp h
      obtain ⟨d, hd, hf⟩ := Option.bind_eq_some.mp ht
      obtain ⟨e, he, hd⟩ := Option.bind_eq_some.mp hd
      have hent : fetchEntry s = some d := by
        unfold fetchEntry
        rw [if_neg c1, if_neg c2, if_neg c3, if_pos c4, if_neg h1, hm, Option.some_bind, he,
          Option.some_bind]
        exact hd
      obtain ⟨e1, e2⟩ := execute_inner m e he (by rw [h3]; decide)
      have hdc := decode_inner e d hd (by rw [e2, h3]; decide)
      exact entry_counts s d t hent (hdc.trans (e1.trans (m2.trans a))) hf
  rw [if_neg c4] at h
  by_cases c5 : s.clkIn ≥ WB + 1
  · have hw : writeBack s = some s' := by
      by_cases c6 : s.clkIn = WB + 1
      · rw [if_pos c6] at h
        exact h
      · rw [if_neg c6, if_pos (lt_of_le_of_ne c5 (fun x => c6 x.symm))] at h
        exact h
    unfold writeBack at hw
    have a := (writeBackCommit_frame s).1
    have ak := writeBackCommit_clkIn s
    have hc : (writeBackCommit s).clkIn ≥ WB + 1 := by
      rw [ak]
      exact c5
    simp only [hc, if_true] at hw
    obtain ⟨t, ht, rfl⟩ := Option.map_eq_some'.mp hw
    obtain ⟨d, hd, hf⟩ := Option.bind_eq_some.mp ht
    obtain ⟨e, he, hd⟩ := Option.bind_eq_some.mp hd
    obtain ⟨m, hm, he⟩ := Option.bind_eq_some.mp he
    have c5' : 5 ≤ s.clkIn := c5
    have hent : fetchEntry s = some d := by
      unfold fetchEntry
      rw [if_neg c1, if_neg c2, if_neg c3, if_neg c4, if_pos c5, hm, Option.some_bind, he,
        Option.some_bind]
      exact hd
    obtain ⟨m1, m2⟩ := memory_inner _ m hm (by rw [ak]; omega)
    obtain ⟨e1, e2⟩ := execute_inner m e he (by rw [m2, ak]; omega)
    have hdc := decode_inner e d hd (by rw [e2, m2, ak]; omega)
    have k := entry_counts s d t hent (hdc.trans (e1.trans (m1.trans a))) hf
    have hfin : (if t.specialP_Reg.get WB IR = EOP.toNat ∧ t.noBranches = true then
        { t with runAlways := false }
      else { t with clkIn := u64 (t.clkIn + 1) }).totalInstCount = t.totalInstCount := by
      split_ifs <;> rfl
    rw [hfin]
    exact k
  · have c6 : ¬ s.clkIn = WB + 1 := fun x => c5 (by rw [x])
    have c7 : ¬ s.clkIn > WB + 1 := fun x => c5 (Nat.le_of_lt x)
    rw [if_neg c6, if_neg c7] at h
    simp only [Option.some.injEq] at h
    subst h
    refine Or.inl ⟨no_entry_counts s ?_, rfl⟩
    unfold fetchEntry
    rw [if_neg c1, if_neg c2, if_neg c3, if_neg c4, if_neg c5]

/-- The loop of `run` changes the value of `get_instructions_executed()` by the number of
instructions that its passes are to count. -/
theorem run_counts_spec : ∀ (fuel : Nat) (s s' : sim_pipe),
    (run_loop fuel s = run_result.returned s' ∨ run_loop fuel s = run_result.looping s') →
      s'.get_instructions_executed = u32 (s.get_instructions_executed + run_counts fuel s) := by
  intro fuel
  induction fuel with
  | zero =>
    intro s s' h
    rcases h with h | h
    · simp [run_loop] at h
    · simp only [run_loop, run_result.looping.injEq] at h
      subst h
      unfold get_instructions_executed run_counts u32
      simp
  | succ fuel ih =>
    intro s s' h
    rw [run_loop_succ] at h
    cases hd : dispatch s with
    | none => simp [hd] at h
    | some s1 =>
      simp only [hd] at h
      have h1 := counted_u32 _ _ _ (pass_counts_spec s s1 hd)
      have hrc : run_counts (fuel + 1) s =
          pass_counts s + if s1.runAlways then run_counts fuel s1 else 0 := by
        rw [run_counts, hd]
      have hadd : ∀ a b c : Nat, u32 (u32 (u32 a + b) + c) = u32 (u32 a + (b + c)) := by
        intro a b c
        unfold u32
        omega
      by_cases hr : s1.runAlways = true
      · simp only [hr, if_true] at h
        have h2 := ih s1 s' h
        unfold get_instructions_executed at h2 ⊢
        rw [hrc, if_pos hr, h2, h1]
        exact hadd _ _ _
      · simp only [hr] at h
        rcases h with h | h
        · simp only [Bool.false_eq_true, if_false, run_result.returned.injEq] at h
          subst h
          unfold get_instructions_executed
          rw [hrc, if_neg hr, Nat.add_zero]
          exact h1
        · simp at h

/-- C19.  A call of `fetch` that is stalled (memory stall or hazard stall) returns with
`get_instructions_executed()` unchanged.  A call of `fetch` that is not stalled and fetches
the instruction at index `i` returns with `get_instructions_executed()` increased by exactly
1 (modulo 2^32, the width of the result of the accessor) when the opcode of the instruction
is not `EOP`, and unchanged when it is `EOP`; every call of `fetch` that returns changes the
counter by `fetch_counts`, which is 1 in the first of these cases and 0 in every other.  No
other code changes the counter except `reset`, which clears it: not the hazard handler, the
bodies of `decode`, `execute`, `memory` and `writeBack`, `set_gp_register`, `write_memory` or
`load_program`; not a call of `decode`, `execute` or `memory` made by a later stage; a pass of
the loop of `run` changes the counter by what its one call of `fetch` counts, and not at all
when it makes no such call; and `run` changes `get_instructions_executed()` by the number of
its passes in which `fetch` was called without stall and fetched an instruction other than
`EOP`. -/
theorem c19_instructions_executed (s : sim_pipe) :
    ((s.memoryStall = true ∨ s.stalls ≠ 0) →
      ∃ s', fetch s = some s' ∧ s'.get_instructions_executed = s.get_instructions_executed) ∧
    (∀ i instr, s.memoryStall = false → s.stalls = 0 →
      (s.branchToLabel = "" ∧ i = s.inst_count ∨
        s.branchToLabel ≠ "" ∧ s.labelPCMap.lookup s.branchToLabel = some i) →
      i < PROGRAM_SIZE → s.instr_memory[i]? = some instr →
      ∃ s', fetch s = some s' ∧
        (instr.opcode ≠ EOP →
          s'.get_instructions_executed = u32 (s.get_instructions_executed + 1) ∧
          (s.totalInstCount + 1 < 2 ^ 32 →
            s'.get_instructions_executed = s.get_instructions_executed + 1)) ∧
        (instr.opcode = EOP → s'.get_instructions_executed = s.get_instructions_executed)) ∧
    ((hazardHandler s).totalInstCount = s.totalInstCount ∧
      (decodeRead s).totalInstCount = s.totalInstCount ∧
      (decodeLatch s).totalInstCount = s.totalInstCount ∧
      (executeAlu s).totalInstCount = s.totalInstCount ∧
      (executeBranch s).totalInstCount = s.totalInstCount ∧
      (executeLatch s).totalInstCount = s.totalInstCount ∧
      (memoryWait s).totalInstCount = s.totalInstCount ∧
      (∀ s', memoryAccess s = some s' → s'.totalInstCount = s.totalInstCount) ∧
      (writeBackCommit s).totalInstCount = s.totalInstCount ∧
      (∀ r v, (s.set_gp_register r v).totalInstCount = s.totalInstCount) ∧
      (∀ a v s', s.write_memory a v = some s' → s'.totalInstCount = s.totalInstCount) ∧
      (∀ lines base s', s.load_program lines base = some s' →
        s'.totalInstCount = s.totalInstCount) ∧
      s.reset.totalInstCount = 0) ∧
    (∀ s', fetch s = some s' →
      (fetch_counts s = 0 ∧ s'.totalInstCount = s.totalInstCount) ∨
      (fetch_counts s = 1 ∧ s'.totalInstCount = u64 (s.totalInstCount + 1))) ∧
    ((∀ s', decode s = some s' → s.clkIn ≠ 2 → s'.totalInstCount = s.totalInstCount) ∧
      (∀ s', execute s = some s' → s.clkIn ≠ 3 → s'.totalInstCount = s.totalInstCount) ∧
      (∀ s', memory s = some s' → s.clkIn ≠ 4 → s'.totalInstCount = s.totalInstCount)) ∧
    (∀ s', dispatch s = some s' →
      ((pass_counts s = 0 ∧ s'.totalInstCount = s.totalInstCount) ∨
        (pass_counts s = 1 ∧ s'.totalInstCount = u64 (s.totalInstCount + 1))) ∧
      s'.get_instructions_executed = u32 (s.get_instructions_executed + pass_counts s)) ∧
    (∀ fuel cycles s', s.run fuel cycles = run_result.returned s' →
      s'.get_instructions_executed =
        u32 (s.get_instructions_executed +
          run_counts fuel (if cycles = 0 then { s with runAlways := true } else s))) := by
  refine ⟨?_, ?_, ⟨(hazardHandler_frame s).2.1, (decodeRead_frame s).2.1,
    (decodeLatch_frame s).2.1, (executeAlu_frame s).2.1, (executeBranch_frame s).2.1,
    (executeLatch_frame s).2.1, (memoryWait_frame s).2,
    fun s' h => (memoryAccess_frame s s' h).2.1, (writeBackCommit_frame s).1,
    fun r v => (set_gp_register_frame s r v).1,
    fun a v s' h => (write_memory_frame s s' a v h).2.1,
    fun lines base s' h => load_program_totalInstCount s s' lines base h, rfl⟩,
    fun s' h => fetch_counts_spec s s' h,
    ⟨fun s' h hc => decode_inner s s' h hc, fun s' h hc => (execute_inner s s' h hc).1,
      fun s' h hc => (memory_inner s s' h hc).1⟩,
    fun s' h => ⟨pass_counts_spec s s' h, counted_u32 _ _ _ (pass_counts_spec s s' h)⟩, ?_⟩
  · intro h
    obtain ⟨s', hf, hc⟩ := fetch_stalled s h
    refine ⟨s', hf, ?_⟩
    unfold get_instructions_executed
    rw [hc]
  · intro i instr hm hs hidx hi hmem
    obtain ⟨j, s', hf, _, _, _, j5, _, _, _, f3⟩ := fetch_unstalled s i instr hm hs hidx hi hmem
    refine ⟨s', hf, ?_, ?_⟩
    · intro he
      have h1 : s'.get_instructions_executed = u32 (s.get_instructions_executed + 1) := by
        unfold get_instructions_executed
        rw [f3, (fetchLoad_count j instr he).1, j5]
        exact u32_u64_succ _
      refine ⟨h1, ?_⟩
      intro hlt
      rw [h1]
      unfold get_instructions_executed u32
      have h32 : (2 : Nat) ^ 32 = 4294967296 := by norm_num
      rw [h32] at hlt ⊢
      omega
    · intro he
      unfold get_instructions_executed
      rw [f3, (fetchLoad_EOP j instr he).2.2.2.1, j5]
  · intro fuel cycles s' h
    unfold run at h
    have k := run_counts_spec fuel _ s' (Or.inl h)
    have e : (if cycles = 0 then { s with runAlways := true } else s).get_instructions_executed =
        s.get_instructions_executed := by
      split_ifs <;> rfl
    rw [e] at k
    exact k

/-- Witness of C19: the first pass of `run(0)` on scenario S1, an unstalled call of `fetch`
that loads `ADDI R1 R0 5`, takes `get_instructions_executed()` from 0 to 1; the run of
scenario S1 has 3 passes that are to count, and returns with
`get_instructions_executed() = 3`. -/
theorem c19_instructions_executed_witness :
    (state_after 0 program_S1 0).memoryStall = false ∧
    (state_after 0 program_S1 0).stalls = 0 ∧
    (state_after 0 program_S1 0).get_instructions_executed = 0 ∧
    (∃ s', fetch (state_after 0 program_S1 0) = some s' ∧
      s'.get_instructions_executed = 1) ∧
    ∃ s0 s, boot 16 0 program_S1 = some s0 ∧ s0.run 9 0 = run_result.returned s ∧
      run_counts 9 { s0 with runAlways := true } = 3 ∧ s0.get_instructions_executed = 0 ∧
      s.get_instructions_executed = 3 := by
  obtain ⟨s', h1, h2, _⟩ := (c19_instructions_executed (state_after 0 program_S1 0)).2.1 0
    { opcode := ADDI, src1 := 0, src2 := 0, dest := 1, immediate := 5, label := "" }
    rfl rfl (Or.inl ⟨rfl, rfl⟩) (by decide) rfl
  have key : ∃ s0 s, boot 16 0 program_S1 = some s0 ∧ s0.run 9 0 = run_result.returned s ∧
      run_counts 9 { s0 with runAlways := true } = 3 ∧ s0.get_instructions_executed = 0 :=
    ⟨_, _, rfl, rfl, rfl, rfl⟩
  obtain ⟨s0, s, b, r, c, z⟩ := key
  have h3 := (c19_instructions_executed s0).2.2.2.2.2.2 9 0 s r
  rw [if_pos rfl, c, z] at h3
  exact ⟨rfl, rfl, rfl, ⟨s', h1, (h2 (by decide)).1⟩, s0, s, b, r, c, z, h3⟩

/-! ## Scenario S4 with the label buffers that the latches share -/

/-- Once a pass of the loop of `run` is undefined, `run` is undefined for every number of
passes that reaches it. -/
theorem aliased_run_loop_undefined (j : Nat) : ∀ (k : Nat) (a b : aliased),
    aliased.run_loop k a = aliased.run_result.looping b → aliased.dispatch b = none →
      aliased.run_loop (k + (j + 1)) a = aliased.run_result.undefined := by
  intro k
  induction k with
  | zero =>
    intro a b h hb
    simp only [aliased.run_loop, aliased.run_result.looping.injEq] at h
    subst h
    rw [Nat.zero_add, aliased.run_loop, hb]
  | succ k ih =>
    intro a b h hb
    rw [Nat.add_right_comm, aliased.run_loop]
    rw [aliased.run_loop] at h
    cases hd : aliased.dispatch a with
    | none => rfl
    | some a1 =>
      simp only [hd] at h ⊢
      by_cases hr : a1.sim.runAlways = true
      · simp only [hr, if_true] at h ⊢
        exact ih a1 b h hb
      · simp [hr] at h

/-- The run of scenario S4 (`v = 1`) with shared label buffers, up to the pass that is
undefined. -/
theorem aliased_S4_run (mem_size mem_latency : Nat) :
    ∃ s0 a5 a6, boot mem_size mem_latency (program_S4 1) = some s0 ∧
      s0.labelPCMap.lookup "END" = some 3 ∧
      s0.unshared.run 5 0 = aliased.run_result.looping a5 ∧
      a5.sim.op SECOND = BNEZ ∧ a5.label_in SECOND = some 1 ∧
      (a5.sim.pipe_reg.get SECOND).pipe_IR.label = nul_first "END" ∧
      s0.unshared.run 6 0 = aliased.run_result.looping a6 ∧
      a6.sim.branchToLabel = nul_first "END" ∧
      a6.sim.labelPCMap.lookup a6.sim.branchToLabel = none ∧
      aliased.dispatch a6 = none := by
  revert mem_size
  rcases mem_latency with _ | _ | l
  · apply forall_of_generic
    exact ⟨_, _, _, rfl, rfl, rfl, rfl, rfl, rfl, rfl, rfl, rfl, rfl⟩
  · apply forall_of_generic
    exact ⟨_, _, _, rfl, rfl, rfl, rfl, rfl, rfl, rfl, rfl, rfl, rfl⟩
  · revert l
    apply forall_of_generic
    apply forall_of_generic
    exact ⟨_, _, _, rfl, rfl, rfl, rfl, rfl, rfl, rfl, rfl, rfl, rfl⟩

/-- The run of scenario S5 (`v = 0`) with shared label buffers. -/
theorem aliased_S5_run (mem_size mem_latency : Nat) :
    ∃ s0 a, boot mem_size mem_latency (program_S4 0) = some s0 ∧
      s0.unshared.run 12 0 = aliased.run_result.returned a ∧
      a.sim.get_gp_register 3 = 7 ∧ a.sim.get_gp_register 2 = 99 := by
  revert mem_size
  rcases mem_latency with _ | _ | l
  · apply forall_of_generic
    exact ⟨_, _, rfl, rfl, rfl, rfl⟩
  · apply forall_of_generic
    exact ⟨_, _, rfl, rfl, rfl, rfl⟩
  · revert l
    apply forall_of_generic
    apply forall_of_generic
    exact ⟨_, _, rfl, rfl, rfl, rfl⟩

/-- C3, refuted on the code for the taken branch.  The claim: `run(0)` on
`ADDI R1 R0 v; BNEZ R1 END; ADDI R2 R0 99; END: ADDI R3 R0 7; EOP` with R0 = 0 returns with
R3 = 7, with R2 still 0xFFFFFFFF for `v = 1` and R2 = 99 for `v = 0`.  With labels copied by
value the run for `v = 1` returns with these values.  The code copies the latches with
`memcpy`, so the labels of IF/ID and ID/EX point to the label buffer of slot 1 of
`instr_memory`: for every data memory size and latency, in the fifth pass `decode` copies the
`BNEZ` into ID/EX and the stalled `fetch` resets IF/ID, writing NUL over the `E` of `END` in
the shared buffer; in the sixth pass `execute` takes the branch and the pending label is NUL,
`N`, `D`, a label that `labelPCMap` does not hold (it maps `END` to 3); the seventh
pass is the `fetch` that dereferences `labelPCMap.find(branchToLabel)`, which is `end()`, so
`run(0)` is undefined for every number of passes from 7 on.  For `v = 0` the branch is not
taken, the pending label is not assigned, and the run returns with R3 = 7 and R2 = 99. -/
theorem c03_taken_branch_label_shared (mem_size mem_latency : Nat) :
    (∃ s0 s, boot mem_size mem_latency (program_S4 1) = some s0 ∧
      s0.run 11 0 = run_result.returned s ∧
      s.get_gp_register 3 = 7 ∧ s.generalP_Reg 2 = UNDEFINED) ∧
    (∃ s0 a5 a6, boot mem_size mem_latency (program_S4 1) = some s0 ∧
      s0.labelPCMap.lookup "END" = some 3 ∧
      s0.unshared.run 5 0 = aliased.run_result.looping a5 ∧
      a5.sim.op SECOND = BNEZ ∧ a5.label_in SECOND = some 1 ∧
      (a5.sim.pipe_reg.get SECOND).pipe_IR.label = nul_first "END" ∧
      s0.unshared.run 6 0 = aliased.run_result.looping a6 ∧
      a6.sim.branchToLabel = nul_first "END" ∧
      a6.sim.labelPCMap.lookup a6.sim.branchToLabel = none ∧
      ∀ k, s0.unshared.run (k + 7) 0 = aliased.run_result.undefined) ∧
    (∃ s0 a, boot mem_size mem_latency (program_S4 0) = some s0 ∧
      s0.unshared.run 12 0 = aliased.run_result.returned a ∧
      a.sim.get_gp_register 3 = 7 ∧ a.sim.get_gp_register 2 = 99) := by
  refine ⟨?_, ?_, aliased_S5_run mem_size mem_latency⟩
  · obtain ⟨s0, s, h0, h1, h2, h3, _⟩ := (scenarios_S4_S5_by_value mem_size mem_latency).1
    exact ⟨s0, s, h0, h1, h2, h3⟩
  · obtain ⟨s0, a5, a6, h0, h1, h2, h3, h4, h5, h6, h7, h8, h9⟩ :=
      aliased_S4_run mem_size mem_latency
    refine ⟨s0, a5, a6, h0, h1, h2, h3, h4, h5, h6, h7, h8, ?_⟩
    intro k
    unfold aliased.run at h6 ⊢
    have e : k + 7 = 6 + (k + 1) := by omega
    rw [e]
    exact aliased_run_loop_undefined k 6 _ a6 h6 h9

end SimPipe
